import Mathlib

/-! # Playback scheduling core (PlaybackSchedule.h / PlaybackSchedule.cpp)

A shallow embedding of the playback schedule, its two playback policies and
the time queue, followed by theorems about them.

Conventions of the embedding:

* Two layers of arithmetic.  In the definitions that carry the names of the
  source (`PlaybackPolicy.GetPlaybackSlice`, `PlaybackSchedule.AdvancedTrackTime`,
  ...) `double` values are exact rationals (`ℚ`): no rounding, no NaN, no
  infinities.  The definitions under `Binary64` repeat the slice functions,
  `RepositionPlayback`, `AdvancedTrackTime` and the `Producer` of the time
  queue with every double operation rounded to the nearest binary64 number,
  ties to even (`roundToDouble`): each
  operation rounds on its own (no fused multiply-add, no extended precision),
  the arguments are doubles, and overflow to infinity and NaN are left out.
  The statements about frame counts at the end of a pass, about the wrap loop,
  about the producer returning and about the equality of two computed times
  are made in the second layer.
* Lean's `x / 0 = 0` is not what IEEE division does, so every statement that
  depends on a division by the rate assumes `0 < mRate`.
* `size_t` and `unsigned long` values are natural numbers below `2 ^ 64`.
  The conversion of a `double` to `size_t` truncates toward zero; when the
  truncated value does not fit, C++ leaves the result undefined, and the
  embedding takes the value produced in that case from a parameter `ub`.
* A member function that changes the schedule returns the new schedule.
* A loop that need not terminate takes a `fuel` argument bounding its number
  of passes and returns `none` when the fuel runs out.
-/

namespace Tenacity

/-! ## Constants and conversions -/

/-- `constexpr size_t TimeQueueGrainSize = 2000;` -/
def TimeQueueGrainSize : ℕ := 2000

/-- Number of values of a 64-bit `size_t`. -/
def sizeTRange : ℕ := 2 ^ 64

/-- Truncation toward zero, the rounding of a C++ floating to integral
conversion. -/
def truncate (x : ℚ) : ℤ := if 0 ≤ x then ⌊x⌋ else ⌈x⌉

/-- Implicit conversion `double → size_t` (as in `frames = realTime * mRate`):
the truncated value when it is representable, and otherwise the unspecified
value `ub x`, reduced to the range of the type. -/
def toSizeT (ub : ℚ → ℕ) (x : ℚ) : ℕ :=
  if 0 ≤ truncate x ∧ truncate x < (sizeTRange : ℤ) then (truncate x).toNat
  else ub x % sizeTRange

/-- Modelled from the spec: `sampleCount`, the integer sample count type of
SampleCount.h, which is not among the sources.  `sampleCount(double)` holds the
value truncated to an integer; the spec only says that the difference "rounds
to ≥0", so the count is an unbounded integer here. -/
def sampleCount (v : ℚ) : ℤ := truncate v

/-! ## Data model -/

/-- The part of `BoundedEnvelope` (Envelope.h, not among the sources) that the
schedule calls: the two member functions are taken as they come. -/
structure BoundedEnvelope where
  IntegralOfInverse : ℚ → ℚ → ℚ
  SolveIntegralOfInverse : ℚ → ℚ → ℚ

/-- The policy classes: `DefaultPlaybackPolicy` and `LoopingPlaybackPolicy` of
PlaybackSchedule.cpp, and a subclass built by `options.policyFactory`, of which
the answer of its `Looping` override is recorded. -/
inductive PolicyClass where
  | DefaultPlaybackPolicy
  | LoopingPlaybackPolicy
  | Custom (looping : Bool)

/-- The anonymous enum of `mPlayMode`. -/
inductive PlayMode where
  | PLAY_STRAIGHT
  | PLAY_LOOPED
  | PLAY_SCRUB
  | PLAY_AT_SPEED
  | PLAY_KEYBOARD_SCRUB
deriving DecidableEq

/-- `struct PlaybackSlice`.  The member `progress` ("to be removed") is left
out: the calls in PlaybackSchedule.cpp pass `available, frames, toProduce`
only. -/
structure PlaybackSlice where
  frames : ℕ
  toProduce : ℕ
deriving DecidableEq

/-- The constructor of `PlaybackSlice`:
`frames{ std::min(available, frames_) }, toProduce{ std::min(toProduce_, frames) }`. -/
def PlaybackSlice.construct (available frames_ toProduce_ : ℕ) : PlaybackSlice :=
  let frames := min available frames_
  { frames := frames, toProduce := min toProduce_ frames }

/-- `TimeQueue::Cursor`. -/
structure Cursor where
  mIndex : ℕ := 0
  mRemainder : ℕ := 0
deriving DecidableEq

/-- `PlaybackSchedule::TimeQueue`.  `mData` is `none` for a null array (a
recording-only session) and otherwise maps each index to the stored time. -/
structure TimeQueue where
  mData : Option (ℕ → ℚ) := none
  mSize : ℕ := 0
  mLastTime : ℚ := 0
  mHead : Cursor := {}
  mTail : Cursor := {}

/-- `struct PlaybackSchedule`.  `mTime` is the value of the atomic;
`mpPlaybackPolicy` is `none` for a null pointer and otherwise the class of the
owned policy object, whose member `mRate` is passed to its member functions
as an argument. -/
structure PlaybackSchedule where
  mT0 : ℚ
  mT1 : ℚ
  mTime : ℚ := 0
  mWarpedTime : ℚ := 0
  mWarpedLength : ℚ := 0
  mEnvelope : Option BoundedEnvelope := none
  mTimeQueue : TimeQueue := {}
  mPlayMode : PlayMode := PlayMode.PLAY_STRAIGHT
  mCutPreviewGapStart : ℚ := 0
  mCutPreviewGapLen : ℚ := 0
  mpPlaybackPolicy : Option PolicyClass := none
  mPolicyValid : Bool := false

/-! ## Queries of the schedule -/

/-- `ReversedTime`: `return mT1 < mT0;` -/
def PlaybackSchedule.ReversedTime (s : PlaybackSchedule) : Bool :=
  decide (s.mT1 < s.mT0)

/-- `GetTrackTime`: a relaxed load of `mTime`. -/
def PlaybackSchedule.GetTrackTime (s : PlaybackSchedule) : ℚ := s.mTime

/-- `Overruns`: `ReversedTime() ? trackTime <= mT1 : trackTime >= mT1`. -/
def PlaybackSchedule.Overruns (s : PlaybackSchedule) (trackTime : ℚ) : Bool :=
  if s.ReversedTime then decide (trackTime ≤ s.mT1) else decide (trackTime ≥ s.mT1)

/-- `ComputeWarpedLength`. -/
def PlaybackSchedule.ComputeWarpedLength (s : PlaybackSchedule) (t0 t1 : ℚ) : ℚ :=
  match s.mEnvelope with
  | some env => env.IntegralOfInverse t0 t1
  | none => t1 - t0

/-- `SolveWarpedLength`. -/
def PlaybackSchedule.SolveWarpedLength (s : PlaybackSchedule) (t0 length : ℚ) : ℚ :=
  match s.mEnvelope with
  | some env => env.SolveIntegralOfInverse t0 length
  | none => t0 + length

/-- `RealTimeRemaining`: `return mWarpedLength - mWarpedTime;` -/
def PlaybackSchedule.RealTimeRemaining (s : PlaybackSchedule) : ℚ :=
  s.mWarpedLength - s.mWarpedTime

/-- `RealTimeAdvance`: `mWarpedTime += increment;` -/
def PlaybackSchedule.RealTimeAdvance (s : PlaybackSchedule) (increment : ℚ) :
    PlaybackSchedule :=
  { s with mWarpedTime := s.mWarpedTime + increment }

/-- `RealTimeRestart`: `mWarpedTime = 0;` -/
def PlaybackSchedule.RealTimeRestart (s : PlaybackSchedule) : PlaybackSchedule :=
  { s with mWarpedTime := 0 }

/-- `GetPolicy`: the class of the policy object in use, the owned one when
`mPolicyValid` is set and the pointer is not null, and otherwise the static
`DefaultPlaybackPolicy`. -/
def PlaybackSchedule.GetPolicy (s : PlaybackSchedule) : PolicyClass :=
  match s.mPolicyValid, s.mpPlaybackPolicy with
  | true, some p => p
  | _, _ => PolicyClass.DefaultPlaybackPolicy

/-! ## The policies -/

/-- `PlaybackPolicy::Looping`: `return false;` -/
def PlaybackPolicy.Looping (_schedule : PlaybackSchedule) : Bool := false

/-- `LoopingPlaybackPolicy::Looping`: `return true;` -/
def LoopingPlaybackPolicy.Looping (_schedule : PlaybackSchedule) : Bool := true

/-- Virtual dispatch of `policy.Looping(schedule)` on the class of the policy
object. -/
def PolicyClass.Looping (p : PolicyClass) (schedule : PlaybackSchedule) : Bool :=
  match p with
  | PolicyClass.DefaultPlaybackPolicy => PlaybackPolicy.Looping schedule
  | PolicyClass.LoopingPlaybackPolicy => LoopingPlaybackPolicy.Looping schedule
  | PolicyClass.Custom looping => looping

/-- `PlaybackPolicy::Done`. -/
def PlaybackPolicy.Done (mRate : ℚ) (schedule : PlaybackSchedule)
    (outputFrames : ℕ) : Bool :=
  let diff := schedule.GetTrackTime - schedule.mT1
  let diff := if schedule.ReversedTime then diff * (-1) else diff
  decide (sampleCount ((⌊diff * mRate + 1 / 2⌋ : ℤ) : ℚ) ≥ 0) &&
    -- Require also that output frames are all consumed from ring buffer
    decide (outputFrames = 0)

/-- `LoopingPlaybackPolicy::Done`. -/
def LoopingPlaybackPolicy.Done (_schedule : PlaybackSchedule)
    (_outputFrames : ℕ) : Bool := false

/-- `PlaybackPolicy::GetPlaybackSlice`: the slice and the schedule after the
call. -/
def PlaybackPolicy.GetPlaybackSlice (ub : ℚ → ℕ) (mRate : ℚ)
    (schedule : PlaybackSchedule) (available : ℕ) :
    PlaybackSlice × PlaybackSchedule :=
  let realTimeRemaining := schedule.RealTimeRemaining
  let frames := available
  let toProduce := frames
  let deltat : ℚ := (frames : ℚ) / mRate
  if deltat > realTimeRemaining then
    -- Produce some extra silence so that the time queue consumer can
    -- satisfy its end condition
    let extraRealTime : ℚ := ((TimeQueueGrainSize + 1 : ℕ) : ℚ) / mRate
    let extra := min extraRealTime (deltat - realTimeRemaining)
    let realTime := realTimeRemaining + extra
    let frames := toSizeT ub (realTime * mRate)
    let toProduce := toSizeT ub (realTimeRemaining * mRate)
    (PlaybackSlice.construct available frames toProduce,
      schedule.RealTimeAdvance realTime)
  else
    (PlaybackSlice.construct available frames toProduce,
      schedule.RealTimeAdvance deltat)

/-- `LoopingPlaybackPolicy::GetPlaybackSlice`: the slice and the schedule
after the call. -/
def LoopingPlaybackPolicy.GetPlaybackSlice (ub : ℚ → ℕ) (mRate : ℚ)
    (schedule : PlaybackSchedule) (available : ℕ) :
    PlaybackSlice × PlaybackSchedule :=
  let realTimeRemaining := schedule.RealTimeRemaining
  let frames := available
  let toProduce := frames
  let deltat : ℚ := (frames : ℚ) / mRate
  let (frames, toProduce, schedule) :=
    if deltat > realTimeRemaining then
      let frames := toSizeT ub (realTimeRemaining * mRate)
      (frames, frames, schedule.RealTimeAdvance realTimeRemaining)
    else
      (frames, toProduce, schedule.RealTimeAdvance deltat)
  -- Don't fall into an infinite loop, if loop-playing a selection
  -- that is so short, it has no samples: detect that case
  if frames = 0 then
    let progress := decide (schedule.mWarpedTime ≠ 0)
    if !progress then
      -- Cause FillPlayBuffers to make progress, filling all available with 0
      (PlaybackSlice.construct available available 0, schedule)
    else
      (PlaybackSlice.construct available frames toProduce, schedule)
  else
    (PlaybackSlice.construct available frames toProduce, schedule)

/-- `LoopingPlaybackPolicy::RepositionPlayback`: the result, the schedule and
the mixers after the call.  `restart` is `Mixer::Restart` (Mix.h is not among
the sources); the two `size_t` arguments are unnamed and unused in the
source. -/
def LoopingPlaybackPolicy.RepositionPlayback {Mixer : Type} (restart : Mixer → Mixer)
    (schedule : PlaybackSchedule) (playbackMixers : List Mixer) (_ _ : ℕ) :
    Bool × PlaybackSchedule × List Mixer :=
  -- msmeyer: If playing looped, check if we are at the end of the buffer
  -- and if yes, restart from the beginning.
  if schedule.RealTimeRemaining ≤ 0 then
    (false, schedule.RealTimeRestart, playbackMixers.map restart)
  else
    (false, schedule, playbackMixers)

/-! ## Advancing the track time -/

/-- The loop `while ( Overruns( time ) ) time -= mT1 - mT0;` of
`AdvancedTrackTime`; each pass of the body uses one unit of fuel. -/
def PlaybackSchedule.wrapWhileOverruns (s : PlaybackSchedule) : ℕ → ℚ → Option ℚ
  | fuel, time =>
    if s.Overruns time then
      match fuel with
      | 0 => none
      | fuel + 1 => s.wrapWhileOverruns fuel (time - (s.mT1 - s.mT0))
    else some time

/-- The `do ... while ( true )` loop of `AdvancedTrackTime` for a schedule with
an envelope; each pass of the body uses one unit of fuel. -/
def PlaybackSchedule.envelopeLoop (s : PlaybackSchedule) (looping : Bool) :
    ℕ → ℚ → ℚ → ℚ → Bool → Option ℚ
  | 0, _, _, _, _ => none
  | fuel + 1, time, realElapsed, total, foundTotal =>
    let oldTime := time
    let time :=
      if foundTotal && decide (|realElapsed| > |total|) then
        -- Avoid SolveWarpedLength
        s.mT1
      else s.SolveWarpedLength time realElapsed
    if !looping || !s.Overruns time then some time
    else
      -- Bug1922:  The part of the time track outside the loop should not
      -- influence the result
      if foundTotal && decide (oldTime = s.mT0) then
        -- Avoid integrating again
        s.envelopeLoop looping fuel s.mT0 (realElapsed - total) total foundTotal
      else
        let delta := s.ComputeWarpedLength oldTime s.mT1
        if oldTime = s.mT0 then
          s.envelopeLoop looping fuel s.mT0 (realElapsed - delta) delta true
        else
          s.envelopeLoop looping fuel s.mT0 (realElapsed - delta) total foundTotal

/-- `PlaybackSchedule::AdvancedTrackTime`; `none` when the fuel does not
suffice for the loops.  The debug assertion `speed == 1.0` has no effect. -/
def PlaybackSchedule.AdvancedTrackTime (s : PlaybackSchedule) (fuel : ℕ)
    (time realElapsed speed : ℚ) : Option ℚ :=
  let looping := s.GetPolicy.Looping s
  let realElapsed := if s.ReversedTime then realElapsed * (-1) else realElapsed
  -- Defense against cases that might cause loops not to terminate
  if |s.mT0 - s.mT1| < 1 / 1000000000 then some s.mT0
  else
    match s.mEnvelope with
    | some _ => s.envelopeLoop looping fuel time realElapsed 0 false
    | none =>
      let time := time + realElapsed * |speed|
      -- Wrap to start if looping
      if looping then s.wrapWhileOverruns fuel time else some time

/-- `SetTrackTime`: a relaxed store to `mTime`. -/
def PlaybackSchedule.SetTrackTime (s : PlaybackSchedule) (time : ℚ) : PlaybackSchedule :=
  { s with mTime := time }

/-- `ClampTrackTime`, a `const` member function. -/
def PlaybackSchedule.ClampTrackTime (s : PlaybackSchedule) (trackTime : ℚ) : ℚ :=
  if s.ReversedTime then max s.mT1 (min s.mT0 trackTime)
  else max s.mT0 (min s.mT1 trackTime)

/-- `LimitTrackTime`, a `const` member function:
`return ClampTrackTime( GetTrackTime() );` -/
def PlaybackSchedule.LimitTrackTime (s : PlaybackSchedule) : ℚ :=
  s.ClampTrackTime s.GetTrackTime

/-- `PlaybackPolicy::NormalizeTrackTime`: the returned time and the schedule
after the call (the schedule is passed by non-const reference). -/
def PlaybackPolicy.NormalizeTrackTime (schedule : PlaybackSchedule) :
    ℚ × PlaybackSchedule :=
  -- Limit the time between t0 and t1.
  let absoluteTime := schedule.LimitTrackTime
  let absoluteTime :=
    if schedule.mCutPreviewGapLen > 0 then
      -- msmeyer: We're in cut preview mode, so if we are on the right
      -- side of the gap, we jump over it.
      if absoluteTime > schedule.mCutPreviewGapStart then
        absoluteTime + schedule.mCutPreviewGapLen
      else absoluteTime
    else absoluteTime
  (absoluteTime, schedule)

/-- `Scrubbing`: `mPlayMode == PLAY_SCRUB || mPlayMode == PLAY_KEYBOARD_SCRUB`. -/
def PlaybackSchedule.Scrubbing (s : PlaybackSchedule) : Bool :=
  decide (s.mPlayMode = PlayMode.PLAY_SCRUB) ||
    decide (s.mPlayMode = PlayMode.PLAY_KEYBOARD_SCRUB)

/-- `RealDuration`: `return fabs(ComputeWarpedLength(mT0, trackTime1));` -/
def PlaybackSchedule.RealDuration (s : PlaybackSchedule) (trackTime1 : ℚ) : ℚ :=
  |s.ComputeWarpedLength s.mT0 trackTime1|

/-- `struct RecordingSchedule`. -/
structure RecordingSchedule where
  mPreRoll : ℚ := 0
  mLatencyCorrection : ℚ := 0
  mDuration : ℚ := 0
  mCrossfadeData : List (List ℚ) := []
  mPosition : ℚ := 0
  mLatencyCorrected : Bool := false

/-- The members of `ScrubbingOptions` (not among the sources) that `Init`
reads. -/
structure ScrubbingOptions where
  maxSpeed : ℚ
  isPlayingAtSpeed : Bool := false
  isKeyboardScrubbing : Bool := false

/-- The members of `AudioIOStartStreamOptions` (AudioIOBase.h is not among the
sources) that `Init` reads.  `policyFactory` is `none` for an empty function
object and otherwise holds what the call `options.policyFactory(options)`
returns: `none` for a null pointer, or the class of the policy it built. -/
structure AudioIOStartStreamOptions where
  envelope : Option BoundedEnvelope := none
  policyFactory : Option (Option PolicyClass) := none
  playLooped : Bool := false
  cutPreviewGapStart : ℚ := 0
  cutPreviewGapLen : ℚ := 0
  pScrubbingOptions : Option ScrubbingOptions := none

/-- `PlaybackSchedule::Init`, with the scrubbing support that the header's
`Scrubbing()` needs compiled in: the schedule after the call.  The members
that `Init` assigns are local values, in the order of the assignments, until
the schedule is put together for the calls of `Scrubbing()` and
`RealDuration(mT1)`; `mTimeQueue` is not assigned.  `MinAllowedScrubSpeed` is
the value of `ScrubbingOptions::MinAllowedScrubSpeed()` (not among the
sources); the debug assertion `wxASSERT(false)` has no effect. -/
def PlaybackSchedule.Init (s : PlaybackSchedule) (MinAllowedScrubSpeed : ℚ)
    (t0 t1 : ℚ) (options : AudioIOStartStreamOptions)
    (pRecordingSchedule : Option RecordingSchedule) : PlaybackSchedule :=
  -- mpPlaybackPolicy.reset();
  let mpPlaybackPolicy : Option PolicyClass := none
  let mEnvelope : Option BoundedEnvelope :=
    match pRecordingSchedule with
    | some _ =>
      -- So just quietly ignore the time track.
      none
    | none => options.envelope
  let mT0 := t0
  let mT0 :=
    match pRecordingSchedule with
    | some r => mT0 - r.mPreRoll
    | none => mT0
  let mT1 := t1
  let mT1 :=
    match pRecordingSchedule with
    | some r =>
      -- adjust mT1 so that we don't give paComplete too soon to fill up the
      -- desired length of recording
      mT1 - r.mLatencyCorrection
    | none => mT1
  -- Main thread's initialization of mTime: SetTrackTime( mT0 );
  let mTime := mT0
  let mPlayMode := PlayMode.PLAY_STRAIGHT
  -- if (options.policyFactory) ... else if (options.playLooped) ...
  let mpPlaybackPolicy :=
    match options.policyFactory with
    | some built => built
    | none =>
      if options.playLooped then some PolicyClass.LoopingPlaybackPolicy
      else mpPlaybackPolicy
  let mPlayMode :=
    match options.policyFactory with
    | some _ => mPlayMode
    | none => if options.playLooped then PlayMode.PLAY_LOOPED else mPlayMode
  let mCutPreviewGapStart := options.cutPreviewGapStart
  let mCutPreviewGapLen := options.cutPreviewGapLen
  let mPlayMode :=
    match options.pScrubbingOptions with
    | none => mPlayMode
    | some scrubOptions =>
      -- Scrubbing is not compatible with looping or recording or a time track!
      if pRecordingSchedule.isSome || options.playLooped || mEnvelope.isSome ||
          decide (scrubOptions.maxSpeed < MinAllowedScrubSpeed) then mPlayMode
      else if scrubOptions.isPlayingAtSpeed then PlayMode.PLAY_AT_SPEED
      else if scrubOptions.isKeyboardScrubbing then PlayMode.PLAY_KEYBOARD_SCRUB
      else PlayMode.PLAY_SCRUB
  let mWarpedTime : ℚ := 0
  let s : PlaybackSchedule :=
    { s with
      mpPlaybackPolicy := mpPlaybackPolicy, mEnvelope := mEnvelope, mT0 := mT0,
      mT1 := mT1, mTime := mTime, mPlayMode := mPlayMode,
      mCutPreviewGapStart := mCutPreviewGapStart,
      mCutPreviewGapLen := mCutPreviewGapLen, mWarpedTime := mWarpedTime }
  let s :=
    if s.Scrubbing then { s with mWarpedLength := 0 }
    else { s with mWarpedLength := s.RealDuration s.mT1 }
  -- mPolicyValid.store(true, std::memory_order_release);
  { s with mPolicyValid := true }

/-- Modelled from the spec: the numeric contract of an envelope
implementation (Envelope.cpp is not among the sources), "these two are exact
inverses of each other for any envelope implementation (round-trip
property)", floating-point error left aside. -/
def BoundedEnvelope.RoundTrip (env : BoundedEnvelope) : Prop :=
  (∀ t0 t1 : ℚ, env.SolveIntegralOfInverse t0 (env.IntegralOfInverse t0 t1) = t1) ∧
  (∀ t0 length : ℚ,
    env.IntegralOfInverse t0 (env.SolveIntegralOfInverse t0 length) = length)

/-! ## Mode reset, real-time initialisation and the default reposition -/

/-- `ResetMode`: `mPlayMode = PLAY_STRAIGHT; mPolicyValid.store(false, ...);` -/
def PlaybackSchedule.ResetMode (s : PlaybackSchedule) : PlaybackSchedule :=
  { s with mPlayMode := PlayMode.PLAY_STRAIGHT, mPolicyValid := false }

/-- `RealTimeInit`. -/
def PlaybackSchedule.RealTimeInit (s : PlaybackSchedule) (trackTime : ℚ) :
    PlaybackSchedule :=
  if s.Scrubbing then { s with mWarpedTime := 0 }
  else { s with mWarpedTime := s.RealDuration trackTime }

/-- `PlaybackPolicy::RepositionPlayback`, `return true;`: the result, the
schedule and the mixers after the call.  All four arguments are unnamed and
unused in the source. -/
def PlaybackPolicy.RepositionPlayback {Mixer : Type} (schedule : PlaybackSchedule)
    (playbackMixers : List Mixer) (_ _ : ℕ) : Bool × PlaybackSchedule × List Mixer :=
  (true, schedule, playbackMixers)

/-- The schedules `a` and `b` have the same play mode, the same policy
validity flag and the same owned policy. -/
def PlaybackSchedule.SameModeAndPolicy (a b : PlaybackSchedule) : Prop :=
  a.mPlayMode = b.mPlayMode ∧ a.mPolicyValid = b.mPolicyValid ∧
    a.mpPlaybackPolicy = b.mpPlaybackPolicy

/-! ## The recording schedule -/

/-- `TotalCorrection`: `return mLatencyCorrection - mPreRoll;` -/
def RecordingSchedule.TotalCorrection (r : RecordingSchedule) : ℚ :=
  r.mLatencyCorrection - r.mPreRoll

/-- `RecordingSchedule::Consumed`. -/
def RecordingSchedule.Consumed (r : RecordingSchedule) : ℚ :=
  max 0 (r.mPosition + r.TotalCorrection)

/-- `RecordingSchedule::ToConsume`. -/
def RecordingSchedule.ToConsume (r : RecordingSchedule) : ℚ :=
  r.mDuration - r.Consumed

/-- `RecordingSchedule::ToDiscard`. -/
def RecordingSchedule.ToDiscard (r : RecordingSchedule) : ℚ :=
  max 0 (-(r.mPosition + r.TotalCorrection))

/-! ## The time queue

Sums of cursor members and sample counts are exact: they stay below `2 ^ 64`
for a queue that fits in memory.  The unguarded difference
`TimeQueueGrainSize - remainder` wraps as `size_t` does.  `% mSize` with
`mSize = 0` is undefined in C++ and is Lean's `x % 0 = x` here; the statements
about a backed queue assume `0 < mSize`. -/

/-- Difference of two `size_t` values, modulo `2 ^ 64`. -/
def sizeTSub (a b : ℕ) : ℕ := (a + sizeTRange - b % sizeTRange) % sizeTRange

/-- The local variables of `TimeQueue::Producer` and the array it writes. -/
structure ProducerLocals where
  data : ℕ → ℚ
  time : ℚ
  index : ℕ
  nSamples : ℕ
  remainder : ℕ
  space : ℕ

/-- The loop `while ( nSamples >= space )` of `TimeQueue::Producer`.  Each pass
uses one unit of `passes`; `fuel` is handed to `AdvancedTrackTime`. -/
def TimeQueue.producerLoop (schedule : PlaybackSchedule) (fuel : ℕ)
    (rate scrubSpeed : ℚ) (mSize : ℕ) : ℕ → ProducerLocals → Option ProducerLocals
  | passes, v =>
    if v.nSamples ≥ v.space then
      match passes with
      | 0 => none
      | passes + 1 =>
        match schedule.AdvancedTrackTime fuel v.time ((v.space : ℚ) / rate) scrubSpeed with
        | none => none
        | some time =>
          TimeQueue.producerLoop schedule fuel rate scrubSpeed mSize passes
            { data := Function.update v.data ((v.index + 1) % mSize) time,
              time := time,
              index := (v.index + 1) % mSize,
              nSamples := v.nSamples - v.space,
              remainder := 0,
              space := TimeQueueGrainSize }
    else some v

/-- `TimeQueue::Producer`: the queue after the call, `none` when `fuel` does
not suffice for the passes of its loop or for a call of `AdvancedTrackTime`. -/
def TimeQueue.Producer (q : TimeQueue) (schedule : PlaybackSchedule) (fuel : ℕ)
    (rate scrubSpeed : ℚ) (nSamples : ℕ) : Option TimeQueue :=
  match q.mData with
  | none =>
    -- Recording only.  Don't fill the queue.
    some q
  | some data =>
    match TimeQueue.producerLoop schedule fuel rate scrubSpeed q.mSize fuel
        { data := data,
          time := q.mLastTime,
          index := q.mTail.mIndex,
          nSamples := nSamples,
          remainder := q.mTail.mRemainder,
          space := sizeTSub TimeQueueGrainSize q.mTail.mRemainder } with
    | none => none
    | some v =>
      -- Last odd lot
      match (if v.nSamples > 0 then
          schedule.AdvancedTrackTime fuel v.time ((v.nSamples : ℚ) / rate) scrubSpeed
        else some v.time) with
      | none => none
      | some time =>
        some { q with
          mData := some v.data,
          mLastTime := time,
          mTail := { mIndex := v.index, mRemainder := v.remainder + v.nSamples } }

/-- `TimeQueue::Consumer`: the returned time and the queue after the call. -/
def TimeQueue.Consumer (q : TimeQueue) (nSamples : ℕ) (rate : ℚ) : ℚ × TimeQueue :=
  match q.mData with
  | none =>
    -- Recording only.  No scrub or playback time warp.  Don't use the queue.
    (q.mLastTime + (nSamples : ℚ) / rate,
      { q with mLastTime := q.mLastTime + (nSamples : ℚ) / rate })
  | some data =>
    let remainder := q.mHead.mRemainder
    let space := sizeTSub TimeQueueGrainSize remainder
    if nSamples ≥ space then
      let index := (q.mHead.mIndex + 1) % q.mSize
      let nSamples := nSamples - space
      if nSamples ≥ TimeQueueGrainSize then
        let index := (index + nSamples / TimeQueueGrainSize) % q.mSize
        let nSamples := nSamples % TimeQueueGrainSize
        (data index, { q with mHead := { mIndex := index, mRemainder := 0 + nSamples } })
      else
        (data index, { q with mHead := { mIndex := index, mRemainder := 0 + nSamples } })
    else
      (data q.mHead.mIndex,
        { q with mHead := { mIndex := q.mHead.mIndex,
                            mRemainder := remainder + nSamples } })

/-- `TimeQueue::Prime`: `mHead = mTail = {}; mLastTime = time;` -/
def TimeQueue.Prime (q : TimeQueue) (time : ℚ) : TimeQueue :=
  { q with mHead := {}, mTail := {}, mLastTime := time }

/-! ## Test sequences and schedules -/

/-- One round of the producer as the looping policy expects it to be driven: a
call of `GetPlaybackSlice`, then `RepositionPlayback` on the schedule it
leaves (with no mixers).  Returns the slice and the schedule after the round. -/
def LoopingPlaybackPolicy.sliceThenReposition (ub : ℚ → ℕ) (mRate : ℚ)
    (schedule : PlaybackSchedule) (available : ℕ) :
    PlaybackSlice × PlaybackSchedule :=
  let r := LoopingPlaybackPolicy.GetPlaybackSlice ub mRate schedule available
  (r.1, (LoopingPlaybackPolicy.RepositionPlayback (fun m : Unit => m) r.2 []
    r.1.frames available).2.1)

/-- The slices of `n` consecutive rounds of `sliceThenReposition`. -/
def LoopingPlaybackPolicy.rounds (ub : ℚ → ℕ) (mRate : ℚ) (available : ℕ) :
    ℕ → PlaybackSchedule → List PlaybackSlice
  | 0, _ => []
  | n + 1, schedule =>
    (LoopingPlaybackPolicy.sliceThenReposition ub mRate schedule available).1 ::
      LoopingPlaybackPolicy.rounds ub mRate available n
        (LoopingPlaybackPolicy.sliceThenReposition ub mRate schedule available).2

/-- The schedule after `n` consecutive calls of
`PlaybackPolicy::GetPlaybackSlice` with the same available count. -/
def PlaybackPolicy.afterSlices (ub : ℚ → ℕ) (mRate : ℚ) (available : ℕ) :
    ℕ → PlaybackSchedule → PlaybackSchedule
  | 0, schedule => schedule
  | n + 1, schedule =>
    (PlaybackPolicy.GetPlaybackSlice ub mRate
      (PlaybackPolicy.afterSlices ub mRate available n schedule) available).2

/-- A schedule on the region t0 = 2, t1 = 5 under the looping policy, without
an envelope. -/
def forwardLoop : PlaybackSchedule :=
  { mT0 := 2, mT1 := 5,
    mpPlaybackPolicy := some PolicyClass.LoopingPlaybackPolicy,
    mPolicyValid := true }

/-- A schedule on the region t0 = 2, t1 = 5 under the looping policy, with an
envelope of constant speed 2: a stretch of track time takes half as long in
real time. -/
def doubleSpeedLoop : PlaybackSchedule :=
  { mT0 := 2, mT1 := 5,
    mEnvelope := some { IntegralOfInverse := fun a b => (b - a) / 2,
                        SolveIntegralOfInverse := fun a l => a + 2 * l },
    mpPlaybackPolicy := some PolicyClass.LoopingPlaybackPolicy,
    mPolicyValid := true }

/-- The queue after consecutive `Producer` calls with the sample counts of the
list, in order. -/
def TimeQueue.ProducerCalls (schedule : PlaybackSchedule) (fuel : ℕ)
    (rate scrubSpeed : ℚ) : List ℕ → TimeQueue → Option TimeQueue
  | [], q => some q
  | n :: rest, q =>
    match q.Producer schedule fuel rate scrubSpeed n with
    | none => none
    | some q => TimeQueue.ProducerCalls schedule fuel rate scrubSpeed rest q

/-- Consecutive `Consumer` calls with the sample counts of the list, in order:
the time returned by the last call, `last` when the list is empty, and the
queue after the calls. -/
def TimeQueue.ConsumerCalls (rate : ℚ) : List ℕ → ℚ → TimeQueue → ℚ × TimeQueue
  | [], last, q => (last, q)
  | n :: rest, _, q =>
    TimeQueue.ConsumerCalls rate rest (q.Consumer n rate).1 (q.Consumer n rate).2

/-- Both cursors of the queue are inside: each remainder is within the grain
and each index is within the `mSize` slots of `mData`. -/
def TimeQueue.CursorsInside (q : TimeQueue) : Prop :=
  q.mHead.mRemainder < TimeQueueGrainSize ∧ q.mHead.mIndex < q.mSize ∧
    q.mTail.mRemainder < TimeQueueGrainSize ∧ q.mTail.mIndex < q.mSize

/-- A schedule in the state the default policy leaves after a padded slice at
44100 Hz: one second to play, and 444 frames of real time accounted past it. -/
def pastTheEnd : PlaybackSchedule :=
  { mT0 := 0, mT1 := 1, mWarpedLength := 1, mWarpedTime := 1 + 444 / 44100 }

/-! ## Double arithmetic

The binary64 format has 53 significant bits and exponents from -1022 to 1023;
below 2 ^ -1022 the numbers are the multiples of 2 ^ -1074. -/

/-- Rounding to the nearest integer, ties to the even one. -/
def roundHalfEven (q : ℚ) : ℤ :=
  if q - ⌊q⌋ < 1 / 2 then ⌊q⌋
  else if 1 / 2 < q - ⌊q⌋ then ⌊q⌋ + 1
  else if ⌊q⌋ % 2 = 0 then ⌊q⌋ else ⌊q⌋ + 1

/-- Exponent of the last place of the binary64 numbers next to `x`: 52 below
the binary exponent of `x`, which is taken as -1022 in the subnormal range. -/
def ulpExponent (x : ℚ) : ℤ := max (Int.log 2 |x|) (-1022) - 52

/-- The IEEE 754 binary64 number nearest to `x`, ties to even. -/
def roundToDouble (x : ℚ) : ℚ :=
  (roundHalfEven (x / 2 ^ ulpExponent x) : ℚ) * 2 ^ ulpExponent x

/-! ## The policies and the advance of the track time in double arithmetic -/

/-- `RealTimeRemaining` with the rounding of the double subtraction. -/
def Binary64.PlaybackSchedule.RealTimeRemaining (s : PlaybackSchedule) : ℚ :=
  roundToDouble (s.mWarpedLength - s.mWarpedTime)

/-- `RealTimeAdvance` with the rounding of the double addition. -/
def Binary64.PlaybackSchedule.RealTimeAdvance (s : PlaybackSchedule) (increment : ℚ) :
    PlaybackSchedule :=
  { s with mWarpedTime := roundToDouble (s.mWarpedTime + increment) }

/-- `PlaybackPolicy::GetPlaybackSlice` with the rounding of every double
operation; `frames / mRate` converts the `size_t` to a double first. -/
def Binary64.PlaybackPolicy.GetPlaybackSlice (ub : ℚ → ℕ) (mRate : ℚ)
    (schedule : PlaybackSchedule) (available : ℕ) :
    PlaybackSlice × PlaybackSchedule :=
  let realTimeRemaining := Binary64.PlaybackSchedule.RealTimeRemaining schedule
  let frames := available
  let toProduce := frames
  let deltat : ℚ := roundToDouble (roundToDouble (frames : ℚ) / mRate)
  if deltat > realTimeRemaining then
    -- Produce some extra silence so that the time queue consumer can
    -- satisfy its end condition
    let extraRealTime : ℚ :=
      roundToDouble (roundToDouble ((TimeQueueGrainSize + 1 : ℕ) : ℚ) / mRate)
    let extra := min extraRealTime (roundToDouble (deltat - realTimeRemaining))
    let realTime := roundToDouble (realTimeRemaining + extra)
    let frames := toSizeT ub (roundToDouble (realTime * mRate))
    let toProduce := toSizeT ub (roundToDouble (realTimeRemaining * mRate))
    (PlaybackSlice.construct available frames toProduce,
      Binary64.PlaybackSchedule.RealTimeAdvance schedule realTime)
  else
    (PlaybackSlice.construct available frames toProduce,
      Binary64.PlaybackSchedule.RealTimeAdvance schedule deltat)

/-- `LoopingPlaybackPolicy::GetPlaybackSlice` with the rounding of every double
operation. -/
def Binary64.LoopingPlaybackPolicy.GetPlaybackSlice (ub : ℚ → ℕ) (mRate : ℚ)
    (schedule : PlaybackSchedule) (available : ℕ) :
    PlaybackSlice × PlaybackSchedule :=
  let realTimeRemaining := Binary64.PlaybackSchedule.RealTimeRemaining schedule
  let frames := available
  let toProduce := frames
  let deltat : ℚ := roundToDouble (roundToDouble (frames : ℚ) / mRate)
  let (frames, toProduce, schedule) :=
    if deltat > realTimeRemaining then
      let frames := toSizeT ub (roundToDouble (realTimeRemaining * mRate))
      (frames, frames, Binary64.PlaybackSchedule.RealTimeAdvance schedule realTimeRemaining)
    else
      (frames, toProduce, Binary64.PlaybackSchedule.RealTimeAdvance schedule deltat)
  -- Don't fall into an infinite loop, if loop-playing a selection
  -- that is so short, it has no samples: detect that case
  if frames = 0 then
    let progress := decide (schedule.mWarpedTime ≠ 0)
    if !progress then
      -- Cause FillPlayBuffers to make progress, filling all available with 0
      (PlaybackSlice.construct available available 0, schedule)
    else
      (PlaybackSlice.construct available frames toProduce, schedule)
  else
    (PlaybackSlice.construct available frames toProduce, schedule)

/-- `LoopingPlaybackPolicy::RepositionPlayback` with the rounding of the
double subtraction in `RealTimeRemaining`. -/
def Binary64.LoopingPlaybackPolicy.RepositionPlayback {Mixer : Type}
    (restart : Mixer → Mixer) (schedule : PlaybackSchedule)
    (playbackMixers : List Mixer) (_ _ : ℕ) : Bool × PlaybackSchedule × List Mixer :=
  -- msmeyer: If playing looped, check if we are at the end of the buffer
  -- and if yes, restart from the beginning.
  if Binary64.PlaybackSchedule.RealTimeRemaining schedule ≤ 0 then
    (false, schedule.RealTimeRestart, playbackMixers.map restart)
  else
    (false, schedule, playbackMixers)

/-- `ComputeWarpedLength` with the rounding of the double subtraction; the
envelope returns a double. -/
def Binary64.PlaybackSchedule.ComputeWarpedLength (s : PlaybackSchedule) (t0 t1 : ℚ) : ℚ :=
  match s.mEnvelope with
  | some env => env.IntegralOfInverse t0 t1
  | none => roundToDouble (t1 - t0)

/-- `SolveWarpedLength` with the rounding of the double addition; the envelope
returns a double. -/
def Binary64.PlaybackSchedule.SolveWarpedLength (s : PlaybackSchedule) (t0 length : ℚ) : ℚ :=
  match s.mEnvelope with
  | some env => env.SolveIntegralOfInverse t0 length
  | none => roundToDouble (t0 + length)

/-- The loop `while ( Overruns( time ) ) time -= mT1 - mT0;` with the rounding
of both double subtractions; each pass of the body uses one unit of fuel. -/
def Binary64.PlaybackSchedule.wrapWhileOverruns (s : PlaybackSchedule) : ℕ → ℚ → Option ℚ
  | fuel, time =>
    if s.Overruns time then
      match fuel with
      | 0 => none
      | fuel + 1 =>
        Binary64.PlaybackSchedule.wrapWhileOverruns s fuel
          (roundToDouble (time - roundToDouble (s.mT1 - s.mT0)))
    else some time

/-- The `do ... while ( true )` loop of `AdvancedTrackTime` with the rounding
of `realElapsed -= delta`; each pass of the body uses one unit of fuel. -/
def Binary64.PlaybackSchedule.envelopeLoop (s : PlaybackSchedule) (looping : Bool) :
    ℕ → ℚ → ℚ → ℚ → Bool → Option ℚ
  | 0, _, _, _, _ => none
  | fuel + 1, time, realElapsed, total, foundTotal =>
    let oldTime := time
    let time :=
      if foundTotal && decide (|realElapsed| > |total|) then
        -- Avoid SolveWarpedLength
        s.mT1
      else Binary64.PlaybackSchedule.SolveWarpedLength s time realElapsed
    if !looping || !s.Overruns time then some time
    else
      -- Bug1922:  The part of the time track outside the loop should not
      -- influence the result
      if foundTotal && decide (oldTime = s.mT0) then
        -- Avoid integrating again
        Binary64.PlaybackSchedule.envelopeLoop s looping fuel s.mT0
          (roundToDouble (realElapsed - total)) total foundTotal
      else
        let delta := Binary64.PlaybackSchedule.ComputeWarpedLength s oldTime s.mT1
        if oldTime = s.mT0 then
          Binary64.PlaybackSchedule.envelopeLoop s looping fuel s.mT0
            (roundToDouble (realElapsed - delta)) delta true
        else
          Binary64.PlaybackSchedule.envelopeLoop s looping fuel s.mT0
            (roundToDouble (realElapsed - delta)) total foundTotal

/-- `PlaybackSchedule::AdvancedTrackTime` with the rounding of every double
operation (the product and the sum of `time += realElapsed * fabs(speed)` round
separately; negation and `fabs` are exact; `1e-9` is the double nearest to
1/10^9); `none` when the fuel does not suffice for the loops. -/
def Binary64.PlaybackSchedule.AdvancedTrackTime (s : PlaybackSchedule) (fuel : ℕ)
    (time realElapsed speed : ℚ) : Option ℚ :=
  let looping := s.GetPolicy.Looping s
  let realElapsed := if s.ReversedTime then realElapsed * (-1) else realElapsed
  -- Defense against cases that might cause loops not to terminate
  if |roundToDouble (s.mT0 - s.mT1)| < roundToDouble (1 / 1000000000) then some s.mT0
  else
    match s.mEnvelope with
    | some _ => Binary64.PlaybackSchedule.envelopeLoop s looping fuel time realElapsed 0 false
    | none =>
      let time := roundToDouble (time + roundToDouble (realElapsed * |speed|))
      -- Wrap to start if looping
      if looping then Binary64.PlaybackSchedule.wrapWhileOverruns s fuel time else some time

/-! ## The producer of the time queue in double arithmetic -/

/-- The loop `while ( nSamples >= space )` of `TimeQueue::Producer` with
`AdvancedTrackTime` in double arithmetic: `space / rate` converts the `size_t`
to a double and rounds the quotient.  Each pass uses one unit of `passes`;
`fuel` is handed to `AdvancedTrackTime`. -/
def Binary64.TimeQueue.producerLoop (schedule : PlaybackSchedule) (fuel : ℕ)
    (rate scrubSpeed : ℚ) (mSize : ℕ) : ℕ → ProducerLocals → Option ProducerLocals
  | passes, v =>
    if v.nSamples ≥ v.space then
      match passes with
      | 0 => none
      | passes + 1 =>
        match Binary64.PlaybackSchedule.AdvancedTrackTime schedule fuel v.time
            (roundToDouble (roundToDouble (v.space : ℚ) / rate)) scrubSpeed with
        | none => none
        | some time =>
          Binary64.TimeQueue.producerLoop schedule fuel rate scrubSpeed mSize passes
            { data := Function.update v.data ((v.index + 1) % mSize) time,
              time := time,
              index := (v.index + 1) % mSize,
              nSamples := v.nSamples - v.space,
              remainder := 0,
              space := TimeQueueGrainSize }
    else some v

/-- `TimeQueue::Producer` with `AdvancedTrackTime` in double arithmetic and the
rounding of `nSamples / rate`: the queue after the call, `none` when `fuel`
does not suffice for the passes of its loop or for a call of
`AdvancedTrackTime`. -/
def Binary64.TimeQueue.Producer (q : TimeQueue) (schedule : PlaybackSchedule) (fuel : ℕ)
    (rate scrubSpeed : ℚ) (nSamples : ℕ) : Option TimeQueue :=
  match q.mData with
  | none =>
    -- Recording only.  Don't fill the queue.
    some q
  | some data =>
    match Binary64.TimeQueue.producerLoop schedule fuel rate scrubSpeed q.mSize fuel
        { data := data,
          time := q.mLastTime,
          index := q.mTail.mIndex,
          nSamples := nSamples,
          remainder := q.mTail.mRemainder,
          space := sizeTSub TimeQueueGrainSize q.mTail.mRemainder } with
    | none => none
    | some v =>
      -- Last odd lot
      match (if v.nSamples > 0 then
          Binary64.PlaybackSchedule.AdvancedTrackTime schedule fuel v.time
            (roundToDouble (roundToDouble (v.nSamples : ℚ) / rate)) scrubSpeed
        else some v.time) with
      | none => none
      | some time =>
        some { q with
          mData := some v.data,
          mLastTime := time,
          mTail := { mIndex := v.index, mRemainder := v.remainder + v.nSamples } }

/-- The queue after consecutive `Producer` calls in double arithmetic with the
sample counts of the list, in order. -/
def Binary64.TimeQueue.ProducerCalls (schedule : PlaybackSchedule) (fuel : ℕ)
    (rate scrubSpeed : ℚ) : List ℕ → TimeQueue → Option TimeQueue
  | [], q => some q
  | n :: rest, q =>
    match Binary64.TimeQueue.Producer q schedule fuel rate scrubSpeed n with
    | none => none
    | some q => Binary64.TimeQueue.ProducerCalls schedule fuel rate scrubSpeed rest q

/-! ## Schedules for double arithmetic -/

/-- A schedule on the region from the double 0.1 to the double 0.4 under the
looping policy, without an envelope. -/
def tenthsLoop : PlaybackSchedule :=
  { mT0 := 3602879701896397 / 2 ^ 55, mT1 := 3602879701896397 / 2 ^ 53,
    mpPlaybackPolicy := some PolicyClass.LoopingPlaybackPolicy,
    mPolicyValid := true }

/-- A schedule whose pass has the real length `length`, of which `elapsed` is
accounted. -/
def passState (length elapsed : ℚ) : PlaybackSchedule :=
  { mT0 := 0, mT1 := length, mWarpedLength := length, mWarpedTime := elapsed }

theorem truncate_of_nonneg {x : ℚ} (h : 0 ≤ x) : truncate x = ⌊x⌋ := by
  simp [truncate, h]

theorem truncate_intCast (z : ℤ) : truncate (z : ℚ) = z := by
  unfold truncate
  split <;> simp

/-- A nonnegative value below the range of `size_t` converts to its whole
part, whatever the unspecified out-of-range values are. -/
theorem toSizeT_of_nonneg {x : ℚ} (ub : ℚ → ℕ) (h0 : 0 ≤ x)
    (h1 : x < (sizeTRange : ℚ)) : toSizeT ub x = ⌊x⌋₊ := by
  have ht : truncate x = ⌊x⌋ := truncate_of_nonneg h0
  have hf0 : (0 : ℤ) ≤ ⌊x⌋ := Int.floor_nonneg.mpr h0
  have hf1 : ⌊x⌋ < (sizeTRange : ℤ) := by
    have : ((⌊x⌋ : ℤ) : ℚ) < ((sizeTRange : ℤ) : ℚ) :=
      lt_of_le_of_lt (Int.floor_le x) (by exact_mod_cast h1)
    exact_mod_cast this
  unfold toSizeT
  rw [ht, if_pos ⟨hf0, hf1⟩, Int.floor_toNat]

theorem toSizeT_zero (ub : ℚ → ℕ) : toSizeT ub 0 = 0 := by
  rw [toSizeT_of_nonneg ub le_rfl (by norm_num [sizeTRange])]
  simp

/-- The constructor of `PlaybackSlice` enforces its documented invariant. -/
theorem PlaybackSlice.construct_invariant (available frames_ toProduce_ : ℕ) :
    (PlaybackSlice.construct available frames_ toProduce_).toProduce
        ≤ (PlaybackSlice.construct available frames_ toProduce_).frames ∧
      (PlaybackSlice.construct available frames_ toProduce_).frames ≤ available := by
  simp [PlaybackSlice.construct]

/-! ## The branches of GetPlaybackSlice -/

/-- The branch of `PlaybackPolicy::GetPlaybackSlice` taken when the desired
duration fits into the remaining real time. -/
theorem PlaybackPolicy.GetPlaybackSlice_within (ub : ℚ → ℕ) (mRate : ℚ)
    (schedule : PlaybackSchedule) (available : ℕ)
    (h : ¬ (available : ℚ) / mRate > schedule.RealTimeRemaining) :
    PlaybackPolicy.GetPlaybackSlice ub mRate schedule available =
      (PlaybackSlice.construct available available available,
        schedule.RealTimeAdvance ((available : ℚ) / mRate)) := by
  unfold PlaybackPolicy.GetPlaybackSlice
  dsimp only
  rw [if_neg h]

/-- Playing one second at 44100 Hz in slices of 512 frames: after n ≤ 86 calls
the schedule has advanced by n * 512 frames of real time. -/
theorem PlaybackPolicy.afterSlices_one_second (ub : ℚ → ℕ)
    (schedule : PlaybackSchedule) (hlen : schedule.mWarpedLength = 1)
    (hel : schedule.mWarpedTime = 0) (n : ℕ) (hn : n ≤ 86) :
    (PlaybackPolicy.afterSlices ub 44100 512 n schedule).mWarpedLength = 1 ∧
    (PlaybackPolicy.afterSlices ub 44100 512 n schedule).mWarpedTime
      = 512 * (n : ℚ) / 44100 := by
  induction n with
  | zero => simp [PlaybackPolicy.afterSlices, hlen, hel]
  | succ n ih =>
    obtain ⟨h1, h2⟩ := ih (by omega)
    have hnq : ((n : ℚ) + 1) ≤ 86 := by exact_mod_cast hn
    have hwithin : ¬ (((512 : ℕ) : ℚ) / 44100 >
        (PlaybackPolicy.afterSlices ub 44100 512 n schedule).RealTimeRemaining) := by
      rw [PlaybackSchedule.RealTimeRemaining, h1, h2, not_lt]
      push_cast
      rw [div_le_iff₀ (by norm_num)]
      linarith
    rw [PlaybackPolicy.afterSlices, PlaybackPolicy.GetPlaybackSlice_within _ _ _ _ hwithin]
    simp only [PlaybackSchedule.RealTimeAdvance, h1, h2]
    push_cast
    constructor
    · trivial
    · ring

/-- The overflow branch of `PlaybackPolicy::GetPlaybackSlice`, taken when the
desired duration exceeds the remaining real time. -/
theorem PlaybackPolicy.GetPlaybackSlice_overflow (ub : ℚ → ℕ) (mRate : ℚ)
    (schedule : PlaybackSchedule) (available : ℕ)
    (h : (available : ℚ) / mRate > schedule.RealTimeRemaining) :
    PlaybackPolicy.GetPlaybackSlice ub mRate schedule available =
      (PlaybackSlice.construct available
          (toSizeT ub ((schedule.RealTimeRemaining +
              min (((TimeQueueGrainSize + 1 : ℕ) : ℚ) / mRate)
                ((available : ℚ) / mRate - schedule.RealTimeRemaining)) * mRate))
          (toSizeT ub (schedule.RealTimeRemaining * mRate)),
        schedule.RealTimeAdvance (schedule.RealTimeRemaining +
            min (((TimeQueueGrainSize + 1 : ℕ) : ℚ) / mRate)
              ((available : ℚ) / mRate - schedule.RealTimeRemaining))) := by
  unfold PlaybackPolicy.GetPlaybackSlice
  dsimp only
  rw [if_pos h]

/-- The overflow branch of `LoopingPlaybackPolicy::GetPlaybackSlice`, with its
guard against a pass that makes no progress. -/
theorem LoopingPlaybackPolicy.GetPlaybackSlice_looping_overflow (ub : ℚ → ℕ) (mRate : ℚ)
    (schedule : PlaybackSchedule) (available : ℕ)
    (h : (available : ℚ) / mRate > schedule.RealTimeRemaining) :
    LoopingPlaybackPolicy.GetPlaybackSlice ub mRate schedule available =
      (if toSizeT ub (schedule.RealTimeRemaining * mRate) = 0 ∧
            schedule.mWarpedTime + schedule.RealTimeRemaining = 0 then
          PlaybackSlice.construct available available 0
        else
          PlaybackSlice.construct available
            (toSizeT ub (schedule.RealTimeRemaining * mRate))
            (toSizeT ub (schedule.RealTimeRemaining * mRate)),
        schedule.RealTimeAdvance schedule.RealTimeRemaining) := by
  unfold LoopingPlaybackPolicy.GetPlaybackSlice
  dsimp only
  rw [if_pos h]
  dsimp only
  by_cases hf : toSizeT ub (schedule.RealTimeRemaining * mRate) = 0
  · by_cases hw : schedule.mWarpedTime + schedule.RealTimeRemaining = 0
    · simp [hf, hw, PlaybackSchedule.RealTimeAdvance]
    · simp [hf, hw, PlaybackSchedule.RealTimeAdvance]
  · simp [hf]

/-- The other branch of `LoopingPlaybackPolicy::GetPlaybackSlice`, for a
nonzero available count. -/
theorem LoopingPlaybackPolicy.GetPlaybackSlice_looping_within (ub : ℚ → ℕ) (mRate : ℚ)
    (schedule : PlaybackSchedule) (available : ℕ) (hav : 0 < available)
    (h : ¬ (available : ℚ) / mRate > schedule.RealTimeRemaining) :
    LoopingPlaybackPolicy.GetPlaybackSlice ub mRate schedule available =
      (PlaybackSlice.construct available available available,
        schedule.RealTimeAdvance ((available : ℚ) / mRate)) := by
  unfold LoopingPlaybackPolicy.GetPlaybackSlice
  dsimp only
  rw [if_neg h]
  dsimp only
  rw [if_neg (Nat.pos_iff_ne_zero.mp hav)]

/-- A round on the region of 0.0001 s at 44100 Hz, entered at the start of a
pass with at least 5 available frames: the slice holds the 4 whole frames of
the pass and the round ends at the start of the next pass. -/
theorem LoopingPlaybackPolicy.sliceThenReposition_short_region (ub : ℚ → ℕ)
    (schedule : PlaybackSchedule) (available : ℕ)
    (hlen : schedule.mWarpedLength = 1 / 10000) (hel : schedule.mWarpedTime = 0)
    (hav5 : 5 ≤ available) :
    (LoopingPlaybackPolicy.sliceThenReposition ub 44100 schedule available).1
      = { frames := 4, toProduce := 4 } ∧
    (LoopingPlaybackPolicy.sliceThenReposition ub 44100 schedule
      available).2.mWarpedLength = 1 / 10000 ∧
    (LoopingPlaybackPolicy.sliceThenReposition ub 44100 schedule
      available).2.mWarpedTime = 0 := by
  have hR : schedule.RealTimeRemaining = 1 / 10000 := by
    simp [PlaybackSchedule.RealTimeRemaining, hlen, hel]
  have hav5q : (5 : ℚ) ≤ (available : ℚ) := by exact_mod_cast hav5
  have hover : (available : ℚ) / 44100 > schedule.RealTimeRemaining := by
    rw [hR, gt_iff_lt, lt_div_iff₀ (by norm_num)]
    linarith
  have hX : toSizeT ub (schedule.RealTimeRemaining * 44100) = 4 := by
    rw [hR, toSizeT_of_nonneg ub (by norm_num) (by norm_num [sizeTRange]),
      Nat.floor_eq_iff (by norm_num)]
    norm_num
  unfold LoopingPlaybackPolicy.sliceThenReposition
  dsimp only
  rw [LoopingPlaybackPolicy.GetPlaybackSlice_looping_overflow ub 44100 schedule available hover,
    hX]
  have h4 : min available 4 = 4 := by omega
  simp [PlaybackSlice.construct, LoopingPlaybackPolicy.RepositionPlayback,
    PlaybackSchedule.RealTimeRemaining, PlaybackSchedule.RealTimeAdvance,
    PlaybackSchedule.RealTimeRestart, hlen, hel, h4]

/-- Every round of a run on that region returns the same slice of 4 frames. -/
theorem LoopingPlaybackPolicy.rounds_short_region (ub : ℚ → ℕ) (available : ℕ)
    (hav5 : 5 ≤ available) (n : ℕ) :
    ∀ schedule : PlaybackSchedule, schedule.mWarpedLength = 1 / 10000 →
      schedule.mWarpedTime = 0 →
      LoopingPlaybackPolicy.rounds ub 44100 available n schedule
        = List.replicate n { frames := 4, toProduce := 4 } := by
  induction n with
  | zero => intro schedule _ _; rfl
  | succ n ih =>
    intro schedule hlen hel
    obtain ⟨h1, h2, h3⟩ := LoopingPlaybackPolicy.sliceThenReposition_short_region ub
      schedule available hlen hel hav5
    rw [LoopingPlaybackPolicy.rounds, h1, ih _ h2 h3, List.replicate_succ]

/-! ## Slices -/

/-- C1: for the default policy and for the looping policy, for every schedule,
every rate, every available and every unspecified conversion, the slice
returned by GetPlaybackSlice satisfies toProduce ≤ frames and
frames ≤ available. -/
theorem C1_slice_invariant (ub : ℚ → ℕ) (mRate : ℚ) (schedule : PlaybackSchedule)
    (available : ℕ) :
    ((PlaybackPolicy.GetPlaybackSlice ub mRate schedule available).1.toProduce
        ≤ (PlaybackPolicy.GetPlaybackSlice ub mRate schedule available).1.frames ∧
      (PlaybackPolicy.GetPlaybackSlice ub mRate schedule available).1.frames
        ≤ available) ∧
    ((LoopingPlaybackPolicy.GetPlaybackSlice ub mRate schedule available).1.toProduce
        ≤ (LoopingPlaybackPolicy.GetPlaybackSlice ub mRate schedule available).1.frames ∧
      (LoopingPlaybackPolicy.GetPlaybackSlice ub mRate schedule available).1.frames
        ≤ available) := by
  constructor
  · unfold PlaybackPolicy.GetPlaybackSlice
    dsimp only
    split <;> exact PlaybackSlice.construct_invariant _ _ _
  · unfold LoopingPlaybackPolicy.GetPlaybackSlice
    dsimp only
    split <;> split <;> try split
    all_goals exact PlaybackSlice.construct_invariant _ _ _

/-- C2: for the default policy with rate > 0, whenever available / rate is at
most the remaining real time R = warpedLength - warpedElapsed, GetPlaybackSlice
returns frames = toProduce = available and increases warpedElapsed by exactly
available / rate. -/
theorem C2_straight_within_remaining (ub : ℚ → ℕ) (mRate : ℚ)
    (schedule : PlaybackSchedule) (available : ℕ) (_hrate : 0 < mRate)
    (h : (available : ℚ) / mRate ≤ schedule.mWarpedLength - schedule.mWarpedTime) :
    (PlaybackPolicy.GetPlaybackSlice ub mRate schedule available).1.frames = available ∧
    (PlaybackPolicy.GetPlaybackSlice ub mRate schedule available).1.toProduce = available ∧
    (PlaybackPolicy.GetPlaybackSlice ub mRate schedule available).2.mWarpedTime
      = schedule.mWarpedTime + (available : ℚ) / mRate := by
  have hn : ¬ ((available : ℚ) / mRate > schedule.RealTimeRemaining) := by
    simpa [PlaybackSchedule.RealTimeRemaining] using h
  rw [PlaybackPolicy.GetPlaybackSlice_within ub mRate schedule available hn]
  simp [PlaybackSlice.construct, PlaybackSchedule.RealTimeAdvance]

/-- C2 at the first call of 512 frames on one second at 44100 Hz. -/
theorem C2_straight_within_remaining_witness :
    (PlaybackPolicy.GetPlaybackSlice (fun _ => 0) 44100
        { mT0 := 0, mT1 := 1, mWarpedLength := 1 } 512).1.frames = 512 ∧
    (PlaybackPolicy.GetPlaybackSlice (fun _ => 0) 44100
        { mT0 := 0, mT1 := 1, mWarpedLength := 1 } 512).1.toProduce = 512 ∧
    (PlaybackPolicy.GetPlaybackSlice (fun _ => 0) 44100
        { mT0 := 0, mT1 := 1, mWarpedLength := 1 } 512).2.mWarpedTime
      = 0 + ((512 : ℕ) : ℚ) / 44100 :=
  C2_straight_within_remaining (fun _ => 0) 44100
    { mT0 := 0, mT1 := 1, mWarpedLength := 1 } 512 (by norm_num) (by norm_num)

/-- C3, as stated, fails: with warpedLength = 1, warpedElapsed = 0.99 and rate
44100, no constant margin gives frames = (R + margin) * rate and an advance of
R + margin for every available with available / rate > R.  The call with
available = 512 advances by R + 71 / 44100 while the call with available = 4096
advances by R + 2001 / 44100. -/
theorem C3_counterexample :
    ¬ ∃ margin : ℚ, ∀ available : ℕ,
      (available : ℚ) / 44100 >
          (1 : ℚ) - 99 / 100 →
        (PlaybackPolicy.GetPlaybackSlice (fun _ => 0) 44100
            { mT0 := 0, mT1 := 1, mWarpedLength := 1, mWarpedTime := 99 / 100 }
            available).1.frames
          = toSizeT (fun _ => 0) (((1 : ℚ) - 99 / 100 + margin) * 44100) ∧
        (PlaybackPolicy.GetPlaybackSlice (fun _ => 0) 44100
            { mT0 := 0, mT1 := 1, mWarpedLength := 1, mWarpedTime := 99 / 100 }
            available).1.toProduce
          = toSizeT (fun _ => 0) (((1 : ℚ) - 99 / 100) * 44100) ∧
        (PlaybackPolicy.GetPlaybackSlice (fun _ => 0) 44100
            { mT0 := 0, mT1 := 1, mWarpedLength := 1, mWarpedTime := 99 / 100 }
            available).2.mWarpedTime
          = 99 / 100 + ((1 : ℚ) - 99 / 100 + margin) := by
  rintro ⟨margin, hm⟩
  have h1 := (hm 512 (by norm_num)).2.2
  have h2 := (hm 4096 (by norm_num)).2.2
  rw [PlaybackPolicy.GetPlaybackSlice_overflow _ _ _ _
    (by norm_num [PlaybackSchedule.RealTimeRemaining])] at h1 h2
  norm_num [PlaybackSchedule.RealTimeAdvance, PlaybackSchedule.RealTimeRemaining,
    TimeQueueGrainSize] at h1 h2
  linarith

/-- C5, as stated, fails: on the region t0 = 0, t1 = 0.0001 at rate 44100 with
512 available frames, the first GetPlaybackSlice call of the looping policy
takes the 4 frames of the pass and the very next call returns frames = 0. -/
theorem C5_counterexample :
    0 < 512 ∧
    (LoopingPlaybackPolicy.GetPlaybackSlice (fun _ => 0) 44100
      { mT0 := 0, mT1 := 1 / 10000, mWarpedLength := 1 / 10000 } 512).1.frames = 4 ∧
    (LoopingPlaybackPolicy.GetPlaybackSlice (fun _ => 0) 44100
      (LoopingPlaybackPolicy.GetPlaybackSlice (fun _ => 0) 44100
        { mT0 := 0, mT1 := 1 / 10000, mWarpedLength := 1 / 10000 } 512).2
      512).1.frames = 0 := by
  have hX : toSizeT (fun _ => 0) ((1 / 10000 : ℚ) * 44100) = 4 := by
    rw [toSizeT_of_nonneg _ (by norm_num) (by norm_num [sizeTRange]),
      Nat.floor_eq_iff (by norm_num)]
    norm_num
  have h1 : LoopingPlaybackPolicy.GetPlaybackSlice (fun _ => 0) 44100
      { mT0 := 0, mT1 := 1 / 10000, mWarpedLength := 1 / 10000 } 512
      = ({ frames := 4, toProduce := 4 },
          { mT0 := 0, mT1 := 1 / 10000, mWarpedLength := 1 / 10000,
            mWarpedTime := 1 / 10000 }) := by
    rw [LoopingPlaybackPolicy.GetPlaybackSlice_looping_overflow _ _ _ _
      (by norm_num [PlaybackSchedule.RealTimeRemaining])]
    simp only [PlaybackSchedule.RealTimeRemaining, sub_zero, hX]
    simp [PlaybackSlice.construct, PlaybackSchedule.RealTimeAdvance]
  refine ⟨by norm_num, by rw [h1], ?_⟩
  rw [h1]
  dsimp only
  rw [LoopingPlaybackPolicy.GetPlaybackSlice_looping_overflow _ _ _ _
    (by norm_num [PlaybackSchedule.RealTimeRemaining])]
  simp [PlaybackSchedule.RealTimeRemaining, toSizeT_zero, PlaybackSlice.construct]

/-- C5, amended: for the looping policy with rate > 0 and 0 < available in the
range of size_t, GetPlaybackSlice returns a non-empty slice of real audio
(0 < frames = toProduce) whenever at least one whole frame of real time
remains in the pass (R * rate ≥ 1), and full silence (frames = available,
toProduce = 0) on a pass that holds no real time (warpedLength = warpedElapsed
= 0); at the end of a pass (R = 0 with warpedElapsed ≠ 0) it returns frames = 0,
the restart being left to RepositionPlayback.  On the region t0 = 0,
t1 = 0.0001 at rate 44100 with at least 5 available frames, each of n
consecutive rounds of GetPlaybackSlice followed by RepositionPlayback returns
frames = toProduce = 4. -/
theorem C5_looping_progress (ub : ℚ → ℕ) (mRate : ℚ) (schedule : PlaybackSchedule)
    (available : ℕ) (hrate : 0 < mRate) (hav0 : 0 < available)
    (hav : available < sizeTRange) :
    (1 ≤ (schedule.mWarpedLength - schedule.mWarpedTime) * mRate →
      0 < (LoopingPlaybackPolicy.GetPlaybackSlice ub mRate schedule available).1.frames ∧
      (LoopingPlaybackPolicy.GetPlaybackSlice ub mRate schedule available).1.toProduce
        = (LoopingPlaybackPolicy.GetPlaybackSlice ub mRate schedule
            available).1.frames) ∧
    (schedule.mWarpedLength = 0 → schedule.mWarpedTime = 0 →
      (LoopingPlaybackPolicy.GetPlaybackSlice ub mRate schedule available).1.frames
        = available ∧
      (LoopingPlaybackPolicy.GetPlaybackSlice ub mRate schedule available).1.toProduce
        = 0) ∧
    (schedule.mWarpedLength - schedule.mWarpedTime = 0 → schedule.mWarpedTime ≠ 0 →
      (LoopingPlaybackPolicy.GetPlaybackSlice ub mRate schedule available).1.frames
        = 0) ∧
    (mRate = 44100 → schedule.mWarpedLength = 1 / 10000 → schedule.mWarpedTime = 0 →
      5 ≤ available → ∀ n : ℕ,
        LoopingPlaybackPolicy.rounds ub mRate available n schedule
          = List.replicate n { frames := 4, toProduce := 4 }) := by
  have havq : (available : ℚ) < (sizeTRange : ℚ) := by exact_mod_cast hav
  have hav0q : (0 : ℚ) < (available : ℚ) := by exact_mod_cast hav0
  have hRdef : schedule.RealTimeRemaining
      = schedule.mWarpedLength - schedule.mWarpedTime := rfl
  refine ⟨?_, ?_, ?_, ?_⟩
  · intro hframe
    by_cases hover : (available : ℚ) / mRate > schedule.RealTimeRemaining
    · rw [LoopingPlaybackPolicy.GetPlaybackSlice_looping_overflow ub mRate schedule available
        hover, hRdef]
      set R := schedule.mWarpedLength - schedule.mWarpedTime with hRR
      have hXa : R * mRate < (available : ℚ) := (lt_div_iff₀ hrate).mp hover
      have hfX : toSizeT ub (R * mRate) = ⌊R * mRate⌋₊ :=
        toSizeT_of_nonneg ub (le_trans zero_le_one hframe) (lt_trans hXa havq)
      have hpos : 1 ≤ ⌊R * mRate⌋₊ := Nat.le_floor (by simpa using hframe)
      have hne : ¬ (⌊R * mRate⌋₊ = 0 ∧ schedule.mWarpedTime + R = 0) := by
        intro hc
        omega
      rw [hfX, if_neg hne]
      simp only [PlaybackSlice.construct]
      omega
    · rw [LoopingPlaybackPolicy.GetPlaybackSlice_looping_within ub mRate schedule available
        hav0 hover]
      simp only [PlaybackSlice.construct]
      omega
  · intro hlen hel
    have hR : schedule.RealTimeRemaining = 0 := by rw [hRdef, hlen, hel, sub_zero]
    have hover : (available : ℚ) / mRate > schedule.RealTimeRemaining := by
      rw [hR]
      exact div_pos hav0q hrate
    rw [LoopingPlaybackPolicy.GetPlaybackSlice_looping_overflow ub mRate schedule available
      hover, hR]
    simp [toSizeT_zero, hel, PlaybackSlice.construct]
  · intro hR0 hne
    have hR : schedule.RealTimeRemaining = 0 := hR0
    have hover : (available : ℚ) / mRate > schedule.RealTimeRemaining := by
      rw [hR]
      exact div_pos hav0q hrate
    rw [LoopingPlaybackPolicy.GetPlaybackSlice_looping_overflow ub mRate schedule available
      hover, hR]
    simp [toSizeT_zero, hne, PlaybackSlice.construct]
  · intro hr hlen hel hav5 n
    rw [hr]
    exact LoopingPlaybackPolicy.rounds_short_region ub available hav5 n schedule
      hlen hel

/-- C5, amended, on the region of 0.0001 s at 44100 Hz with 512 available
frames: at the start of a pass, on an empty pass, at the end of a pass, and
over 100 rounds. -/
theorem C5_looping_progress_witness :
    (0 < (LoopingPlaybackPolicy.GetPlaybackSlice (fun _ => 0) 44100
        { mT0 := 0, mT1 := 1 / 10000, mWarpedLength := 1 / 10000 } 512).1.frames ∧
      (LoopingPlaybackPolicy.GetPlaybackSlice (fun _ => 0) 44100
        { mT0 := 0, mT1 := 1 / 10000, mWarpedLength := 1 / 10000 } 512).1.toProduce
        = (LoopingPlaybackPolicy.GetPlaybackSlice (fun _ => 0) 44100
            { mT0 := 0, mT1 := 1 / 10000, mWarpedLength := 1 / 10000 } 512).1.frames) ∧
    ((LoopingPlaybackPolicy.GetPlaybackSlice (fun _ => 0) 44100
        { mT0 := 2, mT1 := 2 } 512).1.frames = 512 ∧
      (LoopingPlaybackPolicy.GetPlaybackSlice (fun _ => 0) 44100
        { mT0 := 2, mT1 := 2 } 512).1.toProduce = 0) ∧
    (LoopingPlaybackPolicy.GetPlaybackSlice (fun _ => 0) 44100
        { mT0 := 0, mT1 := 1 / 10000, mWarpedLength := 1 / 10000,
          mWarpedTime := 1 / 10000 } 512).1.frames = 0 ∧
    LoopingPlaybackPolicy.rounds (fun _ => 0) 44100 512 100
        { mT0 := 0, mT1 := 1 / 10000, mWarpedLength := 1 / 10000 }
      = List.replicate 100 { frames := 4, toProduce := 4 } :=
  ⟨(C5_looping_progress (fun _ => 0) 44100
      { mT0 := 0, mT1 := 1 / 10000, mWarpedLength := 1 / 10000 } 512
      (by norm_num) (by norm_num) (by norm_num [sizeTRange])).1 (by norm_num),
   (C5_looping_progress (fun _ => 0) 44100 { mT0 := 2, mT1 := 2 } 512
      (by norm_num) (by norm_num) (by norm_num [sizeTRange])).2.1 rfl rfl,
   (C5_looping_progress (fun _ => 0) 44100
      { mT0 := 0, mT1 := 1 / 10000, mWarpedLength := 1 / 10000,
        mWarpedTime := 1 / 10000 } 512
      (by norm_num) (by norm_num) (by norm_num [sizeTRange])).2.2.1
      (by norm_num) (by norm_num),
   (C5_looping_progress (fun _ => 0) 44100
      { mT0 := 0, mT1 := 1 / 10000, mWarpedLength := 1 / 10000 } 512
      (by norm_num) (by norm_num) (by norm_num [sizeTRange])).2.2.2 rfl rfl rfl
      (by norm_num) 100⟩

/-- C6: for the looping policy with rate > 0, on a pass that holds no samples
(warpedLength = 0 and warpedElapsed = 0), GetPlaybackSlice with available > 0
returns toProduce = 0 and frames = available, and warpedElapsed is still 0. -/
theorem C6_looping_empty_pass_silence (ub : ℚ → ℕ) (mRate : ℚ)
    (schedule : PlaybackSchedule) (available : ℕ) (hrate : 0 < mRate)
    (hlen : schedule.mWarpedLength = 0) (hel : schedule.mWarpedTime = 0)
    (hav : 0 < available) :
    (LoopingPlaybackPolicy.GetPlaybackSlice ub mRate schedule available).1.toProduce = 0 ∧
    (LoopingPlaybackPolicy.GetPlaybackSlice ub mRate schedule available).1.frames
      = available ∧
    (LoopingPlaybackPolicy.GetPlaybackSlice ub mRate schedule available).2.mWarpedTime
      = 0 := by
  have hR : schedule.RealTimeRemaining = 0 := by
    simp [PlaybackSchedule.RealTimeRemaining, hlen, hel]
  have hd : (available : ℚ) / mRate > schedule.RealTimeRemaining := by
    rw [hR]
    exact div_pos (by exact_mod_cast hav) hrate
  unfold LoopingPlaybackPolicy.GetPlaybackSlice
  dsimp only
  rw [if_pos hd, hR]
  simp [toSizeT_zero, PlaybackSchedule.RealTimeAdvance, hel, PlaybackSlice.construct]

/-- C6 on the empty region t0 = t1 = 2 at 44100 Hz with 512 available
frames. -/
theorem C6_looping_empty_pass_silence_witness :
    (LoopingPlaybackPolicy.GetPlaybackSlice (fun _ => 0) 44100
        { mT0 := 2, mT1 := 2 } 512).1.toProduce = 0 ∧
    (LoopingPlaybackPolicy.GetPlaybackSlice (fun _ => 0) 44100
        { mT0 := 2, mT1 := 2 } 512).1.frames = 512 ∧
    (LoopingPlaybackPolicy.GetPlaybackSlice (fun _ => 0) 44100
        { mT0 := 2, mT1 := 2 } 512).2.mWarpedTime = 0 :=
  C6_looping_empty_pass_silence (fun _ => 0) 44100 { mT0 := 2, mT1 := 2 } 512
    (by norm_num) rfl rfl (by norm_num)

/-! ## Completion -/

/-- C8: the default policy's Done is true exactly when no output frames remain
and floor(d * rate + 0.5) ≥ 0, where d is the current track time minus t1,
negated when t1 < t0; that floor is ≥ 0 exactly when d * rate ≥ -0.5; Done is
true when the track time equals t1 and no output frames remain, and false
whenever output frames remain. -/
theorem C8_default_done (mRate : ℚ) (schedule : PlaybackSchedule) (outputFrames : ℕ) :
    (PlaybackPolicy.Done mRate schedule outputFrames = true ↔
      outputFrames = 0 ∧
        0 ≤ ⌊(if schedule.mT1 < schedule.mT0 then -(schedule.mTime - schedule.mT1)
              else schedule.mTime - schedule.mT1) * mRate + 1 / 2⌋) ∧
    (0 ≤ ⌊(if schedule.mT1 < schedule.mT0 then -(schedule.mTime - schedule.mT1)
              else schedule.mTime - schedule.mT1) * mRate + 1 / 2⌋ ↔
      -(1 / 2) ≤ (if schedule.mT1 < schedule.mT0 then -(schedule.mTime - schedule.mT1)
              else schedule.mTime - schedule.mT1) * mRate) ∧
    PlaybackPolicy.Done mRate { schedule with mTime := schedule.mT1 } 0 = true ∧
    PlaybackPolicy.Done mRate schedule (outputFrames + 1) = false := by
  refine ⟨?_, ?_, ?_, ?_⟩
  · unfold PlaybackPolicy.Done sampleCount
    simp only [truncate_intCast, PlaybackSchedule.GetTrackTime,
      PlaybackSchedule.ReversedTime]
    by_cases hrev : schedule.mT1 < schedule.mT0
    · simp [hrev, and_comm]
    · simp [hrev, and_comm]
  · rw [Int.floor_nonneg]
    constructor <;> intro h <;> linarith
  · unfold PlaybackPolicy.Done sampleCount
    simp only [truncate_intCast, PlaybackSchedule.GetTrackTime,
      PlaybackSchedule.ReversedTime]
    have h0 : (⌊(2⁻¹ : ℚ)⌋ : ℤ) = 0 := by
      rw [Int.floor_eq_iff]; norm_num
    by_cases hrev : schedule.mT1 < schedule.mT0
    · simp [hrev, h0]
    · simp [hrev, h0]
  · simp [PlaybackPolicy.Done]

/-- C9: the looping policy's Done is false for every schedule and every count
of output frames, and its Looping query is true, also through the dispatch on
the class of the policy. -/
theorem C9_looping_never_done (schedule : PlaybackSchedule) (outputFrames : ℕ) :
    LoopingPlaybackPolicy.Done schedule outputFrames = false ∧
    LoopingPlaybackPolicy.Looping schedule = true ∧
    PolicyClass.LoopingPlaybackPolicy.Looping schedule = true :=
  ⟨rfl, rfl, rfl⟩

/-! ## AdvancedTrackTime -/

/-- C10: for every schedule with |t0 - t1| < 1e-9, AdvancedTrackTime returns
t0 for every time, realElapsed and speed, with or without an envelope and
whatever the policy, and it does so with no fuel at all, that is, without a
pass of either loop. -/
theorem C10_degenerate_region_guard (s : PlaybackSchedule) (fuel : ℕ)
    (time realElapsed speed : ℚ) (h : |s.mT0 - s.mT1| < 1 / 1000000000) :
    s.AdvancedTrackTime fuel time realElapsed speed = some s.mT0 ∧
    s.AdvancedTrackTime 0 time realElapsed speed = some s.mT0 := by
  unfold PlaybackSchedule.AdvancedTrackTime
  dsimp only
  constructor <;> rw [if_pos h]

/-- C10 on the point region t0 = t1 = 3 with an envelope and the looping
policy, with fuel 7 and with fuel 0. -/
theorem C10_degenerate_region_guard_witness :
    ({ mT0 := 3, mT1 := 3,
       mEnvelope := some { IntegralOfInverse := fun a b => (b - a) / 2,
                           SolveIntegralOfInverse := fun a l => a + 2 * l },
       mpPlaybackPolicy := some PolicyClass.LoopingPlaybackPolicy,
       mPolicyValid := true } : PlaybackSchedule).AdvancedTrackTime 7 3 1 1 = some 3 ∧
    ({ mT0 := 3, mT1 := 3,
       mEnvelope := some { IntegralOfInverse := fun a b => (b - a) / 2,
                           SolveIntegralOfInverse := fun a l => a + 2 * l },
       mpPlaybackPolicy := some PolicyClass.LoopingPlaybackPolicy,
       mPolicyValid := true } : PlaybackSchedule).AdvancedTrackTime 0 3 1 1 = some 3 :=
  C10_degenerate_region_guard
    { mT0 := 3, mT1 := 3,
      mEnvelope := some { IntegralOfInverse := fun a b => (b - a) / 2,
                          SolveIntegralOfInverse := fun a l => a + 2 * l },
      mpPlaybackPolicy := some PolicyClass.LoopingPlaybackPolicy,
      mPolicyValid := true } 7 3 1 1 (by norm_num)

/-! ## Linear advance -/

/-- Without an envelope, outside the degenerate region and under a policy that
does not loop, `AdvancedTrackTime` is the linear advance, for any fuel. -/
theorem PlaybackSchedule.AdvancedTrackTime_linear (s : PlaybackSchedule) (fuel : ℕ)
    (time realElapsed speed : ℚ) (henv : s.mEnvelope = none)
    (hlen : 1 / 1000000000 ≤ |s.mT0 - s.mT1|)
    (hloop : s.GetPolicy.Looping s = false) :
    s.AdvancedTrackTime fuel time realElapsed speed =
      some (time + (if s.ReversedTime then realElapsed * (-1) else realElapsed)
        * |speed|) := by
  unfold PlaybackSchedule.AdvancedTrackTime
  dsimp only
  rw [if_neg (not_lt.mpr hlen), henv, hloop]
  simp

/-- The wrap loop leaves after exactly `k` passes when the time overruns
before each of them and no longer after the last; `k` units of fuel are
enough. -/
theorem PlaybackSchedule.wrapWhileOverruns_exit (s : PlaybackSchedule) (k : ℕ) :
    ∀ (fuel : ℕ) (x : ℚ), k ≤ fuel →
      (∀ j : ℕ, j < k → s.Overruns (x - j * (s.mT1 - s.mT0)) = true) →
      s.Overruns (x - k * (s.mT1 - s.mT0)) = false →
      s.wrapWhileOverruns fuel x = some (x - k * (s.mT1 - s.mT0)) := by
  induction k with
  | zero =>
    intro fuel x _ _ hout
    have hx : s.Overruns x = false := by simpa using hout
    unfold PlaybackSchedule.wrapWhileOverruns
    simp [hx]
  | succ k ih =>
    intro fuel x hfuel hin hout
    have h0 : s.Overruns x = true := by simpa using hin 0 (Nat.succ_pos k)
    obtain ⟨f, rfl⟩ : ∃ f, fuel = f + 1 := ⟨fuel - 1, by omega⟩
    have hstep : ∀ j : ℕ, x - (s.mT1 - s.mT0) - j * (s.mT1 - s.mT0)
        = x - ((j + 1 : ℕ) : ℚ) * (s.mT1 - s.mT0) := by
      intro j
      push_cast
      ring
    have hrec := ih f (x - (s.mT1 - s.mT0)) (by omega)
      (by
        intro j hj
        rw [hstep]
        exact hin (j + 1) (by omega))
      (by rw [hstep]; exact hout)
    unfold PlaybackSchedule.wrapWhileOverruns
    simp only [h0, if_true]
    rw [hrec, hstep]

/-- Forward wrap: from a time at or after t0, the loop subtracts the region
length `k` times and ends in [t0, t1). -/
theorem PlaybackSchedule.wrapWhileOverruns_forward (s : PlaybackSchedule) (x : ℚ)
    (hdir : s.mT0 < s.mT1) (hx : s.mT0 ≤ x) :
    ∃ k : ℕ, (∀ fuel, k ≤ fuel →
        s.wrapWhileOverruns fuel x = some (x - k * (s.mT1 - s.mT0))) ∧
      s.mT0 ≤ x - k * (s.mT1 - s.mT0) ∧ x - k * (s.mT1 - s.mT0) < s.mT1 := by
  have hd : 0 < s.mT1 - s.mT0 := sub_pos.mpr hdir
  have hq : 0 ≤ (x - s.mT0) / (s.mT1 - s.mT0) := div_nonneg (sub_nonneg.mpr hx) hd.le
  have hfl : ((⌊(x - s.mT0) / (s.mT1 - s.mT0)⌋₊ : ℕ) : ℚ) * (s.mT1 - s.mT0)
      ≤ x - s.mT0 := (le_div_iff₀ hd).mp (Nat.floor_le hq)
  have hfu : x - s.mT0
      < ((⌊(x - s.mT0) / (s.mT1 - s.mT0)⌋₊ : ℕ) + 1 : ℚ) * (s.mT1 - s.mT0) :=
    (div_lt_iff₀ hd).mp (Nat.lt_floor_add_one _)
  have hov : ∀ y : ℚ, s.Overruns y = decide (s.mT1 ≤ y) := by
    intro y
    simp [PlaybackSchedule.Overruns, PlaybackSchedule.ReversedTime, hdir.le]
  refine ⟨⌊(x - s.mT0) / (s.mT1 - s.mT0)⌋₊, ?_, by linarith, by linarith⟩
  intro fuel hfuel
  apply PlaybackSchedule.wrapWhileOverruns_exit s _ fuel x hfuel
  · intro j hj
    rw [hov, decide_eq_true_eq]
    have hj1 : ((j : ℚ) + 1) ≤ ((⌊(x - s.mT0) / (s.mT1 - s.mT0)⌋₊ : ℕ) : ℚ) := by
      exact_mod_cast hj
    have hj2 := mul_le_mul_of_nonneg_right hj1 hd.le
    have hj3 : ((j : ℚ) + 1) * (s.mT1 - s.mT0)
        = j * (s.mT1 - s.mT0) + (s.mT1 - s.mT0) := by ring
    rw [hj3] at hj2
    linarith
  · rw [hov, decide_eq_false_iff_not, not_le]
    linarith

/-- Reversed wrap: from a time at or before t0, the loop adds the region
length `k` times and ends in (t1, t0]. -/
theorem PlaybackSchedule.wrapWhileOverruns_reversed (s : PlaybackSchedule) (x : ℚ)
    (hdir : s.mT1 < s.mT0) (hx : x ≤ s.mT0) :
    ∃ k : ℕ, (∀ fuel, k ≤ fuel →
        s.wrapWhileOverruns fuel x = some (x - k * (s.mT1 - s.mT0))) ∧
      s.mT1 < x - k * (s.mT1 - s.mT0) ∧ x - k * (s.mT1 - s.mT0) ≤ s.mT0 := by
  have hd : 0 < s.mT0 - s.mT1 := sub_pos.mpr hdir
  have hq : 0 ≤ (s.mT0 - x) / (s.mT0 - s.mT1) := div_nonneg (sub_nonneg.mpr hx) hd.le
  have hfl : ((⌊(s.mT0 - x) / (s.mT0 - s.mT1)⌋₊ : ℕ) : ℚ) * (s.mT0 - s.mT1)
      ≤ s.mT0 - x := (le_div_iff₀ hd).mp (Nat.floor_le hq)
  have hfu : s.mT0 - x
      < ((⌊(s.mT0 - x) / (s.mT0 - s.mT1)⌋₊ : ℕ) + 1 : ℚ) * (s.mT0 - s.mT1) :=
    (div_lt_iff₀ hd).mp (Nat.lt_floor_add_one _)
  have hov : ∀ y : ℚ, s.Overruns y = decide (y ≤ s.mT1) := by
    intro y
    simp [PlaybackSchedule.Overruns, PlaybackSchedule.ReversedTime, hdir]
  refine ⟨⌊(s.mT0 - x) / (s.mT0 - s.mT1)⌋₊, ?_, by linarith, by linarith⟩
  intro fuel hfuel
  apply PlaybackSchedule.wrapWhileOverruns_exit s _ fuel x hfuel
  · intro j hj
    rw [hov, decide_eq_true_eq]
    have hj1 : ((j : ℚ) + 1) ≤ ((⌊(s.mT0 - x) / (s.mT0 - s.mT1)⌋₊ : ℕ) : ℚ) := by
      exact_mod_cast hj
    have hj2 := mul_le_mul_of_nonneg_right hj1 hd.le
    have hj3 : ((j : ℚ) + 1) * (s.mT0 - s.mT1)
        = -(j * (s.mT1 - s.mT0)) + (s.mT0 - s.mT1) := by ring
    rw [hj3] at hj2
    linarith
  · rw [hov, decide_eq_false_iff_not, not_le]
    linarith

/-- Without an envelope, outside the degenerate region and under a looping
policy, `AdvancedTrackTime` is the wrap loop run on the linear advance. -/
theorem PlaybackSchedule.AdvancedTrackTime_wrap (s : PlaybackSchedule) (fuel : ℕ)
    (time realElapsed speed : ℚ) (henv : s.mEnvelope = none)
    (hlen : 1 / 1000000000 ≤ |s.mT0 - s.mT1|)
    (hloop : s.GetPolicy.Looping s = true) :
    s.AdvancedTrackTime fuel time realElapsed speed =
      s.wrapWhileOverruns fuel
        (time + (if s.ReversedTime then realElapsed * (-1) else realElapsed)
          * |speed|) := by
  unfold PlaybackSchedule.AdvancedTrackTime
  dsimp only
  rw [if_neg (not_lt.mpr hlen), henv, hloop]
  simp

/-! ## Advance along an envelope -/

/-- With an envelope and outside the degenerate region, `AdvancedTrackTime` is
the envelope loop started without a memoized total. -/
theorem PlaybackSchedule.AdvancedTrackTime_envelope (s : PlaybackSchedule)
    (env : BoundedEnvelope) (fuel : ℕ) (time realElapsed speed : ℚ)
    (henv : s.mEnvelope = some env) (hlen : 1 / 1000000000 ≤ |s.mT0 - s.mT1|) :
    s.AdvancedTrackTime fuel time realElapsed speed =
      s.envelopeLoop (s.GetPolicy.Looping s) fuel time
        (if s.ReversedTime then realElapsed * (-1) else realElapsed) 0 false := by
  unfold PlaybackSchedule.AdvancedTrackTime
  dsimp only
  rw [if_neg (not_lt.mpr hlen), henv]

/-- C13: for a schedule with a warp envelope, |t0 - t1| ≥ 1e-9 and speed = 1,
with e the realElapsed negated when reversed: if the policy does not loop or
SolveWarpedLength(time, e) does not overrun, AdvancedTrackTime(time,
realElapsed, 1) = SolveWarpedLength(time, e) (one pass of the loop); if it
loops and that result overruns, the loop restarts from t0 with the remaining
budget e - ComputeWarpedLength(time, t1), a state in which the solved time no
longer occurs, memoizing that length when time = t0; and every later pass from
t0 either returns a time that does not overrun or restarts from t0 with the
budget less ComputeWarpedLength(t0, t1). -/
theorem C13_envelope_advance (s : PlaybackSchedule) (env : BoundedEnvelope)
    (fuel : ℕ) (time realElapsed : ℚ) (henv : s.mEnvelope = some env)
    (hlen : 1 / 1000000000 ≤ |s.mT0 - s.mT1|) :
    ((s.GetPolicy.Looping s = false ∨
        s.Overruns (s.SolveWarpedLength time
          (if s.ReversedTime then realElapsed * (-1) else realElapsed)) = false) →
      s.AdvancedTrackTime (fuel + 1) time realElapsed 1
        = some (s.SolveWarpedLength time
            (if s.ReversedTime then realElapsed * (-1) else realElapsed))) ∧
    (s.GetPolicy.Looping s = true →
      s.Overruns (s.SolveWarpedLength time
          (if s.ReversedTime then realElapsed * (-1) else realElapsed)) = true →
      s.AdvancedTrackTime (fuel + 1) time realElapsed 1
        = s.envelopeLoop true fuel s.mT0
            ((if s.ReversedTime then realElapsed * (-1) else realElapsed)
              - s.ComputeWarpedLength time s.mT1)
            (if time = s.mT0 then s.ComputeWarpedLength time s.mT1 else 0)
            (decide (time = s.mT0))) ∧
    (s.GetPolicy.Looping s = true →
      s.Overruns (s.SolveWarpedLength time
          (if s.ReversedTime then realElapsed * (-1) else realElapsed)) = true →
      time ≠ s.mT0 →
      s.AdvancedTrackTime (fuel + 1) time realElapsed 1
        = s.AdvancedTrackTime fuel s.mT0
            (if s.ReversedTime then realElapsed + s.ComputeWarpedLength time s.mT1
              else realElapsed - s.ComputeWarpedLength time s.mT1) 1) ∧
    (∀ (budget total : ℚ) (foundTotal : Bool),
      (foundTotal = true → total = s.ComputeWarpedLength s.mT0 s.mT1) →
      s.envelopeLoop true (fuel + 1) s.mT0 budget total foundTotal
        = if s.Overruns (if foundTotal && decide (|budget| > |total|) then s.mT1
              else s.SolveWarpedLength s.mT0 budget) = true then
            s.envelopeLoop true fuel s.mT0
              (budget - s.ComputeWarpedLength s.mT0 s.mT1)
              (s.ComputeWarpedLength s.mT0 s.mT1) true
          else
            some (if foundTotal && decide (|budget| > |total|) then s.mT1
              else s.SolveWarpedLength s.mT0 budget)) := by
  have hpass : ∀ e : ℚ, s.Overruns (s.SolveWarpedLength time e) = true →
      s.envelopeLoop true (fuel + 1) time e 0 false
        = s.envelopeLoop true fuel s.mT0 (e - s.ComputeWarpedLength time s.mT1)
            (if time = s.mT0 then s.ComputeWarpedLength time s.mT1 else 0)
            (decide (time = s.mT0)) := by
    intro e hover
    rw [PlaybackSchedule.envelopeLoop]
    by_cases ht : time = s.mT0
    · subst ht
      simp [hover]
    · simp [hover, ht]
  generalize he : (if s.ReversedTime then realElapsed * (-1) else realElapsed) = e
  refine ⟨?_, ?_, ?_, ?_⟩
  · intro h
    rw [PlaybackSchedule.AdvancedTrackTime_envelope s env _ _ _ _ henv hlen, he,
      PlaybackSchedule.envelopeLoop]
    rcases h with h | h
    · simp [h]
    · simp [h]
  · intro hloop hover
    rw [PlaybackSchedule.AdvancedTrackTime_envelope s env _ _ _ _ henv hlen, he, hloop,
      hpass _ hover]
  · intro hloop hover ht
    have he2 : (if s.ReversedTime then
          (if s.ReversedTime then realElapsed + s.ComputeWarpedLength time s.mT1
            else realElapsed - s.ComputeWarpedLength time s.mT1) * (-1)
        else (if s.ReversedTime then realElapsed + s.ComputeWarpedLength time s.mT1
            else realElapsed - s.ComputeWarpedLength time s.mT1))
        = e - s.ComputeWarpedLength time s.mT1 := by
      rw [← he]
      cases hrev : s.ReversedTime
      · simp
      · simp only [if_true]
        ring
    rw [PlaybackSchedule.AdvancedTrackTime_envelope s env _ _ _ _ henv hlen,
      PlaybackSchedule.AdvancedTrackTime_envelope s env _ _ _ _ henv hlen, he, he2, hloop,
      hpass _ hover]
    simp [ht]
  · intro budget total foundTotal hmemo
    rw [PlaybackSchedule.envelopeLoop]
    cases foundTotal with
    | false =>
      cases hc : s.Overruns (s.SolveWarpedLength s.mT0 budget) <;> simp [hc]
    | true =>
      have ht : total = s.ComputeWarpedLength s.mT0 s.mT1 := hmemo rfl
      subst ht
      cases hc : s.Overruns (if |budget| > |s.ComputeWarpedLength s.mT0 s.mT1| then s.mT1
        else s.SolveWarpedLength s.mT0 budget) <;> simp [hc]

/-- C13 on the region t0 = 2, t1 = 5 with an envelope of constant speed 2
under the looping policy: from time 4 a quarter second stays inside the
region, and one second overruns, restarts from t0 and ends at 3. -/
theorem C13_envelope_advance_witness :
    doubleSpeedLoop.AdvancedTrackTime (0 + 1) 4 (1 / 4) 1
      = some (doubleSpeedLoop.SolveWarpedLength 4
          (if doubleSpeedLoop.ReversedTime then (1 / 4 : ℚ) * (-1) else 1 / 4)) ∧
    doubleSpeedLoop.AdvancedTrackTime (1 + 1) 4 1 1
      = doubleSpeedLoop.AdvancedTrackTime 1 doubleSpeedLoop.mT0
          (if doubleSpeedLoop.ReversedTime then
            1 + doubleSpeedLoop.ComputeWarpedLength 4 doubleSpeedLoop.mT1
          else 1 - doubleSpeedLoop.ComputeWarpedLength 4 doubleSpeedLoop.mT1) 1 ∧
    doubleSpeedLoop.AdvancedTrackTime 2 4 1 1 = some 3 :=
  ⟨(C13_envelope_advance doubleSpeedLoop _ 0 4 (1 / 4) rfl
      (by norm_num [doubleSpeedLoop])).1
      (Or.inr (by
        norm_num [doubleSpeedLoop, PlaybackSchedule.Overruns,
          PlaybackSchedule.ReversedTime, PlaybackSchedule.SolveWarpedLength])),
   (C13_envelope_advance doubleSpeedLoop _ 1 4 1 rfl
      (by norm_num [doubleSpeedLoop])).2.2.1 rfl
      (by
        norm_num [doubleSpeedLoop, PlaybackSchedule.Overruns,
          PlaybackSchedule.ReversedTime, PlaybackSchedule.SolveWarpedLength])
      (by norm_num [doubleSpeedLoop]),
   by
    norm_num [PlaybackSchedule.AdvancedTrackTime, PlaybackSchedule.envelopeLoop,
      doubleSpeedLoop, PlaybackSchedule.GetPolicy, PolicyClass.Looping,
      LoopingPlaybackPolicy.Looping, PlaybackSchedule.ReversedTime,
      PlaybackSchedule.Overruns, PlaybackSchedule.SolveWarpedLength,
      PlaybackSchedule.ComputeWarpedLength]⟩

/-! ## Clamping -/

/-- C14: for every t0, t1 and trackTime, ClampTrackTime(trackTime) is
trackTime clamped to [min(t0,t1), max(t0,t1)]: trackTime itself when it lies in
that interval, and the nearer bound otherwise (t0=2, t1=5: -1 gives 2, 10 gives
5, 3.5 gives 3.5; t0=5, t1=2: 10 gives 5, -1 gives 2); LimitTrackTime is
ClampTrackTime of the current track time.  Both are const member functions:
they return a time and no schedule. -/
theorem C14_clamp_track_time (s : PlaybackSchedule) (trackTime : ℚ) :
    s.ClampTrackTime trackTime
      = max (min s.mT0 s.mT1) (min (max s.mT0 s.mT1) trackTime) ∧
    (min s.mT0 s.mT1 ≤ trackTime → trackTime ≤ max s.mT0 s.mT1 →
      s.ClampTrackTime trackTime = trackTime) ∧
    (trackTime < min s.mT0 s.mT1 → s.ClampTrackTime trackTime = min s.mT0 s.mT1) ∧
    (max s.mT0 s.mT1 < trackTime → s.ClampTrackTime trackTime = max s.mT0 s.mT1) ∧
    s.LimitTrackTime = s.ClampTrackTime s.mTime ∧
    ({ mT0 := 2, mT1 := 5 } : PlaybackSchedule).ClampTrackTime (-1) = 2 ∧
    ({ mT0 := 2, mT1 := 5 } : PlaybackSchedule).ClampTrackTime 10 = 5 ∧
    ({ mT0 := 2, mT1 := 5 } : PlaybackSchedule).ClampTrackTime (7 / 2) = 7 / 2 ∧
    ({ mT0 := 5, mT1 := 2 } : PlaybackSchedule).ClampTrackTime 10 = 5 ∧
    ({ mT0 := 5, mT1 := 2 } : PlaybackSchedule).ClampTrackTime (-1) = 2 := by
  have key : ∀ (u : PlaybackSchedule) (x : ℚ),
      u.ClampTrackTime x = max (min u.mT0 u.mT1) (min (max u.mT0 u.mT1) x) := by
    intro u x
    unfold PlaybackSchedule.ClampTrackTime PlaybackSchedule.ReversedTime
    by_cases h : u.mT1 < u.mT0
    · simp [h, min_eq_right h.le, max_eq_left h.le]
    · have h' : u.mT0 ≤ u.mT1 := not_lt.mp h
      simp [h, min_eq_left h', max_eq_right h']
  have hmm : min s.mT0 s.mT1 ≤ max s.mT0 s.mT1 := le_trans (min_le_left _ _) (le_max_left _ _)
  refine ⟨key s trackTime, ?_, ?_, ?_, rfl, ?_, ?_, ?_, ?_, ?_⟩
  · intro h1 h2
    rw [key, min_eq_right h2, max_eq_right h1]
  · intro h1
    rw [key, min_eq_right (le_trans h1.le hmm), max_eq_left h1.le]
  · intro h1
    rw [key, min_eq_left h1.le, max_eq_right hmm]
  all_goals (rw [key]; norm_num)

/-- C14 at t0 = 2, t1 = 5: 3 lies inside, 0 below and 9 above the region. -/
theorem C14_clamp_track_time_witness :
    ({ mT0 := 2, mT1 := 5 } : PlaybackSchedule).ClampTrackTime 3 = 3 ∧
    ({ mT0 := 2, mT1 := 5 } : PlaybackSchedule).ClampTrackTime 0 = min 2 5 ∧
    ({ mT0 := 2, mT1 := 5 } : PlaybackSchedule).ClampTrackTime 9 = max 2 5 :=
  ⟨(C14_clamp_track_time { mT0 := 2, mT1 := 5 } 3).2.1 (by norm_num) (by norm_num),
   (C14_clamp_track_time { mT0 := 2, mT1 := 5 } 0).2.2.1 (by norm_num),
   (C14_clamp_track_time { mT0 := 2, mT1 := 5 } 9).2.2.2.1 (by norm_num)⟩

/-- C15: for every schedule and trackTime, Overruns(trackTime) is true exactly
when trackTime ≥ t1 if t0 ≤ t1, and exactly when trackTime ≤ t1 if t1 < t0; for
t0 = 5, t1 = 2, Overruns(2) is true and Overruns(3) is false. -/
theorem C15_overruns (s : PlaybackSchedule) (trackTime : ℚ) :
    (s.mT0 ≤ s.mT1 → (s.Overruns trackTime = true ↔ s.mT1 ≤ trackTime)) ∧
    (s.mT1 < s.mT0 → (s.Overruns trackTime = true ↔ trackTime ≤ s.mT1)) ∧
    ({ mT0 := 5, mT1 := 2 } : PlaybackSchedule).Overruns 2 = true ∧
    ({ mT0 := 5, mT1 := 2 } : PlaybackSchedule).Overruns 3 = false := by
  refine ⟨?_, ?_, ?_, ?_⟩
  · intro h
    simp [PlaybackSchedule.Overruns, PlaybackSchedule.ReversedTime, not_lt.mpr h]
  · intro h
    simp [PlaybackSchedule.Overruns, PlaybackSchedule.ReversedTime, h]
  · simp [PlaybackSchedule.Overruns, PlaybackSchedule.ReversedTime]
  · simp [PlaybackSchedule.Overruns, PlaybackSchedule.ReversedTime]
    norm_num

/-- C15 on the forward schedule t0 = 2, t1 = 5 at 6 and on the reversed
schedule t0 = 5, t1 = 2 at 1. -/
theorem C15_overruns_witness :
    (({ mT0 := 2, mT1 := 5 } : PlaybackSchedule).Overruns 6 = true ↔ (5 : ℚ) ≤ 6) ∧
    (({ mT0 := 5, mT1 := 2 } : PlaybackSchedule).Overruns 1 = true ↔ (1 : ℚ) ≤ 2) :=
  ⟨(C15_overruns { mT0 := 2, mT1 := 5 } 6).1 (by norm_num),
   (C15_overruns { mT0 := 5, mT1 := 2 } 1).2.1 (by norm_num)⟩

/-- C16: NormalizeTrackTime returns c = ClampTrackTime(currentTrackTime) when
cutPreviewGapLen ≤ 0 or c ≤ cutPreviewGapStart, and c + cutPreviewGapLen when
cutPreviewGapLen > 0 and c > cutPreviewGapStart; it leaves the schedule as it
was. -/
theorem C16_normalize_track_time (schedule : PlaybackSchedule) :
    ((schedule.mCutPreviewGapLen ≤ 0 ∨
        schedule.ClampTrackTime schedule.mTime ≤ schedule.mCutPreviewGapStart) →
      (PlaybackPolicy.NormalizeTrackTime schedule).1
        = schedule.ClampTrackTime schedule.mTime) ∧
    (0 < schedule.mCutPreviewGapLen →
      schedule.mCutPreviewGapStart < schedule.ClampTrackTime schedule.mTime →
      (PlaybackPolicy.NormalizeTrackTime schedule).1
        = schedule.ClampTrackTime schedule.mTime + schedule.mCutPreviewGapLen) ∧
    (PlaybackPolicy.NormalizeTrackTime schedule).2 = schedule := by
  refine ⟨?_, ?_, rfl⟩
  · intro h
    unfold PlaybackPolicy.NormalizeTrackTime PlaybackSchedule.LimitTrackTime
      PlaybackSchedule.GetTrackTime
    dsimp only
    rcases h with h | h
    · rw [if_neg (not_lt.mpr h)]
    · split
      · rw [if_neg (not_lt.mpr h)]
      · rfl
  · intro h1 h2
    unfold PlaybackPolicy.NormalizeTrackTime PlaybackSchedule.LimitTrackTime
      PlaybackSchedule.GetTrackTime
    dsimp only
    rw [if_pos h1, if_pos h2]

/-- C16 on t0 = 2, t1 = 5 with a gap of 1 s at 3: at track time 5/2, before
the gap, and at track time 4, past its start. -/
theorem C16_normalize_track_time_witness :
    (PlaybackPolicy.NormalizeTrackTime
        { mT0 := 2, mT1 := 5, mTime := 5 / 2, mCutPreviewGapStart := 3,
          mCutPreviewGapLen := 1 }).1
      = ({ mT0 := 2, mT1 := 5, mTime := 5 / 2, mCutPreviewGapStart := 3,
           mCutPreviewGapLen := 1 } : PlaybackSchedule).ClampTrackTime (5 / 2) ∧
    (PlaybackPolicy.NormalizeTrackTime
        { mT0 := 2, mT1 := 5, mTime := 4, mCutPreviewGapStart := 3,
          mCutPreviewGapLen := 1 }).1
      = ({ mT0 := 2, mT1 := 5, mTime := 4, mCutPreviewGapStart := 3,
           mCutPreviewGapLen := 1 } : PlaybackSchedule).ClampTrackTime 4 + 1 :=
  ⟨(C16_normalize_track_time
      { mT0 := 2, mT1 := 5, mTime := 5 / 2, mCutPreviewGapStart := 3,
        mCutPreviewGapLen := 1 }).1
      (Or.inr (by norm_num [PlaybackSchedule.ClampTrackTime,
        PlaybackSchedule.ReversedTime])),
   (C16_normalize_track_time
      { mT0 := 2, mT1 := 5, mTime := 4, mCutPreviewGapStart := 3,
        mCutPreviewGapLen := 1 }).2.1 (by norm_num)
      (by norm_num [PlaybackSchedule.ClampTrackTime, PlaybackSchedule.ReversedTime])⟩

/-! ## Warped lengths -/

/-- C17: without an envelope, ComputeWarpedLength(t0, t1) = t1 - t0, which is
negative when t1 < t0, and SolveWarpedLength(t0, length) = t0 + length, and
the two are exact inverses of each other. -/
theorem C17_identity_warp (s : PlaybackSchedule) (t0 t1 length : ℚ)
    (henv : s.mEnvelope = none) :
    s.ComputeWarpedLength t0 t1 = t1 - t0 ∧
    (t1 < t0 → s.ComputeWarpedLength t0 t1 < 0) ∧
    s.SolveWarpedLength t0 length = t0 + length ∧
    s.SolveWarpedLength t0 (s.ComputeWarpedLength t0 t1) = t1 ∧
    s.ComputeWarpedLength t0 (s.SolveWarpedLength t0 length) = length := by
  simp only [PlaybackSchedule.ComputeWarpedLength, PlaybackSchedule.SolveWarpedLength,
    henv]
  refine ⟨trivial, ?_, trivial, ?_, ?_⟩
  · intro h
    linarith
  · ring
  · ring

/-- C17 on the reversed bounds t0 = 5, t1 = 2 with length 3/2. -/
theorem C17_identity_warp_witness :
    ({ mT0 := 5, mT1 := 2 } : PlaybackSchedule).ComputeWarpedLength 5 2 = 2 - 5 ∧
    ({ mT0 := 5, mT1 := 2 } : PlaybackSchedule).ComputeWarpedLength 5 2 < 0 ∧
    ({ mT0 := 5, mT1 := 2 } : PlaybackSchedule).SolveWarpedLength 5 (3 / 2)
      = 5 + 3 / 2 ∧
    ({ mT0 := 5, mT1 := 2 } : PlaybackSchedule).SolveWarpedLength 5
      (({ mT0 := 5, mT1 := 2 } : PlaybackSchedule).ComputeWarpedLength 5 2) = 2 ∧
    ({ mT0 := 5, mT1 := 2 } : PlaybackSchedule).ComputeWarpedLength 5
      (({ mT0 := 5, mT1 := 2 } : PlaybackSchedule).SolveWarpedLength 5 (3 / 2))
      = 3 / 2 :=
  ⟨(C17_identity_warp { mT0 := 5, mT1 := 2 } 5 2 (3 / 2) rfl).1,
   (C17_identity_warp { mT0 := 5, mT1 := 2 } 5 2 (3 / 2) rfl).2.1 (by norm_num),
   (C17_identity_warp { mT0 := 5, mT1 := 2 } 5 2 (3 / 2) rfl).2.2.1,
   (C17_identity_warp { mT0 := 5, mT1 := 2 } 5 2 (3 / 2) rfl).2.2.2.1,
   (C17_identity_warp { mT0 := 5, mT1 := 2 } 5 2 (3 / 2) rfl).2.2.2.2⟩

/-- C18: when the envelope of the schedule, if it has one, keeps the round-trip
contract of an envelope implementation, ComputeWarpedLength and
SolveWarpedLength are exact inverses of each other:
SolveWarpedLength(t0, ComputeWarpedLength(t0, t1)) = t1 and
ComputeWarpedLength(t0, SolveWarpedLength(t0, length)) = length. -/
theorem C18_warp_round_trip (s : PlaybackSchedule) (t0 t1 length : ℚ)
    (hcontract : ∀ env, s.mEnvelope = some env → env.RoundTrip) :
    s.SolveWarpedLength t0 (s.ComputeWarpedLength t0 t1) = t1 ∧
    s.ComputeWarpedLength t0 (s.SolveWarpedLength t0 length) = length := by
  cases henv : s.mEnvelope with
  | none =>
    simp only [PlaybackSchedule.ComputeWarpedLength, PlaybackSchedule.SolveWarpedLength,
      henv]
    constructor <;> ring
  | some env =>
    simp only [PlaybackSchedule.ComputeWarpedLength, PlaybackSchedule.SolveWarpedLength,
      henv]
    exact ⟨(hcontract env henv).1 t0 t1, (hcontract env henv).2 t0 length⟩

/-- C18 on a schedule whose envelope has constant speed 2, from 3 to 4 and
with length 1/2. -/
theorem C18_warp_round_trip_witness :
    doubleSpeedLoop.SolveWarpedLength 3 (doubleSpeedLoop.ComputeWarpedLength 3 4) = 4 ∧
    doubleSpeedLoop.ComputeWarpedLength 3 (doubleSpeedLoop.SolveWarpedLength 3 (1 / 2))
      = 1 / 2 :=
  C18_warp_round_trip doubleSpeedLoop 3 4 (1 / 2) (by
    intro env henv
    have he : env = { IntegralOfInverse := fun a b => (b - a) / 2,
                      SolveIntegralOfInverse := fun a l => a + 2 * l } := by
      simpa [doubleSpeedLoop] using henv.symm
    subst he
    constructor
    · intro a b
      show a + 2 * ((b - a) / 2) = b
      ring
    · intro a l
      show (a + 2 * l - a) / 2 = l
      ring)

/-! ## Init: the real-time accounting it leaves -/

/-- After `Init` the accumulated real time is zero. -/
theorem PlaybackSchedule.Init_mWarpedTime (s : PlaybackSchedule) (m t0 t1 : ℚ)
    (options : AudioIOStartStreamOptions) (rec : Option RecordingSchedule) :
    (s.Init m t0 t1 options rec).mWarpedTime = 0 := by
  unfold PlaybackSchedule.Init
  dsimp only
  split_ifs <;> rfl

/-- After `Init` the real length is zero when scrubbing and otherwise the
absolute value of the warped length between the stored bounds. -/
theorem PlaybackSchedule.Init_mWarpedLength (s : PlaybackSchedule) (m t0 t1 : ℚ)
    (options : AudioIOStartStreamOptions) (rec : Option RecordingSchedule) :
    (s.Init m t0 t1 options rec).mWarpedLength =
      if (s.Init m t0 t1 options rec).Scrubbing then 0
      else |(s.Init m t0 t1 options rec).ComputeWarpedLength
          (s.Init m t0 t1 options rec).mT0 (s.Init m t0 t1 options rec).mT1| := by
  unfold PlaybackSchedule.Init
  dsimp only
  split_ifs <;> first | rfl | (exfalso; simp_all [PlaybackSchedule.Scrubbing])

/-- C19: after Init, when the schedule is not scrubbing, warpedElapsed = 0 and
warpedLength = |ComputeWarpedLength(mT0, mT1)| over the stored bounds, which is
|mT1 - mT0| when no envelope is stored; hence RealTimeRemaining equals
warpedLength right after Init. -/
theorem C19_init_warped_length (s : PlaybackSchedule) (m t0 t1 : ℚ)
    (options : AudioIOStartStreamOptions) (rec : Option RecordingSchedule)
    (hscrub : (s.Init m t0 t1 options rec).Scrubbing = false) :
    (s.Init m t0 t1 options rec).mWarpedTime = 0 ∧
    (s.Init m t0 t1 options rec).mWarpedLength
      = |(s.Init m t0 t1 options rec).ComputeWarpedLength
          (s.Init m t0 t1 options rec).mT0 (s.Init m t0 t1 options rec).mT1| ∧
    ((s.Init m t0 t1 options rec).mEnvelope = none →
      (s.Init m t0 t1 options rec).mWarpedLength
        = |(s.Init m t0 t1 options rec).mT1 - (s.Init m t0 t1 options rec).mT0|) ∧
    (s.Init m t0 t1 options rec).RealTimeRemaining
      = (s.Init m t0 t1 options rec).mWarpedLength := by
  have h0 := PlaybackSchedule.Init_mWarpedTime s m t0 t1 options rec
  have h1 := PlaybackSchedule.Init_mWarpedLength s m t0 t1 options rec
  rw [hscrub] at h1
  simp only [Bool.false_eq_true, if_false] at h1
  refine ⟨h0, h1, ?_, ?_⟩
  · intro henv
    rw [h1, PlaybackSchedule.ComputeWarpedLength, henv]
  · rw [PlaybackSchedule.RealTimeRemaining, h0, sub_zero]

/-- The schedule that `Init` leaves for t0 = 1, t1 = 3 with default options
and a recording schedule of pre-roll 1/2 and latency correction -1/10: the
stored bounds are 1/2 and 31/10 and the real length is 13/5. -/
theorem PlaybackSchedule.Init_recording_example :
    (({ mT0 := 0, mT1 := 0 } : PlaybackSchedule).Init (1 / 100) 1 3 {}
        (some { mPreRoll := 1 / 2, mLatencyCorrection := -1 / 10 })).Scrubbing = false ∧
    (({ mT0 := 0, mT1 := 0 } : PlaybackSchedule).Init (1 / 100) 1 3 {}
        (some { mPreRoll := 1 / 2, mLatencyCorrection := -1 / 10 })).mT0 = 1 / 2 ∧
    (({ mT0 := 0, mT1 := 0 } : PlaybackSchedule).Init (1 / 100) 1 3 {}
        (some { mPreRoll := 1 / 2, mLatencyCorrection := -1 / 10 })).mT1 = 31 / 10 ∧
    (({ mT0 := 0, mT1 := 0 } : PlaybackSchedule).Init (1 / 100) 1 3 {}
        (some { mPreRoll := 1 / 2, mLatencyCorrection := -1 / 10 })).mEnvelope = none := by
  refine ⟨rfl, ?_, ?_, rfl⟩
  · simp [PlaybackSchedule.Init, PlaybackSchedule.Scrubbing]
    norm_num
  · simp [PlaybackSchedule.Init, PlaybackSchedule.Scrubbing]
    norm_num

/-- C19 for t0 = 1, t1 = 3 with default options and a recording schedule of
pre-roll 1/2 and latency correction -1/10. -/
theorem C19_init_warped_length_witness :
    (({ mT0 := 0, mT1 := 0 } : PlaybackSchedule).Init (1 / 100) 1 3 {}
        (some { mPreRoll := 1 / 2, mLatencyCorrection := -1 / 10 })).mWarpedTime = 0 ∧
    (({ mT0 := 0, mT1 := 0 } : PlaybackSchedule).Init (1 / 100) 1 3 {}
        (some { mPreRoll := 1 / 2, mLatencyCorrection := -1 / 10 })).mWarpedLength
      = |(({ mT0 := 0, mT1 := 0 } : PlaybackSchedule).Init (1 / 100) 1 3 {}
          (some { mPreRoll := 1 / 2, mLatencyCorrection := -1 / 10 })).mT1
        - (({ mT0 := 0, mT1 := 0 } : PlaybackSchedule).Init (1 / 100) 1 3 {}
          (some { mPreRoll := 1 / 2, mLatencyCorrection := -1 / 10 })).mT0| ∧
    (({ mT0 := 0, mT1 := 0 } : PlaybackSchedule).Init (1 / 100) 1 3 {}
        (some { mPreRoll := 1 / 2, mLatencyCorrection := -1 / 10 })).RealTimeRemaining
      = (({ mT0 := 0, mT1 := 0 } : PlaybackSchedule).Init (1 / 100) 1 3 {}
        (some { mPreRoll := 1 / 2, mLatencyCorrection := -1 / 10 })).mWarpedLength :=
  ⟨(C19_init_warped_length { mT0 := 0, mT1 := 0 } (1 / 100) 1 3 {}
      (some { mPreRoll := 1 / 2, mLatencyCorrection := -1 / 10 })
      PlaybackSchedule.Init_recording_example.1).1,
   (C19_init_warped_length { mT0 := 0, mT1 := 0 } (1 / 100) 1 3 {}
      (some { mPreRoll := 1 / 2, mLatencyCorrection := -1 / 10 })
      PlaybackSchedule.Init_recording_example.1).2.2.1
      PlaybackSchedule.Init_recording_example.2.2.2,
   (C19_init_warped_length { mT0 := 0, mT1 := 0 } (1 / 100) 1 3 {}
      (some { mPreRoll := 1 / 2, mLatencyCorrection := -1 / 10 })
      PlaybackSchedule.Init_recording_example.1).2.2.2⟩

/-- C20, as stated, fails: Init with t0 = t1 = 1, default options and no
recording schedule leaves warpedLength = 0, which is not strictly positive. -/
theorem C20_counterexample :
    (({ mT0 := 0, mT1 := 0 } : PlaybackSchedule).Init (1 / 100) 1 1 {} none).mWarpedLength
      = 0 ∧
    ¬ 0 < (({ mT0 := 0, mT1 := 0 } : PlaybackSchedule).Init (1 / 100) 1 1 {}
      none).mWarpedLength := by
  have h : (({ mT0 := 0, mT1 := 0 } : PlaybackSchedule).Init (1 / 100) 1 1 {}
      none).mWarpedLength = 0 := by
    simp [PlaybackSchedule.Init, PlaybackSchedule.Scrubbing,
      PlaybackSchedule.RealDuration, PlaybackSchedule.ComputeWarpedLength]
  exact ⟨h, by rw [h]; exact lt_irrefl 0⟩

/-- C20, amended: after Init, for every t0, t1 and options, warpedLength is
nonnegative; it is 0 when the schedule is scrubbing, and when the schedule is
not scrubbing and stores no envelope it is strictly positive exactly when the
stored bounds mT0 and mT1 differ. -/
theorem C20_init_warped_length_nonneg (s : PlaybackSchedule) (m t0 t1 : ℚ)
    (options : AudioIOStartStreamOptions) (rec : Option RecordingSchedule) :
    0 ≤ (s.Init m t0 t1 options rec).mWarpedLength ∧
    ((s.Init m t0 t1 options rec).Scrubbing = true →
      (s.Init m t0 t1 options rec).mWarpedLength = 0) ∧
    ((s.Init m t0 t1 options rec).Scrubbing = false →
      (s.Init m t0 t1 options rec).mEnvelope = none →
      (0 < (s.Init m t0 t1 options rec).mWarpedLength ↔
        (s.Init m t0 t1 options rec).mT0 ≠ (s.Init m t0 t1 options rec).mT1)) := by
  have h1 := PlaybackSchedule.Init_mWarpedLength s m t0 t1 options rec
  refine ⟨?_, ?_, ?_⟩
  · rw [h1]
    split
    · exact le_rfl
    · exact abs_nonneg _
  · intro hs
    rw [h1, if_pos hs]
  · intro hs henv
    rw [h1, hs]
    simp only [Bool.false_eq_true, if_false, PlaybackSchedule.ComputeWarpedLength, henv,
      abs_pos, ne_eq, sub_eq_zero]
    exact ⟨fun h e => h e.symm, fun h e => h e.symm⟩

/-- C20, amended, for t0 = 1, t1 = 3 with default options and a recording
schedule of pre-roll 1/2 and latency correction -1/10: the stored bounds 1/2
and 31/10 differ and the real length is positive. -/
theorem C20_init_warped_length_nonneg_witness :
    0 < (({ mT0 := 0, mT1 := 0 } : PlaybackSchedule).Init (1 / 100) 1 3 {}
        (some { mPreRoll := 1 / 2, mLatencyCorrection := -1 / 10 })).mWarpedLength :=
  ((C20_init_warped_length_nonneg { mT0 := 0, mT1 := 0 } (1 / 100) 1 3 {}
      (some { mPreRoll := 1 / 2, mLatencyCorrection := -1 / 10 })).2.2
      PlaybackSchedule.Init_recording_example.1
      PlaybackSchedule.Init_recording_example.2.2.2).mpr (by
        rw [PlaybackSchedule.Init_recording_example.2.1,
          PlaybackSchedule.Init_recording_example.2.2.1]
        norm_num)

/-! ## Init: bounds, envelope, policy and play mode -/

/-- C21: when Init is given a recording schedule, the stored envelope is absent
whatever options.envelope holds, mT0 = t0 - preRoll, mT1 = t1 -
latencyCorrection and the current track time is the adjusted mT0; without a
recording schedule the envelope is options.envelope, mT0 = t0, mT1 = t1 and the
current track time is t0. -/
theorem C21_init_bounds_and_envelope (s : PlaybackSchedule) (m t0 t1 : ℚ)
    (options : AudioIOStartStreamOptions) (r : RecordingSchedule) :
    ((s.Init m t0 t1 options (some r)).mEnvelope = none ∧
      (s.Init m t0 t1 options (some r)).mT0 = t0 - r.mPreRoll ∧
      (s.Init m t0 t1 options (some r)).mT1 = t1 - r.mLatencyCorrection ∧
      (s.Init m t0 t1 options (some r)).GetTrackTime = t0 - r.mPreRoll) ∧
    ((s.Init m t0 t1 options none).mEnvelope = options.envelope ∧
      (s.Init m t0 t1 options none).mT0 = t0 ∧
      (s.Init m t0 t1 options none).mT1 = t1 ∧
      (s.Init m t0 t1 options none).GetTrackTime = t0) := by
  unfold PlaybackSchedule.Init PlaybackSchedule.GetTrackTime
  dsimp only
  refine ⟨⟨?_, ?_, ?_, ?_⟩, ⟨?_, ?_, ?_, ?_⟩⟩ <;> first | rfl | (split_ifs <;> rfl)

/-- After `Init` the validity flag is set and the owned policy is what the
factory returned, or the looping policy when no factory is supplied and
`playLooped` is set, or none. -/
theorem PlaybackSchedule.Init_policy (s : PlaybackSchedule) (m t0 t1 : ℚ)
    (options : AudioIOStartStreamOptions) (rec : Option RecordingSchedule) :
    (s.Init m t0 t1 options rec).mPolicyValid = true ∧
    (s.Init m t0 t1 options rec).mpPlaybackPolicy =
      (match options.policyFactory with
        | some built => built
        | none =>
          if options.playLooped then some PolicyClass.LoopingPlaybackPolicy else none) := by
  unfold PlaybackSchedule.Init
  dsimp only
  constructor <;> first | rfl | (split_ifs <;> rfl)

/-- After `Init` the play mode is the one chosen with the policy, unless
scrubbing options are supplied and accepted. -/
theorem PlaybackSchedule.Init_mPlayMode (s : PlaybackSchedule) (m t0 t1 : ℚ)
    (options : AudioIOStartStreamOptions) (rec : Option RecordingSchedule) :
    (s.Init m t0 t1 options rec).mPlayMode =
      (match options.pScrubbingOptions with
        | none =>
          (match options.policyFactory with
            | some _ => PlayMode.PLAY_STRAIGHT
            | none =>
              if options.playLooped then PlayMode.PLAY_LOOPED
              else PlayMode.PLAY_STRAIGHT)
        | some scrubOptions =>
          if rec.isSome || options.playLooped ||
              (match rec with
                | some _ => (none : Option BoundedEnvelope)
                | none => options.envelope).isSome ||
              decide (scrubOptions.maxSpeed < m) then
            (match options.policyFactory with
              | some _ => PlayMode.PLAY_STRAIGHT
              | none =>
                if options.playLooped then PlayMode.PLAY_LOOPED
                else PlayMode.PLAY_STRAIGHT)
          else if scrubOptions.isPlayingAtSpeed then PlayMode.PLAY_AT_SPEED
          else if scrubOptions.isKeyboardScrubbing then PlayMode.PLAY_KEYBOARD_SCRUB
          else PlayMode.PLAY_SCRUB) := by
  unfold PlaybackSchedule.Init
  dsimp only
  first | rfl | (split_ifs <;> rfl)

/-- C22, as stated, fails.  With no factory, playLooped unset and scrubbing
options of maximum speed 1 (minimum allowed 1/100), Init leaves the default
policy but the play mode PLAY_SCRUB, not Straight.  With a factory that returns
a null pointer and playLooped set, GetPolicy returns the default policy, in
play mode PLAY_STRAIGHT: no policy built by the factory, and not the looping
policy. -/
theorem C22_counterexample :
    ((({ pScrubbingOptions := some { maxSpeed := 1 } } :
          AudioIOStartStreamOptions).policyFactory = none ∧
        ({ pScrubbingOptions := some { maxSpeed := 1 } } :
          AudioIOStartStreamOptions).playLooped = false) ∧
      (({ mT0 := 0, mT1 := 0 } : PlaybackSchedule).Init (1 / 100) 0 1
          { pScrubbingOptions := some { maxSpeed := 1 } } none).GetPolicy
        = PolicyClass.DefaultPlaybackPolicy ∧
      (({ mT0 := 0, mT1 := 0 } : PlaybackSchedule).Init (1 / 100) 0 1
          { pScrubbingOptions := some { maxSpeed := 1 } } none).mPlayMode
        = PlayMode.PLAY_SCRUB ∧
      (({ mT0 := 0, mT1 := 0 } : PlaybackSchedule).Init (1 / 100) 0 1
          { pScrubbingOptions := some { maxSpeed := 1 } } none).mPlayMode
        ≠ PlayMode.PLAY_STRAIGHT) ∧
    ((({ policyFactory := some none, playLooped := true } :
          AudioIOStartStreamOptions).policyFactory = some none ∧
        ({ policyFactory := some none, playLooped := true } :
          AudioIOStartStreamOptions).playLooped = true) ∧
      (({ mT0 := 0, mT1 := 0 } : PlaybackSchedule).Init (1 / 100) 0 1
          { policyFactory := some none, playLooped := true } none).mpPlaybackPolicy
        = none ∧
      (({ mT0 := 0, mT1 := 0 } : PlaybackSchedule).Init (1 / 100) 0 1
          { policyFactory := some none, playLooped := true } none).GetPolicy
        = PolicyClass.DefaultPlaybackPolicy ∧
      (({ mT0 := 0, mT1 := 0 } : PlaybackSchedule).Init (1 / 100) 0 1
          { policyFactory := some none, playLooped := true } none).mPlayMode
        = PlayMode.PLAY_STRAIGHT) := by
  have hmode : (({ mT0 := 0, mT1 := 0 } : PlaybackSchedule).Init (1 / 100) 0 1
      { pScrubbingOptions := some { maxSpeed := 1 } } none).mPlayMode
      = PlayMode.PLAY_SCRUB := by
    rw [PlaybackSchedule.Init_mPlayMode]
    norm_num
  refine ⟨⟨⟨rfl, rfl⟩, ?_, hmode, ?_⟩, ⟨rfl, rfl⟩, ?_, ?_, ?_⟩
  · rw [PlaybackSchedule.GetPolicy, (PlaybackSchedule.Init_policy _ _ _ _ _ _).1,
      (PlaybackSchedule.Init_policy _ _ _ _ _ _).2]
    rfl
  · rw [hmode]
    decide
  · rw [(PlaybackSchedule.Init_policy _ _ _ _ _ _).2]
  · rw [PlaybackSchedule.GetPolicy, (PlaybackSchedule.Init_policy _ _ _ _ _ _).1,
      (PlaybackSchedule.Init_policy _ _ _ _ _ _).2]
  · rw [PlaybackSchedule.Init_mPlayMode]

/-- C22, amended: after Init, when a factory is supplied (also when playLooped
is set) the policy returned by GetPolicy is the one built by
options.policyFactory, or the default policy (Looping false, with
playMode = Straight when playLooped is set) when the factory returns a null
pointer; when no factory is supplied it is the looping policy, with
playMode = Looped, when options.playLooped is set; otherwise the default policy
(Looping false), with playMode = Straight when no scrubbing options are
supplied or they are refused (recording schedule, envelope, or maximum speed
below the minimum), and with the play mode the scrubbing options ask for when
they are accepted. -/
theorem C22_init_selects_policy (s : PlaybackSchedule) (m t0 t1 : ℚ)
    (options : AudioIOStartStreamOptions) (rec : Option RecordingSchedule) :
    (∀ p, options.policyFactory = some (some p) →
      (s.Init m t0 t1 options rec).GetPolicy = p) ∧
    (options.policyFactory = some none →
      (s.Init m t0 t1 options rec).GetPolicy = PolicyClass.DefaultPlaybackPolicy ∧
      (s.Init m t0 t1 options rec).GetPolicy.Looping (s.Init m t0 t1 options rec)
        = false ∧
      (options.playLooped = true →
        (s.Init m t0 t1 options rec).mPlayMode = PlayMode.PLAY_STRAIGHT)) ∧
    (options.policyFactory = none → options.playLooped = true →
      (s.Init m t0 t1 options rec).GetPolicy = PolicyClass.LoopingPlaybackPolicy ∧
      (s.Init m t0 t1 options rec).mPlayMode = PlayMode.PLAY_LOOPED) ∧
    (options.policyFactory = none → options.playLooped = false →
      (s.Init m t0 t1 options rec).GetPolicy = PolicyClass.DefaultPlaybackPolicy ∧
      (s.Init m t0 t1 options rec).GetPolicy.Looping (s.Init m t0 t1 options rec)
        = false ∧
      (options.pScrubbingOptions = none →
        (s.Init m t0 t1 options rec).mPlayMode = PlayMode.PLAY_STRAIGHT) ∧
      (∀ scrubOptions, options.pScrubbingOptions = some scrubOptions →
        (rec.isSome = true ∨ options.envelope.isSome = true ∨
          scrubOptions.maxSpeed < m) →
        (s.Init m t0 t1 options rec).mPlayMode = PlayMode.PLAY_STRAIGHT) ∧
      (∀ scrubOptions, options.pScrubbingOptions = some scrubOptions →
        rec = none → options.envelope = none → ¬ scrubOptions.maxSpeed < m →
        (s.Init m t0 t1 options rec).mPlayMode =
          if scrubOptions.isPlayingAtSpeed then PlayMode.PLAY_AT_SPEED
          else if scrubOptions.isKeyboardScrubbing then PlayMode.PLAY_KEYBOARD_SCRUB
          else PlayMode.PLAY_SCRUB)) := by
  obtain ⟨hvalid, hpol⟩ := PlaybackSchedule.Init_policy s m t0 t1 options rec
  have hmode := PlaybackSchedule.Init_mPlayMode s m t0 t1 options rec
  refine ⟨?_, ?_, ?_, ?_⟩
  · intro p hp
    rw [PlaybackSchedule.GetPolicy, hvalid, hpol, hp]
  · intro hf
    have hget : (s.Init m t0 t1 options rec).GetPolicy
        = PolicyClass.DefaultPlaybackPolicy := by
      rw [PlaybackSchedule.GetPolicy, hvalid, hpol, hf]
    refine ⟨hget, by rw [hget]; rfl, ?_⟩
    intro hl
    rw [hmode, hf, hl]
    cases options.pScrubbingOptions <;> simp
  · intro hf hl
    constructor
    · rw [PlaybackSchedule.GetPolicy, hvalid, hpol, hf, hl]
      rfl
    · rw [hmode, hf, hl]
      cases options.pScrubbingOptions <;> simp
  · intro hf hl
    have hget : (s.Init m t0 t1 options rec).GetPolicy
        = PolicyClass.DefaultPlaybackPolicy := by
      rw [PlaybackSchedule.GetPolicy, hvalid, hpol, hf, hl]
      rfl
    refine ⟨hget, by rw [hget]; rfl, ?_, ?_, ?_⟩
    · intro hs
      rw [hmode, hs, hf, hl]
      rfl
    · intro so hs hrej
      rw [hmode, hs, hf, hl]
      cases rec <;> simp_all
    · intro so hs hrec henv hsp
      rw [hmode, hs, hl, hrec, henv]
      simp [hsp]

/-- C22, amended, with a factory that builds a looping policy of its own, with
a factory that returns a null pointer, with playLooped set, with default
options and with scrubbing options of maximum speed 1. -/
theorem C22_init_selects_policy_witness :
    ((({ mT0 := 0, mT1 := 0 } : PlaybackSchedule).Init (1 / 100) 0 1
        { policyFactory := some (some (PolicyClass.Custom true)),
          playLooped := true } none).GetPolicy = PolicyClass.Custom true) ∧
    ((({ mT0 := 0, mT1 := 0 } : PlaybackSchedule).Init (1 / 100) 0 1
        { policyFactory := some none, playLooped := true } none).GetPolicy
      = PolicyClass.DefaultPlaybackPolicy) ∧
    ((({ mT0 := 0, mT1 := 0 } : PlaybackSchedule).Init (1 / 100) 0 1
        { playLooped := true } none).GetPolicy = PolicyClass.LoopingPlaybackPolicy ∧
      (({ mT0 := 0, mT1 := 0 } : PlaybackSchedule).Init (1 / 100) 0 1
        { playLooped := true } none).mPlayMode = PlayMode.PLAY_LOOPED) ∧
    (({ mT0 := 0, mT1 := 0 } : PlaybackSchedule).Init (1 / 100) 0 1 {} none).mPlayMode
      = PlayMode.PLAY_STRAIGHT ∧
    (({ mT0 := 0, mT1 := 0 } : PlaybackSchedule).Init (1 / 100) 0 1
        { pScrubbingOptions := some { maxSpeed := 1 } } none).mPlayMode
      = (if ({ maxSpeed := 1 } : ScrubbingOptions).isPlayingAtSpeed then
          PlayMode.PLAY_AT_SPEED
        else if ({ maxSpeed := 1 } : ScrubbingOptions).isKeyboardScrubbing then
          PlayMode.PLAY_KEYBOARD_SCRUB
        else PlayMode.PLAY_SCRUB) :=
  ⟨(C22_init_selects_policy { mT0 := 0, mT1 := 0 } (1 / 100) 0 1
      { policyFactory := some (some (PolicyClass.Custom true)), playLooped := true }
      none).1 _ rfl,
   ((C22_init_selects_policy { mT0 := 0, mT1 := 0 } (1 / 100) 0 1
      { policyFactory := some none, playLooped := true } none).2.1 rfl).1,
   (C22_init_selects_policy { mT0 := 0, mT1 := 0 } (1 / 100) 0 1
      { playLooped := true } none).2.2.1 rfl rfl,
   ((C22_init_selects_policy { mT0 := 0, mT1 := 0 } (1 / 100) 0 1 {} none).2.2.2
      rfl rfl).2.2.1 rfl,
   ((C22_init_selects_policy { mT0 := 0, mT1 := 0 } (1 / 100) 0 1
      { pScrubbingOptions := some { maxSpeed := 1 } } none).2.2.2 rfl rfl).2.2.2.2 _ rfl
      rfl rfl (by norm_num)⟩

/-! ## Play mode and policy between Init and ResetMode -/

/-- `GetPolicy` reads only the validity flag and the owned policy. -/
theorem PlaybackSchedule.GetPolicy_congr (a b : PlaybackSchedule)
    (h : a.SameModeAndPolicy b) : a.GetPolicy = b.GetPolicy := by
  unfold PlaybackSchedule.GetPolicy
  rw [h.2.1, h.2.2]

/-- Both `GetPlaybackSlice` functions change nothing but `mWarpedTime`. -/
theorem PlaybackSchedule.GetPlaybackSlice_schedule (ub : ℚ → ℕ) (mRate : ℚ)
    (s : PlaybackSchedule) (available : ℕ) :
    (∃ w, (PlaybackPolicy.GetPlaybackSlice ub mRate s available).2
      = { s with mWarpedTime := w }) ∧
    (∃ w, (LoopingPlaybackPolicy.GetPlaybackSlice ub mRate s available).2
      = { s with mWarpedTime := w }) := by
  constructor
  · unfold PlaybackPolicy.GetPlaybackSlice
    dsimp only
    split <;> exact ⟨_, rfl⟩
  · unfold LoopingPlaybackPolicy.GetPlaybackSlice
    dsimp only
    split <;> split <;> try split
    all_goals exact ⟨_, rfl⟩

/-- C23: after ResetMode the play mode is Straight, the validity flag is
cleared and GetPolicy returns the fallback default policy (Looping false),
whatever the schedule held, and so it is for every schedule with the same play
mode, validity flag and owned policy; GetPlaybackSlice and RepositionPlayback
of both policies, RealTimeAdvance, RealTimeInit, RealTimeRestart and any change
of the time queue (which is all that Producer, Consumer and Prime change)
leave the play mode, the validity flag and the owned policy as they were. -/
theorem C23_mode_between_init_and_reset {Mixer : Type} (restart : Mixer → Mixer)
    (ub : ℚ → ℕ) (mRate : ℚ) (s : PlaybackSchedule) (available frames : ℕ)
    (playbackMixers : List Mixer) (increment trackTime : ℚ) (queue : TimeQueue) :
    (s.ResetMode.mPlayMode = PlayMode.PLAY_STRAIGHT ∧
      s.ResetMode.mPolicyValid = false ∧
      s.ResetMode.GetPolicy = PolicyClass.DefaultPlaybackPolicy ∧
      s.ResetMode.GetPolicy.Looping s.ResetMode = false) ∧
    (∀ later : PlaybackSchedule, later.SameModeAndPolicy s.ResetMode →
      later.mPlayMode = PlayMode.PLAY_STRAIGHT ∧
      later.GetPolicy = PolicyClass.DefaultPlaybackPolicy) ∧
    (PlaybackPolicy.GetPlaybackSlice ub mRate s available).2.SameModeAndPolicy s ∧
    (LoopingPlaybackPolicy.GetPlaybackSlice ub mRate s available).2.SameModeAndPolicy s ∧
    (PlaybackPolicy.RepositionPlayback s playbackMixers frames
      available).2.1.SameModeAndPolicy s ∧
    (LoopingPlaybackPolicy.RepositionPlayback restart s playbackMixers frames
      available).2.1.SameModeAndPolicy s ∧
    (s.RealTimeAdvance increment).SameModeAndPolicy s ∧
    (s.RealTimeInit trackTime).SameModeAndPolicy s ∧
    s.RealTimeRestart.SameModeAndPolicy s ∧
    ({ s with mTimeQueue := queue } : PlaybackSchedule).SameModeAndPolicy s := by
  have hreset : s.ResetMode.GetPolicy = PolicyClass.DefaultPlaybackPolicy := by
    simp [PlaybackSchedule.GetPolicy, PlaybackSchedule.ResetMode]
  obtain ⟨⟨w1, h1⟩, ⟨w2, h2⟩⟩ :=
    PlaybackSchedule.GetPlaybackSlice_schedule ub mRate s available
  refine ⟨⟨rfl, rfl, hreset, by rw [hreset]; rfl⟩, ?_, ?_, ?_, ⟨rfl, rfl, rfl⟩, ?_,
    ⟨rfl, rfl, rfl⟩, ?_, ⟨rfl, rfl, rfl⟩, ⟨rfl, rfl, rfl⟩⟩
  · intro later h
    exact ⟨h.1, (PlaybackSchedule.GetPolicy_congr _ _ h).trans hreset⟩
  · rw [h1]
    exact ⟨rfl, rfl, rfl⟩
  · rw [h2]
    exact ⟨rfl, rfl, rfl⟩
  · unfold LoopingPlaybackPolicy.RepositionPlayback
    split <;> exact ⟨rfl, rfl, rfl⟩
  · unfold PlaybackSchedule.RealTimeInit
    split <;> exact ⟨rfl, rfl, rfl⟩

/-- C23 on the looping schedule `forwardLoop`: a slice taken after ResetMode
leaves the play mode Straight and the policy the default one. -/
theorem C23_mode_between_init_and_reset_witness :
    (LoopingPlaybackPolicy.GetPlaybackSlice (fun _ => 0) 44100 forwardLoop.ResetMode
        512).2.mPlayMode = PlayMode.PLAY_STRAIGHT ∧
    (LoopingPlaybackPolicy.GetPlaybackSlice (fun _ => 0) 44100 forwardLoop.ResetMode
        512).2.GetPolicy = PolicyClass.DefaultPlaybackPolicy :=
  (C23_mode_between_init_and_reset (fun u : Unit => u) (fun _ => 0) 44100 forwardLoop
      512 0 [] 0 0 {}).2.1 _
    (C23_mode_between_init_and_reset (fun u : Unit => u) (fun _ => 0) 44100
      forwardLoop.ResetMode 512 0 [] 0 0 {}).2.2.2.1

/-! ## RepositionPlayback -/

/-- C24, as stated, fails: the default policy's RepositionPlayback returns
true, not false. -/
theorem C24_counterexample :
    (PlaybackPolicy.RepositionPlayback ({ mT0 := 0, mT1 := 1 } : PlaybackSchedule)
        ([] : List Unit) 512 512).1 = true ∧
    (PlaybackPolicy.RepositionPlayback ({ mT0 := 0, mT1 := 1 } : PlaybackSchedule)
        ([] : List Unit) 512 512).1 ≠ false :=
  ⟨rfl, by decide⟩

/-- C24, amended: the default policy's RepositionPlayback is a no-op that
returns true: for every schedule, mixer list and frame counts it leaves the
schedule and the mixers unchanged and its result is true. -/
theorem C24_default_reposition {Mixer : Type} (schedule : PlaybackSchedule)
    (playbackMixers : List Mixer) (frames available : ℕ) :
    (PlaybackPolicy.RepositionPlayback schedule playbackMixers frames available).1
      = true ∧
    (PlaybackPolicy.RepositionPlayback schedule playbackMixers frames available).2.1
      = schedule ∧
    (PlaybackPolicy.RepositionPlayback schedule playbackMixers frames available).2.2
      = playbackMixers :=
  ⟨rfl, rfl, rfl⟩

/-- C25: the looping policy's RepositionPlayback always returns false; when
RealTimeRemaining ≤ 0 it restarts every mixer of the list and sets
warpedElapsed to 0, so that RealTimeRemaining becomes warpedLength, changing
nothing else of the schedule; when RealTimeRemaining > 0 it restarts no mixer
and leaves the schedule unchanged. -/
theorem C25_looping_reposition {Mixer : Type} (restart : Mixer → Mixer)
    (schedule : PlaybackSchedule) (playbackMixers : List Mixer)
    (frames available : ℕ) :
    (LoopingPlaybackPolicy.RepositionPlayback restart schedule playbackMixers frames
      available).1 = false ∧
    (schedule.RealTimeRemaining ≤ 0 →
      (LoopingPlaybackPolicy.RepositionPlayback restart schedule playbackMixers frames
        available).2.2 = playbackMixers.map restart ∧
      (LoopingPlaybackPolicy.RepositionPlayback restart schedule playbackMixers frames
        available).2.1 = { schedule with mWarpedTime := 0 } ∧
      (LoopingPlaybackPolicy.RepositionPlayback restart schedule playbackMixers frames
        available).2.1.mWarpedTime = 0 ∧
      (LoopingPlaybackPolicy.RepositionPlayback restart schedule playbackMixers frames
        available).2.1.RealTimeRemaining = schedule.mWarpedLength) ∧
    (0 < schedule.RealTimeRemaining →
      (LoopingPlaybackPolicy.RepositionPlayback restart schedule playbackMixers frames
        available).2.2 = playbackMixers ∧
      (LoopingPlaybackPolicy.RepositionPlayback restart schedule playbackMixers frames
        available).2.1 = schedule) := by
  unfold LoopingPlaybackPolicy.RepositionPlayback
  refine ⟨?_, ?_, ?_⟩
  · split <;> rfl
  · intro h
    rw [if_pos h]
    refine ⟨rfl, rfl, rfl, ?_⟩
    simp [PlaybackSchedule.RealTimeRemaining, PlaybackSchedule.RealTimeRestart]
  · intro h
    rw [if_neg (not_le.mpr h)]
    exact ⟨rfl, rfl⟩

/-- C25 with two mixers that count their restarts, at the end of a pass of one
second and in the middle of it. -/
theorem C25_looping_reposition_witness :
    ((LoopingPlaybackPolicy.RepositionPlayback (fun n : ℕ => n + 1)
        { mT0 := 0, mT1 := 1, mWarpedLength := 1, mWarpedTime := 1 } [0, 7] 68
        512).2.2 = [0, 7].map (fun n : ℕ => n + 1) ∧
      (LoopingPlaybackPolicy.RepositionPlayback (fun n : ℕ => n + 1)
        { mT0 := 0, mT1 := 1, mWarpedLength := 1, mWarpedTime := 1 } [0, 7] 68
        512).2.1.mWarpedTime = 0) ∧
    ((LoopingPlaybackPolicy.RepositionPlayback (fun n : ℕ => n + 1)
        { mT0 := 0, mT1 := 1, mWarpedLength := 1, mWarpedTime := 1 / 2 } [0, 7] 512
        512).2.2 = [0, 7] ∧
      (LoopingPlaybackPolicy.RepositionPlayback (fun n : ℕ => n + 1)
        { mT0 := 0, mT1 := 1, mWarpedLength := 1, mWarpedTime := 1 / 2 } [0, 7] 512
        512).2.1 = { mT0 := 0, mT1 := 1, mWarpedLength := 1, mWarpedTime := 1 / 2 }) :=
  ⟨⟨((C25_looping_reposition (fun n : ℕ => n + 1)
        { mT0 := 0, mT1 := 1, mWarpedLength := 1, mWarpedTime := 1 } [0, 7] 68 512).2.1
        (by norm_num [PlaybackSchedule.RealTimeRemaining])).1,
     ((C25_looping_reposition (fun n : ℕ => n + 1)
        { mT0 := 0, mT1 := 1, mWarpedLength := 1, mWarpedTime := 1 } [0, 7] 68 512).2.1
        (by norm_num [PlaybackSchedule.RealTimeRemaining])).2.2.1⟩,
   (C25_looping_reposition (fun n : ℕ => n + 1)
      { mT0 := 0, mT1 := 1, mWarpedLength := 1, mWarpedTime := 1 / 2 } [0, 7] 512
      512).2.2 (by norm_num [PlaybackSchedule.RealTimeRemaining])⟩

/-! ## RealTimeInit -/

/-- C26: outside scrubbing, RealTimeInit(trackTime) sets warpedElapsed to
|ComputeWarpedLength(mT0, trackTime)| and changes nothing else; so on the
schedule that Init leaves, when it is not scrubbing and stores no envelope, for
every trackTime between the stored mT0 and mT1 (in either direction),
RealTimeRemaining afterwards equals |mT1 - trackTime|. -/
theorem C26_real_time_init (s : PlaybackSchedule) (m t0 t1 trackTime : ℚ)
    (options : AudioIOStartStreamOptions) (rec : Option RecordingSchedule) :
    (s.Scrubbing = false →
      s.RealTimeInit trackTime
        = { s with mWarpedTime := |s.ComputeWarpedLength s.mT0 trackTime| } ∧
      (s.RealTimeInit trackTime).mWarpedTime
        = |s.ComputeWarpedLength s.mT0 trackTime|) ∧
    ((s.Init m t0 t1 options rec).Scrubbing = false →
      (s.Init m t0 t1 options rec).mEnvelope = none →
      (((s.Init m t0 t1 options rec).mT0 ≤ trackTime ∧
          trackTime ≤ (s.Init m t0 t1 options rec).mT1) ∨
        ((s.Init m t0 t1 options rec).mT1 ≤ trackTime ∧
          trackTime ≤ (s.Init m t0 t1 options rec).mT0)) →
      ((s.Init m t0 t1 options rec).RealTimeInit trackTime).RealTimeRemaining
        = |(s.Init m t0 t1 options rec).mT1 - trackTime|) := by
  have hgen : ∀ u : PlaybackSchedule, u.Scrubbing = false →
      u.RealTimeInit trackTime
        = { u with mWarpedTime := |u.ComputeWarpedLength u.mT0 trackTime| } := by
    intro u hu
    unfold PlaybackSchedule.RealTimeInit
    rw [hu]
    rfl
  refine ⟨fun hs => ⟨hgen s hs, by rw [hgen s hs]⟩, ?_⟩
  intro hs henv hbetween
  have hlen := PlaybackSchedule.Init_mWarpedLength s m t0 t1 options rec
  rw [hs] at hlen
  simp only [Bool.false_eq_true, if_false, PlaybackSchedule.ComputeWarpedLength, henv]
    at hlen
  rw [hgen _ hs]
  simp only [PlaybackSchedule.RealTimeRemaining, PlaybackSchedule.ComputeWarpedLength,
    henv, hlen]
  rcases hbetween with ⟨h1, h2⟩ | ⟨h1, h2⟩
  · rw [abs_of_nonneg (by linarith), abs_of_nonneg (by linarith),
      abs_of_nonneg (by linarith)]
    ring
  · rw [abs_of_nonpos (by linarith), abs_of_nonpos (by linarith),
      abs_of_nonpos (by linarith)]
    ring

/-- C26 after Init with t0 = 1, t1 = 3, default options and a recording
schedule of pre-roll 1/2 and latency correction -1/10, at track time 2. -/
theorem C26_real_time_init_witness :
    ((({ mT0 := 0, mT1 := 0 } : PlaybackSchedule).Init (1 / 100) 1 3 {}
        (some { mPreRoll := 1 / 2, mLatencyCorrection := -1 / 10 })).RealTimeInit
        2).RealTimeRemaining
      = |(({ mT0 := 0, mT1 := 0 } : PlaybackSchedule).Init (1 / 100) 1 3 {}
          (some { mPreRoll := 1 / 2, mLatencyCorrection := -1 / 10 })).mT1 - 2| :=
  (C26_real_time_init { mT0 := 0, mT1 := 0 } (1 / 100) 1 3 2 {}
      (some { mPreRoll := 1 / 2, mLatencyCorrection := -1 / 10 })).2
    PlaybackSchedule.Init_recording_example.1
    PlaybackSchedule.Init_recording_example.2.2.2
    (Or.inl (by
      rw [PlaybackSchedule.Init_recording_example.2.1,
        PlaybackSchedule.Init_recording_example.2.2.1]
      norm_num))

/-! ## The recording schedule -/

/-- C27: for every RecordingSchedule, with c = position + latencyCorrection -
preRoll: Consumed() = max(0, c), ToConsume() = duration - Consumed() and
ToDiscard() = max(0, -c). -/
theorem C27_recording_schedule (r : RecordingSchedule) :
    r.Consumed = max 0 (r.mPosition + r.mLatencyCorrection - r.mPreRoll) ∧
    r.ToConsume = r.mDuration - r.Consumed ∧
    r.ToConsume = r.mDuration - max 0 (r.mPosition + r.mLatencyCorrection - r.mPreRoll) ∧
    r.ToDiscard = max 0 (-(r.mPosition + r.mLatencyCorrection - r.mPreRoll)) := by
  have hc : r.mPosition + r.TotalCorrection
      = r.mPosition + r.mLatencyCorrection - r.mPreRoll := by
    unfold RecordingSchedule.TotalCorrection
    ring
  unfold RecordingSchedule.ToConsume RecordingSchedule.ToDiscard
    RecordingSchedule.Consumed
  rw [hc]
  exact ⟨rfl, rfl, rfl, rfl⟩

/-! ## The time queue without backing storage -/

/-- C29: when the TimeQueue has no backing storage, Producer is a no-op: for
every schedule, rate, speed, nSamples and fuel it returns the queue as it was,
with the same tail cursor, head cursor and lastTime. -/
theorem C29_producer_unbacked (q : TimeQueue) (schedule : PlaybackSchedule)
    (fuel : ℕ) (rate scrubSpeed : ℚ) (nSamples : ℕ) (hdata : q.mData = none) :
    q.Producer schedule fuel rate scrubSpeed nSamples = some q ∧
    (∀ after, q.Producer schedule fuel rate scrubSpeed nSamples = some after →
      after.mTail = q.mTail ∧ after.mHead = q.mHead ∧ after.mLastTime = q.mLastTime) := by
  have h : q.Producer schedule fuel rate scrubSpeed nSamples = some q := by
    unfold TimeQueue.Producer
    rw [hdata]
  refine ⟨h, ?_⟩
  intro after hafter
  rw [h] at hafter
  cases hafter
  exact ⟨rfl, rfl, rfl⟩

/-- C29 on a queue without storage whose cursors are not at zero, with no fuel
at all. -/
theorem C29_producer_unbacked_witness :
    ({ mLastTime := 3, mHead := { mIndex := 1, mRemainder := 5 },
       mTail := { mIndex := 2, mRemainder := 7 } } : TimeQueue).Producer
        doubleSpeedLoop 0 44100 1 10000
      = some { mLastTime := 3, mHead := { mIndex := 1, mRemainder := 5 },
               mTail := { mIndex := 2, mRemainder := 7 } } :=
  (C29_producer_unbacked
    { mLastTime := 3, mHead := { mIndex := 1, mRemainder := 5 },
      mTail := { mIndex := 2, mRemainder := 7 } } doubleSpeedLoop 0 44100 1 10000 rfl).1

/-- On a queue without storage, consecutive `Consumer` calls add the total of
their sample counts, over the rate, to `mLastTime`, and the last call returns
the sum. -/
theorem TimeQueue.ConsumerCalls_unbacked (rate : ℚ) (counts : List ℕ) :
    ∀ (last : ℚ) (q : TimeQueue), q.mData = none →
      (TimeQueue.ConsumerCalls rate counts last q).2.mData = none ∧
      (TimeQueue.ConsumerCalls rate counts last q).2.mLastTime
        = q.mLastTime + (counts.sum : ℚ) / rate ∧
      (TimeQueue.ConsumerCalls rate counts last q).2.mHead = q.mHead ∧
      (TimeQueue.ConsumerCalls rate counts last q).2.mTail = q.mTail ∧
      (counts ≠ [] → (TimeQueue.ConsumerCalls rate counts last q).1
        = q.mLastTime + (counts.sum : ℚ) / rate) := by
  induction counts with
  | nil =>
    intro last q hq
    simp [TimeQueue.ConsumerCalls, hq]
  | cons n rest ih =>
    intro last q hq
    have hstep : q.Consumer n rate = (q.mLastTime + (n : ℚ) / rate,
        { q with mLastTime := q.mLastTime + (n : ℚ) / rate }) := by
      unfold TimeQueue.Consumer
      rw [hq]
    obtain ⟨h1, h2, h3, h4, h5⟩ := ih (q.Consumer n rate).1 (q.Consumer n rate).2
      (by rw [hstep]; exact hq)
    rw [TimeQueue.ConsumerCalls]
    have hsum : q.mLastTime + (n : ℚ) / rate + ((rest.sum : ℕ) : ℚ) / rate
        = q.mLastTime + (((n :: rest).sum : ℕ) : ℚ) / rate := by
      rw [List.sum_cons]
      push_cast
      ring
    refine ⟨h1, ?_, ?_, ?_, ?_⟩
    · rw [h2, hstep]
      exact hsum
    · rw [h3, hstep]
    · rw [h4, hstep]
    · intro _
      by_cases hrest : rest = []
      · subst hrest
        simp [TimeQueue.ConsumerCalls, hstep]
      · rw [h5 hrest, hstep]
        exact hsum

/-- C30: when the TimeQueue has no backing storage, Consumer(nSamples, rate)
with rate > 0 adds nSamples / rate to lastTime and returns the new lastTime,
leaving both cursors unchanged; so after Prime(t) a sequence of Consumer calls
totalling n samples returns t + n / rate. -/
theorem C30_consumer_unbacked (q : TimeQueue) (nSamples : ℕ) (rate t last : ℚ)
    (counts : List ℕ) (_hrate : 0 < rate) (hdata : q.mData = none)
    (hcalls : counts ≠ []) :
    (q.Consumer nSamples rate).1 = q.mLastTime + (nSamples : ℚ) / rate ∧
    (q.Consumer nSamples rate).2.mLastTime = q.mLastTime + (nSamples : ℚ) / rate ∧
    (q.Consumer nSamples rate).2.mHead = q.mHead ∧
    (q.Consumer nSamples rate).2.mTail = q.mTail ∧
    (TimeQueue.ConsumerCalls rate counts last (q.Prime t)).1
      = t + (counts.sum : ℚ) / rate := by
  have hstep : q.Consumer nSamples rate = (q.mLastTime + (nSamples : ℚ) / rate,
      { q with mLastTime := q.mLastTime + (nSamples : ℚ) / rate }) := by
    unfold TimeQueue.Consumer
    rw [hdata]
  refine ⟨by rw [hstep], by rw [hstep], by rw [hstep], by rw [hstep], ?_⟩
  exact (TimeQueue.ConsumerCalls_unbacked rate counts last (q.Prime t) hdata).2.2.2.2
    hcalls

/-- C30 at 1000 Hz: one call of 500 samples from lastTime 3, and three calls
totalling 10100 samples after Prime(0). -/
theorem C30_consumer_unbacked_witness :
    (({ mLastTime := 3 } : TimeQueue).Consumer 500 1000).1
      = 3 + ((500 : ℕ) : ℚ) / 1000 ∧
    (TimeQueue.ConsumerCalls 1000 [100, 5000, 5000] 0
        (({ mLastTime := 3 } : TimeQueue).Prime 0)).1
      = 0 + (([100, 5000, 5000] : List ℕ).sum : ℚ) / 1000 :=
  ⟨(C30_consumer_unbacked { mLastTime := 3 } 500 1000 0 0 [100, 5000, 5000]
      (by norm_num) rfl (by simp)).1,
   (C30_consumer_unbacked { mLastTime := 3 } 500 1000 0 0 [100, 5000, 5000]
      (by norm_num) rfl (by simp)).2.2.2.2⟩

/-! ## The time queue with backing storage -/

theorem sizeTSub_of_le {a b : ℕ} (hba : b ≤ a) (ha : a < sizeTRange) :
    sizeTSub a b = a - b := by
  unfold sizeTSub
  rw [Nat.mod_eq_of_lt (lt_of_le_of_lt hba ha)]
  have h : a + sizeTRange - b = a - b + sizeTRange := by omega
  rw [h, Nat.add_mod_right, Nat.mod_eq_of_lt (by omega)]

theorem sizeTSub_grain {r : ℕ} (hr : r < TimeQueueGrainSize) :
    sizeTSub TimeQueueGrainSize r = TimeQueueGrainSize - r :=
  sizeTSub_of_le hr.le (by norm_num [TimeQueueGrainSize, sizeTRange])

/-- On a forward schedule without envelope, outside the degenerate region and
under a policy that does not loop, `AdvancedTrackTime` at speed 1 adds the
elapsed real time, whatever the fuel. -/
theorem PlaybackSchedule.AdvancedTrackTime_forward_unit (s : PlaybackSchedule)
    (fuel : ℕ) (henv : s.mEnvelope = none) (hlen : 1 / 1000000000 ≤ |s.mT0 - s.mT1|)
    (hloop : s.GetPolicy.Looping s = false) (hfwd : s.mT0 < s.mT1) (x d : ℚ) :
    s.AdvancedTrackTime fuel x d 1 = some (x + d) := by
  have hrev : s.ReversedTime = false := by
    simp [PlaybackSchedule.ReversedTime, hfwd.le]
  rw [PlaybackSchedule.AdvancedTrackTime_linear s fuel x d 1 henv hlen hloop, hrev]
  simp

/-- The loop of `Producer`, unfolded once. -/
theorem TimeQueue.producerLoop_unfold (schedule : PlaybackSchedule) (fuel : ℕ)
    (rate scrubSpeed : ℚ) (mSize passes : ℕ) (v : ProducerLocals) :
    TimeQueue.producerLoop schedule fuel rate scrubSpeed mSize passes v =
      if v.nSamples ≥ v.space then
        match passes with
        | 0 => none
        | passes + 1 =>
          match schedule.AdvancedTrackTime fuel v.time ((v.space : ℚ) / rate) scrubSpeed with
          | none => none
          | some time =>
            TimeQueue.producerLoop schedule fuel rate scrubSpeed mSize passes
              { data := Function.update v.data ((v.index + 1) % mSize) time,
                time := time,
                index := (v.index + 1) % mSize,
                nSamples := v.nSamples - v.space,
                remainder := 0,
                space := TimeQueueGrainSize }
      else some v := by
  cases passes <;> rfl

/-- The loop of `Producer` when `AdvancedTrackTime` adds the elapsed time: with
`j` the number of grain boundaries crossed, `j` passes do; the samples left
with the remainder are the new remainder, the time still to advance is
conserved, the index has moved `j` slots, and the slot it points to holds the
time of the last boundary. -/
theorem TimeQueue.producerLoop_linear (schedule : PlaybackSchedule) (fuel : ℕ)
    (rate : ℚ) (mSize : ℕ)
    (hadv : ∀ x d : ℚ, schedule.AdvancedTrackTime fuel x d 1 = some (x + d)) (j : ℕ) :
    ∀ (passes : ℕ) (v : ProducerLocals), v.remainder < TimeQueueGrainSize →
      v.space = TimeQueueGrainSize - v.remainder →
      (v.remainder + v.nSamples) / TimeQueueGrainSize = j → j ≤ passes →
      ∃ w, TimeQueue.producerLoop schedule fuel rate 1 mSize passes v = some w ∧
        w.remainder + w.nSamples = (v.remainder + v.nSamples) % TimeQueueGrainSize ∧
        w.time + (w.nSamples : ℚ) / rate = v.time + (v.nSamples : ℚ) / rate ∧
        w.index = (if j = 0 then v.index else (v.index + j) % mSize) ∧
        (j = 0 → w = v) ∧
        (1 ≤ j → w.data w.index = w.time ∧ w.remainder = 0) := by
  induction j with
  | zero =>
    intro passes v hrem hspace hj _
    unfold TimeQueueGrainSize at hrem hspace hj
    have hlt : ¬ v.nSamples ≥ v.space := by omega
    refine ⟨v, ?_, ?_, rfl, by simp, fun _ => rfl, fun h => absurd h (by omega)⟩
    · rw [TimeQueue.producerLoop_unfold]
      rw [if_neg hlt]
    · unfold TimeQueueGrainSize
      omega
  | succ j ih =>
    intro passes v hrem hspace hj hpasses
    unfold TimeQueueGrainSize at hrem hspace hj
    have hge : v.nSamples ≥ v.space := by omega
    obtain ⟨p, rfl⟩ : ∃ p, passes = p + 1 := ⟨passes - 1, by omega⟩
    obtain ⟨w, hw, h1, h2, h3, h4, h5⟩ := ih p
      { data := Function.update v.data ((v.index + 1) % mSize)
          (v.time + (v.space : ℚ) / rate),
        time := v.time + (v.space : ℚ) / rate,
        index := (v.index + 1) % mSize,
        nSamples := v.nSamples - v.space,
        remainder := 0,
        space := TimeQueueGrainSize }
      (by norm_num [TimeQueueGrainSize]) (by simp)
      (by
        show (0 + (v.nSamples - v.space)) / TimeQueueGrainSize = j
        unfold TimeQueueGrainSize
        omega)
      (by omega)
    dsimp only at h1 h2 h3 h4 h5
    refine ⟨w, ?_, ?_, ?_, ?_, fun h => absurd h (Nat.succ_ne_zero j), fun _ => ?_⟩
    · rw [TimeQueue.producerLoop_unfold, if_pos hge]
      simp only [hadv]
      exact hw
    · rw [h1]
      unfold TimeQueueGrainSize
      omega
    · rw [h2, Nat.cast_sub hge]
      ring
    · rw [h3, if_neg (Nat.succ_ne_zero j)]
      by_cases hj0 : j = 0
      · simp [hj0]
      · rw [if_neg hj0, Nat.mod_add_mod]
        congr 1
        omega
    · by_cases hj0 : j = 0
      · have hwv := h4 hj0
        subst hwv
        exact ⟨by simp, rfl⟩
      · exact h5 (by omega)

/-- One `Producer` call on a backed queue whose tail remainder is within the
grain, when `AdvancedTrackTime` adds the elapsed time: with `j` the number of
grain boundaries crossed, `j` units of fuel do; the tail moves `j` slots, the
last time grows by `nSamples / rate`, and when a boundary is crossed the slot
of the tail holds the time of the last boundary. -/
theorem TimeQueue.Producer_linear (q : TimeQueue) (schedule : PlaybackSchedule)
    (fuel : ℕ) (rate : ℚ) (nSamples : ℕ) (d : ℕ → ℚ)
    (hadv : ∀ x d : ℚ, schedule.AdvancedTrackTime fuel x d 1 = some (x + d))
    (hdata : q.mData = some d) (hrem : q.mTail.mRemainder < TimeQueueGrainSize)
    (hfuel : (q.mTail.mRemainder + nSamples) / TimeQueueGrainSize ≤ fuel) :
    ∃ d', q.Producer schedule fuel rate 1 nSamples = some
        { q with
          mData := some d',
          mLastTime := q.mLastTime + (nSamples : ℚ) / rate,
          mTail :=
            { mIndex :=
                if (q.mTail.mRemainder + nSamples) / TimeQueueGrainSize = 0 then
                  q.mTail.mIndex
                else (q.mTail.mIndex
                  + (q.mTail.mRemainder + nSamples) / TimeQueueGrainSize) % q.mSize,
              mRemainder := (q.mTail.mRemainder + nSamples) % TimeQueueGrainSize } } ∧
      ((q.mTail.mRemainder + nSamples) / TimeQueueGrainSize = 0 → d' = d) ∧
      (1 ≤ (q.mTail.mRemainder + nSamples) / TimeQueueGrainSize →
        d' (if (q.mTail.mRemainder + nSamples) / TimeQueueGrainSize = 0 then
              q.mTail.mIndex
            else (q.mTail.mIndex
              + (q.mTail.mRemainder + nSamples) / TimeQueueGrainSize) % q.mSize)
          = q.mLastTime
            + ((((q.mTail.mRemainder + nSamples) / TimeQueueGrainSize
                * TimeQueueGrainSize : ℕ) : ℚ) - (q.mTail.mRemainder : ℚ)) / rate) := by
  obtain ⟨w, hw, h1, h2, h3, h4, h5⟩ := TimeQueue.producerLoop_linear schedule fuel rate
    q.mSize hadv ((q.mTail.mRemainder + nSamples) / TimeQueueGrainSize) fuel
    { data := d,
      time := q.mLastTime,
      index := q.mTail.mIndex,
      nSamples := nSamples,
      remainder := q.mTail.mRemainder,
      space := sizeTSub TimeQueueGrainSize q.mTail.mRemainder }
    hrem (sizeTSub_grain hrem) rfl hfuel
  dsimp only at h1 h2 h3 h4 h5
  have hodd : (if w.nSamples > 0 then
        schedule.AdvancedTrackTime fuel w.time ((w.nSamples : ℚ) / rate) 1
      else some w.time) = some (q.mLastTime + (nSamples : ℚ) / rate) := by
    rw [← h2]
    split
    · rw [hadv]
    · rename_i hz
      have hz0 : w.nSamples = 0 := by omega
      rw [hz0]
      simp
  refine ⟨w.data, ?_, ?_, ?_⟩
  · unfold TimeQueue.Producer
    rw [hdata]
    dsimp only
    rw [hw]
    dsimp only
    rw [hodd, h1, h3]
  · intro hj
    rw [h4 hj]
  · intro hj
    obtain ⟨hstamp, hr0⟩ := h5 hj
    rw [← h3, hstamp]
    have hsplit := Nat.div_add_mod (q.mTail.mRemainder + nSamples) TimeQueueGrainSize
    rw [hr0, Nat.zero_add] at h1
    have hq : ((nSamples : ℕ) : ℚ)
        = (((q.mTail.mRemainder + nSamples) / TimeQueueGrainSize
            * TimeQueueGrainSize : ℕ) : ℚ) - (q.mTail.mRemainder : ℚ)
          + (w.nSamples : ℚ) := by
      rw [h1]
      have : ((q.mTail.mRemainder + nSamples : ℕ) : ℚ)
          = ((TimeQueueGrainSize * ((q.mTail.mRemainder + nSamples) / TimeQueueGrainSize)
              + (q.mTail.mRemainder + nSamples) % TimeQueueGrainSize : ℕ) : ℚ) := by
        rw [hsplit]
      push_cast at this ⊢
      linarith
    have htime : w.time = q.mLastTime + ((nSamples : ℚ) - (w.nSamples : ℚ)) / rate := by
      have := h2
      rw [sub_div]
      linarith
    rw [htime, hq]
    congr 2
    ring

/-- Consecutive `Producer` calls on a backed queue that has taken `M` samples
since `Prime(t)`, when `AdvancedTrackTime` adds the elapsed time: after the
calls the queue has taken `M + counts.sum` samples; its tail cursor, its last
time and the stamp in the slot of the tail say so. -/
theorem TimeQueue.ProducerCalls_linear (schedule : PlaybackSchedule) (fuel : ℕ)
    (rate t : ℚ)
    (hadv : ∀ x d : ℚ, schedule.AdvancedTrackTime fuel x d 1 = some (x + d))
    (counts : List ℕ) :
    ∀ (M : ℕ) (q : TimeQueue) (d : ℕ → ℚ), q.mData = some d →
      q.mTail.mRemainder = M % TimeQueueGrainSize →
      q.mTail.mIndex = (M / TimeQueueGrainSize) % q.mSize →
      q.mLastTime = t + (M : ℚ) / rate →
      (1 ≤ M / TimeQueueGrainSize →
        d ((M / TimeQueueGrainSize) % q.mSize)
          = t + ((M / TimeQueueGrainSize * TimeQueueGrainSize : ℕ) : ℚ) / rate) →
      (M + counts.sum) / TimeQueueGrainSize ≤ fuel →
      ∃ (after : TimeQueue) (d' : ℕ → ℚ),
        TimeQueue.ProducerCalls schedule fuel rate 1 counts q = some after ∧
        after.mData = some d' ∧ after.mSize = q.mSize ∧ after.mHead = q.mHead ∧
        after.mTail.mRemainder = (M + counts.sum) % TimeQueueGrainSize ∧
        after.mTail.mIndex = ((M + counts.sum) / TimeQueueGrainSize) % q.mSize ∧
        after.mLastTime = t + ((M + counts.sum : ℕ) : ℚ) / rate ∧
        (1 ≤ (M + counts.sum) / TimeQueueGrainSize →
          d' (((M + counts.sum) / TimeQueueGrainSize) % q.mSize)
            = t + (((M + counts.sum) / TimeQueueGrainSize * TimeQueueGrainSize : ℕ) : ℚ)
              / rate) := by
  induction counts with
  | nil =>
    intro M q d hdata hrem hidx hlast hstamp _
    exact ⟨q, d, rfl, hdata, rfl, rfl, by simpa using hrem, by simpa using hidx,
      by simpa using hlast, by simpa using hstamp⟩
  | cons n rest ih =>
    intro M q d hdata hrem hidx hlast hstamp hfuel
    have hsum : M + (n :: rest).sum = M + n + rest.sum := by
      rw [List.sum_cons, Nat.add_assoc]
    rw [hsum] at hfuel ⊢
    have hremlt : q.mTail.mRemainder < TimeQueueGrainSize := by
      rw [hrem]
      exact Nat.mod_lt _ (by norm_num [TimeQueueGrainSize])
    have hdiv : (M + n) / TimeQueueGrainSize
        = M / TimeQueueGrainSize + (q.mTail.mRemainder + n) / TimeQueueGrainSize := by
      rw [hrem]
      unfold TimeQueueGrainSize
      omega
    have hmod : (M + n) % TimeQueueGrainSize
        = (q.mTail.mRemainder + n) % TimeQueueGrainSize := by
      rw [hrem]
      unfold TimeQueueGrainSize
      omega
    have hfuel1 : (q.mTail.mRemainder + n) / TimeQueueGrainSize ≤ fuel := by
      have h1 : (q.mTail.mRemainder + n) / TimeQueueGrainSize
          ≤ (M + n) / TimeQueueGrainSize := by
        apply Nat.div_le_div_right
        rw [hrem]
        exact Nat.add_le_add_right (Nat.mod_le _ _) _
      have h2 : (M + n) / TimeQueueGrainSize ≤ (M + n + rest.sum) / TimeQueueGrainSize :=
        Nat.div_le_div_right (Nat.le_add_right _ _)
      exact le_trans h1 (le_trans h2 hfuel)
    obtain ⟨d1, hcall, hsame, hnew⟩ := TimeQueue.Producer_linear q schedule fuel rate n d
      hadv hdata hremlt hfuel1
    have hidx1 : (if (q.mTail.mRemainder + n) / TimeQueueGrainSize = 0 then q.mTail.mIndex
          else (q.mTail.mIndex + (q.mTail.mRemainder + n) / TimeQueueGrainSize) % q.mSize)
        = ((M + n) / TimeQueueGrainSize) % q.mSize := by
      rw [hdiv]
      split
      · rename_i hz
        rw [hz, Nat.add_zero, hidx]
      · rw [hidx, Nat.mod_add_mod]
    rw [hidx1] at hcall hnew
    have hMq : (M : ℚ) = (TimeQueueGrainSize : ℚ) * ((M / TimeQueueGrainSize : ℕ) : ℚ)
        + (q.mTail.mRemainder : ℚ) := by
      have hM := Nat.div_add_mod M TimeQueueGrainSize
      rw [← hrem] at hM
      exact_mod_cast hM.symm
    obtain ⟨after, d', hafter, h1, h2, h3, h4, h5, h6, h7⟩ := ih (M + n)
      { q with
        mData := some d1,
        mLastTime := q.mLastTime + (n : ℚ) / rate,
        mTail :=
          { mIndex := ((M + n) / TimeQueueGrainSize) % q.mSize,
            mRemainder := (q.mTail.mRemainder + n) % TimeQueueGrainSize } }
      d1 rfl hmod.symm rfl
      (by
        show q.mLastTime + (n : ℚ) / rate = t + ((M + n : ℕ) : ℚ) / rate
        rw [hlast]
        push_cast
        ring)
      (by
        intro hone
        show d1 (((M + n) / TimeQueueGrainSize) % q.mSize) = _
        by_cases hj : (q.mTail.mRemainder + n) / TimeQueueGrainSize = 0
        · rw [hdiv, hj, Nat.add_zero] at hone
          rw [hsame hj, hdiv, hj, Nat.add_zero]
          exact hstamp hone
        · rw [hnew (Nat.one_le_iff_ne_zero.mpr hj), hlast, hdiv]
          push_cast
          rw [hMq]
          ring)
      hfuel
    refine ⟨after, d', ?_, h1, h2, h3, h4, h5, h6, h7⟩
    rw [TimeQueue.ProducerCalls, hcall]
    exact hafter

/-- One `Consumer` call on a backed queue whose head remainder is within the
grain: the head moves by the number of grain boundaries crossed, and the call
returns the stamp in the slot it reaches. -/
theorem TimeQueue.Consumer_backed (q : TimeQueue) (nSamples : ℕ) (rate : ℚ)
    (d : ℕ → ℚ) (hdata : q.mData = some d)
    (hrem : q.mHead.mRemainder < TimeQueueGrainSize) :
    q.Consumer nSamples rate =
      (d (if (q.mHead.mRemainder + nSamples) / TimeQueueGrainSize = 0 then q.mHead.mIndex
          else (q.mHead.mIndex
            + (q.mHead.mRemainder + nSamples) / TimeQueueGrainSize) % q.mSize),
        { q with
          mHead :=
            { mIndex :=
                if (q.mHead.mRemainder + nSamples) / TimeQueueGrainSize = 0 then
                  q.mHead.mIndex
                else (q.mHead.mIndex
                  + (q.mHead.mRemainder + nSamples) / TimeQueueGrainSize) % q.mSize,
              mRemainder := (q.mHead.mRemainder + nSamples) % TimeQueueGrainSize } }) := by
  unfold TimeQueue.Consumer
  rw [hdata]
  dsimp only
  rw [sizeTSub_grain hrem]
  unfold TimeQueueGrainSize at hrem ⊢
  by_cases h1 : nSamples ≥ 2000 - q.mHead.mRemainder
  · rw [if_pos h1]
    by_cases h2 : nSamples - (2000 - q.mHead.mRemainder) ≥ 2000
    · rw [if_pos h2]
      have hj : (q.mHead.mRemainder + nSamples) / 2000
          = 1 + (nSamples - (2000 - q.mHead.mRemainder)) / 2000 := by omega
      have hm : (q.mHead.mRemainder + nSamples) % 2000
          = 0 + (nSamples - (2000 - q.mHead.mRemainder)) % 2000 := by omega
      rw [if_neg (by omega), hm, hj, Nat.mod_add_mod, Nat.add_assoc]
    · rw [if_neg h2]
      have hj : (q.mHead.mRemainder + nSamples) / 2000 = 1 := by omega
      have hm : (q.mHead.mRemainder + nSamples) % 2000
          = 0 + (nSamples - (2000 - q.mHead.mRemainder)) := by omega
      rw [if_neg (by omega), hm, hj]
  · rw [if_neg h1]
    have hj : (q.mHead.mRemainder + nSamples) / 2000 = 0 := by omega
    have hm : (q.mHead.mRemainder + nSamples) % 2000 = q.mHead.mRemainder + nSamples := by
      omega
    rw [if_pos hj, hm]

/-- Consecutive `Consumer` calls on a backed queue that has given `C` samples
since `Prime`: after the calls the head cursor is the one for
`C + counts.sum` samples, nothing else has changed, and the last call has
returned the stamp in the slot of the head. -/
theorem TimeQueue.ConsumerCalls_backed (rate : ℚ) (d : ℕ → ℚ) (counts : List ℕ) :
    ∀ (C : ℕ) (last : ℚ) (q : TimeQueue), q.mData = some d →
      q.mHead.mRemainder = C % TimeQueueGrainSize →
      q.mHead.mIndex = (C / TimeQueueGrainSize) % q.mSize →
      (TimeQueue.ConsumerCalls rate counts last q).2
        = { q with
            mHead :=
              { mIndex := ((C + counts.sum) / TimeQueueGrainSize) % q.mSize,
                mRemainder := (C + counts.sum) % TimeQueueGrainSize } } ∧
      (counts ≠ [] → (TimeQueue.ConsumerCalls rate counts last q).1
        = d (((C + counts.sum) / TimeQueueGrainSize) % q.mSize)) := by
  induction counts with
  | nil =>
    intro C last q _ hrem hidx
    refine ⟨?_, fun h => absurd rfl h⟩
    simp only [TimeQueue.ConsumerCalls, List.sum_nil, Nat.add_zero, ← hrem, ← hidx]
  | cons n rest ih =>
    intro C last q hdata hrem hidx
    have hsum : C + (n :: rest).sum = C + n + rest.sum := by
      rw [List.sum_cons, Nat.add_assoc]
    have hremlt : q.mHead.mRemainder < TimeQueueGrainSize := by
      rw [hrem]
      exact Nat.mod_lt _ (by norm_num [TimeQueueGrainSize])
    have hdiv : (C + n) / TimeQueueGrainSize
        = C / TimeQueueGrainSize + (q.mHead.mRemainder + n) / TimeQueueGrainSize := by
      rw [hrem]
      unfold TimeQueueGrainSize
      omega
    have hmod : (q.mHead.mRemainder + n) % TimeQueueGrainSize
        = (C + n) % TimeQueueGrainSize := by
      rw [hrem]
      unfold TimeQueueGrainSize
      omega
    have hidx1 : (if (q.mHead.mRemainder + n) / TimeQueueGrainSize = 0 then q.mHead.mIndex
          else (q.mHead.mIndex + (q.mHead.mRemainder + n) / TimeQueueGrainSize) % q.mSize)
        = ((C + n) / TimeQueueGrainSize) % q.mSize := by
      rw [hdiv]
      split
      · rename_i hz
        rw [hz, Nat.add_zero, hidx]
      · rw [hidx, Nat.mod_add_mod]
    have hcall := TimeQueue.Consumer_backed q n rate d hdata hremlt
    rw [hidx1, hmod] at hcall
    obtain ⟨h1, h2⟩ := ih (C + n) (q.Consumer n rate).1 (q.Consumer n rate).2
      (by rw [hcall]; exact hdata) (by rw [hcall]) (by rw [hcall])
    rw [TimeQueue.ConsumerCalls, hsum]
    constructor
    · rw [h1, hcall]
    · intro _
      by_cases hrest : rest = []
      · subst hrest
        simp only [TimeQueue.ConsumerCalls, List.sum_nil, Nat.add_zero]
        rw [hcall]
      · rw [h2 hrest, hcall]

/-- C28: on a backed queue (mSize > 0) of an envelope-free, non-looping,
forward schedule with |t0 - t1| ≥ 1e-9, rate > 0 and speed 1, after Prime(t)
the Producer calls totalling n ≥ TimeQueueGrainSize samples return (n / grain
units of fuel do), and Consumer calls totalling the same n samples end by
returning the stamp of the last grain boundary,
t + floor(n / grainSize) * grainSize / rate, which is at most the straight-line
t + n / rate, less than one grain's real time below it, and equal to it when n
is a multiple of the grain. -/
theorem C28_time_queue_round_trip (q : TimeQueue) (schedule : PlaybackSchedule)
    (d : ℕ → ℚ) (rate t last : ℚ) (produced consumed : List ℕ) (n fuel : ℕ)
    (hdata : q.mData = some d) (_hsize : 0 < q.mSize)
    (henv : schedule.mEnvelope = none)
    (hlen : 1 / 1000000000 ≤ |schedule.mT0 - schedule.mT1|)
    (hloop : schedule.GetPolicy.Looping schedule = false)
    (hfwd : schedule.mT0 < schedule.mT1) (hrate : 0 < rate)
    (hproduced : produced.sum = n) (hconsumed : consumed.sum = n)
    (hn : TimeQueueGrainSize ≤ n) (hfuel : n / TimeQueueGrainSize ≤ fuel) :
    ∃ filled : TimeQueue,
      TimeQueue.ProducerCalls schedule fuel rate 1 produced (q.Prime t) = some filled ∧
      (TimeQueue.ConsumerCalls rate consumed last filled).1
        = t + ((n / TimeQueueGrainSize * TimeQueueGrainSize : ℕ) : ℚ) / rate ∧
      t + ((n / TimeQueueGrainSize * TimeQueueGrainSize : ℕ) : ℚ) / rate
        ≤ t + (n : ℚ) / rate ∧
      t + (n : ℚ) / rate
        < t + ((n / TimeQueueGrainSize * TimeQueueGrainSize : ℕ) : ℚ) / rate
          + (TimeQueueGrainSize : ℚ) / rate ∧
      (n % TimeQueueGrainSize = 0 →
        t + ((n / TimeQueueGrainSize * TimeQueueGrainSize : ℕ) : ℚ) / rate
          = t + (n : ℚ) / rate) := by
  have hadv := PlaybackSchedule.AdvancedTrackTime_forward_unit schedule fuel henv hlen
    hloop hfwd
  obtain ⟨filled, d', hfilled, h1, h2, h3, -, -, -, h7⟩ :=
    TimeQueue.ProducerCalls_linear schedule fuel rate t hadv produced 0 (q.Prime t) d
      hdata (by simp [TimeQueue.Prime]) (by simp [TimeQueue.Prime])
      (by simp [TimeQueue.Prime]) (fun h => absurd h (by simp))
      (by rw [Nat.zero_add, hproduced]; exact hfuel)
  rw [Nat.zero_add, hproduced] at h7
  have hK : 1 ≤ n / TimeQueueGrainSize :=
    (Nat.one_le_div_iff (by norm_num [TimeQueueGrainSize])).mpr hn
  have hne : consumed ≠ [] := by
    intro h
    rw [h, List.sum_nil] at hconsumed
    rw [← hconsumed] at hn
    norm_num [TimeQueueGrainSize] at hn
  have hread := (TimeQueue.ConsumerCalls_backed rate d' consumed 0 last filled h1
    (by rw [h3]; rfl) (by rw [h3]; simp [TimeQueue.Prime])).2 hne
  rw [Nat.zero_add, hconsumed, h2] at hread
  have hsplit : (n : ℚ) = ((n / TimeQueueGrainSize * TimeQueueGrainSize : ℕ) : ℚ)
      + ((n % TimeQueueGrainSize : ℕ) : ℚ) := by
    have := Nat.div_add_mod n TimeQueueGrainSize
    rw [Nat.mul_comm] at this
    exact_mod_cast this.symm
  have hmodlt : ((n % TimeQueueGrainSize : ℕ) : ℚ) < (TimeQueueGrainSize : ℚ) := by
    exact_mod_cast Nat.mod_lt n (by norm_num [TimeQueueGrainSize])
  have hmod0 : (0 : ℚ) ≤ ((n % TimeQueueGrainSize : ℕ) : ℚ) := Nat.cast_nonneg _
  refine ⟨filled, hfilled, ?_, ?_, ?_, ?_⟩
  · rw [hread]
    exact h7 hK
  · have : ((n / TimeQueueGrainSize * TimeQueueGrainSize : ℕ) : ℚ) / rate
        ≤ (n : ℚ) / rate := by
      apply div_le_div_of_nonneg_right _ hrate.le
      rw [hsplit]
      linarith
    linarith
  · rw [add_assoc, ← add_div]
    have : (n : ℚ) / rate
        < (((n / TimeQueueGrainSize * TimeQueueGrainSize : ℕ) : ℚ)
          + (TimeQueueGrainSize : ℚ)) / rate := by
      apply div_lt_div_of_pos_right _ hrate
      rw [hsplit]
      linarith
    linarith
  · intro hz
    rw [hz] at hsplit
    rw [hsplit]
    simp

/-- C28 with t = 0, n = 5 * grainSize and rate 44100 on a queue of three slots,
produced in one call and consumed in two: the last Consumer call returns
10000 / 44100, the straight-line time. -/
theorem C28_time_queue_round_trip_witness :
    ∃ filled : TimeQueue,
      TimeQueue.ProducerCalls { mT0 := 0, mT1 := 100 } 5 44100 1 [10000]
          (({ mData := some (fun _ => 0), mSize := 3 } : TimeQueue).Prime 0)
        = some filled ∧
      (TimeQueue.ConsumerCalls 44100 [4000, 6000] 0 filled).1
        = 0 + ((10000 / TimeQueueGrainSize * TimeQueueGrainSize : ℕ) : ℚ) / 44100 ∧
      0 + ((10000 / TimeQueueGrainSize * TimeQueueGrainSize : ℕ) : ℚ) / 44100
        ≤ 0 + ((10000 : ℕ) : ℚ) / 44100 ∧
      0 + ((10000 : ℕ) : ℚ) / 44100
        < 0 + ((10000 / TimeQueueGrainSize * TimeQueueGrainSize : ℕ) : ℚ) / 44100
          + (TimeQueueGrainSize : ℚ) / 44100 ∧
      (10000 % TimeQueueGrainSize = 0 →
        0 + ((10000 / TimeQueueGrainSize * TimeQueueGrainSize : ℕ) : ℚ) / 44100
          = 0 + ((10000 : ℕ) : ℚ) / 44100) :=
  C28_time_queue_round_trip { mData := some (fun _ => 0), mSize := 3 }
    { mT0 := 0, mT1 := 100 } (fun _ => 0) 44100 0 0 [10000] [4000, 6000] 10000 5 rfl
    (by norm_num) rfl (by norm_num) rfl (by norm_num) (by norm_num) (by simp) (by simp)
    (by norm_num [TimeQueueGrainSize]) (by norm_num [TimeQueueGrainSize])

/-! ## Real-time accounting of the two policies -/

/-- The schedule that `PlaybackPolicy::GetPlaybackSlice` leaves: the real time
has advanced by the desired duration, or by what remains and the padding. -/
theorem PlaybackPolicy.GetPlaybackSlice_advance (ub : ℚ → ℕ) (mRate : ℚ)
    (schedule : PlaybackSchedule) (available : ℕ) :
    (PlaybackPolicy.GetPlaybackSlice ub mRate schedule available).2 =
      schedule.RealTimeAdvance
        (if (available : ℚ) / mRate > schedule.RealTimeRemaining then
          schedule.RealTimeRemaining +
            min (((TimeQueueGrainSize + 1 : ℕ) : ℚ) / mRate)
              ((available : ℚ) / mRate - schedule.RealTimeRemaining)
        else (available : ℚ) / mRate) := by
  unfold PlaybackPolicy.GetPlaybackSlice
  dsimp only
  split <;> rfl

/-- Consecutive calls of `PlaybackPolicy::GetPlaybackSlice` change nothing but
`mWarpedTime`. -/
theorem PlaybackPolicy.afterSlices_frame (ub : ℚ → ℕ) (mRate : ℚ) (available : ℕ)
    (schedule : PlaybackSchedule) (n : ℕ) :
    ∃ w, PlaybackPolicy.afterSlices ub mRate available n schedule
      = { schedule with mWarpedTime := w } := by
  induction n with
  | zero => exact ⟨schedule.mWarpedTime, rfl⟩
  | succ n ih =>
    obtain ⟨w, hw⟩ := ih
    obtain ⟨w', hw'⟩ := (PlaybackSchedule.GetPlaybackSlice_schedule ub mRate
      (PlaybackPolicy.afterSlices ub mRate available n schedule) available).1
    refine ⟨w', ?_⟩
    rw [PlaybackPolicy.afterSlices, hw', hw]

/-- With a positive rate and a remaining real time that is at most 0 but more
than minus one frame, the default policy asks for no audio. -/
theorem PlaybackPolicy.GetPlaybackSlice_spent (ub : ℚ → ℕ) (mRate : ℚ)
    (schedule : PlaybackSchedule) (available : ℕ) (hrate : 0 < mRate)
    (hR : schedule.RealTimeRemaining ≤ 0)
    (hframe : -1 < schedule.RealTimeRemaining * mRate) :
    (PlaybackPolicy.GetPlaybackSlice ub mRate schedule available).1.toProduce = 0 := by
  have hX : schedule.RealTimeRemaining * mRate ≤ 0 :=
    mul_nonpos_of_nonpos_of_nonneg hR hrate.le
  have htr : truncate (schedule.RealTimeRemaining * mRate) = 0 := by
    unfold truncate
    split_ifs with h
    · have : schedule.RealTimeRemaining * mRate = 0 := le_antisymm hX h
      rw [this]
      simp
    · rw [Int.ceil_eq_iff]
      constructor
      · simpa using hframe
      · simpa using hX
  have hconv : toSizeT ub (schedule.RealTimeRemaining * mRate) = 0 := by
    unfold toSizeT
    rw [htr]
    simp [sizeTRange]
  by_cases h : (available : ℚ) / mRate > schedule.RealTimeRemaining
  · rw [PlaybackPolicy.GetPlaybackSlice_overflow ub mRate schedule available h, hconv]
    simp [PlaybackSlice.construct]
  · rw [PlaybackPolicy.GetPlaybackSlice_within ub mRate schedule available h]
    have hd : 0 ≤ (available : ℚ) / mRate := div_nonneg (Nat.cast_nonneg _) hrate.le
    have hz : (available : ℚ) / mRate = 0 := le_antisymm (by linarith [not_lt.mp h]) hd
    have ha : available = 0 := by
      rcases div_eq_zero_iff.mp hz with h1 | h1
      · exact_mod_cast h1
      · exact absurd h1 hrate.ne.symm
    simp [PlaybackSlice.construct, ha]

/-- C32: playing one second at 44100 Hz in slices of 512 frames, the 87th call
of the default policy pads and leaves 444 frames of real time accounted past
the end (remaining real time -444 / 44100 ≤ 0).  In the next call toProduce is
the conversion of -444.0 to size_t, which C++ leaves undefined, clipped to the
512 frames of the slice: it is 0 only if that conversion gives 0, and it is
512 frames of audio past the end where the conversion wraps to 2^64 - 444. -/
theorem C32_real_audio_past_end :
    (∀ ub : ℚ → ℕ,
      PlaybackPolicy.afterSlices ub 44100 512 87 { mT0 := 0, mT1 := 1, mWarpedLength := 1 }
        = pastTheEnd) ∧
    pastTheEnd.RealTimeRemaining = -444 / 44100 ∧
    (∀ ub : ℚ → ℕ,
      (PlaybackPolicy.GetPlaybackSlice ub 44100 pastTheEnd 512).1
        = { frames := 512, toProduce := min (ub (-444) % sizeTRange) 512 }) ∧
    (PlaybackPolicy.GetPlaybackSlice (fun _ => 2 ^ 64 - 444) 44100 pastTheEnd 512).1.toProduce
      = 512 := by
  have hR : pastTheEnd.RealTimeRemaining = -444 / 44100 := by
    norm_num [pastTheEnd, PlaybackSchedule.RealTimeRemaining]
  have hslice : ∀ ub : ℚ → ℕ,
      (PlaybackPolicy.GetPlaybackSlice ub 44100 pastTheEnd 512).1
        = { frames := 512, toProduce := min (ub (-444) % sizeTRange) 512 } := by
    intro ub
    rw [PlaybackPolicy.GetPlaybackSlice_overflow ub 44100 pastTheEnd 512
      (by rw [hR]; norm_num), hR]
    have h1 : ((-444 / 44100 : ℚ)
        + min (((TimeQueueGrainSize + 1 : ℕ) : ℚ) / 44100)
            (((512 : ℕ) : ℚ) / 44100 - -444 / 44100)) * 44100 = ((512 : ℕ) : ℚ) := by
      rw [min_eq_right (by norm_num [TimeQueueGrainSize])]
      norm_num
    have h2 : (-444 / 44100 : ℚ) * 44100 = -444 := by norm_num
    have h3 : toSizeT ub ((512 : ℕ) : ℚ) = 512 := by
      rw [toSizeT_of_nonneg ub (by norm_num) (by norm_num [sizeTRange])]
      exact Nat.floor_natCast 512
    have h4 : toSizeT ub (-444) = ub (-444) % sizeTRange := by
      have htr : truncate (-444 : ℚ) = -444 := by
        have := truncate_intCast (-444)
        simpa using this
      unfold toSizeT
      rw [htr]
      simp
    rw [h1, h2, h3, h4]
    simp [PlaybackSlice.construct]
  refine ⟨?_, hR, hslice, ?_⟩
  · intro ub
    obtain ⟨h1, h2⟩ := PlaybackPolicy.afterSlices_one_second ub
      { mT0 := 0, mT1 := 1, mWarpedLength := 1 } rfl rfl 86 (le_refl _)
    obtain ⟨w, hw⟩ := PlaybackPolicy.afterSlices_frame ub 44100 512
      { mT0 := 0, mT1 := 1, mWarpedLength := 1 } 86
    have hw86 : w = 512 * ((86 : ℕ) : ℚ) / 44100 := by
      rw [hw] at h2
      exact h2
    rw [PlaybackPolicy.afterSlices, PlaybackPolicy.GetPlaybackSlice_advance, hw, hw86]
    simp only [PlaybackSchedule.RealTimeAdvance, PlaybackSchedule.RealTimeRemaining,
      pastTheEnd]
    rw [if_pos (by norm_num), min_eq_right (by norm_num [TimeQueueGrainSize])]
    norm_num
  · rw [hslice]
    norm_num [sizeTRange]

/-! ## The cursors of the time queue, for any schedule -/

/-- The loop of `Producer`, whatever `AdvancedTrackTime` computes: when it
returns, the samples left with the remainder are the new remainder, the index
has moved by the number of grain boundaries crossed, and nothing is written at
or beyond `mSize`. -/
theorem TimeQueue.producerLoop_cursor (schedule : PlaybackSchedule) (fuel : ℕ)
    (rate scrubSpeed : ℚ) (mSize : ℕ) (hsize : 0 < mSize) (passes : ℕ) :
    ∀ (v w : ProducerLocals), v.remainder < TimeQueueGrainSize →
      v.space = TimeQueueGrainSize - v.remainder →
      TimeQueue.producerLoop schedule fuel rate scrubSpeed mSize passes v = some w →
      w.remainder + w.nSamples = (v.remainder + v.nSamples) % TimeQueueGrainSize ∧
      w.index = (if (v.remainder + v.nSamples) / TimeQueueGrainSize = 0 then v.index
        else (v.index + (v.remainder + v.nSamples) / TimeQueueGrainSize) % mSize) ∧
      (∀ i, mSize ≤ i → w.data i = v.data i) := by
  induction passes with
  | zero =>
    intro v w hrem hspace hloop
    unfold TimeQueueGrainSize at hrem hspace ⊢
    by_cases hge : v.nSamples ≥ v.space
    · rw [TimeQueue.producerLoop_unfold, if_pos hge] at hloop
      cases hloop
    · rw [TimeQueue.producerLoop_unfold, if_neg hge] at hloop
      cases hloop
      have hj : (v.remainder + v.nSamples) / 2000 = 0 := by omega
      refine ⟨by omega, by rw [if_pos hj], fun _ _ => rfl⟩
  | succ p ih =>
    intro v w hrem hspace hloop
    by_cases hge : v.nSamples ≥ v.space
    · rw [TimeQueue.producerLoop_unfold, if_pos hge] at hloop
      cases hadv : schedule.AdvancedTrackTime fuel v.time ((v.space : ℚ) / rate) scrubSpeed with
      | none =>
        rw [hadv] at hloop
        cases hloop
      | some time =>
        rw [hadv] at hloop
        dsimp only at hloop
        obtain ⟨h1, h2, h3⟩ := ih _ w (by norm_num [TimeQueueGrainSize]) (by simp) hloop
        dsimp only at h1 h2 h3
        unfold TimeQueueGrainSize at hrem hspace h1 h2 ⊢
        have hk : (0 + (v.nSamples - v.space)) / 2000
            = (v.remainder + v.nSamples) / 2000 - 1 := by omega
        have hm : (0 + (v.nSamples - v.space)) % 2000
            = (v.remainder + v.nSamples) % 2000 := by omega
        have hj1 : 1 ≤ (v.remainder + v.nSamples) / 2000 := by omega
        rw [hm] at h1
        rw [hk] at h2
        refine ⟨h1, ?_, ?_⟩
        · have hne : ¬ (v.remainder + v.nSamples) / 2000 = 0 := by omega
          rw [h2, if_neg hne]
          split
          · rename_i hz
            have h1j : (v.remainder + v.nSamples) / 2000 = 1 := by omega
            rw [h1j]
          · rw [Nat.mod_add_mod]
            congr 1
            omega
        · intro i hi
          rw [h3 i hi]
          apply Function.update_noteq
          have := Nat.mod_lt (v.index + 1) hsize
          omega
    · rw [TimeQueue.producerLoop_unfold, if_neg hge] at hloop
      cases hloop
      unfold TimeQueueGrainSize at hrem hspace ⊢
      have hj : (v.remainder + v.nSamples) / 2000 = 0 := by omega
      refine ⟨by omega, by rw [if_pos hj], fun _ _ => rfl⟩

/-- The loop of `Producer` returns when every call of `AdvancedTrackTime` does
and the passes cover the grain boundaries crossed. -/
theorem TimeQueue.producerLoop_returns (schedule : PlaybackSchedule) (fuel : ℕ)
    (rate scrubSpeed : ℚ) (mSize : ℕ)
    (hadv : ∀ x e : ℚ, ∃ r, schedule.AdvancedTrackTime fuel x e scrubSpeed = some r)
    (j : ℕ) :
    ∀ (passes : ℕ) (v : ProducerLocals), v.remainder < TimeQueueGrainSize →
      v.space = TimeQueueGrainSize - v.remainder →
      (v.remainder + v.nSamples) / TimeQueueGrainSize = j → j ≤ passes →
      ∃ w, TimeQueue.producerLoop schedule fuel rate scrubSpeed mSize passes v = some w := by
  induction j with
  | zero =>
    intro passes v hrem hspace hj _
    unfold TimeQueueGrainSize at hrem hspace hj
    have hlt : ¬ v.nSamples ≥ v.space := by omega
    refine ⟨v, ?_⟩
    rw [TimeQueue.producerLoop_unfold]
    rw [if_neg hlt]
  | succ j ih =>
    intro passes v hrem hspace hj hpasses
    unfold TimeQueueGrainSize at hrem hspace hj
    have hge : v.nSamples ≥ v.space := by omega
    obtain ⟨p, rfl⟩ : ∃ p, passes = p + 1 := ⟨passes - 1, by omega⟩
    obtain ⟨time, htime⟩ := hadv v.time ((v.space : ℚ) / rate)
    obtain ⟨w, hw⟩ := ih p
      { data := Function.update v.data ((v.index + 1) % mSize) time,
        time := time,
        index := (v.index + 1) % mSize,
        nSamples := v.nSamples - v.space,
        remainder := 0,
        space := TimeQueueGrainSize }
      (by norm_num [TimeQueueGrainSize]) (by simp)
      (by
        show (0 + (v.nSamples - v.space)) / TimeQueueGrainSize = j
        unfold TimeQueueGrainSize
        omega)
      (by omega)
    refine ⟨w, ?_⟩
    rw [TimeQueue.producerLoop_unfold, if_pos hge]
    simp only [htime]
    exact hw

/-- One `Producer` call on a backed queue, whatever `AdvancedTrackTime`
computes: when it returns, the tail has moved by the number of grain boundaries
crossed, the head and the size are as before, and the array is unchanged at and
beyond `mSize`. -/
theorem TimeQueue.Producer_cursor (q after : TimeQueue) (schedule : PlaybackSchedule)
    (fuel : ℕ) (rate scrubSpeed : ℚ) (nSamples : ℕ) (d : ℕ → ℚ)
    (hdata : q.mData = some d) (hsize : 0 < q.mSize)
    (hrem : q.mTail.mRemainder < TimeQueueGrainSize)
    (hcall : q.Producer schedule fuel rate scrubSpeed nSamples = some after) :
    after.mTail =
        { mIndex :=
            if (q.mTail.mRemainder + nSamples) / TimeQueueGrainSize = 0 then q.mTail.mIndex
            else (q.mTail.mIndex
              + (q.mTail.mRemainder + nSamples) / TimeQueueGrainSize) % q.mSize,
          mRemainder := (q.mTail.mRemainder + nSamples) % TimeQueueGrainSize } ∧
      after.mHead = q.mHead ∧ after.mSize = q.mSize ∧
      ∃ d', after.mData = some d' ∧ ∀ i, q.mSize ≤ i → d' i = d i := by
  unfold TimeQueue.Producer at hcall
  rw [hdata] at hcall
  dsimp only at hcall
  cases hloop : TimeQueue.producerLoop schedule fuel rate scrubSpeed q.mSize fuel
      { data := d,
        time := q.mLastTime,
        index := q.mTail.mIndex,
        nSamples := nSamples,
        remainder := q.mTail.mRemainder,
        space := sizeTSub TimeQueueGrainSize q.mTail.mRemainder } with
  | none =>
    rw [hloop] at hcall
    cases hcall
  | some w =>
    rw [hloop] at hcall
    dsimp only at hcall
    obtain ⟨h1, h2, h3⟩ := TimeQueue.producerLoop_cursor schedule fuel rate scrubSpeed
      q.mSize hsize fuel _ w hrem (sizeTSub_grain hrem) hloop
    dsimp only at h1 h2 h3
    cases hodd : (if w.nSamples > 0 then
        schedule.AdvancedTrackTime fuel w.time ((w.nSamples : ℚ) / rate) scrubSpeed
      else some w.time) with
    | none =>
      rw [hodd] at hcall
      cases hcall
    | some time =>
      rw [hodd] at hcall
      cases hcall
      exact ⟨by rw [h1, h2], rfl, rfl, w.data, rfl, h3⟩

/-- One `Producer` call on a backed queue returns when every call of
`AdvancedTrackTime` does and the fuel covers the grain boundaries crossed. -/
theorem TimeQueue.Producer_returns (q : TimeQueue) (schedule : PlaybackSchedule)
    (fuel : ℕ) (rate scrubSpeed : ℚ) (nSamples : ℕ) (d : ℕ → ℚ)
    (hadv : ∀ x e : ℚ, ∃ r, schedule.AdvancedTrackTime fuel x e scrubSpeed = some r)
    (hdata : q.mData = some d) (hrem : q.mTail.mRemainder < TimeQueueGrainSize)
    (hfuel : (q.mTail.mRemainder + nSamples) / TimeQueueGrainSize ≤ fuel) :
    ∃ after, q.Producer schedule fuel rate scrubSpeed nSamples = some after := by
  obtain ⟨w, hw⟩ := TimeQueue.producerLoop_returns schedule fuel rate scrubSpeed q.mSize
    hadv ((q.mTail.mRemainder + nSamples) / TimeQueueGrainSize) fuel
    { data := d,
      time := q.mLastTime,
      index := q.mTail.mIndex,
      nSamples := nSamples,
      remainder := q.mTail.mRemainder,
      space := sizeTSub TimeQueueGrainSize q.mTail.mRemainder }
    hrem (sizeTSub_grain hrem) rfl hfuel
  have hodd : ∃ time, (if w.nSamples > 0 then
        schedule.AdvancedTrackTime fuel w.time ((w.nSamples : ℚ) / rate) scrubSpeed
      else some w.time) = some time := by
    split
    · exact hadv _ _
    · exact ⟨_, rfl⟩
  obtain ⟨time, htime⟩ := hodd
  unfold TimeQueue.Producer
  rw [hdata]
  dsimp only
  rw [hw]
  dsimp only
  rw [htime]
  exact ⟨_, rfl⟩

/-- Consecutive `Producer` calls on a backed queue whose tail is the cursor for
`M` samples, whatever `AdvancedTrackTime` computes: when they return, the tail
is the cursor for `M + counts.sum` samples, the head and the size are as
before, and the array is unchanged at and beyond `mSize`. -/
theorem TimeQueue.ProducerCalls_cursor (schedule : PlaybackSchedule) (fuel : ℕ)
    (rate scrubSpeed : ℚ) (counts : List ℕ) :
    ∀ (M : ℕ) (q after : TimeQueue) (d : ℕ → ℚ), q.mData = some d → 0 < q.mSize →
      q.mTail.mRemainder = M % TimeQueueGrainSize →
      q.mTail.mIndex = (M / TimeQueueGrainSize) % q.mSize →
      TimeQueue.ProducerCalls schedule fuel rate scrubSpeed counts q = some after →
      after.mTail =
          { mIndex := ((M + counts.sum) / TimeQueueGrainSize) % q.mSize,
            mRemainder := (M + counts.sum) % TimeQueueGrainSize } ∧
        after.mHead = q.mHead ∧ after.mSize = q.mSize ∧
        ∃ d', after.mData = some d' ∧ ∀ i, q.mSize ≤ i → d' i = d i := by
  induction counts with
  | nil =>
    intro M q after d hdata _ hrem hidx hcalls
    rw [TimeQueue.ProducerCalls] at hcalls
    cases hcalls
    refine ⟨?_, rfl, rfl, d, hdata, fun _ _ => rfl⟩
    rw [List.sum_nil, Nat.add_zero, ← hrem, ← hidx]
  | cons n rest ih =>
    intro M q after d hdata hsize hrem hidx hcalls
    have hsum : M + (n :: rest).sum = M + n + rest.sum := by
      rw [List.sum_cons, Nat.add_assoc]
    have hremlt : q.mTail.mRemainder < TimeQueueGrainSize := by
      rw [hrem]
      exact Nat.mod_lt _ (by norm_num [TimeQueueGrainSize])
    have hdiv : (M + n) / TimeQueueGrainSize
        = M / TimeQueueGrainSize + (q.mTail.mRemainder + n) / TimeQueueGrainSize := by
      rw [hrem]
      unfold TimeQueueGrainSize
      omega
    have hmod : (q.mTail.mRemainder + n) % TimeQueueGrainSize
        = (M + n) % TimeQueueGrainSize := by
      rw [hrem]
      unfold TimeQueueGrainSize
      omega
    have hidx1 : (if (q.mTail.mRemainder + n) / TimeQueueGrainSize = 0 then q.mTail.mIndex
          else (q.mTail.mIndex + (q.mTail.mRemainder + n) / TimeQueueGrainSize) % q.mSize)
        = ((M + n) / TimeQueueGrainSize) % q.mSize := by
      rw [hdiv]
      split
      · rename_i hz
        rw [hz, Nat.add_zero, hidx]
      · rw [hidx, Nat.mod_add_mod]
    rw [TimeQueue.ProducerCalls] at hcalls
    cases hcall : q.Producer schedule fuel rate scrubSpeed n with
    | none =>
      rw [hcall] at hcalls
      cases hcalls
    | some q1 =>
      rw [hcall] at hcalls
      dsimp only at hcalls
      obtain ⟨c1, c2, c3, d1, c4, c5⟩ := TimeQueue.Producer_cursor q q1 schedule fuel rate
        scrubSpeed n d hdata hsize hremlt hcall
      rw [hidx1, hmod] at c1
      obtain ⟨r1, r2, r3, d', r4, r5⟩ := ih (M + n) q1 after d1 c4 (by rw [c3]; exact hsize)
        (by rw [c1]) (by rw [c1, c3]) hcalls
      rw [c3] at r1 r3 r5
      rw [hsum]
      exact ⟨r1, by rw [r2, c2], r3, d', r4, fun i hi => by rw [r5 i hi, c5 i hi]⟩

/-- Consecutive `Producer` calls on a backed queue return when every call of
`AdvancedTrackTime` does and the fuel covers the grain boundaries crossed. -/
theorem TimeQueue.ProducerCalls_returns (schedule : PlaybackSchedule) (fuel : ℕ)
    (rate scrubSpeed : ℚ)
    (hadv : ∀ x e : ℚ, ∃ r, schedule.AdvancedTrackTime fuel x e scrubSpeed = some r)
    (counts : List ℕ) :
    ∀ (M : ℕ) (q : TimeQueue) (d : ℕ → ℚ), q.mData = some d → 0 < q.mSize →
      q.mTail.mRemainder = M % TimeQueueGrainSize →
      q.mTail.mIndex = (M / TimeQueueGrainSize) % q.mSize →
      (M + counts.sum) / TimeQueueGrainSize ≤ fuel →
      ∃ after, TimeQueue.ProducerCalls schedule fuel rate scrubSpeed counts q = some after := by
  induction counts with
  | nil =>
    intro M q d _ _ _ _ _
    exact ⟨q, rfl⟩
  | cons n rest ih =>
    intro M q d hdata hsize hrem hidx hfuel
    have hsum : M + (n :: rest).sum = M + n + rest.sum := by
      rw [List.sum_cons, Nat.add_assoc]
    rw [hsum] at hfuel
    have hremlt : q.mTail.mRemainder < TimeQueueGrainSize := by
      rw [hrem]
      exact Nat.mod_lt _ (by norm_num [TimeQueueGrainSize])
    have hfuel1 : (q.mTail.mRemainder + n) / TimeQueueGrainSize ≤ fuel := by
      have h1 : (q.mTail.mRemainder + n) / TimeQueueGrainSize
          ≤ (M + n) / TimeQueueGrainSize := by
        apply Nat.div_le_div_right
        rw [hrem]
        exact Nat.add_le_add_right (Nat.mod_le _ _) _
      have h2 : (M + n) / TimeQueueGrainSize ≤ (M + n + rest.sum) / TimeQueueGrainSize :=
        Nat.div_le_div_right (Nat.le_add_right _ _)
      exact le_trans h1 (le_trans h2 hfuel)
    obtain ⟨q1, hcall⟩ := TimeQueue.Producer_returns q schedule fuel rate scrubSpeed n d
      hadv hdata hremlt hfuel1
    obtain ⟨c1, -, c3, d1, c4, -⟩ := TimeQueue.ProducerCalls_cursor schedule fuel rate
      scrubSpeed [n] M q q1 d hdata hsize hrem hidx
      (by rw [TimeQueue.ProducerCalls, hcall]; rfl)
    rw [List.sum_singleton] at c1
    obtain ⟨after, hafter⟩ := ih (M + n) q1 d1 c4 (by rw [c3]; exact hsize)
      (by rw [c1]) (by rw [c1, c3]) hfuel
    refine ⟨after, ?_⟩
    rw [TimeQueue.ProducerCalls, hcall]
    exact hafter

/-! ## The producer returns under a looping policy -/

/-- Without an envelope and under a looping policy, `AdvancedTrackTime` returns
with a time no farther than `B` from t0 when it starts from such a time, the
region is not longer than `B`, the advance is at most `E` and the fuel covers
`B + E` in region lengths. -/
theorem PlaybackSchedule.AdvancedTrackTime_bounded_returns (s : PlaybackSchedule)
    (fuel : ℕ) (speed B E : ℚ) (henv : s.mEnvelope = none)
    (hloop : s.GetPolicy.Looping s = true) (hB : |s.mT1 - s.mT0| ≤ B)
    (hfuel : B + E ≤ fuel * |s.mT1 - s.mT0|) (x e : ℚ) (hx : |x - s.mT0| ≤ B)
    (he0 : 0 ≤ e) (heE : e * |speed| ≤ E) :
    ∃ r, s.AdvancedTrackTime fuel x e speed = some r ∧ |r - s.mT0| ≤ B := by
  have hB0 : 0 ≤ B := le_trans (abs_nonneg _) hB
  by_cases hguard : |s.mT0 - s.mT1| < 1 / 1000000000
  · refine ⟨s.mT0, ?_, by simpa using hB0⟩
    unfold PlaybackSchedule.AdvancedTrackTime
    dsimp only
    rw [if_pos hguard]
  · have hlen : 1 / 1000000000 ≤ |s.mT0 - s.mT1| := not_lt.mp hguard
    have hne : s.mT0 ≠ s.mT1 := by
      intro h
      rw [h, sub_self, abs_zero] at hlen
      norm_num at hlen
    have hm : 0 ≤ e * |speed| := mul_nonneg he0 (abs_nonneg _)
    rw [PlaybackSchedule.AdvancedTrackTime_wrap s fuel x e speed henv hlen hloop]
    rw [abs_le] at hx
    rcases lt_or_gt_of_ne hne with hdir | hdir
    · have hrev : s.ReversedTime = false := by
        simp [PlaybackSchedule.ReversedTime, hdir.le]
      have hd : 0 < s.mT1 - s.mT0 := sub_pos.mpr hdir
      rw [abs_of_pos hd] at hB hfuel
      rw [hrev]
      simp only [Bool.false_eq_true, if_false]
      by_cases hy : s.mT0 ≤ x + e * |speed|
      · obtain ⟨k, hk, lo, hi⟩ := PlaybackSchedule.wrapWhileOverruns_forward s
          (x + e * |speed|) hdir hy
        have hkf : k ≤ fuel := by
          have h1 : (k : ℚ) * (s.mT1 - s.mT0) ≤ (fuel : ℚ) * (s.mT1 - s.mT0) := by
            linarith
          have h2 : (k : ℚ) ≤ fuel := le_of_mul_le_mul_right h1 hd
          exact_mod_cast h2
        refine ⟨_, hk fuel hkf, ?_⟩
        rw [abs_le]
        constructor <;> linarith
      · have hout : s.Overruns (x + e * |speed| - ((0 : ℕ) : ℚ) * (s.mT1 - s.mT0))
            = false := by
          simp only [PlaybackSchedule.Overruns, hrev, Bool.false_eq_true, if_false]
          rw [decide_eq_false_iff_not]
          push_neg
          push_cast
          linarith [not_le.mp hy]
        have h := PlaybackSchedule.wrapWhileOverruns_exit s 0 fuel (x + e * |speed|)
          (Nat.zero_le _) (fun j hj => absurd hj (Nat.not_lt_zero j)) hout
        refine ⟨_, h, ?_⟩
        rw [abs_le]
        push_cast
        constructor <;> linarith [not_le.mp hy]
    · have hrev : s.ReversedTime = true := by
        simp [PlaybackSchedule.ReversedTime, hdir]
      have hd : 0 < s.mT0 - s.mT1 := sub_pos.mpr hdir
      rw [abs_of_neg (sub_neg.mpr hdir)] at hB hfuel
      rw [hrev]
      simp only [if_true]
      have hyx : x + e * (-1) * |speed| = x - e * |speed| := by ring
      rw [hyx]
      by_cases hy : x - e * |speed| ≤ s.mT0
      · obtain ⟨k, hk, lo, hi⟩ := PlaybackSchedule.wrapWhileOverruns_reversed s
          (x - e * |speed|) hdir hy
        have hkf : k ≤ fuel := by
          have h1 : (k : ℚ) * (s.mT0 - s.mT1) ≤ (fuel : ℚ) * (s.mT0 - s.mT1) := by
            linarith
          have h2 : (k : ℚ) ≤ fuel := le_of_mul_le_mul_right h1 hd
          exact_mod_cast h2
        refine ⟨_, hk fuel hkf, ?_⟩
        rw [abs_le]
        constructor <;> linarith
      · have hout : s.Overruns (x - e * |speed| - ((0 : ℕ) : ℚ) * (s.mT1 - s.mT0))
            = false := by
          simp only [PlaybackSchedule.Overruns, hrev, if_true]
          rw [decide_eq_false_iff_not]
          push_neg
          push_cast
          linarith [not_le.mp hy]
        have h := PlaybackSchedule.wrapWhileOverruns_exit s 0 fuel (x - e * |speed|)
          (Nat.zero_le _) (fun j hj => absurd hj (Nat.not_lt_zero j)) hout
        refine ⟨_, h, ?_⟩
        rw [abs_le]
        push_cast
        constructor <;> linarith [not_le.mp hy]

/-- The loop of `Producer` returns, with a time of `P`, when it starts from a
time of `P`, every call of `AdvancedTrackTime` from a time of `P` by at most a
grain returns a time of `P`, and the passes cover the grain boundaries
crossed. -/
theorem TimeQueue.producerLoop_returns_within (schedule : PlaybackSchedule) (fuel : ℕ)
    (rate scrubSpeed : ℚ) (mSize : ℕ) (P : ℚ → Prop)
    (hadv : ∀ (x : ℚ) (n : ℕ), P x → n ≤ TimeQueueGrainSize →
      ∃ r, schedule.AdvancedTrackTime fuel x ((n : ℚ) / rate) scrubSpeed = some r ∧ P r)
    (j : ℕ) :
    ∀ (passes : ℕ) (v : ProducerLocals), v.remainder < TimeQueueGrainSize →
      v.space = TimeQueueGrainSize - v.remainder → P v.time →
      (v.remainder + v.nSamples) / TimeQueueGrainSize = j → j ≤ passes →
      ∃ w, TimeQueue.producerLoop schedule fuel rate scrubSpeed mSize passes v = some w ∧
        P w.time := by
  induction j with
  | zero =>
    intro passes v hrem hspace hP hj _
    unfold TimeQueueGrainSize at hrem hspace hj
    have hlt : ¬ v.nSamples ≥ v.space := by omega
    refine ⟨v, ?_, hP⟩
    rw [TimeQueue.producerLoop_unfold]
    rw [if_neg hlt]
  | succ j ih =>
    intro passes v hrem hspace hP hj hpasses
    have hsp : v.space ≤ TimeQueueGrainSize := by omega
    unfold TimeQueueGrainSize at hrem hspace hj
    have hge : v.nSamples ≥ v.space := by omega
    obtain ⟨p, rfl⟩ : ∃ p, passes = p + 1 := ⟨passes - 1, by omega⟩
    obtain ⟨time, htime, hPt⟩ := hadv v.time v.space hP hsp
    obtain ⟨w, hw, hPw⟩ := ih p
      { data := Function.update v.data ((v.index + 1) % mSize) time,
        time := time,
        index := (v.index + 1) % mSize,
        nSamples := v.nSamples - v.space,
        remainder := 0,
        space := TimeQueueGrainSize }
      (by norm_num [TimeQueueGrainSize]) (by simp) hPt
      (by
        show (0 + (v.nSamples - v.space)) / TimeQueueGrainSize = j
        unfold TimeQueueGrainSize
        omega)
      (by omega)
    refine ⟨w, ?_, hPw⟩
    rw [TimeQueue.producerLoop_unfold, if_pos hge]
    simp only [htime]
    exact hw

/-- One `Producer` call on a backed queue returns, with a last time of `P`,
when its last time is of `P`, every call of `AdvancedTrackTime` from a time of
`P` by at most a grain returns a time of `P`, and the fuel covers the grain
boundaries crossed. -/
theorem TimeQueue.Producer_returns_within (q : TimeQueue) (schedule : PlaybackSchedule)
    (fuel : ℕ) (rate scrubSpeed : ℚ) (nSamples : ℕ) (d : ℕ → ℚ) (P : ℚ → Prop)
    (hadv : ∀ (x : ℚ) (n : ℕ), P x → n ≤ TimeQueueGrainSize →
      ∃ r, schedule.AdvancedTrackTime fuel x ((n : ℚ) / rate) scrubSpeed = some r ∧ P r)
    (hdata : q.mData = some d) (hsize : 0 < q.mSize)
    (hrem : q.mTail.mRemainder < TimeQueueGrainSize) (hP : P q.mLastTime)
    (hfuel : (q.mTail.mRemainder + nSamples) / TimeQueueGrainSize ≤ fuel) :
    ∃ after, q.Producer schedule fuel rate scrubSpeed nSamples = some after ∧
      P after.mLastTime := by
  obtain ⟨w, hw, hPw⟩ := TimeQueue.producerLoop_returns_within schedule fuel rate
    scrubSpeed q.mSize P hadv ((q.mTail.mRemainder + nSamples) / TimeQueueGrainSize) fuel
    { data := d,
      time := q.mLastTime,
      index := q.mTail.mIndex,
      nSamples := nSamples,
      remainder := q.mTail.mRemainder,
      space := sizeTSub TimeQueueGrainSize q.mTail.mRemainder }
    hrem (sizeTSub_grain hrem) hP rfl hfuel
  obtain ⟨c1, -, -⟩ := TimeQueue.producerLoop_cursor schedule fuel rate scrubSpeed
    q.mSize hsize fuel _ w hrem (sizeTSub_grain hrem) hw
  dsimp only at c1
  have hodd_le : w.nSamples ≤ TimeQueueGrainSize := by
    have := Nat.mod_lt (q.mTail.mRemainder + nSamples)
      (by norm_num [TimeQueueGrainSize] : 0 < TimeQueueGrainSize)
    omega
  have hodd : ∃ time, (if w.nSamples > 0 then
        schedule.AdvancedTrackTime fuel w.time ((w.nSamples : ℚ) / rate) scrubSpeed
      else some w.time) = some time ∧ P time := by
    split
    · exact hadv _ _ hPw hodd_le
    · exact ⟨_, rfl, hPw⟩
  obtain ⟨time, htime, hPtime⟩ := hodd
  have hcall : q.Producer schedule fuel rate scrubSpeed nSamples = some
      { q with
        mData := some w.data,
        mLastTime := time,
        mTail := { mIndex := w.index, mRemainder := w.remainder + w.nSamples } } := by
    unfold TimeQueue.Producer
    rw [hdata]
    dsimp only
    rw [hw]
    dsimp only
    rw [htime]
  exact ⟨_, hcall, hPtime⟩

/-- Consecutive `Producer` calls on a backed queue return when the last time
is of `P`, every call of `AdvancedTrackTime` from a time of `P` by at most a
grain returns a time of `P`, and the fuel covers the grain boundaries
crossed. -/
theorem TimeQueue.ProducerCalls_returns_within (schedule : PlaybackSchedule) (fuel : ℕ)
    (rate scrubSpeed : ℚ) (P : ℚ → Prop)
    (hadv : ∀ (x : ℚ) (n : ℕ), P x → n ≤ TimeQueueGrainSize →
      ∃ r, schedule.AdvancedTrackTime fuel x ((n : ℚ) / rate) scrubSpeed = some r ∧ P r)
    (counts : List ℕ) :
    ∀ (M : ℕ) (q : TimeQueue) (d : ℕ → ℚ), q.mData = some d → 0 < q.mSize →
      q.mTail.mRemainder = M % TimeQueueGrainSize →
      q.mTail.mIndex = (M / TimeQueueGrainSize) % q.mSize → P q.mLastTime →
      (M + counts.sum) / TimeQueueGrainSize ≤ fuel →
      ∃ after, TimeQueue.ProducerCalls schedule fuel rate scrubSpeed counts q = some after := by
  induction counts with
  | nil =>
    intro M q d _ _ _ _ _ _
    exact ⟨q, rfl⟩
  | cons n rest ih =>
    intro M q d hdata hsize hrem hidx hP hfuel
    have hsum : M + (n :: rest).sum = M + n + rest.sum := by
      rw [List.sum_cons, Nat.add_assoc]
    rw [hsum] at hfuel
    have hremlt : q.mTail.mRemainder < TimeQueueGrainSize := by
      rw [hrem]
      exact Nat.mod_lt _ (by norm_num [TimeQueueGrainSize])
    have hfuel1 : (q.mTail.mRemainder + n) / TimeQueueGrainSize ≤ fuel := by
      have h1 : (q.mTail.mRemainder + n) / TimeQueueGrainSize
          ≤ (M + n) / TimeQueueGrainSize := by
        apply Nat.div_le_div_right
        rw [hrem]
        exact Nat.add_le_add_right (Nat.mod_le _ _) _
      have h2 : (M + n) / TimeQueueGrainSize ≤ (M + n + rest.sum) / TimeQueueGrainSize :=
        Nat.div_le_div_right (Nat.le_add_right _ _)
      exact le_trans h1 (le_trans h2 hfuel)
    obtain ⟨q1, hcall, hP1⟩ := TimeQueue.Producer_returns_within q schedule fuel rate
      scrubSpeed n d P hadv hdata hsize hremlt hP hfuel1
    obtain ⟨c1, -, c3, d1, c4, -⟩ := TimeQueue.ProducerCalls_cursor schedule fuel rate
      scrubSpeed [n] M q q1 d hdata hsize hrem hidx
      (by rw [TimeQueue.ProducerCalls, hcall]; rfl)
    rw [List.sum_singleton] at c1
    obtain ⟨after, hafter⟩ := ih (M + n) q1 d1 c4 (by rw [c3]; exact hsize)
      (by rw [c1]) (by rw [c1, c3]) hP1 hfuel
    refine ⟨after, ?_⟩
    rw [TimeQueue.ProducerCalls, hcall]
    exact hafter

/-- Without an envelope and under a looping policy at a positive rate, the
`Producer` calls after `Prime(t)` return when the magnitudes of t, t0, t1 and
of the advance of one grain are within 2 ^ 50 region lengths, and the fuel
covers 2 ^ 50 + 1 passes of the wrap loop and the grain boundaries crossed. -/
theorem TimeQueue.ProducerCalls_looping_returns (q : TimeQueue)
    (schedule : PlaybackSchedule) (d : ℕ → ℚ) (fuel : ℕ) (rate scrubSpeed t : ℚ)
    (produced : List ℕ) (hdata : q.mData = some d) (hsize : 0 < q.mSize)
    (henv : schedule.mEnvelope = none)
    (hloop : schedule.GetPolicy.Looping schedule = true) (hrate : 0 < rate)
    (hmag : |t| + |schedule.mT0| + |schedule.mT1|
        + ((TimeQueueGrainSize : ℕ) : ℚ) / rate * |scrubSpeed|
      ≤ 2 ^ 50 * |schedule.mT1 - schedule.mT0|)
    (hfuel : 2 ^ 50 + 1 ≤ fuel) (hpasses : produced.sum / TimeQueueGrainSize ≤ fuel) :
    ∃ filled : TimeQueue,
      TimeQueue.ProducerCalls schedule fuel rate scrubSpeed produced (q.Prime t)
        = some filled := by
  have hL0 := abs_nonneg (schedule.mT1 - schedule.mT0)
  have ht0 := abs_sub t schedule.mT0
  have hE0 : 0 ≤ ((TimeQueueGrainSize : ℕ) : ℚ) / rate * |scrubSpeed| :=
    mul_nonneg (div_nonneg (Nat.cast_nonneg _) hrate.le) (abs_nonneg _)
  have hfq : ((2 : ℚ) ^ 50 + 1) ≤ (fuel : ℚ) := by exact_mod_cast hfuel
  apply TimeQueue.ProducerCalls_returns_within schedule fuel rate scrubSpeed
    (fun x => |x - schedule.mT0| ≤ |t - schedule.mT0| + |schedule.mT1 - schedule.mT0|)
    ?_ produced 0 (q.Prime t) d hdata hsize (by simp [TimeQueue.Prime])
    (by simp [TimeQueue.Prime])
    (by
      show |t - schedule.mT0| ≤ |t - schedule.mT0| + |schedule.mT1 - schedule.mT0|
      linarith)
    (by rw [Nat.zero_add]; exact hpasses)
  intro x n hx hn
  apply PlaybackSchedule.AdvancedTrackTime_bounded_returns schedule fuel scrubSpeed
    (|t - schedule.mT0| + |schedule.mT1 - schedule.mT0|)
    (((TimeQueueGrainSize : ℕ) : ℚ) / rate * |scrubSpeed|) henv hloop
    (by linarith [abs_nonneg (t - schedule.mT0)])
    (by
      have a1 := abs_nonneg schedule.mT1
      have h1 : ((2 : ℚ) ^ 50 + 1) * |schedule.mT1 - schedule.mT0|
          ≤ (fuel : ℚ) * |schedule.mT1 - schedule.mT0| :=
        mul_le_mul_of_nonneg_right hfq hL0
      linarith)
    x ((n : ℚ) / rate) hx (div_nonneg (Nat.cast_nonneg _) hrate.le)
  apply mul_le_mul_of_nonneg_right _ (abs_nonneg _)
  apply div_le_div_of_nonneg_right _ hrate.le
  exact_mod_cast hn

/-! ## The cursors stay inside the queue -/

/-- C36: on a backed TimeQueue with mSize > 0, both cursors are inside
(remainder < TimeQueueGrainSize, index < mSize) after Prime; a Producer call
that starts with the cursors inside leaves them inside when it returns, keeps
the size and changes nothing at or beyond mSize (its writes go to slots of the
array), and it does return when AdvancedTrackTime returns at this fuel and the
fuel covers the grain boundaries crossed; a Consumer call that starts with the
cursors inside leaves them inside, keeps the size and the array, and returns
the slot of its new head index, which is below mSize. -/
theorem C36_cursors_inside (q : TimeQueue) (schedule : PlaybackSchedule) (d : ℕ → ℚ)
    (fuel : ℕ) (rate scrubSpeed t : ℚ) (nSamples : ℕ)
    (hdata : q.mData = some d) (hsize : 0 < q.mSize) :
    (q.Prime t).CursorsInside ∧
    (q.CursorsInside → ∀ after : TimeQueue,
      q.Producer schedule fuel rate scrubSpeed nSamples = some after →
      after.CursorsInside ∧ after.mSize = q.mSize ∧
        ∃ d', after.mData = some d' ∧ ∀ i, q.mSize ≤ i → d' i = d i) ∧
    (q.CursorsInside →
      (∀ x e : ℚ, ∃ r, schedule.AdvancedTrackTime fuel x e scrubSpeed = some r) →
      (q.mTail.mRemainder + nSamples) / TimeQueueGrainSize ≤ fuel →
      ∃ after : TimeQueue, q.Producer schedule fuel rate scrubSpeed nSamples = some after) ∧
    (q.CursorsInside →
      (q.Consumer nSamples rate).2.CursorsInside ∧
        (q.Consumer nSamples rate).2.mSize = q.mSize ∧
        (q.Consumer nSamples rate).2.mData = some d ∧
        (q.Consumer nSamples rate).1 = d (q.Consumer nSamples rate).2.mHead.mIndex ∧
        (q.Consumer nSamples rate).2.mHead.mIndex < q.mSize) := by
  have hG : 0 < TimeQueueGrainSize := by norm_num [TimeQueueGrainSize]
  refine ⟨⟨hG, hsize, hG, hsize⟩, ?_, ?_, ?_⟩
  · rintro ⟨h1, h2, h3, h4⟩ after hcall
    obtain ⟨c1, c2, c3, d', c4, c5⟩ := TimeQueue.Producer_cursor q after schedule fuel rate
      scrubSpeed nSamples d hdata hsize h3 hcall
    refine ⟨⟨by rw [c2]; exact h1, by rw [c2, c3]; exact h2, ?_, ?_⟩, c3, d', c4, c5⟩
    · rw [c1]
      exact Nat.mod_lt _ hG
    · rw [c1, c3]
      dsimp only
      split
      · exact h4
      · exact Nat.mod_lt _ hsize
  · rintro ⟨-, -, h3, -⟩ hadv hfuel
    exact TimeQueue.Producer_returns q schedule fuel rate scrubSpeed nSamples d hadv hdata
      h3 hfuel
  · rintro ⟨h1, h2, h3, h4⟩
    have hidx : (if (q.mHead.mRemainder + nSamples) / TimeQueueGrainSize = 0 then
          q.mHead.mIndex
        else (q.mHead.mIndex
          + (q.mHead.mRemainder + nSamples) / TimeQueueGrainSize) % q.mSize) < q.mSize := by
      split
      · exact h2
      · exact Nat.mod_lt _ hsize
    rw [TimeQueue.Consumer_backed q nSamples rate d hdata h1]
    exact ⟨⟨Nat.mod_lt _ hG, hidx, h3, h4⟩, rfl, hdata, rfl, hidx⟩

/-- C36 on a queue of three slots with the head at (2, 1500) and the tail at
(1, 700): a Consumer call of 3000 samples takes the head to (1, 500) and returns
slot 1, and a Producer call of 3000 samples returns. -/
theorem C36_cursors_inside_witness :
    (({ mData := some (fun i => (i : ℚ)), mSize := 3,
        mHead := { mIndex := 2, mRemainder := 1500 },
        mTail := { mIndex := 1, mRemainder := 700 } } : TimeQueue).Consumer 3000
          44100).2.CursorsInside ∧
    (({ mData := some (fun i => (i : ℚ)), mSize := 3,
        mHead := { mIndex := 2, mRemainder := 1500 },
        mTail := { mIndex := 1, mRemainder := 700 } } : TimeQueue).Consumer 3000 44100).1
      = 1 ∧
    ∃ after : TimeQueue,
      ({ mData := some (fun i => (i : ℚ)), mSize := 3,
         mHead := { mIndex := 2, mRemainder := 1500 },
         mTail := { mIndex := 1, mRemainder := 700 } } : TimeQueue).Producer
          { mT0 := 0, mT1 := 100 } 1 44100 1 3000 = some after :=
  ⟨((C36_cursors_inside
      { mData := some (fun i => (i : ℚ)), mSize := 3,
        mHead := { mIndex := 2, mRemainder := 1500 },
        mTail := { mIndex := 1, mRemainder := 700 } }
      { mT0 := 0, mT1 := 100 } (fun i => (i : ℚ)) 1 44100 1 0 3000 rfl
      (by norm_num)).2.2.2
      ⟨by norm_num [TimeQueueGrainSize], by norm_num, by norm_num [TimeQueueGrainSize],
        by norm_num⟩).1,
   by
    rw [TimeQueue.Consumer_backed _ 3000 44100 (fun i => (i : ℚ)) rfl
      (by norm_num [TimeQueueGrainSize])]
    norm_num [TimeQueueGrainSize],
   (C36_cursors_inside
      { mData := some (fun i => (i : ℚ)), mSize := 3,
        mHead := { mIndex := 2, mRemainder := 1500 },
        mTail := { mIndex := 1, mRemainder := 700 } }
      { mT0 := 0, mT1 := 100 } (fun i => (i : ℚ)) 1 44100 1 0 3000 rfl
      (by norm_num)).2.2.1
      ⟨by norm_num [TimeQueueGrainSize], by norm_num, by norm_num [TimeQueueGrainSize],
        by norm_num⟩
      (fun x e => ⟨_, PlaybackSchedule.AdvancedTrackTime_forward_unit
        { mT0 := 0, mT1 := 100 } 1 rfl (by norm_num) rfl (by norm_num) x e⟩)
      (by norm_num [TimeQueueGrainSize])⟩

/-! ## The first read of the time queue -/

/-- C37: on a queue of three slots holding `d`, after Prime(5) and a Producer
call of 100 samples at 44100 Hz (which returns, with last time 5 + 100 / 44100),
a Consumer call of 50 samples returns `d 0`, what slot 0 held before Prime: no
call has written the primed time 5 to slot 0.  On an array of zeros the call
returns 0, not 5. -/
theorem C37_first_read_not_primed :
    (∀ d : ℕ → ℚ, ∃ filled : TimeQueue,
      (({ mData := some d, mSize := 3 } : TimeQueue).Prime 5).Producer
          { mT0 := 0, mT1 := 100 } 1 44100 1 100 = some filled ∧
        filled.mLastTime = 5 + ((100 : ℕ) : ℚ) / 44100 ∧
        (filled.Consumer 50 44100).1 = d 0) ∧
    (∃ filled : TimeQueue,
      (({ mData := some (fun _ => 0), mSize := 3 } : TimeQueue).Prime 5).Producer
          { mT0 := 0, mT1 := 100 } 1 44100 1 100 = some filled ∧
        (filled.Consumer 50 44100).1 = 0 ∧ (filled.Consumer 50 44100).1 ≠ 5) := by
  have hall : ∀ d : ℕ → ℚ, ∃ filled : TimeQueue,
      (({ mData := some d, mSize := 3 } : TimeQueue).Prime 5).Producer
          { mT0 := 0, mT1 := 100 } 1 44100 1 100 = some filled ∧
        filled.mLastTime = 5 + ((100 : ℕ) : ℚ) / 44100 ∧
        (filled.Consumer 50 44100).1 = d 0 := by
    intro d
    obtain ⟨d', hcall, hsame, -⟩ := TimeQueue.Producer_linear
      (({ mData := some d, mSize := 3 } : TimeQueue).Prime 5) { mT0 := 0, mT1 := 100 } 1
      44100 100 d
      (PlaybackSchedule.AdvancedTrackTime_forward_unit { mT0 := 0, mT1 := 100 } 1 rfl
        (by norm_num) rfl (by norm_num))
      rfl (by norm_num [TimeQueue.Prime, TimeQueueGrainSize])
      (by norm_num [TimeQueue.Prime, TimeQueueGrainSize])
    have hd : d' = d := hsame (by norm_num [TimeQueue.Prime, TimeQueueGrainSize])
    refine ⟨_, hcall, rfl, ?_⟩
    rw [TimeQueue.Consumer_backed _ 50 44100 d' rfl
      (by norm_num [TimeQueue.Prime, TimeQueueGrainSize]), hd]
    norm_num [TimeQueue.Prime, TimeQueueGrainSize]
  refine ⟨hall, ?_⟩
  obtain ⟨filled, h1, -, h3⟩ := hall (fun _ => 0)
  exact ⟨filled, h1, h3, by rw [h3]; norm_num⟩

/-! ## Advancing in two steps -/

/-- A rational within less than 1/2 of an integer rounds to it. -/
theorem roundHalfEven_of_near {q : ℚ} {m : ℤ} (h : |q - m| < 1 / 2) :
    roundHalfEven q = m := by
  rw [abs_lt] at h
  obtain ⟨h1, h2⟩ := h
  unfold roundHalfEven
  by_cases hm : (m : ℚ) ≤ q
  · have hf : ⌊q⌋ = m := by
      rw [Int.floor_eq_iff]
      exact ⟨hm, by linarith⟩
    rw [hf, if_pos (by linarith)]
  · have hf : ⌊q⌋ = m - 1 := by
      rw [Int.floor_eq_iff]
      push_cast
      exact ⟨by linarith, by linarith [not_le.mp hm]⟩
    rw [hf]
    push_cast
    rw [if_neg (by linarith), if_pos (by linarith)]
    ring

/-- A rational half way between two integers rounds to the even one. -/
theorem roundHalfEven_of_tie {q : ℚ} {m : ℤ} (h : |q - m| = 1 / 2) (hm : m % 2 = 0) :
    roundHalfEven q = m := by
  unfold roundHalfEven
  rcases abs_eq (by norm_num : (0 : ℚ) ≤ 1 / 2) |>.mp h with h1 | h1
  · have hf : ⌊q⌋ = m := by
      rw [Int.floor_eq_iff]
      exact ⟨by linarith, by linarith⟩
    rw [hf, if_neg (by linarith), if_neg (by linarith), if_pos hm]
  · have hf : ⌊q⌋ = m - 1 := by
      rw [Int.floor_eq_iff]
      push_cast
      exact ⟨by linarith, by linarith⟩
    have hodd : ¬ (m - 1) % 2 = 0 := by omega
    rw [hf]
    push_cast
    rw [if_neg (by linarith), if_neg (by linarith), if_neg hodd]
    ring

/-- The binary exponent of a rational in [2 ^ k, 2 ^ (k + 1)) is `k`. -/
theorem intLog_two_of_bounds {x : ℚ} {k : ℤ} (h1 : (2 : ℚ) ^ k ≤ x)
    (h2 : x < (2 : ℚ) ^ (k + 1)) : Int.log 2 x = k := by
  have hx : 0 < x := lt_of_lt_of_le (zpow_pos (by norm_num) k) h1
  have hb : (1 : ℕ) < 2 := by norm_num
  apply le_antisymm
  · have := (Int.lt_zpow_iff_log_lt hb hx).mp (by simpa using h2)
    omega
  · exact (Int.zpow_le_iff_le_log hb hx).mp (by simpa using h1)

/-- Evaluation of the rounding in the normal range: for `x` with binary
exponent `k`, whose last place is `u = 2 ^ (k - 52)`, the multiple `m * u`
nearest to `x` (the even `m` at a tie). -/
theorem roundToDouble_eq {x u : ℚ} (k m : ℤ) (hu : u = 2 ^ (k - 52)) (hk : -1022 ≤ k)
    (h1 : 2 ^ 52 * u ≤ |x|) (h2 : |x| < 2 ^ 53 * u)
    (h : |x - m * u| < u / 2 ∨ (|x - m * u| = u / 2 ∧ m % 2 = 0)) :
    roundToDouble x = m * u := by
  have hupos : 0 < u := by
    rw [hu]
    exact zpow_pos (by norm_num) _
  have hlog : Int.log 2 |x| = k := by
    apply intLog_two_of_bounds
    · have : (2 : ℚ) ^ k = 2 ^ 52 * u := by
        rw [hu, show k = 52 + (k - 52) by ring, zpow_add₀ (by norm_num)]
        norm_num
      rw [this]
      exact h1
    · have : (2 : ℚ) ^ (k + 1) = 2 ^ 53 * u := by
        rw [hu, show k + 1 = 53 + (k - 52) by ring, zpow_add₀ (by norm_num)]
        norm_num
      rw [this]
      exact h2
  have he : ulpExponent x = k - 52 := by
    unfold ulpExponent
    rw [hlog, max_eq_left hk]
  unfold roundToDouble
  rw [he, ← hu]
  have hq : x / u - m = (x - m * u) / u := by
    field_simp
    ring
  have hr : roundHalfEven (x / u) = m := by
    rcases h with h | ⟨h, hm⟩
    · apply roundHalfEven_of_near
      rw [hq, abs_div, abs_of_pos hupos, div_lt_iff₀ hupos]
      linarith
    · apply roundHalfEven_of_tie _ hm
      rw [hq, abs_div, abs_of_pos hupos, h]
      field_simp
      ring
  rw [hr]

/-- Zero is a binary64 number. -/
theorem roundToDouble_zero : roundToDouble 0 = 0 := by
  unfold roundToDouble roundHalfEven
  simp

/-- Rounding to the nearest integer keeps a nonnegative sign. -/
theorem roundHalfEven_nonneg {q : ℚ} (h : 0 ≤ q) : 0 ≤ roundHalfEven q := by
  have hf : 0 ≤ ⌊q⌋ := Int.floor_nonneg.mpr h
  unfold roundHalfEven
  split_ifs <;> omega

/-- Rounding to the nearest integer keeps a nonpositive sign. -/
theorem roundHalfEven_nonpos {q : ℚ} (h : q ≤ 0) : roundHalfEven q ≤ 0 := by
  have hf : ⌊q⌋ ≤ 0 := by
    have := Int.floor_le q
    have h0 : ((⌊q⌋ : ℤ) : ℚ) ≤ 0 := le_trans this h
    exact_mod_cast h0
  have hfl := Int.floor_le q
  unfold roundHalfEven
  split_ifs with h1 h2 h3
  · exact hf
  · have : ((⌊q⌋ : ℤ) : ℚ) < 0 := by linarith
    have : ⌊q⌋ < 0 := by exact_mod_cast this
    omega
  · exact hf
  · have heq : q - ⌊q⌋ = 1 / 2 := le_antisymm (not_lt.mp h2) (not_lt.mp h1)
    have : ((⌊q⌋ : ℤ) : ℚ) < 0 := by linarith
    have : ⌊q⌋ < 0 := by exact_mod_cast this
    omega

/-- Rounding to binary64 keeps a nonnegative sign. -/
theorem roundToDouble_nonneg {x : ℚ} (h : 0 ≤ x) : 0 ≤ roundToDouble x := by
  unfold roundToDouble
  have hp : (0 : ℚ) < 2 ^ ulpExponent x := zpow_pos (by norm_num) _
  have hq : 0 ≤ x / 2 ^ ulpExponent x := div_nonneg h hp.le
  have := roundHalfEven_nonneg hq
  have hc : (0 : ℚ) ≤ (roundHalfEven (x / 2 ^ ulpExponent x) : ℚ) := by exact_mod_cast this
  exact mul_nonneg hc hp.le

/-- Rounding to binary64 keeps a nonpositive sign. -/
theorem roundToDouble_nonpos {x : ℚ} (h : x ≤ 0) : roundToDouble x ≤ 0 := by
  unfold roundToDouble
  have hp : (0 : ℚ) < 2 ^ ulpExponent x := zpow_pos (by norm_num) _
  have hq : x / 2 ^ ulpExponent x ≤ 0 := div_nonpos_of_nonpos_of_nonneg h hp.le
  have := roundHalfEven_nonpos hq
  have hc : (roundHalfEven (x / 2 ^ ulpExponent x) : ℚ) ≤ 0 := by exact_mod_cast this
  exact mul_nonpos_of_nonpos_of_nonneg hc hp.le

/-- A natural number below 2 ^ 53 is a binary64 number. -/
theorem roundToDouble_natCast (n : ℕ) (h : n < 2 ^ 53) : roundToDouble (n : ℚ) = n := by
  rcases Nat.eq_zero_or_pos n with h0 | hpos
  · subst h0
    simpa using roundToDouble_zero
  · have hlog : Int.log 2 |(n : ℚ)| = Nat.log 2 n := by
      rw [abs_of_nonneg (Nat.cast_nonneg n)]
      exact Int.log_natCast 2 n
    have hlt : Nat.log 2 n < 53 := Nat.log_lt_of_lt_pow hpos.ne.symm h
    have he : ulpExponent (n : ℚ) = -((52 - Nat.log 2 n : ℕ) : ℤ) := by
      unfold ulpExponent
      rw [hlog, max_eq_left (by omega)]
      omega
    unfold roundToDouble
    rw [he, zpow_neg, zpow_natCast, div_inv_eq_mul]
    have hint : roundHalfEven ((n : ℚ) * 2 ^ (52 - Nat.log 2 n))
        = ((n * 2 ^ (52 - Nat.log 2 n) : ℕ) : ℤ) := by
      apply roundHalfEven_of_near
      push_cast
      simp
    rw [hint]
    push_cast
    rw [mul_assoc, mul_inv_cancel₀ (by positivity), mul_one]

/-- Rounding to the nearest integer leaves an integer as it is. -/
theorem roundHalfEven_intCast (n : ℤ) : roundHalfEven (n : ℚ) = n :=
  roundHalfEven_of_near (by simp)

/-- A multiple `m * 2 ^ e` with `-1074 ≤ e` and `|m| < 2 ^ 53` is a binary64
number: rounding leaves it as it is. -/
theorem roundToDouble_of_multiple (e m : ℤ) (he : -1074 ≤ e) (hm : |m| < 2 ^ 53) :
    roundToDouble ((m : ℚ) * 2 ^ e) = (m : ℚ) * 2 ^ e := by
  rcases eq_or_ne m 0 with h0 | h0
  · subst h0
    simp [roundToDouble_zero]
  have hpe : (0 : ℚ) < 2 ^ e := zpow_pos (by norm_num) e
  have hmq : (0 : ℚ) < |(m : ℚ)| := abs_pos.mpr (by exact_mod_cast h0)
  have hx : 0 < |(m : ℚ) * 2 ^ e| := by
    rw [abs_mul, abs_of_pos hpe]
    positivity
  have hmlt : |(m : ℚ)| < 2 ^ 53 := by
    have : ((|m| : ℤ) : ℚ) < ((2 ^ 53 : ℤ) : ℚ) := by exact_mod_cast hm
    simpa using this
  have hlt : |(m : ℚ) * 2 ^ e| < (2 : ℚ) ^ (53 + e) := by
    rw [abs_mul, abs_of_pos hpe, zpow_add₀ (by norm_num)]
    have h53 : (2 : ℚ) ^ (53 : ℤ) = 2 ^ 53 := by norm_num
    rw [h53]
    exact mul_lt_mul_of_pos_right hmlt hpe
  have hlog : Int.log 2 |(m : ℚ) * 2 ^ e| < 53 + e :=
    (Int.lt_zpow_iff_log_lt (by norm_num) hx).mp (by simpa using hlt)
  have hu : ulpExponent ((m : ℚ) * 2 ^ e) ≤ e := by
    unfold ulpExponent
    rcases max_cases (Int.log 2 |(m : ℚ) * 2 ^ e|) (-1022) with ⟨h, _⟩ | ⟨h, _⟩
    · rw [h]
      omega
    · rw [h]
      omega
  obtain ⟨n, hn⟩ : ∃ n : ℕ, e = ulpExponent ((m : ℚ) * 2 ^ e) + n :=
    ⟨(e - ulpExponent ((m : ℚ) * 2 ^ e)).toNat, by omega⟩
  unfold roundToDouble
  generalize ulpExponent ((m : ℚ) * 2 ^ e) = u at hn ⊢
  have hpu : (0 : ℚ) < 2 ^ u := zpow_pos (by norm_num) u
  have hsplit : (2 : ℚ) ^ e = 2 ^ u * 2 ^ n := by
    rw [hn, zpow_add₀ (by norm_num), zpow_natCast]
  have hdiv : (m : ℚ) * 2 ^ e / 2 ^ u = ((m * 2 ^ n : ℤ) : ℚ) := by
    rw [hsplit]
    push_cast
    field_simp
    ring
  rw [hdiv, roundHalfEven_intCast, hsplit]
  push_cast
  ring

/-- A value on the grid of the multiples of `2 ^ e`, with `-1074 ≤ e`, of
magnitude below `2 ^ 53 * 2 ^ e` is a binary64 number. -/
theorem roundToDouble_of_onGrid (e : ℤ) (he : -1074 ≤ e) (x : ℚ)
    (hx : ∃ m : ℤ, x = m * 2 ^ e) (hb : |x| < 2 ^ 53 * 2 ^ e) :
    roundToDouble x = x := by
  obtain ⟨m, rfl⟩ := hx
  have hpe : (0 : ℚ) < 2 ^ e := zpow_pos (by norm_num) e
  apply roundToDouble_of_multiple e m he
  rw [abs_mul, abs_of_pos hpe] at hb
  have hq : |(m : ℚ)| < 2 ^ 53 := lt_of_mul_lt_mul_right hb hpe.le
  have : ((|m| : ℤ) : ℚ) < ((2 ^ 53 : ℤ) : ℚ) := by
    push_cast
    exact hq
  exact_mod_cast this

/-- The difference of two values on the grid is on the grid. -/
theorem onGrid_sub (e : ℤ) {x y : ℚ} (hx : ∃ m : ℤ, x = m * 2 ^ e)
    (hy : ∃ m : ℤ, y = m * 2 ^ e) : ∃ m : ℤ, x - y = m * 2 ^ e := by
  obtain ⟨a, rfl⟩ := hx
  obtain ⟨b, rfl⟩ := hy
  exact ⟨a - b, by push_cast; ring⟩

/-- The sum of two values on the grid is on the grid. -/
theorem onGrid_add (e : ℤ) {x y : ℚ} (hx : ∃ m : ℤ, x = m * 2 ^ e)
    (hy : ∃ m : ℤ, y = m * 2 ^ e) : ∃ m : ℤ, x + y = m * 2 ^ e := by
  obtain ⟨a, rfl⟩ := hx
  obtain ⟨b, rfl⟩ := hy
  exact ⟨a + b, by push_cast; ring⟩

/-- The number 10 ^ 17 is a binary64 number: a multiple of 16 below 2 ^ 57. -/
theorem roundToDouble_tenPow17 : roundToDouble (10 ^ 17) = 10 ^ 17 := by
  rw [roundToDouble_eq (x := 10 ^ 17) (u := 16) 56 6250000000000000 (by norm_num)
    (by norm_num) (by norm_num [abs_of_pos]) (by norm_num [abs_of_pos])
    (Or.inl (by norm_num [abs_lt]))]
  norm_num

/-- The number 3 is a binary64 number. -/
theorem roundToDouble_three : roundToDouble 3 = 3 := by
  simpa using roundToDouble_natCast 3 (by norm_num)

/-- The number -3 is a binary64 number. -/
theorem roundToDouble_neg_three : roundToDouble (-3) = -3 := by
  rw [roundToDouble_eq (x := -3) (u := 1 / 2 ^ 51) 1 (-6755399441055744) (by norm_num)
    (by norm_num) (by norm_num [abs_of_pos]) (by norm_num [abs_of_pos])
    (Or.inl (by norm_num [abs_lt]))]
  norm_num

/-- The double literal `1e-9`. -/
theorem roundToDouble_billionth :
    roundToDouble (1 / 1000000000) = 4835703278458517 / 2 ^ 82 := by
  rw [roundToDouble_eq (x := 1 / 1000000000) (u := 1 / 2 ^ 82) (-30) 4835703278458517
    (by norm_num) (by norm_num) (by norm_num [abs_of_pos]) (by norm_num [abs_of_pos])
    (Or.inl (by norm_num [abs_lt]))]
  norm_num

/-- The double literal `1e-9` is not below 1/10^9. -/
theorem billionth_le_roundToDouble :
    (1 : ℚ) / 1000000000 ≤ roundToDouble (1 / 1000000000) := by
  rw [roundToDouble_billionth]
  norm_num

/-- The real time of one queue grain and one frame at 44100 Hz, as a double. -/
theorem roundToDouble_grain_and_frame :
    roundToDouble (roundToDouble ((TimeQueueGrainSize + 1 : ℕ) : ℚ) / 44100)
      = 1634776028003331 / 2 ^ 55 := by
  have hx : roundToDouble (2001 / 44100) = 1634776028003331 / 2 ^ 55 := by
    rw [roundToDouble_eq (x := 2001 / 44100) (u := 1 / 2 ^ 57) (-5) 6539104112013324
      (by norm_num) (by norm_num) (by norm_num [abs_of_pos]) (by norm_num [abs_of_pos])
      (Or.inl (by norm_num [abs_lt]))]
    norm_num
  rw [roundToDouble_natCast _ (by norm_num [TimeQueueGrainSize])]
  have : (((TimeQueueGrainSize + 1 : ℕ) : ℚ)) = 2001 := by norm_num [TimeQueueGrainSize]
  rw [this]
  exact hx

/-- Rounding to the nearest integer moves a rational by at most 1/2. -/
theorem roundHalfEven_error (q : ℚ) : |(roundHalfEven q : ℚ) - q| ≤ 1 / 2 := by
  have h1 := Int.floor_le q
  have h2 := Int.lt_floor_add_one q
  unfold roundHalfEven
  split_ifs with a b c
  · rw [abs_le]
    constructor <;> linarith
  · rw [abs_le]
    push_cast
    constructor <;> linarith
  · rw [abs_le]
    constructor <;> linarith [not_lt.mp a, not_lt.mp b]
  · rw [abs_le]
    push_cast
    constructor <;> linarith [not_lt.mp a, not_lt.mp b]

/-- Rounding to binary64 moves a rational by at most half a unit in its last
place: the relative error is at most 2 ^ -53, and in the subnormal range the
error is at most 2 ^ -1075. -/
theorem roundToDouble_error (y : ℚ) :
    |roundToDouble y - y| ≤ |y| / 2 ^ 53 + 1 / 2 ^ 1075 := by
  rcases eq_or_ne y 0 with h0 | h0
  · subst h0
    rw [roundToDouble_zero]
    norm_num
  have hy : 0 < |y| := abs_pos.mpr h0
  have hu : (0 : ℚ) < 2 ^ ulpExponent y := zpow_pos (by norm_num) _
  have herr : |roundToDouble y - y| ≤ 2 ^ ulpExponent y / 2 := by
    unfold roundToDouble
    have hq := roundHalfEven_error (y / 2 ^ ulpExponent y)
    have heq : (roundHalfEven (y / 2 ^ ulpExponent y) : ℚ) * 2 ^ ulpExponent y - y
        = ((roundHalfEven (y / 2 ^ ulpExponent y) : ℚ) - y / 2 ^ ulpExponent y)
          * 2 ^ ulpExponent y := by
      field_simp
    rw [heq, abs_mul, abs_of_pos hu]
    calc |(roundHalfEven (y / 2 ^ ulpExponent y) : ℚ) - y / 2 ^ ulpExponent y|
          * 2 ^ ulpExponent y
        ≤ 1 / 2 * 2 ^ ulpExponent y := mul_le_mul_of_nonneg_right hq hu.le
      _ = 2 ^ ulpExponent y / 2 := by ring
  have hbound : (2 : ℚ) ^ ulpExponent y / 2 ≤ |y| / 2 ^ 53 + 1 / 2 ^ 1075 := by
    unfold ulpExponent
    rcases max_cases (Int.log 2 |y|) (-1022) with ⟨h, _⟩ | ⟨h, _⟩
    · rw [h]
      have hlog : (2 : ℚ) ^ Int.log 2 |y| ≤ |y| := by
        have := Int.zpow_log_le_self (by norm_num : 1 < 2) hy
        simpa using this
      have hsplit : (2 : ℚ) ^ (Int.log 2 |y| - 52) = 2 ^ Int.log 2 |y| / 2 ^ 52 := by
        rw [zpow_sub₀ (by norm_num)]
        norm_num
      rw [hsplit]
      have h2 : (2 : ℚ) ^ Int.log 2 |y| / 2 ^ 52 / 2 ≤ |y| / 2 ^ 53 := by
        rw [div_div, show (2 : ℚ) ^ 52 * 2 = 2 ^ 53 by norm_num]
        exact div_le_div_of_nonneg_right hlog (by norm_num)
      have : (0 : ℚ) ≤ 1 / 2 ^ 1075 := by positivity
      linarith
    · rw [h]
      have hval : (2 : ℚ) ^ ((-1022 : ℤ) - 52) / 2 = 1 / 2 ^ 1075 := by
        rw [show ((-1022 : ℤ) - 52) = -(1074 : ℤ) by norm_num, zpow_neg]
        norm_num
      rw [hval]
      have : 0 ≤ |y| / 2 ^ 53 := by positivity
      linarith
  exact le_trans herr hbound

/-- One pass of the wrap loop in double arithmetic, from a time of magnitude
at most `M` on a region of length at least 2 ^ -31: the computed time differs
from the exact difference by at most the two rounding errors. -/
theorem roundToDouble_pass_error (x d M : ℚ) (hx : |x| ≤ M) (hd : 1 / 2 ^ 31 ≤ |d|) :
    |roundToDouble (x - roundToDouble d) - (x - d)|
      ≤ (M + 3 * |d|) / 2 ^ 53 + 2 / 2 ^ 1075 := by
  have e1 := roundToDouble_error d
  have e2 := roundToDouble_error (x - roundToDouble d)
  have hd0 : 0 ≤ |d| := abs_nonneg d
  have htiny : (1 : ℚ) / 2 ^ 1075 ≤ 1 / 2 ^ 31 / 2 := by norm_num
  have he1 : |roundToDouble d - d| ≤ |d| := by
    have : |d| / 2 ^ 53 ≤ |d| / 2 := by
      apply div_le_div_of_nonneg_left hd0 (by norm_num) (by norm_num)
    linarith
  have hrd : |roundToDouble d| ≤ 2 * |d| := by
    have := abs_add (roundToDouble d - d) d
    rw [sub_add_cancel] at this
    linarith
  have hy : |x - roundToDouble d| ≤ M + 2 * |d| := by
    have := abs_sub x (roundToDouble d)
    linarith
  have he2 : |roundToDouble (x - roundToDouble d) - (x - roundToDouble d)|
      ≤ (M + 2 * |d|) / 2 ^ 53 + 1 / 2 ^ 1075 := by
    have : |x - roundToDouble d| / 2 ^ 53 ≤ (M + 2 * |d|) / 2 ^ 53 :=
      div_le_div_of_nonneg_right hy (by norm_num)
    linarith
  have hsplit : roundToDouble (x - roundToDouble d) - (x - d)
      = (roundToDouble (x - roundToDouble d) - (x - roundToDouble d))
        - (roundToDouble d - d) := by ring
  rw [hsplit]
  have := abs_sub (roundToDouble (x - roundToDouble d) - (x - roundToDouble d))
    (roundToDouble d - d)
  have hfin : (M + 2 * |d|) / 2 ^ 53 + 1 / 2 ^ 1075 + (|d| / 2 ^ 53 + 1 / 2 ^ 1075)
      = (M + 3 * |d|) / 2 ^ 53 + 2 / 2 ^ 1075 := by ring
  linarith

/-- The linear advance in double arithmetic, `time + c` with the product `c`
rounded first, is within `S / 2 ^ 51` of the exact sum when `S`, at least
2 ^ -31, bounds the magnitudes. -/
theorem roundToDouble_advance_error (time c S : ℚ) (hS : |time| + |c| ≤ S)
    (hS0 : 1 / 2 ^ 31 ≤ S) :
    |roundToDouble (time + roundToDouble c) - (time + c)| ≤ S / 2 ^ 51 := by
  have e1 := roundToDouble_error c
  have e2 := roundToDouble_error (time + roundToDouble c)
  have ht := abs_nonneg time
  have hc := abs_nonneg c
  have he1 : |roundToDouble c - c| ≤ S / 2 ^ 53 + 1 / 2 ^ 1075 := by
    have : |c| / 2 ^ 53 ≤ S / 2 ^ 53 :=
      div_le_div_of_nonneg_right (by linarith) (by norm_num)
    linarith
  have hrc : |roundToDouble c| ≤ |c| + (S / 2 ^ 53 + 1 / 2 ^ 1075) := by
    have := abs_add (roundToDouble c - c) c
    rw [sub_add_cancel] at this
    linarith
  have hy : |time + roundToDouble c| ≤ S + (S / 2 ^ 53 + 1 / 2 ^ 1075) := by
    have := abs_add time (roundToDouble c)
    linarith
  have he2 : |roundToDouble (time + roundToDouble c) - (time + roundToDouble c)|
      ≤ (S + (S / 2 ^ 53 + 1 / 2 ^ 1075)) / 2 ^ 53 + 1 / 2 ^ 1075 := by
    have : |time + roundToDouble c| / 2 ^ 53
        ≤ (S + (S / 2 ^ 53 + 1 / 2 ^ 1075)) / 2 ^ 53 :=
      div_le_div_of_nonneg_right hy (by norm_num)
    linarith
  have hsplit : roundToDouble (time + roundToDouble c) - (time + c)
      = (roundToDouble (time + roundToDouble c) - (time + roundToDouble c))
        + (roundToDouble c - c) := by ring
  rw [hsplit]
  have h3 := abs_add
    (roundToDouble (time + roundToDouble c) - (time + roundToDouble c))
    (roundToDouble c - c)
  have htiny : (1 : ℚ) / 2 ^ 1075 ≤ 1 / 2 ^ 31 / 2 ^ 60 := by norm_num
  have hfin : (S + (S / 2 ^ 53 + 1 / 2 ^ 1075)) / 2 ^ 53 + 1 / 2 ^ 1075
      + (S / 2 ^ 53 + 1 / 2 ^ 1075) ≤ S / 2 ^ 51 := by
    have h60 : (1 : ℚ) / 2 ^ 31 / 2 ^ 60 ≤ S / 2 ^ 60 :=
      div_le_div_of_nonneg_right hS0 (by norm_num)
    have hexp : (S + (S / 2 ^ 53 + 1 / 2 ^ 1075)) / 2 ^ 53 + 1 / 2 ^ 1075
        + (S / 2 ^ 53 + 1 / 2 ^ 1075)
        = S / 2 ^ 52 + S / 2 ^ 106 + 1 / 2 ^ 1075 / 2 ^ 53 + 2 * (1 / 2 ^ 1075) := by
      ring
    have h106 : S / 2 ^ 106 ≤ S / 2 ^ 60 := by
      apply div_le_div_of_nonneg_left (by linarith) (by norm_num) (by norm_num)
    have h53 : (1 : ℚ) / 2 ^ 1075 / 2 ^ 53 ≤ 1 / 2 ^ 1075 := by
      apply div_le_self (by positivity) (by norm_num)
    have hS51 : S / 2 ^ 51 = S / 2 ^ 52 + S / 2 ^ 52 := by ring
    have hS52 : 4 * (S / 2 ^ 60) ≤ S / 2 ^ 52 := by
      have : S / 2 ^ 52 = 256 * (S / 2 ^ 60) := by ring
      rw [this]
      have : 0 ≤ S / 2 ^ 60 := by
        apply div_nonneg (by linarith) (by norm_num)
      linarith
    rw [hexp, hS51]
    linarith
  linarith

/-- Outside the guard of `AdvancedTrackTime` in double arithmetic the region is
longer than 2 ^ -31. -/
theorem regionLength_of_not_degenerate (a b : ℚ)
    (hlen : ¬ |roundToDouble (a - b)| < roundToDouble (1 / 1000000000)) :
    1 / 2 ^ 31 ≤ |b - a| := by
  rw [roundToDouble_billionth] at hlen
  have hge := not_lt.mp hlen
  have e := roundToDouble_error (a - b)
  have h1 := abs_add (roundToDouble (a - b) - (a - b)) (a - b)
  rw [sub_add_cancel] at h1
  rw [abs_sub_comm b a]
  by_contra hlt
  have hlt2 := not_le.mp hlt
  have h53 : |a - b| / 2 ^ 53 ≤ |a - b| := by
    apply div_le_self (abs_nonneg _) (by norm_num)
  have hc1 : (1 : ℚ) / 2 ^ 1075 ≤ 1 / 2 ^ 31 / 2 ^ 60 := by norm_num
  have hc2 : (2 : ℚ) * (1 / 2 ^ 31) + 1 / 2 ^ 31 / 2 ^ 60 < 4835703278458517 / 2 ^ 82 := by
    norm_num
  linarith

/-- The rounding error of a time, counted in frames at a rate of at most
2 ^ 1000: less than a fourteenth of a frame when the time is at most 2 ^ 49
frames. -/
theorem roundToDouble_frames_error (y rate : ℚ) (hrate : 0 < rate)
    (hrate2 : rate ≤ 2 ^ 1000) (hy : |y * rate| ≤ 2 ^ 49) :
    |roundToDouble y * rate - y * rate| ≤ 1 / 14 := by
  have e := roundToDouble_error y
  have h1 : |roundToDouble y * rate - y * rate| = |roundToDouble y - y| * rate := by
    rw [← sub_mul, abs_mul, abs_of_pos hrate]
  have h2 : |y| * rate = |y * rate| := by rw [abs_mul, abs_of_pos hrate]
  have h3 : |roundToDouble y - y| * rate ≤ (|y| / 2 ^ 53 + 1 / 2 ^ 1075) * rate :=
    mul_le_mul_of_nonneg_right e hrate.le
  have h4 : (|y| / 2 ^ 53 + 1 / 2 ^ 1075) * rate
      = |y * rate| / 2 ^ 53 + rate / 2 ^ 1075 := by
    rw [← h2]
    ring
  have h5 : |y * rate| / 2 ^ 53 ≤ 2 ^ 49 / 2 ^ 53 :=
    div_le_div_of_nonneg_right hy (by norm_num)
  have h6 : rate / 2 ^ 1075 ≤ 2 ^ 1000 / 2 ^ 1075 :=
    div_le_div_of_nonneg_right hrate2 (by norm_num)
  have h7 : (2 : ℚ) ^ 49 / 2 ^ 53 + 2 ^ 1000 / 2 ^ 1075 ≤ 1 / 14 := by norm_num
  rw [h1]
  linarith

/-- The rounding error of a frame count of at most 2 ^ 49 is less than a
fourteenth of a frame. -/
theorem roundToDouble_count_error (y : ℚ) (hy : |y| ≤ 2 ^ 49) :
    |roundToDouble y - y| ≤ 1 / 14 := by
  have e := roundToDouble_error y
  have h5 : |y| / 2 ^ 53 ≤ 2 ^ 49 / 2 ^ 53 := div_le_div_of_nonneg_right hy (by norm_num)
  have h7 : (2 : ℚ) ^ 49 / 2 ^ 53 + 1 / 2 ^ 1075 ≤ 1 / 14 := by norm_num
  linarith

/-- Rounding to the nearest integer is monotone. -/
theorem roundHalfEven_mono {p q : ℚ} (h : p ≤ q) : roundHalfEven p ≤ roundHalfEven q := by
  have hfl : ⌊p⌋ ≤ ⌊q⌋ := Int.floor_mono h
  rcases lt_or_eq_of_le hfl with hlt | heq
  · have h1 : roundHalfEven p ≤ ⌊p⌋ + 1 := by
      unfold roundHalfEven
      split_ifs <;> omega
    have h2 : ⌊q⌋ ≤ roundHalfEven q := by
      unfold roundHalfEven
      split_ifs <;> omega
    omega
  · unfold roundHalfEven
    rw [← heq]
    have hpq : p - ⌊p⌋ ≤ q - ⌊p⌋ := by linarith
    split_ifs <;> first | omega | (exfalso; linarith)

/-- Rounding to the nearest integer commutes with negation. -/
theorem roundHalfEven_neg (q : ℚ) : roundHalfEven (-q) = -roundHalfEven q := by
  by_cases hint : (⌊q⌋ : ℚ) = q
  · rw [← hint, ← Int.cast_neg, roundHalfEven_intCast, roundHalfEven_intCast]
  · have h1 : (⌊q⌋ : ℚ) < q := lt_of_le_of_ne (Int.floor_le q) hint
    have h2 := Int.lt_floor_add_one q
    have hfl : ⌊-q⌋ = -⌊q⌋ - 1 := by
      rw [Int.floor_eq_iff]
      push_cast
      constructor <;> linarith
    unfold roundHalfEven
    rw [hfl]
    push_cast
    split_ifs <;> first | omega | (exfalso; linarith)

/-- The last place of `-x` is that of `x`. -/
theorem ulpExponent_neg (x : ℚ) : ulpExponent (-x) = ulpExponent x := by
  unfold ulpExponent
  rw [abs_neg]

/-- Rounding to binary64 commutes with negation. -/
theorem roundToDouble_neg (x : ℚ) : roundToDouble (-x) = -roundToDouble x := by
  unfold roundToDouble
  rw [ulpExponent_neg, neg_div, roundHalfEven_neg]
  push_cast
  ring

/-- Rounding to binary64 does not cross a multiple of the last place. -/
theorem roundToDouble_le_of_le_multiple {x : ℚ} (n : ℤ)
    (h : x ≤ (n : ℚ) * 2 ^ ulpExponent x) :
    roundToDouble x ≤ (n : ℚ) * 2 ^ ulpExponent x := by
  have hp : (0 : ℚ) < 2 ^ ulpExponent x := zpow_pos (by norm_num) _
  unfold roundToDouble
  apply mul_le_mul_of_nonneg_right _ hp.le
  have h1 : x / 2 ^ ulpExponent x ≤ (n : ℚ) := by
    rw [div_le_iff₀ hp]
    exact h
  have h2 := roundHalfEven_mono h1
  rw [roundHalfEven_intCast] at h2
  exact_mod_cast h2

/-- Rounding to binary64 does not cross a multiple of the last place. -/
theorem le_roundToDouble_of_multiple_le {x : ℚ} (n : ℤ)
    (h : (n : ℚ) * 2 ^ ulpExponent x ≤ x) :
    (n : ℚ) * 2 ^ ulpExponent x ≤ roundToDouble x := by
  have hp : (0 : ℚ) < 2 ^ ulpExponent x := zpow_pos (by norm_num) _
  unfold roundToDouble
  apply mul_le_mul_of_nonneg_right _ hp.le
  have h1 : (n : ℚ) ≤ x / 2 ^ ulpExponent x := by
    rw [le_div_iff₀ hp]
    exact h
  have h2 := roundHalfEven_mono h1
  rw [roundHalfEven_intCast] at h2
  exact_mod_cast h2

/-- A power of two `2 ^ k` is a multiple of `2 ^ u` when `u ≤ k`. -/
theorem zpow_two_multiple {u k : ℤ} (h : u ≤ k) :
    ∃ n : ℤ, (2 : ℚ) ^ k = (n : ℚ) * 2 ^ u := by
  refine ⟨2 ^ (k - u).toNat, ?_⟩
  push_cast
  rw [← zpow_natCast, Int.toNat_of_nonneg (by omega),
    ← zpow_add₀ (by norm_num : (2 : ℚ) ≠ 0)]
  congr 1
  ring

/-- Rounding to binary64 is monotone on the positive numbers. -/
theorem roundToDouble_mono_of_pos {x y : ℚ} (hx : 0 < x) (h : x ≤ y) :
    roundToDouble x ≤ roundToDouble y := by
  have hy : 0 < y := lt_of_lt_of_le hx h
  have hb : (1 : ℕ) < 2 := by norm_num
  have hlog : Int.log 2 x ≤ Int.log 2 y := Int.log_mono_right hx h
  have hux : ulpExponent x = max (Int.log 2 x) (-1022) - 52 := by
    unfold ulpExponent
    rw [abs_of_pos hx]
  have huy : ulpExponent y = max (Int.log 2 y) (-1022) - 52 := by
    unfold ulpExponent
    rw [abs_of_pos hy]
  have hu : ulpExponent x ≤ ulpExponent y := by
    rw [hux, huy]
    have := max_le_max hlog (le_refl (-1022 : ℤ))
    omega
  rcases lt_or_eq_of_le hu with hlt | heq
  · have hly : ulpExponent y = Int.log 2 y - 52 := by
      rw [huy]
      rcases max_cases (Int.log 2 y) (-1022) with ⟨e1, _⟩ | ⟨e1, e2⟩
      · rw [e1]
      · exfalso
        rw [hux, huy, e1] at hlt
        have := le_max_right (Int.log 2 x) (-1022)
        omega
    have hlx : Int.log 2 x + 1 ≤ Int.log 2 y := by
      rw [hux, hly] at hlt
      have := le_max_left (Int.log 2 x) (-1022)
      omega
    have hxu : ulpExponent x ≤ Int.log 2 y := by
      rw [hly] at hlt
      omega
    have hpy : (2 : ℚ) ^ Int.log 2 y ≤ y := by
      have := Int.zpow_log_le_self hb hy
      simpa using this
    have hxp : x ≤ (2 : ℚ) ^ Int.log 2 y := by
      have h1 : x < (2 : ℚ) ^ (Int.log 2 x + 1) := by
        have := Int.lt_zpow_succ_log_self hb x
        simpa using this
      have h2 : (2 : ℚ) ^ (Int.log 2 x + 1) ≤ 2 ^ Int.log 2 y :=
        zpow_le_zpow_right₀ (by norm_num) hlx
      linarith
    obtain ⟨n, hn⟩ := zpow_two_multiple hxu
    obtain ⟨m, hm⟩ := zpow_two_multiple (show ulpExponent y ≤ Int.log 2 y by omega)
    have h1 : roundToDouble x ≤ (2 : ℚ) ^ Int.log 2 y := by
      rw [hn]
      apply roundToDouble_le_of_le_multiple
      rw [← hn]
      exact hxp
    have h2 : (2 : ℚ) ^ Int.log 2 y ≤ roundToDouble y := by
      rw [hm]
      apply le_roundToDouble_of_multiple_le
      rw [← hm]
      exact hpy
    exact le_trans h1 h2
  · have hp : (0 : ℚ) < 2 ^ ulpExponent y := zpow_pos (by norm_num) _
    unfold roundToDouble
    rw [heq]
    apply mul_le_mul_of_nonneg_right _ hp.le
    have := roundHalfEven_mono (div_le_div_of_nonneg_right h hp.le)
    exact_mod_cast this

/-- Rounding to binary64 is monotone. -/
theorem roundToDouble_mono {x y : ℚ} (h : x ≤ y) : roundToDouble x ≤ roundToDouble y := by
  rcases lt_trichotomy 0 x with hx | hx | hx
  · exact roundToDouble_mono_of_pos hx h
  · rw [← hx] at h ⊢
    rw [roundToDouble_zero]
    exact roundToDouble_nonneg h
  · rcases le_or_lt 0 y with hy | hy
    · exact le_trans (roundToDouble_nonpos hx.le) (roundToDouble_nonneg hy)
    · have := roundToDouble_mono_of_pos (neg_pos.mpr hy) (neg_le_neg h)
      rw [roundToDouble_neg, roundToDouble_neg] at this
      linarith

/-- A rounded number is a binary64 number: rounding it again changes
nothing. -/
theorem roundToDouble_idem (x : ℚ) : roundToDouble (roundToDouble x) = roundToDouble x := by
  rcases eq_or_ne x 0 with h0 | h0
  · rw [h0, roundToDouble_zero, roundToDouble_zero]
  have hb : (1 : ℕ) < 2 := by norm_num
  have hax : 0 < |x| := abs_pos.mpr h0
  have hu : -1074 ≤ ulpExponent x := by
    unfold ulpExponent
    have := le_max_right (Int.log 2 |x|) (-1022)
    omega
  have hp : (0 : ℚ) < 2 ^ ulpExponent x := zpow_pos (by norm_num) _
  have hlt : |x| < 2 ^ 53 * 2 ^ ulpExponent x := by
    have h1 : |x| < (2 : ℚ) ^ (Int.log 2 |x| + 1) := by
      have := Int.lt_zpow_succ_log_self hb |x|
      simpa using this
    have h2 : (2 : ℚ) ^ (Int.log 2 |x| + 1) ≤ 2 ^ (53 + ulpExponent x) := by
      apply zpow_le_zpow_right₀ (by norm_num)
      unfold ulpExponent
      have := le_max_left (Int.log 2 |x|) (-1022)
      omega
    have h3 : (2 : ℚ) ^ (53 + ulpExponent x) = 2 ^ 53 * 2 ^ ulpExponent x := by
      rw [zpow_add₀ (by norm_num : (2 : ℚ) ≠ 0)]
      norm_num
    linarith
  have hq : |x / 2 ^ ulpExponent x| < 2 ^ 53 := by
    rw [abs_div, abs_of_pos hp, div_lt_iff₀ hp]
    exact hlt
  rw [abs_lt] at hq
  have hm1 : roundHalfEven (x / 2 ^ ulpExponent x) ≤ 2 ^ 53 := by
    have := roundHalfEven_mono (le_of_lt hq.2)
    have h53 : ((2 : ℚ) ^ 53) = ((2 ^ 53 : ℤ) : ℚ) := by norm_num
    rw [h53, roundHalfEven_intCast] at this
    exact this
  have hm2 : -(2 ^ 53) ≤ roundHalfEven (x / 2 ^ ulpExponent x) := by
    have := roundHalfEven_mono (le_of_lt hq.1)
    have h53 : (-(2 : ℚ) ^ 53) = ((-(2 ^ 53) : ℤ) : ℚ) := by norm_num
    rw [h53, roundHalfEven_intCast] at this
    exact this
  have hdef : roundToDouble x
      = (roundHalfEven (x / 2 ^ ulpExponent x) : ℚ) * 2 ^ ulpExponent x := rfl
  rw [hdef]
  generalize roundHalfEven (x / 2 ^ ulpExponent x) = m at hm1 hm2
  rcases lt_or_eq_of_le hm1 with a | a
  · rcases lt_or_eq_of_le hm2 with b | b
    · exact roundToDouble_of_multiple _ m hu (by rw [abs_lt]; omega)
    · have e : (m : ℚ) * 2 ^ ulpExponent x
          = ((-(2 ^ 52) : ℤ) : ℚ) * 2 ^ (ulpExponent x + 1) := by
        rw [← b, zpow_add₀ (by norm_num : (2 : ℚ) ≠ 0)]
        push_cast
        ring
      rw [e]
      exact roundToDouble_of_multiple _ _ (by omega) (by norm_num)
  · have e : (m : ℚ) * 2 ^ ulpExponent x
        = ((2 ^ 52 : ℤ) : ℚ) * 2 ^ (ulpExponent x + 1) := by
      rw [a, zpow_add₀ (by norm_num : (2 : ℚ) ≠ 0)]
      push_cast
      ring
    rw [e]
    exact roundToDouble_of_multiple _ _ (by omega) (by norm_num)

/-! ## The wrap loop in double arithmetic -/

/-- One pass of the wrap loop in double arithmetic. -/
theorem Binary64.PlaybackSchedule.wrapWhileOverruns_pass (s : PlaybackSchedule)
    (fuel : ℕ) (x : ℚ) (hov : s.Overruns x = true) :
    Binary64.PlaybackSchedule.wrapWhileOverruns s (fuel + 1) x =
      Binary64.PlaybackSchedule.wrapWhileOverruns s fuel
        (roundToDouble (x - roundToDouble (s.mT1 - s.mT0))) := by
  rw [Binary64.PlaybackSchedule.wrapWhileOverruns, if_pos hov]

/-- The wrap loop in double arithmetic leaves at a time that does not
overrun. -/
theorem Binary64.PlaybackSchedule.wrapWhileOverruns_leave (s : PlaybackSchedule)
    (fuel : ℕ) (x : ℚ) (hov : s.Overruns x = false) :
    Binary64.PlaybackSchedule.wrapWhileOverruns s fuel x = some x := by
  unfold Binary64.PlaybackSchedule.wrapWhileOverruns
  simp [hov]

/-- Where the double subtraction of the region length from an overrunning time
gives that time back, the wrap loop never leaves: no fuel suffices. -/
theorem Binary64.PlaybackSchedule.wrapWhileOverruns_absorbed (s : PlaybackSchedule)
    (x : ℚ) (hov : s.Overruns x = true)
    (habs : roundToDouble (x - roundToDouble (s.mT1 - s.mT0)) = x) :
    ∀ fuel, Binary64.PlaybackSchedule.wrapWhileOverruns s fuel x = none := by
  intro fuel
  induction fuel with
  | zero =>
    unfold Binary64.PlaybackSchedule.wrapWhileOverruns
    simp [hov]
  | succ fuel ih =>
    rw [Binary64.PlaybackSchedule.wrapWhileOverruns_pass s fuel x hov, habs]
    exact ih

/-- Without an envelope, outside the degenerate region and under a looping
policy, `AdvancedTrackTime` in double arithmetic is the wrap loop run on the
rounded linear advance. -/
theorem Binary64.PlaybackSchedule.AdvancedTrackTime_rounded_wrap (s : PlaybackSchedule)
    (fuel : ℕ) (time realElapsed speed : ℚ) (henv : s.mEnvelope = none)
    (hlen : ¬ |roundToDouble (s.mT0 - s.mT1)| < roundToDouble (1 / 1000000000))
    (hloop : s.GetPolicy.Looping s = true) :
    Binary64.PlaybackSchedule.AdvancedTrackTime s fuel time realElapsed speed =
      Binary64.PlaybackSchedule.wrapWhileOverruns s fuel
        (roundToDouble (time + roundToDouble
          ((if s.ReversedTime then realElapsed * (-1) else realElapsed) * |speed|))) := by
  unfold Binary64.PlaybackSchedule.AdvancedTrackTime
  dsimp only
  rw [if_neg hlen, henv, hloop]
  simp

/-- Without an envelope, outside the degenerate region and under a policy that
does not loop, `AdvancedTrackTime` in double arithmetic is the rounded linear
advance. -/
theorem Binary64.PlaybackSchedule.AdvancedTrackTime_rounded_linear (s : PlaybackSchedule)
    (fuel : ℕ) (time realElapsed speed : ℚ) (henv : s.mEnvelope = none)
    (hlen : ¬ |roundToDouble (s.mT0 - s.mT1)| < roundToDouble (1 / 1000000000))
    (hloop : s.GetPolicy.Looping s = false) :
    Binary64.PlaybackSchedule.AdvancedTrackTime s fuel time realElapsed speed =
      some (roundToDouble (time + roundToDouble
        ((if s.ReversedTime then realElapsed * (-1) else realElapsed) * |speed|))) := by
  unfold Binary64.PlaybackSchedule.AdvancedTrackTime
  dsimp only
  rw [if_neg hlen, henv, hloop]
  simp

/-- On the region t0 = 2, t1 = 5 the double subtraction 1e17 - 3.0 gives 1e17
back: the last place of the doubles near 1e17 is 16. -/
theorem forwardLoop_absorbs :
    roundToDouble (10 ^ 17 - roundToDouble (forwardLoop.mT1 - forwardLoop.mT0)) = 10 ^ 17 := by
  have h3 : forwardLoop.mT1 - forwardLoop.mT0 = 3 := by norm_num [forwardLoop]
  rw [h3, roundToDouble_three,
    roundToDouble_eq (x := 10 ^ 17 - 3) (u := 16) 56 6250000000000000 (by norm_num)
      (by norm_num) (by norm_num [abs_of_pos]) (by norm_num [abs_of_pos])
      (Or.inl (by norm_num [abs_lt]))]
  norm_num

/-- The guard of `AdvancedTrackTime` does not apply to the region t0 = 2,
t1 = 5. -/
theorem forwardLoop_not_degenerate :
    ¬ |roundToDouble (forwardLoop.mT0 - forwardLoop.mT1)|
      < roundToDouble (1 / 1000000000) := by
  have h3 : forwardLoop.mT0 - forwardLoop.mT1 = -3 := by norm_num [forwardLoop]
  rw [h3, roundToDouble_neg_three, roundToDouble_billionth]
  norm_num

/-- The guard of `AdvancedTrackTime` does not apply to the region from 0.1 to
0.4. -/
theorem tenthsLoop_not_degenerate :
    ¬ |roundToDouble (tenthsLoop.mT0 - tenthsLoop.mT1)|
      < roundToDouble (1 / 1000000000) := by
  have h4 : roundToDouble (3602879701896397 / 2 ^ 55 - 3602879701896397 / 2 ^ 53)
      = (-1351079888211149) / 2 ^ 52 := by
    rw [roundToDouble_eq (x := 3602879701896397 / 2 ^ 55 - 3602879701896397 / 2 ^ 53)
      (u := 1 / 2 ^ 54) (-2) (-5404319552844596)
      (by norm_num) (by norm_num) (by norm_num [abs_of_neg]) (by norm_num [abs_of_neg])
      (Or.inr ⟨by norm_num [abs_of_pos, abs_of_neg], by norm_num⟩)]
    norm_num
  have hd : tenthsLoop.mT0 - tenthsLoop.mT1
      = 3602879701896397 / 2 ^ 55 - 3602879701896397 / 2 ^ 53 := rfl
  rw [hd, h4, roundToDouble_billionth]
  norm_num [abs_of_neg]

/-- Forward wrap in double arithmetic.  When the rounding error `δ` of one
pass is at most half the region length, the loop ends from a time of magnitude
at most `M`: each pass lowers the time by the region length up to `δ`, the loop
leaves after `k` passes below t1, not more than `δ` below t0 when `k > 0`, and
the result is within `k * δ` of the time less `k` region lengths. -/
theorem Binary64.PlaybackSchedule.wrapWhileOverruns_forward_ends (s : PlaybackSchedule)
    (M δ : ℚ) (hdir : s.mT0 < s.mT1) (hL : 1 / 2 ^ 31 ≤ s.mT1 - s.mT0)
    (hδ : (M + 3 * (s.mT1 - s.mT0)) / 2 ^ 53 + 2 / 2 ^ 1075 ≤ δ)
    (hsmall : δ ≤ (s.mT1 - s.mT0) / 2) (hM : |s.mT0| + (s.mT1 - s.mT0) ≤ M) :
    ∀ (n : ℕ) (x : ℚ), |x| ≤ M → x - s.mT1 < n * ((s.mT1 - s.mT0) / 2) →
      ∃ (k : ℕ) (r : ℚ), k ≤ n ∧
        (∀ fuel, k ≤ fuel →
          Binary64.PlaybackSchedule.wrapWhileOverruns s fuel x = some r) ∧
        r < s.mT1 ∧ (k = 0 → r = x) ∧ (0 < k → s.mT0 - δ ≤ r) ∧
        |r - (x - k * (s.mT1 - s.mT0))| ≤ k * δ := by
  have hov : ∀ y : ℚ, s.Overruns y = decide (s.mT1 ≤ y) := by
    intro y
    simp [PlaybackSchedule.Overruns, PlaybackSchedule.ReversedTime, hdir.le]
  have hd : 0 < s.mT1 - s.mT0 := sub_pos.mpr hdir
  have hleave : ∀ x : ℚ, x < s.mT1 →
      ∃ (k : ℕ) (r : ℚ), k ≤ 0 ∧
        (∀ fuel, k ≤ fuel →
          Binary64.PlaybackSchedule.wrapWhileOverruns s fuel x = some r) ∧
        r < s.mT1 ∧ (k = 0 → r = x) ∧ (0 < k → s.mT0 - δ ≤ r) ∧
        |r - (x - k * (s.mT1 - s.mT0))| ≤ k * δ := by
    intro x hx
    refine ⟨0, x, le_refl _, ?_, hx, fun _ => rfl, fun h => absurd h (lt_irrefl 0), by simp⟩
    intro fuel _
    apply Binary64.PlaybackSchedule.wrapWhileOverruns_leave
    rw [hov, decide_eq_false_iff_not, not_le]
    exact hx
  intro n
  induction n with
  | zero =>
    intro x _ hmeas
    have hx : x < s.mT1 := by
      simp only [Nat.cast_zero, zero_mul] at hmeas
      linarith
    exact hleave x hx
  | succ n ih =>
    intro x hxM hmeas
    by_cases hx : x < s.mT1
    · obtain ⟨k, r, hk, h1, h2, h3, h4, h5⟩ := hleave x hx
      exact ⟨k, r, le_trans hk (Nat.zero_le _), h1, h2, h3, h4, h5⟩
    · have hge : s.mT1 ≤ x := not_lt.mp hx
      have hovx : s.Overruns x = true := by
        rw [hov, decide_eq_true_eq]
        exact hge
      have perr := roundToDouble_pass_error x (s.mT1 - s.mT0) M hxM
        (by rw [abs_of_pos hd]; exact hL)
      rw [abs_of_pos hd] at perr
      have perr2 : |roundToDouble (x - roundToDouble (s.mT1 - s.mT0))
          - (x - (s.mT1 - s.mT0))| ≤ δ := le_trans perr hδ
      have hb := abs_le.mp perr2
      have a0 := neg_abs_le s.mT0
      have hxM2 := abs_le.mp hxM
      have hnewM : |roundToDouble (x - roundToDouble (s.mT1 - s.mT0))| ≤ M := by
        rw [abs_le]
        constructor <;> linarith [hb.1, hb.2]
      have hnewmeas : roundToDouble (x - roundToDouble (s.mT1 - s.mT0)) - s.mT1
          < n * ((s.mT1 - s.mT0) / 2) := by
        push_cast at hmeas
        linarith [hb.2]
      obtain ⟨k, r, hk, h1, h2, h3, h4, h5⟩ := ih _ hnewM hnewmeas
      refine ⟨k + 1, r, Nat.succ_le_succ hk, ?_, h2, ?_, ?_, ?_⟩
      · intro fuel hfuel
        obtain ⟨f, rfl⟩ : ∃ f, fuel = f + 1 := ⟨fuel - 1, by omega⟩
        rw [Binary64.PlaybackSchedule.wrapWhileOverruns_pass s f x hovx]
        exact h1 f (by omega)
      · intro h
        omega
      · intro _
        rcases Nat.eq_zero_or_pos k with hk0 | hkpos
        · rw [h3 hk0]
          linarith [hb.1]
        · exact h4 hkpos
      · have hb5 := abs_le.mp h5
        rw [abs_le]
        push_cast
        constructor <;> linarith [hb.1, hb.2, hb5.1, hb5.2]

/-- Reversed wrap in double arithmetic.  When the rounding error `δ` of one
pass is at most half the region length, the loop ends from a time of magnitude
at most `M`: each pass raises the time by the region length up to `δ`, the loop
leaves after `k` passes above t1, not more than `δ` above t0 when `k > 0`, and
the result is within `k * δ` of the time less `k` times t1 - t0. -/
theorem Binary64.PlaybackSchedule.wrapWhileOverruns_reversed_ends (s : PlaybackSchedule)
    (M δ : ℚ) (hdir : s.mT1 < s.mT0) (hL : 1 / 2 ^ 31 ≤ s.mT0 - s.mT1)
    (hδ : (M + 3 * (s.mT0 - s.mT1)) / 2 ^ 53 + 2 / 2 ^ 1075 ≤ δ)
    (hsmall : δ ≤ (s.mT0 - s.mT1) / 2) (hM : |s.mT0| + (s.mT0 - s.mT1) ≤ M) :
    ∀ (n : ℕ) (x : ℚ), |x| ≤ M → s.mT1 - x < n * ((s.mT0 - s.mT1) / 2) →
      ∃ (k : ℕ) (r : ℚ), k ≤ n ∧
        (∀ fuel, k ≤ fuel →
          Binary64.PlaybackSchedule.wrapWhileOverruns s fuel x = some r) ∧
        s.mT1 < r ∧ (k = 0 → r = x) ∧ (0 < k → r ≤ s.mT0 + δ) ∧
        |r - (x - k * (s.mT1 - s.mT0))| ≤ k * δ := by
  have hov : ∀ y : ℚ, s.Overruns y = decide (y ≤ s.mT1) := by
    intro y
    simp [PlaybackSchedule.Overruns, PlaybackSchedule.ReversedTime, hdir]
  have hd : 0 < s.mT0 - s.mT1 := sub_pos.mpr hdir
  have hleave : ∀ x : ℚ, s.mT1 < x →
      ∃ (k : ℕ) (r : ℚ), k ≤ 0 ∧
        (∀ fuel, k ≤ fuel →
          Binary64.PlaybackSchedule.wrapWhileOverruns s fuel x = some r) ∧
        s.mT1 < r ∧ (k = 0 → r = x) ∧ (0 < k → r ≤ s.mT0 + δ) ∧
        |r - (x - k * (s.mT1 - s.mT0))| ≤ k * δ := by
    intro x hx
    refine ⟨0, x, le_refl _, ?_, hx, fun _ => rfl, fun h => absurd h (lt_irrefl 0), by simp⟩
    intro fuel _
    apply Binary64.PlaybackSchedule.wrapWhileOverruns_leave
    rw [hov, decide_eq_false_iff_not, not_le]
    exact hx
  intro n
  induction n with
  | zero =>
    intro x _ hmeas
    have hx : s.mT1 < x := by
      simp only [Nat.cast_zero, zero_mul] at hmeas
      linarith
    exact hleave x hx
  | succ n ih =>
    intro x hxM hmeas
    by_cases hx : s.mT1 < x
    · obtain ⟨k, r, hk, h1, h2, h3, h4, h5⟩ := hleave x hx
      exact ⟨k, r, le_trans hk (Nat.zero_le _), h1, h2, h3, h4, h5⟩
    · have hge : x ≤ s.mT1 := not_lt.mp hx
      have hovx : s.Overruns x = true := by
        rw [hov, decide_eq_true_eq]
        exact hge
      have hneg : |s.mT1 - s.mT0| = s.mT0 - s.mT1 := by
        rw [abs_of_neg (sub_neg.mpr hdir)]
        ring
      have perr := roundToDouble_pass_error x (s.mT1 - s.mT0) M hxM
        (by rw [hneg]; exact hL)
      rw [hneg] at perr
      have perr2 : |roundToDouble (x - roundToDouble (s.mT1 - s.mT0))
          - (x - (s.mT1 - s.mT0))| ≤ δ := le_trans perr hδ
      have hb := abs_le.mp perr2
      have a0 := le_abs_self s.mT0
      have hxM2 := abs_le.mp hxM
      have hnewM : |roundToDouble (x - roundToDouble (s.mT1 - s.mT0))| ≤ M := by
        rw [abs_le]
        constructor <;> linarith [hb.1, hb.2]
      have hnewmeas : s.mT1 - roundToDouble (x - roundToDouble (s.mT1 - s.mT0))
          < n * ((s.mT0 - s.mT1) / 2) := by
        push_cast at hmeas
        linarith [hb.1]
      obtain ⟨k, r, hk, h1, h2, h3, h4, h5⟩ := ih _ hnewM hnewmeas
      refine ⟨k + 1, r, Nat.succ_le_succ hk, ?_, h2, ?_, ?_, ?_⟩
      · intro fuel hfuel
        obtain ⟨f, rfl⟩ : ∃ f, fuel = f + 1 := ⟨fuel - 1, by omega⟩
        rw [Binary64.PlaybackSchedule.wrapWhileOverruns_pass s f x hovx]
        exact h1 f (by omega)
      · intro h
        omega
      · intro _
        rcases Nat.eq_zero_or_pos k with hk0 | hkpos
        · rw [h3 hk0]
          linarith [hb.2]
        · exact h4 hkpos
      · have hb5 := abs_le.mp h5
        rw [abs_le]
        push_cast
        constructor <;> linarith [hb.1, hb.2, hb5.1, hb5.2]

/-- Without an envelope, under a looping policy and outside the guard,
`AdvancedTrackTime` in double arithmetic returns when the magnitudes
`S = |t0| + |t1| + |time| + |realElapsed| * |speed|` are within 2 ^ 49 region
lengths: after `k` passes of the wrap loop, at most 3 * 2 ^ 50 + 1, it returns a
time that does not overrun, lies not more than `S / 2 ^ 50` beyond t0 when
`k > 0`, and is within `(k + 1) * (S / 2 ^ 50)` of the linear advance less `k`
times t1 - t0. -/
theorem Binary64.PlaybackSchedule.AdvancedTrackTime_ends (s : PlaybackSchedule)
    (time realElapsed speed : ℚ) (henv : s.mEnvelope = none)
    (hloop : s.GetPolicy.Looping s = true)
    (hlen : ¬ |roundToDouble (s.mT0 - s.mT1)| < roundToDouble (1 / 1000000000))
    (hmag : |s.mT0| + |s.mT1| + |time| + |realElapsed| * |speed|
      ≤ 2 ^ 49 * |s.mT1 - s.mT0|) :
    ∃ (k : ℕ) (r : ℚ), k ≤ 3 * 2 ^ 50 + 1 ∧
      (∀ fuel, k ≤ fuel →
        Binary64.PlaybackSchedule.AdvancedTrackTime s fuel time realElapsed speed
          = some r) ∧
      s.Overruns r = false ∧
      (0 < k → (s.mT0 < s.mT1 →
          s.mT0 - (|s.mT0| + |s.mT1| + |time| + |realElapsed| * |speed|) / 2 ^ 50 ≤ r) ∧
        (s.mT1 < s.mT0 →
          r ≤ s.mT0 + (|s.mT0| + |s.mT1| + |time| + |realElapsed| * |speed|) / 2 ^ 50)) ∧
      |r - (time + (if s.ReversedTime then realElapsed * (-1) else realElapsed) * |speed|
          - k * (s.mT1 - s.mT0))|
        ≤ (k + 1) * ((|s.mT0| + |s.mT1| + |time| + |realElapsed| * |speed|) / 2 ^ 50) := by
  have hL := regionLength_of_not_degenerate s.mT0 s.mT1 hlen
  have a0 := abs_nonneg s.mT0
  have a1 := abs_nonneg s.mT1
  have at_ := abs_nonneg time
  have aA : 0 ≤ |realElapsed| * |speed| := mul_nonneg (abs_nonneg _) (abs_nonneg _)
  have hLS : |s.mT1 - s.mT0| ≤ |s.mT0| + |s.mT1| := by
    have := abs_sub s.mT1 s.mT0
    linarith
  set S := |s.mT0| + |s.mT1| + |time| + |realElapsed| * |speed| with hSdef
  have hS01 : |s.mT0| + |s.mT1| ≤ S := by
    rw [hSdef]
    linarith
  have hStA : |time| + |realElapsed| * |speed| ≤ S := by
    rw [hSdef]
    linarith
  have hS0 : 1 / 2 ^ 31 ≤ S := by linarith
  have hSpos : 0 < S := lt_of_lt_of_le (by norm_num) hS0
  have habs : abs ((if s.ReversedTime then realElapsed * (-1) else realElapsed) * |speed|)
      = |realElapsed| * |speed| := by
    split_ifs
    · rw [show realElapsed * (-1) * |speed| = -(realElapsed * |speed|) by ring, abs_neg,
        abs_mul, abs_abs]
    · rw [abs_mul, abs_abs]
  have herr0 := roundToDouble_advance_error time
    ((if s.ReversedTime then realElapsed * (-1) else realElapsed) * |speed|) S
    (by rw [habs]; exact hStA) hS0
  have h5150 : S / 2 ^ 51 ≤ S / 2 ^ 50 := by
    apply div_le_div_of_nonneg_left hSpos.le (by norm_num) (by norm_num)
  have hSle : S / 2 ^ 50 ≤ S := by
    apply div_le_self hSpos.le (by norm_num)
  have hx0 : |roundToDouble (time + roundToDouble
      ((if s.ReversedTime then realElapsed * (-1) else realElapsed) * |speed|))|
      ≤ 2 * S := by
    have h1 := abs_add
      (roundToDouble (time + roundToDouble
        ((if s.ReversedTime then realElapsed * (-1) else realElapsed) * |speed|))
        - (time + (if s.ReversedTime then realElapsed * (-1) else realElapsed) * |speed|))
      (time + (if s.ReversedTime then realElapsed * (-1) else realElapsed) * |speed|)
    rw [sub_add_cancel] at h1
    have h2 := abs_add time
      ((if s.ReversedTime then realElapsed * (-1) else realElapsed) * |speed|)
    rw [habs] at h2
    linarith
  have hδ : ∀ L : ℚ, 0 ≤ L → L ≤ S →
      (2 * S + 3 * L) / 2 ^ 53 + 2 / 2 ^ 1075 ≤ S / 2 ^ 50 := by
    intro L _ hLle
    have h1 : (2 * S + 3 * L) / 2 ^ 53 ≤ 5 * S / 2 ^ 53 :=
      div_le_div_of_nonneg_right (by linarith) (by norm_num)
    have h2 : (2 : ℚ) / 2 ^ 1075 ≤ 3 * (1 / 2 ^ 31) / 2 ^ 53 := by norm_num
    have h3 : 3 * (1 / 2 ^ 31) / 2 ^ 53 ≤ 3 * S / 2 ^ 53 :=
      div_le_div_of_nonneg_right (by linarith) (by norm_num)
    have h4 : S / 2 ^ 50 = 5 * S / 2 ^ 53 + 3 * S / 2 ^ 53 := by ring
    linarith
  have hne : s.mT0 ≠ s.mT1 := by
    intro h
    rw [h, sub_self, abs_zero] at hL
    norm_num at hL
  rcases lt_or_gt_of_ne hne with hdir | hdir
  · have hd : 0 < s.mT1 - s.mT0 := sub_pos.mpr hdir
    rw [abs_of_pos hd] at hL hmag hLS
    have hsmall : S / 2 ^ 50 ≤ (s.mT1 - s.mT0) / 2 := by
      have h1 : S / 2 ^ 50 ≤ 2 ^ 49 * (s.mT1 - s.mT0) / 2 ^ 50 :=
        div_le_div_of_nonneg_right hmag (by norm_num)
      have h2 : (2 : ℚ) ^ 49 * (s.mT1 - s.mT0) / 2 ^ 50 = (s.mT1 - s.mT0) / 2 := by ring
      linarith
    have hxabs := abs_le.mp hx0
    have c1 := le_abs_self s.mT1
    have c2 := neg_abs_le s.mT1
    obtain ⟨k, r, hk, h1, h2, h3, h4, h5⟩ :=
      Binary64.PlaybackSchedule.wrapWhileOverruns_forward_ends s (2 * S) (S / 2 ^ 50) hdir hL
        (hδ _ hd.le (by linarith)) hsmall (by linarith) (3 * 2 ^ 50 + 1) _ hx0
        (by
          push_cast
          have : (3377699720527873 : ℚ) * ((s.mT1 - s.mT0) / 2)
              = 3 * (2 ^ 49 * (s.mT1 - s.mT0)) + (s.mT1 - s.mT0) / 2 := by
            ring
          rw [this]
          linarith [hxabs.1, hxabs.2])
    refine ⟨k, r, hk, ?_, ?_, ?_, ?_⟩
    · intro fuel hfuel
      rw [Binary64.PlaybackSchedule.AdvancedTrackTime_rounded_wrap s fuel time realElapsed
        speed henv hlen hloop]
      exact h1 fuel hfuel
    · simp only [PlaybackSchedule.Overruns, PlaybackSchedule.ReversedTime]
      rw [if_neg (by simp [hdir.le]), decide_eq_false_iff_not]
      exact not_le.mpr h2
    · intro hkpos
      exact ⟨fun _ => h4 hkpos, fun h => absurd h (not_lt.mpr hdir.le)⟩
    · have hb5 := abs_le.mp h5
      have hb0 := abs_le.mp herr0
      have hk1 : ((k : ℚ) + 1) * (S / 2 ^ 50) = k * (S / 2 ^ 50) + S / 2 ^ 50 := by ring
      rw [hk1, abs_le]
      constructor <;> linarith [hb5.1, hb5.2, hb0.1, hb0.2]
  · have hd : 0 < s.mT0 - s.mT1 := sub_pos.mpr hdir
    have hneg : |s.mT1 - s.mT0| = s.mT0 - s.mT1 := by
      rw [abs_of_neg (sub_neg.mpr hdir)]
      ring
    rw [hneg] at hL hmag hLS
    have hsmall : S / 2 ^ 50 ≤ (s.mT0 - s.mT1) / 2 := by
      have h1 : S / 2 ^ 50 ≤ 2 ^ 49 * (s.mT0 - s.mT1) / 2 ^ 50 :=
        div_le_div_of_nonneg_right hmag (by norm_num)
      have h2 : (2 : ℚ) ^ 49 * (s.mT0 - s.mT1) / 2 ^ 50 = (s.mT0 - s.mT1) / 2 := by ring
      linarith
    have hxabs := abs_le.mp hx0
    have c1 := le_abs_self s.mT1
    have c2 := neg_abs_le s.mT1
    obtain ⟨k, r, hk, h1, h2, h3, h4, h5⟩ :=
      Binary64.PlaybackSchedule.wrapWhileOverruns_reversed_ends s (2 * S) (S / 2 ^ 50) hdir hL
        (hδ _ hd.le (by linarith)) hsmall (by linarith) (3 * 2 ^ 50 + 1) _ hx0
        (by
          push_cast
          have : (3377699720527873 : ℚ) * ((s.mT0 - s.mT1) / 2)
              = 3 * (2 ^ 49 * (s.mT0 - s.mT1)) + (s.mT0 - s.mT1) / 2 := by
            ring
          rw [this]
          linarith [hxabs.1, hxabs.2])
    refine ⟨k, r, hk, ?_, ?_, ?_, ?_⟩
    · intro fuel hfuel
      rw [Binary64.PlaybackSchedule.AdvancedTrackTime_rounded_wrap s fuel time realElapsed
        speed henv hlen hloop]
      exact h1 fuel hfuel
    · simp only [PlaybackSchedule.Overruns, PlaybackSchedule.ReversedTime]
      rw [if_pos (by simp [hdir]), decide_eq_false_iff_not]
      exact not_le.mpr h2
    · intro hkpos
      exact ⟨fun h => absurd h (not_lt.mpr hdir.le), fun _ => h4 hkpos⟩
    · have hb5 := abs_le.mp h5
      have hb0 := abs_le.mp herr0
      have hk1 : ((k : ℚ) + 1) * (S / 2 ^ 50) = k * (S / 2 ^ 50) + S / 2 ^ 50 := by ring
      rw [hk1, abs_le]
      constructor <;> linarith [hb5.1, hb5.2, hb0.1, hb0.2]

/-- The wrap loop in double arithmetic on grid values of bounded magnitude is
the wrap loop in exact arithmetic: no subtraction rounds. -/
theorem Binary64.PlaybackSchedule.wrapWhileOverruns_onGrid (s : PlaybackSchedule)
    (e : ℤ) (he : -1074 ≤ e) (h0 : ∃ m : ℤ, s.mT0 = m * 2 ^ e)
    (h1 : ∃ m : ℤ, s.mT1 = m * 2 ^ e) (hb : |s.mT0| + |s.mT1| < 2 ^ 53 * 2 ^ e) :
    ∀ (fuel : ℕ) (x : ℚ), (∃ m : ℤ, x = m * 2 ^ e) → |x| < 2 ^ 53 * 2 ^ e →
      Binary64.PlaybackSchedule.wrapWhileOverruns s fuel x = s.wrapWhileOverruns fuel x := by
  have hL : roundToDouble (s.mT1 - s.mT0) = s.mT1 - s.mT0 := by
    apply roundToDouble_of_onGrid e he _ (onGrid_sub e h1 h0)
    have := abs_sub s.mT1 s.mT0
    linarith
  intro fuel
  induction fuel with
  | zero =>
    intro x _ _
    unfold Binary64.PlaybackSchedule.wrapWhileOverruns
      Tenacity.PlaybackSchedule.wrapWhileOverruns
    rfl
  | succ fuel ih =>
    intro x hx hxb
    cases hov : s.Overruns x with
    | false =>
      rw [Binary64.PlaybackSchedule.wrapWhileOverruns_leave s _ x hov]
      unfold Tenacity.PlaybackSchedule.wrapWhileOverruns
      simp [hov]
    | true =>
      have hnew : |x - (s.mT1 - s.mT0)| < 2 ^ 53 * 2 ^ e := by
        have a0 := abs_nonneg s.mT0
        have a1 := abs_nonneg s.mT1
        have b0 := le_abs_self s.mT0
        have b1 := neg_abs_le s.mT0
        have c0 := le_abs_self s.mT1
        have c1 := neg_abs_le s.mT1
        rw [abs_lt] at hxb ⊢
        unfold PlaybackSchedule.Overruns PlaybackSchedule.ReversedTime at hov
        by_cases hrev : s.mT1 < s.mT0
        · simp only [hrev, decide_True, if_true, decide_eq_true_eq] at hov
          constructor <;> linarith
        · simp only [hrev, decide_False, Bool.false_eq_true, if_false, ge_iff_le,
            decide_eq_true_eq] at hov
          constructor <;> linarith
      rw [Binary64.PlaybackSchedule.wrapWhileOverruns_pass s fuel x hov, hL,
        roundToDouble_of_onGrid e he _ (onGrid_sub e hx (onGrid_sub e h1 h0)) hnew,
        ih _ (onGrid_sub e hx (onGrid_sub e h1 h0)) hnew]
      conv_rhs => rw [Tenacity.PlaybackSchedule.wrapWhileOverruns]
      simp [hov]

/-- Without an envelope, `AdvancedTrackTime` in double arithmetic on grid values
of bounded magnitude, on a region of at least the double `1e-9`, is
`AdvancedTrackTime` in exact arithmetic: no operation rounds. -/
theorem Binary64.PlaybackSchedule.AdvancedTrackTime_onGrid (s : PlaybackSchedule)
    (e : ℤ) (he : -1074 ≤ e) (henv : s.mEnvelope = none)
    (h0 : ∃ m : ℤ, s.mT0 = m * 2 ^ e) (h1 : ∃ m : ℤ, s.mT1 = m * 2 ^ e)
    (hb : |s.mT0| + |s.mT1| < 2 ^ 53 * 2 ^ e)
    (hlen : roundToDouble (1 / 1000000000) ≤ |s.mT0 - s.mT1|)
    (fuel : ℕ) (time realElapsed speed : ℚ) (ht : ∃ m : ℤ, time = m * 2 ^ e)
    (ha : ∃ m : ℤ, realElapsed * |speed| = m * 2 ^ e)
    (hx : |time| + |realElapsed| * |speed| < 2 ^ 53 * 2 ^ e) :
    Binary64.PlaybackSchedule.AdvancedTrackTime s fuel time realElapsed speed =
      s.AdvancedTrackTime fuel time realElapsed speed := by
  have hD : roundToDouble (s.mT0 - s.mT1) = s.mT0 - s.mT1 := by
    apply roundToDouble_of_onGrid e he _ (onGrid_sub e h0 h1)
    have := abs_sub s.mT0 s.mT1
    linarith
  have hg1 : ¬ |roundToDouble (s.mT0 - s.mT1)| < roundToDouble (1 / 1000000000) := by
    rw [hD]
    exact not_lt.mpr hlen
  have hg2 : (1 : ℚ) / 1000000000 ≤ |s.mT0 - s.mT1| :=
    le_trans billionth_le_roundToDouble hlen
  have hsigned : ∃ m : ℤ,
      (if s.ReversedTime then realElapsed * (-1) else realElapsed) * |speed| = m * 2 ^ e := by
    obtain ⟨m, hm⟩ := ha
    split_ifs
    · exact ⟨-m, by push_cast; rw [neg_mul, ← hm]; ring⟩
    · exact ⟨m, hm⟩
  have habs : abs ((if s.ReversedTime then realElapsed * (-1) else realElapsed) * |speed|)
      = |realElapsed| * |speed| := by
    split_ifs
    · rw [show realElapsed * (-1) * |speed| = -(realElapsed * |speed|) by ring, abs_neg,
        abs_mul, abs_abs]
    · rw [abs_mul, abs_abs]
  have ta := abs_nonneg time
  have hr1 : roundToDouble
      ((if s.ReversedTime then realElapsed * (-1) else realElapsed) * |speed|)
      = (if s.ReversedTime then realElapsed * (-1) else realElapsed) * |speed| := by
    apply roundToDouble_of_onGrid e he _ hsigned
    rw [habs]
    linarith
  have hsum : abs (time
      + (if s.ReversedTime then realElapsed * (-1) else realElapsed) * |speed|)
      < 2 ^ 53 * 2 ^ e := by
    have := abs_add time
      ((if s.ReversedTime then realElapsed * (-1) else realElapsed) * |speed|)
    rw [habs] at this
    linarith
  have hr2 : roundToDouble
      (time + (if s.ReversedTime then realElapsed * (-1) else realElapsed) * |speed|)
      = time + (if s.ReversedTime then realElapsed * (-1) else realElapsed) * |speed| :=
    roundToDouble_of_onGrid e he _ (onGrid_add e ht hsigned) hsum
  cases hloop : s.GetPolicy.Looping s with
  | true =>
    rw [Binary64.PlaybackSchedule.AdvancedTrackTime_rounded_wrap s fuel time realElapsed
        speed henv hg1 hloop,
      Tenacity.PlaybackSchedule.AdvancedTrackTime_wrap s fuel time realElapsed speed henv
        hg2 hloop, hr1, hr2]
    exact Binary64.PlaybackSchedule.wrapWhileOverruns_onGrid s e he h0 h1 hb fuel _
      (onGrid_add e ht hsigned) hsum
  | false =>
    rw [Binary64.PlaybackSchedule.AdvancedTrackTime_rounded_linear s fuel time realElapsed
        speed henv hg1 hloop,
      Tenacity.PlaybackSchedule.AdvancedTrackTime_linear s fuel time realElapsed speed henv
        hg2 hloop, hr1, hr2]

/-- C38 fails in double arithmetic: on the envelope-free region t0 = 2, t1 = 5
under the looping policy,
AdvancedTrackTime(time = 1e17, realElapsed = 0, speed = 1) in double arithmetic
never returns, whatever the fuel: the guard does not apply (|t0 - t1| = 3), the
time 1e17 overruns, and each pass computes 1e17 - 3.0, which rounds back to
1e17. -/
theorem C38_counterexample :
    forwardLoop.mEnvelope = none ∧ forwardLoop.GetPolicy.Looping forwardLoop = true ∧
    (1 : ℚ) / 1000000000 ≤ |forwardLoop.mT0 - forwardLoop.mT1| ∧
    ∀ fuel, Binary64.PlaybackSchedule.AdvancedTrackTime forwardLoop fuel (10 ^ 17) 0 1
      = none := by
  refine ⟨rfl, rfl, by norm_num [forwardLoop], ?_⟩
  intro fuel
  rw [Binary64.PlaybackSchedule.AdvancedTrackTime_rounded_wrap forwardLoop fuel _ _ _ rfl
    forwardLoop_not_degenerate rfl]
  have hx : roundToDouble ((10 : ℚ) ^ 17 + roundToDouble
      ((if forwardLoop.ReversedTime then (0 : ℚ) * (-1) else 0) * |(1 : ℚ)|)) = 10 ^ 17 := by
    have h0 : (if forwardLoop.ReversedTime then (0 : ℚ) * (-1) else 0) * |(1 : ℚ)| = 0 := by
      norm_num
    rw [h0, roundToDouble_zero, add_zero, roundToDouble_tenPow17]
  rw [hx]
  exact Binary64.PlaybackSchedule.wrapWhileOverruns_absorbed forwardLoop (10 ^ 17)
    (by norm_num [PlaybackSchedule.Overruns, PlaybackSchedule.ReversedTime, forwardLoop])
    forwardLoop_absorbs fuel

/-- C38, amended: in double arithmetic, for every envelope-free schedule under
a looping policy and every time, realElapsed and speed, AdvancedTrackTime
returns at once with t0 when the guard applies (|t0 - t1| < 1e-9), whatever the
fuel; and otherwise, when S = |t0| + |t1| + |time| + |realElapsed| * |speed| is
within 2 ^ 49 region lengths, each pass of the wrap loop moves a time of
magnitude at most 2 * S by t1 - t0 up to a rounding error of at most half a
region length, and the call returns a time that does not overrun after at most
3 * 2 ^ 50 + 1 passes, once the fuel covers them. -/
theorem C38_looping_advance_ends (s : PlaybackSchedule) (time realElapsed speed : ℚ)
    (henv : s.mEnvelope = none) (hloop : s.GetPolicy.Looping s = true) :
    (|roundToDouble (s.mT0 - s.mT1)| < roundToDouble (1 / 1000000000) →
      ∀ fuel, Binary64.PlaybackSchedule.AdvancedTrackTime s fuel time realElapsed speed
        = some s.mT0) ∧
    (¬ |roundToDouble (s.mT0 - s.mT1)| < roundToDouble (1 / 1000000000) →
      |s.mT0| + |s.mT1| + |time| + |realElapsed| * |speed| ≤ 2 ^ 49 * |s.mT1 - s.mT0| →
      (∀ x : ℚ, |x| ≤ 2 * (|s.mT0| + |s.mT1| + |time| + |realElapsed| * |speed|) →
        |roundToDouble (x - roundToDouble (s.mT1 - s.mT0)) - (x - (s.mT1 - s.mT0))|
          ≤ |s.mT1 - s.mT0| / 2) ∧
      ∃ (k : ℕ) (r : ℚ), k ≤ 3 * 2 ^ 50 + 1 ∧
        (∀ fuel, k ≤ fuel →
          Binary64.PlaybackSchedule.AdvancedTrackTime s fuel time realElapsed speed
            = some r) ∧
        s.Overruns r = false) := by
  constructor
  · intro hguard fuel
    unfold Binary64.PlaybackSchedule.AdvancedTrackTime
    dsimp only
    rw [if_pos hguard]
  · intro hlen hmag
    constructor
    · intro x hx
      have hL := regionLength_of_not_degenerate s.mT0 s.mT1 hlen
      have perr := roundToDouble_pass_error x (s.mT1 - s.mT0) _ hx hL
      have a0 := abs_nonneg s.mT0
      have a1 := abs_nonneg s.mT1
      have at_ := abs_nonneg time
      have aA : 0 ≤ |realElapsed| * |speed| := mul_nonneg (abs_nonneg _) (abs_nonneg _)
      have hLS : |s.mT1 - s.mT0| ≤ |s.mT0| + |s.mT1| := by
        have := abs_sub s.mT1 s.mT0
        linarith
      have h1 : (2 * (|s.mT0| + |s.mT1| + |time| + |realElapsed| * |speed|)
          + 3 * |s.mT1 - s.mT0|) / 2 ^ 53
          ≤ 5 * (2 ^ 49 * |s.mT1 - s.mT0|) / 2 ^ 53 :=
        div_le_div_of_nonneg_right (by linarith) (by norm_num)
      have h2 : 5 * (2 ^ 49 * |s.mT1 - s.mT0|) / 2 ^ 53 = 5 * |s.mT1 - s.mT0| / 16 := by
        ring
      have h3 : (2 : ℚ) / 2 ^ 1075 ≤ 1 / 2 ^ 31 / 16 := by norm_num
      have h4 : (1 : ℚ) / 2 ^ 31 / 16 ≤ |s.mT1 - s.mT0| / 16 :=
        div_le_div_of_nonneg_right hL (by norm_num)
      have h5 : 5 * |s.mT1 - s.mT0| / 16 + |s.mT1 - s.mT0| / 16 ≤ |s.mT1 - s.mT0| / 2 := by
        have := abs_nonneg (s.mT1 - s.mT0)
        linarith
      linarith
    · obtain ⟨k, r, hk, h1, h2, -, -⟩ := Binary64.PlaybackSchedule.AdvancedTrackTime_ends s
        time realElapsed speed henv hloop hlen hmag
      exact ⟨k, r, hk, h1, h2⟩

/-- C38, amended, on the region t0 = 2, t1 = 5 under the looping policy, from
time 100 with 8 seconds elapsed at speed 1: the call returns, and with 35 units
of fuel it returns 3, the linear advance 108 after 35 passes. -/
theorem C38_looping_advance_ends_witness :
    (∃ (k : ℕ) (r : ℚ), k ≤ 3 * 2 ^ 50 + 1 ∧
      (∀ fuel, k ≤ fuel →
        Binary64.PlaybackSchedule.AdvancedTrackTime forwardLoop fuel 100 8 1 = some r) ∧
      forwardLoop.Overruns r = false) ∧
    Binary64.PlaybackSchedule.AdvancedTrackTime forwardLoop 35 100 8 1 = some 3 :=
  ⟨((C38_looping_advance_ends forwardLoop 100 8 1 rfl rfl).2 forwardLoop_not_degenerate
      (by norm_num [forwardLoop, abs_of_pos])).2,
   by
    rw [Binary64.PlaybackSchedule.AdvancedTrackTime_onGrid forwardLoop 0 (by norm_num) rfl
      ⟨2, by norm_num [forwardLoop]⟩ ⟨5, by norm_num [forwardLoop]⟩
      (by norm_num [forwardLoop, abs_of_pos])
      (by
        rw [roundToDouble_billionth]
        norm_num [forwardLoop])
      35 100 8 1 ⟨100, by norm_num⟩ ⟨8, by norm_num⟩ (by norm_num [abs_of_pos])]
    rw [PlaybackSchedule.AdvancedTrackTime_wrap forwardLoop 35 100 8 1 rfl
      (by norm_num [forwardLoop]) rfl]
    have h := PlaybackSchedule.wrapWhileOverruns_exit forwardLoop 35 35 108 (le_refl _)
      (by
        intro j hj
        have hj1 : (j : ℚ) ≤ 34 := by exact_mod_cast Nat.lt_succ_iff.mp hj
        simp only [PlaybackSchedule.Overruns, PlaybackSchedule.ReversedTime, forwardLoop]
        norm_num
        linarith)
      (by
        simp only [PlaybackSchedule.Overruns, PlaybackSchedule.ReversedTime, forwardLoop]
        norm_num)
    have hx : (100 : ℚ) + (if forwardLoop.ReversedTime then 8 * (-1) else 8) * |(1 : ℚ)|
        = 108 := by
      norm_num [PlaybackSchedule.ReversedTime, forwardLoop]
    rw [hx, h]
    norm_num [forwardLoop]⟩

/-- C12 fails in double arithmetic: on the envelope-free region t0 = 2, t1 = 5
under the looping policy,
from time 4 inside the region, AdvancedTrackTime(4, realElapsed = 1e17, 1) in
double arithmetic never returns, whatever the fuel: the sum 4 + 1e17 is 1e17,
and each pass of the wrap loop computes 1e17 - 3.0 = 1e17.  On the region from
0.1 to 0.4, from time 0.15 with 0.25 seconds elapsed, the call returns after
one pass with 0.09999999999999998, which is below t0. -/
theorem C12_counterexample :
    ((forwardLoop.mT0 ≤ 4 ∧ (4 : ℚ) < forwardLoop.mT1) ∧
      ∀ fuel, Binary64.PlaybackSchedule.AdvancedTrackTime forwardLoop fuel 4 (10 ^ 17) 1
        = none) ∧
    ((tenthsLoop.mT0 ≤ 5404319552844595 / 2 ^ 55 ∧
        (5404319552844595 / 2 ^ 55 : ℚ) < tenthsLoop.mT1) ∧
      (∀ fuel, 1 ≤ fuel →
        Binary64.PlaybackSchedule.AdvancedTrackTime tenthsLoop fuel
            (5404319552844595 / 2 ^ 55) (1 / 4) 1
          = some (900719925474099 / 2 ^ 53)) ∧
      (900719925474099 / 2 ^ 53 : ℚ) < tenthsLoop.mT0) := by
  refine ⟨⟨⟨by norm_num [forwardLoop], by norm_num [forwardLoop]⟩, ?_⟩,
    ⟨by norm_num [tenthsLoop], by norm_num [tenthsLoop]⟩, ?_, by norm_num [tenthsLoop]⟩
  · intro fuel
    rw [Binary64.PlaybackSchedule.AdvancedTrackTime_rounded_wrap forwardLoop fuel _ _ _ rfl
      forwardLoop_not_degenerate rfl]
    have hx : roundToDouble ((4 : ℚ) + roundToDouble
        ((if forwardLoop.ReversedTime then (10 : ℚ) ^ 17 * (-1) else 10 ^ 17) * |(1 : ℚ)|))
        = 10 ^ 17 := by
      have h0 : (if forwardLoop.ReversedTime then (10 : ℚ) ^ 17 * (-1) else 10 ^ 17)
          * |(1 : ℚ)| = 10 ^ 17 := by
        norm_num [PlaybackSchedule.ReversedTime, forwardLoop]
      rw [h0, roundToDouble_tenPow17,
        roundToDouble_eq (x := 4 + 10 ^ 17) (u := 16) 56 6250000000000000 (by norm_num)
          (by norm_num) (by norm_num [abs_of_pos]) (by norm_num [abs_of_pos])
          (Or.inl (by norm_num [abs_lt]))]
      norm_num
    rw [hx]
    exact Binary64.PlaybackSchedule.wrapWhileOverruns_absorbed forwardLoop (10 ^ 17)
      (by norm_num [PlaybackSchedule.Overruns, PlaybackSchedule.ReversedTime, forwardLoop])
      forwardLoop_absorbs fuel
  · intro fuel hfuel
    obtain ⟨f, rfl⟩ : ∃ f, fuel = f + 1 := ⟨fuel - 1, by omega⟩
    have h4 : roundToDouble (3602879701896397 / 2 ^ 55 - 3602879701896397 / 2 ^ 53)
        = (-1351079888211149) / 2 ^ 52 := by
      rw [roundToDouble_eq (x := 3602879701896397 / 2 ^ 55 - 3602879701896397 / 2 ^ 53)
        (u := 1 / 2 ^ 54) (-2) (-5404319552844596)
        (by norm_num) (by norm_num) (by norm_num [abs_of_neg]) (by norm_num [abs_of_neg])
        (Or.inr ⟨by norm_num [abs_of_pos, abs_of_neg], by norm_num⟩)]
      norm_num
    have hlen : ¬ |roundToDouble (tenthsLoop.mT0 - tenthsLoop.mT1)|
        < roundToDouble (1 / 1000000000) := by
      have hd : tenthsLoop.mT0 - tenthsLoop.mT1
          = 3602879701896397 / 2 ^ 55 - 3602879701896397 / 2 ^ 53 := rfl
      rw [hd, h4, roundToDouble_billionth]
      norm_num [abs_of_neg]
    have hq : roundToDouble (1 / 4) = 1 / 4 := by
      rw [roundToDouble_eq (x := 1 / 4) (u := 1 / 2 ^ 54) (-2) 4503599627370496
        (by norm_num) (by norm_num) (by norm_num [abs_of_pos]) (by norm_num [abs_of_pos])
        (Or.inl (by norm_num [abs_lt]))]
      norm_num
    have h1 : roundToDouble (5404319552844595 / 2 ^ 55 + 1 / 4)
        = 3602879701896397 / 2 ^ 53 := by
      rw [roundToDouble_eq (x := 5404319552844595 / 2 ^ 55 + 1 / 4) (u := 1 / 2 ^ 54) (-2)
        7205759403792794
        (by norm_num) (by norm_num) (by norm_num [abs_of_pos]) (by norm_num [abs_of_pos])
        (Or.inr ⟨by norm_num [abs_of_pos, abs_of_neg], by norm_num⟩)]
      norm_num
    have h2 : roundToDouble (3602879701896397 / 2 ^ 53 - 3602879701896397 / 2 ^ 55)
        = 1351079888211149 / 2 ^ 52 := by
      rw [roundToDouble_eq (x := 3602879701896397 / 2 ^ 53 - 3602879701896397 / 2 ^ 55)
        (u := 1 / 2 ^ 54) (-2) 5404319552844596
        (by norm_num) (by norm_num) (by norm_num [abs_of_pos]) (by norm_num [abs_of_pos])
        (Or.inr ⟨by norm_num [abs_of_pos, abs_of_neg], by norm_num⟩)]
      norm_num
    have h3 : roundToDouble (3602879701896397 / 2 ^ 53 - 1351079888211149 / 2 ^ 52)
        = 900719925474099 / 2 ^ 53 := by
      rw [roundToDouble_eq (x := 3602879701896397 / 2 ^ 53 - 1351079888211149 / 2 ^ 52)
        (u := 1 / 2 ^ 56) (-4) 7205759403792792
        (by norm_num) (by norm_num) (by norm_num [abs_of_pos]) (by norm_num [abs_of_pos])
        (Or.inl (by norm_num [abs_lt]))]
      norm_num
    rw [Binary64.PlaybackSchedule.AdvancedTrackTime_rounded_wrap tenthsLoop _ _ _ _ rfl
      hlen rfl]
    have hx : roundToDouble ((5404319552844595 / 2 ^ 55 : ℚ) + roundToDouble
        ((if tenthsLoop.ReversedTime then (1 / 4 : ℚ) * (-1) else 1 / 4) * |(1 : ℚ)|))
        = 3602879701896397 / 2 ^ 53 := by
      have h0 : (if tenthsLoop.ReversedTime then (1 / 4 : ℚ) * (-1) else 1 / 4)
          * |(1 : ℚ)| = 1 / 4 := by
        norm_num [PlaybackSchedule.ReversedTime, tenthsLoop]
      rw [h0, hq, h1]
    rw [hx, Binary64.PlaybackSchedule.wrapWhileOverruns_pass tenthsLoop f _
      (by norm_num [PlaybackSchedule.Overruns, PlaybackSchedule.ReversedTime, tenthsLoop])]
    have hL : tenthsLoop.mT1 - tenthsLoop.mT0
        = 3602879701896397 / 2 ^ 53 - 3602879701896397 / 2 ^ 55 := rfl
    rw [hL, h2, h3]
    exact Binary64.PlaybackSchedule.wrapWhileOverruns_leave tenthsLoop f _
      (by norm_num [PlaybackSchedule.Overruns, PlaybackSchedule.ReversedTime, tenthsLoop])

/-- C12, amended: in double arithmetic, for an envelope-free schedule under a
looping policy to which the guard does not apply (|t0 - t1| ≥ 1e-9), for every
time inside the region (t0 ≤ time < t1 forward, t1 < time ≤ t0 reversed) and
every realElapsed ≥ 0 such that S = |t0| + |t1| + |time| + realElapsed * |speed|
is within 2 ^ 49 region lengths, AdvancedTrackTime returns, once the fuel
covers the k passes of its loop, a value r that does not overrun, lies in
[t0 - S / 2 ^ 50, t1) forward and in (t1, t0 + S / 2 ^ 50] reversed, and is
within (k + 1) * (S / 2 ^ 50) of the linear advance time ± realElapsed * |speed|
less k * (t1 - t0). -/
theorem C12_looping_wraps_rounded (s : PlaybackSchedule) (time realElapsed speed : ℚ)
    (henv : s.mEnvelope = none) (hloop : s.GetPolicy.Looping s = true)
    (hlen : ¬ |roundToDouble (s.mT0 - s.mT1)| < roundToDouble (1 / 1000000000))
    (he : 0 ≤ realElapsed)
    (hin : (s.mT0 ≤ time ∧ time < s.mT1) ∨ (s.mT1 < time ∧ time ≤ s.mT0))
    (hmag : |s.mT0| + |s.mT1| + |time| + realElapsed * |speed|
      ≤ 2 ^ 49 * |s.mT1 - s.mT0|) :
    ∃ (k : ℕ) (r : ℚ),
      (∀ fuel, k ≤ fuel →
        Binary64.PlaybackSchedule.AdvancedTrackTime s fuel time realElapsed speed
          = some r) ∧
      s.Overruns r = false ∧
      (s.mT0 < s.mT1 →
        s.mT0 - (|s.mT0| + |s.mT1| + |time| + realElapsed * |speed|) / 2 ^ 50 ≤ r ∧
        r < s.mT1 ∧
        |r - (time + realElapsed * |speed| - k * (s.mT1 - s.mT0))|
          ≤ (k + 1) * ((|s.mT0| + |s.mT1| + |time| + realElapsed * |speed|) / 2 ^ 50)) ∧
      (s.mT1 < s.mT0 →
        s.mT1 < r ∧
        r ≤ s.mT0 + (|s.mT0| + |s.mT1| + |time| + realElapsed * |speed|) / 2 ^ 50 ∧
        |r - (time - realElapsed * |speed| - k * (s.mT1 - s.mT0))|
          ≤ (k + 1) * ((|s.mT0| + |s.mT1| + |time| + realElapsed * |speed|) / 2 ^ 50)) := by
  have hae : |realElapsed| = realElapsed := abs_of_nonneg he
  have hm : 0 ≤ realElapsed * |speed| := mul_nonneg he (abs_nonneg _)
  obtain ⟨k, r, -, h1, h2, h3, h4⟩ := Binary64.PlaybackSchedule.AdvancedTrackTime_ends s
    time realElapsed speed henv hloop hlen (by rw [hae]; exact hmag)
  rw [hae] at h3 h4
  have hε : 0 ≤ (|s.mT0| + |s.mT1| + |time| + realElapsed * |speed|) / 2 ^ 50 := by
    have a0 := abs_nonneg s.mT0
    have a1 := abs_nonneg s.mT1
    have at_ := abs_nonneg time
    apply div_nonneg (by linarith) (by norm_num)
  refine ⟨k, r, h1, h2, ?_, ?_⟩
  · intro hdir
    have hrev : s.ReversedTime = false := by
      simp [PlaybackSchedule.ReversedTime, hdir.le]
    rw [hrev] at h4
    simp only [Bool.false_eq_true, if_false] at h4
    have hlt : r < s.mT1 := by
      simp only [PlaybackSchedule.Overruns, hrev, Bool.false_eq_true, if_false,
        decide_eq_false_iff_not, ge_iff_le, not_le] at h2
      exact h2
    have hin0 : s.mT0 ≤ time := by
      rcases hin with ⟨a, _⟩ | ⟨a, b⟩
      · exact a
      · linarith
    refine ⟨?_, hlt, h4⟩
    rcases Nat.eq_zero_or_pos k with hk0 | hkpos
    · rw [hk0] at h4
      have hb := abs_le.mp h4
      simp only [Nat.cast_zero, zero_mul, sub_zero, zero_add, one_mul] at hb
      linarith [hb.1]
    · exact (h3 hkpos).1 hdir
  · intro hdir
    have hrev : s.ReversedTime = true := by
      simp [PlaybackSchedule.ReversedTime, hdir]
    rw [hrev] at h4
    simp only [if_true] at h4
    have hx : time + realElapsed * (-1) * |speed| = time - realElapsed * |speed| := by ring
    rw [hx] at h4
    have hgt : s.mT1 < r := by
      simp only [PlaybackSchedule.Overruns, hrev, if_true, decide_eq_false_iff_not,
        not_le] at h2
      exact h2
    have hin0 : time ≤ s.mT0 := by
      rcases hin with ⟨a, b⟩ | ⟨_, b⟩
      · linarith
      · exact b
    refine ⟨hgt, ?_, h4⟩
    rcases Nat.eq_zero_or_pos k with hk0 | hkpos
    · rw [hk0] at h4
      have hb := abs_le.mp h4
      simp only [Nat.cast_zero, zero_mul, sub_zero, zero_add, one_mul] at hb
      linarith [hb.2]
    · exact (h3 hkpos).2 hdir

/-- C12, amended, on the region from 0.1 to 0.4 under the looping policy, from
time 0.15 with 0.25 seconds elapsed at speed 1. -/
theorem C12_looping_wraps_rounded_witness :
    ∃ (k : ℕ) (r : ℚ),
      (∀ fuel, k ≤ fuel →
        Binary64.PlaybackSchedule.AdvancedTrackTime tenthsLoop fuel
          (5404319552844595 / 2 ^ 55) (1 / 4) 1 = some r) ∧
      tenthsLoop.Overruns r = false ∧
      (tenthsLoop.mT0 < tenthsLoop.mT1 →
        tenthsLoop.mT0 - (|tenthsLoop.mT0| + |tenthsLoop.mT1|
            + |(5404319552844595 / 2 ^ 55 : ℚ)| + 1 / 4 * |(1 : ℚ)|) / 2 ^ 50 ≤ r ∧
        r < tenthsLoop.mT1 ∧
        |r - (5404319552844595 / 2 ^ 55 + 1 / 4 * |(1 : ℚ)|
            - k * (tenthsLoop.mT1 - tenthsLoop.mT0))|
          ≤ (k + 1) * ((|tenthsLoop.mT0| + |tenthsLoop.mT1|
            + |(5404319552844595 / 2 ^ 55 : ℚ)| + 1 / 4 * |(1 : ℚ)|) / 2 ^ 50)) ∧
      (tenthsLoop.mT1 < tenthsLoop.mT0 →
        tenthsLoop.mT1 < r ∧
        r ≤ tenthsLoop.mT0 + (|tenthsLoop.mT0| + |tenthsLoop.mT1|
            + |(5404319552844595 / 2 ^ 55 : ℚ)| + 1 / 4 * |(1 : ℚ)|) / 2 ^ 50 ∧
        |r - (5404319552844595 / 2 ^ 55 - 1 / 4 * |(1 : ℚ)|
            - k * (tenthsLoop.mT1 - tenthsLoop.mT0))|
          ≤ (k + 1) * ((|tenthsLoop.mT0| + |tenthsLoop.mT1|
            + |(5404319552844595 / 2 ^ 55 : ℚ)| + 1 / 4 * |(1 : ℚ)|) / 2 ^ 50)) :=
  C12_looping_wraps_rounded tenthsLoop (5404319552844595 / 2 ^ 55) (1 / 4) 1 rfl rfl
    tenthsLoop_not_degenerate (by norm_num)
    (Or.inl ⟨by norm_num [tenthsLoop], by norm_num [tenthsLoop]⟩)
    (by norm_num [tenthsLoop, abs_of_pos])

/-! ## The looping policy in double arithmetic -/

/-- The schedule that `LoopingPlaybackPolicy::GetPlaybackSlice` leaves in
double arithmetic: the real time has advanced by the desired duration or, when
that exceeds it, by the remaining real time. -/
theorem Binary64.LoopingPlaybackPolicy.GetPlaybackSlice_rounded_looping_advance
    (ub : ℚ → ℕ) (mRate : ℚ) (schedule : PlaybackSchedule) (available : ℕ) :
    (Binary64.LoopingPlaybackPolicy.GetPlaybackSlice ub mRate schedule available).2 =
      Binary64.PlaybackSchedule.RealTimeAdvance schedule
        (if roundToDouble (roundToDouble (available : ℚ) / mRate)
            > Binary64.PlaybackSchedule.RealTimeRemaining schedule then
          Binary64.PlaybackSchedule.RealTimeRemaining schedule
        else roundToDouble (roundToDouble (available : ℚ) / mRate)) := by
  unfold Binary64.LoopingPlaybackPolicy.GetPlaybackSlice
  dsimp only
  split <;> split <;> try split
  all_goals rfl

/-- The overflow branch of `LoopingPlaybackPolicy::GetPlaybackSlice` in double
arithmetic when the product converts to at least one frame. -/
theorem Binary64.LoopingPlaybackPolicy.GetPlaybackSlice_rounded_looping_overflow
    (ub : ℚ → ℕ) (mRate : ℚ) (schedule : PlaybackSchedule) (available : ℕ)
    (h : roundToDouble (roundToDouble (available : ℚ) / mRate)
      > Binary64.PlaybackSchedule.RealTimeRemaining schedule)
    (hf : toSizeT ub (roundToDouble
      (Binary64.PlaybackSchedule.RealTimeRemaining schedule * mRate)) ≠ 0) :
    Binary64.LoopingPlaybackPolicy.GetPlaybackSlice ub mRate schedule available =
      (PlaybackSlice.construct available
          (toSizeT ub (roundToDouble
            (Binary64.PlaybackSchedule.RealTimeRemaining schedule * mRate)))
          (toSizeT ub (roundToDouble
            (Binary64.PlaybackSchedule.RealTimeRemaining schedule * mRate))),
        Binary64.PlaybackSchedule.RealTimeAdvance schedule
          (Binary64.PlaybackSchedule.RealTimeRemaining schedule)) := by
  unfold Binary64.LoopingPlaybackPolicy.GetPlaybackSlice
  dsimp only
  rw [if_pos h]
  dsimp only
  rw [if_neg hf]

/-- At 44100 Hz on a pass of 0.9 seconds with 0.3 seconds elapsed: the
remaining real time is 0.6000000000000001, the real time of 44100 frames is 1,
0.3 + 0.6000000000000001 is 0.9000000000000001, and
0.9 - 0.9000000000000001 is -2 ^ -53. -/
theorem passState_nine_tenths_three_tenths :
    Binary64.PlaybackSchedule.RealTimeRemaining
        (passState (8106479329266893 / 2 ^ 53) (5404319552844595 / 2 ^ 54))
      = 1351079888211149 / 2 ^ 51 ∧
    roundToDouble (roundToDouble ((44100 : ℕ) : ℚ) / 44100) = 1 ∧
    roundToDouble (5404319552844595 / 2 ^ 54 + 1351079888211149 / 2 ^ 51)
      = 4053239664633447 / 2 ^ 52 ∧
    roundToDouble (8106479329266893 / 2 ^ 53 - 4053239664633447 / 2 ^ 52)
      = (-1) / 2 ^ 53 := by
  have hR : roundToDouble (8106479329266893 / 2 ^ 53 - 5404319552844595 / 2 ^ 54)
      = 1351079888211149 / 2 ^ 51 := by
    rw [roundToDouble_eq (x := 8106479329266893 / 2 ^ 53 - 5404319552844595 / 2 ^ 54)
      (u := 1 / 2 ^ 53) (-1) 5404319552844596
      (by norm_num) (by norm_num) (by norm_num [abs_of_pos]) (by norm_num [abs_of_pos])
      (Or.inr ⟨by norm_num [abs_of_pos, abs_of_neg], by norm_num⟩)]
    norm_num
  have hd : roundToDouble (44100 / 44100) = 1 := by
    rw [roundToDouble_eq (x := 44100 / 44100) (u := 1 / 2 ^ 52) 0 4503599627370496
      (by norm_num) (by norm_num) (by norm_num [abs_of_pos]) (by norm_num [abs_of_pos])
      (Or.inl (by norm_num [abs_lt]))]
    norm_num
  have hw : roundToDouble (5404319552844595 / 2 ^ 54 + 1351079888211149 / 2 ^ 51)
      = 4053239664633447 / 2 ^ 52 := by
    rw [roundToDouble_eq (x := 5404319552844595 / 2 ^ 54 + 1351079888211149 / 2 ^ 51)
      (u := 1 / 2 ^ 53) (-1) 8106479329266894
      (by norm_num) (by norm_num) (by norm_num [abs_of_pos]) (by norm_num [abs_of_pos])
      (Or.inr ⟨by norm_num [abs_of_pos, abs_of_neg], by norm_num⟩)]
    norm_num
  have hrem : roundToDouble (8106479329266893 / 2 ^ 53 - 4053239664633447 / 2 ^ 52)
      = (-1) / 2 ^ 53 := by
    rw [roundToDouble_eq (x := 8106479329266893 / 2 ^ 53 - 4053239664633447 / 2 ^ 52)
      (u := 1 / 2 ^ 105) (-53) (-4503599627370496)
      (by norm_num) (by norm_num) (by norm_num [abs_of_neg]) (by norm_num [abs_of_neg])
      (Or.inl (by norm_num [abs_lt]))]
    norm_num
  refine ⟨hR, ?_, hw, hrem⟩
  rw [roundToDouble_natCast 44100 (by norm_num)]
  exact_mod_cast hd

/-- At 44100 Hz on a pass of 0.9 seconds with 0.3 seconds elapsed, the looping
`GetPlaybackSlice` with 44100 available frames in double arithmetic leaves
0.9000000000000001 seconds elapsed. -/
theorem passState_nine_tenths_slice (ub : ℚ → ℕ) :
    (Binary64.LoopingPlaybackPolicy.GetPlaybackSlice ub 44100
        (passState (8106479329266893 / 2 ^ 53) (5404319552844595 / 2 ^ 54)) 44100).2
      = { passState (8106479329266893 / 2 ^ 53) (5404319552844595 / 2 ^ 54) with
          mWarpedTime := 4053239664633447 / 2 ^ 52 } := by
  obtain ⟨hR, hd, hw, -⟩ := passState_nine_tenths_three_tenths
  rw [Binary64.LoopingPlaybackPolicy.GetPlaybackSlice_rounded_looping_advance, hR, hd,
    if_pos (by norm_num)]
  unfold Binary64.PlaybackSchedule.RealTimeAdvance
  have : (passState (8106479329266893 / 2 ^ 53) (5404319552844595 / 2 ^ 54)).mWarpedTime
      + 1351079888211149 / 2 ^ 51
      = 5404319552844595 / 2 ^ 54 + 1351079888211149 / 2 ^ 51 := rfl
  rw [this, hw]

/-- C33 fails in double arithmetic: at 44100 Hz, on a pass of 0.9 seconds with
0.3 seconds elapsed (0 ≤ warpedElapsed ≤ warpedLength), the looping
GetPlaybackSlice with 44100 available frames advances by the remaining
0.6000000000000001 and leaves warpedElapsed = 0.9000000000000001, which is
above warpedLength. -/
theorem C33_counterexample :
    (0 : ℚ)
      ≤ (passState (8106479329266893 / 2 ^ 53) (5404319552844595 / 2 ^ 54)).mWarpedTime ∧
    (passState (8106479329266893 / 2 ^ 53) (5404319552844595 / 2 ^ 54)).mWarpedTime
      ≤ (passState (8106479329266893 / 2 ^ 53) (5404319552844595 / 2 ^ 54)).mWarpedLength ∧
    ∀ ub : ℚ → ℕ,
      (Binary64.LoopingPlaybackPolicy.GetPlaybackSlice ub 44100
          (passState (8106479329266893 / 2 ^ 53) (5404319552844595 / 2 ^ 54))
          44100).2.mWarpedTime = 4053239664633447 / 2 ^ 52 ∧
      ¬ (Binary64.LoopingPlaybackPolicy.GetPlaybackSlice ub 44100
          (passState (8106479329266893 / 2 ^ 53) (5404319552844595 / 2 ^ 54))
          44100).2.mWarpedTime
        ≤ (Binary64.LoopingPlaybackPolicy.GetPlaybackSlice ub 44100
          (passState (8106479329266893 / 2 ^ 53) (5404319552844595 / 2 ^ 54))
          44100).2.mWarpedLength := by
  refine ⟨by norm_num [passState], by norm_num [passState], ?_⟩
  intro ub
  rw [passState_nine_tenths_slice ub]
  constructor
  · rfl
  · show ¬ (4053239664633447 / 2 ^ 52 : ℚ) ≤ 8106479329266893 / 2 ^ 53
    norm_num

/-- C33, amended: for the looping policy with rate > 0, in double arithmetic:
from 0 ≤ warpedElapsed ≤ warpedLength, GetPlaybackSlice keeps warpedLength and
leaves warpedElapsed ≥ 0 and past warpedLength by no more than the rounding of
its two operations (warpedLength / 2 ^ 51 + 2 ^ -1073); RepositionPlayback
keeps warpedLength and leaves 0 ≤ warpedElapsed ≤ warpedLength; and so does
RepositionPlayback called on the schedule that GetPlaybackSlice leaves, whose
remaining real time it tests with ≤ 0. -/
theorem C33_looping_round_invariant {Mixer : Type} (restart : Mixer → Mixer)
    (ub : ℚ → ℕ) (mRate : ℚ) (schedule : PlaybackSchedule) (available : ℕ)
    (playbackMixers : List Mixer) (frames : ℕ) (hrate : 0 < mRate)
    (hinv : 0 ≤ schedule.mWarpedTime ∧ schedule.mWarpedTime ≤ schedule.mWarpedLength) :
    ((Binary64.LoopingPlaybackPolicy.GetPlaybackSlice ub mRate schedule
          available).2.mWarpedLength = schedule.mWarpedLength ∧
      0 ≤ (Binary64.LoopingPlaybackPolicy.GetPlaybackSlice ub mRate schedule
          available).2.mWarpedTime ∧
      (Binary64.LoopingPlaybackPolicy.GetPlaybackSlice ub mRate schedule
          available).2.mWarpedTime
        ≤ schedule.mWarpedLength + schedule.mWarpedLength / 2 ^ 51 + 1 / 2 ^ 1073) ∧
    ((Binary64.LoopingPlaybackPolicy.RepositionPlayback restart schedule playbackMixers
          frames available).2.1.mWarpedLength = schedule.mWarpedLength ∧
      0 ≤ (Binary64.LoopingPlaybackPolicy.RepositionPlayback restart schedule
          playbackMixers frames available).2.1.mWarpedTime ∧
      (Binary64.LoopingPlaybackPolicy.RepositionPlayback restart schedule playbackMixers
          frames available).2.1.mWarpedTime ≤ schedule.mWarpedLength) ∧
    ((Binary64.LoopingPlaybackPolicy.RepositionPlayback restart
          (Binary64.LoopingPlaybackPolicy.GetPlaybackSlice ub mRate schedule available).2
          playbackMixers frames available).2.1.mWarpedLength = schedule.mWarpedLength ∧
      0 ≤ (Binary64.LoopingPlaybackPolicy.RepositionPlayback restart
          (Binary64.LoopingPlaybackPolicy.GetPlaybackSlice ub mRate schedule available).2
          playbackMixers frames available).2.1.mWarpedTime ∧
      (Binary64.LoopingPlaybackPolicy.RepositionPlayback restart
          (Binary64.LoopingPlaybackPolicy.GetPlaybackSlice ub mRate schedule available).2
          playbackMixers frames available).2.1.mWarpedTime ≤ schedule.mWarpedLength) := by
  obtain ⟨h0, h1⟩ := hinv
  have hwl : 0 ≤ schedule.mWarpedLength := le_trans h0 h1
  -- RepositionPlayback restores the predicate from any nonnegative state
  have hrepo : ∀ s : PlaybackSchedule, 0 ≤ s.mWarpedTime → 0 ≤ s.mWarpedLength →
      (Binary64.LoopingPlaybackPolicy.RepositionPlayback restart s playbackMixers
          frames available).2.1.mWarpedLength = s.mWarpedLength ∧
      0 ≤ (Binary64.LoopingPlaybackPolicy.RepositionPlayback restart s playbackMixers
          frames available).2.1.mWarpedTime ∧
      (Binary64.LoopingPlaybackPolicy.RepositionPlayback restart s playbackMixers
          frames available).2.1.mWarpedTime ≤ s.mWarpedLength := by
    intro s hs0 hsl
    unfold Binary64.LoopingPlaybackPolicy.RepositionPlayback
    split_ifs with h
    · exact ⟨rfl, le_refl _, hsl⟩
    · refine ⟨rfl, hs0, ?_⟩
      by_contra hgt
      exact h (roundToDouble_nonpos (by linarith [not_le.mp hgt]))
  have hd : 0 ≤ roundToDouble (roundToDouble (available : ℚ) / mRate) :=
    roundToDouble_nonneg (div_nonneg (roundToDouble_nonneg (Nat.cast_nonneg _)) hrate.le)
  have hR : 0 ≤ Binary64.PlaybackSchedule.RealTimeRemaining schedule :=
    roundToDouble_nonneg (by linarith)
  -- the sum of the elapsed and the remaining time, rounded twice
  have hsum : roundToDouble (schedule.mWarpedTime
        + Binary64.PlaybackSchedule.RealTimeRemaining schedule)
      ≤ schedule.mWarpedLength + schedule.mWarpedLength / 2 ^ 51 + 1 / 2 ^ 1073 := by
    have e1 := roundToDouble_error (schedule.mWarpedLength - schedule.mWarpedTime)
    have e2 := roundToDouble_error (schedule.mWarpedTime
      + Binary64.PlaybackSchedule.RealTimeRemaining schedule)
    rw [abs_of_nonneg (by linarith : 0 ≤ schedule.mWarpedLength - schedule.mWarpedTime)]
      at e1
    rw [abs_of_nonneg (by linarith : 0 ≤ schedule.mWarpedTime
      + Binary64.PlaybackSchedule.RealTimeRemaining schedule)] at e2
    rw [abs_le] at e1 e2
    have hR1 : Binary64.PlaybackSchedule.RealTimeRemaining schedule
        ≤ schedule.mWarpedLength - schedule.mWarpedTime
          + (schedule.mWarpedLength - schedule.mWarpedTime) / 2 ^ 53 + 1 / 2 ^ 1075 := by
      unfold Binary64.PlaybackSchedule.RealTimeRemaining
      linarith [e1.2]
    have hz : schedule.mWarpedTime + Binary64.PlaybackSchedule.RealTimeRemaining schedule
        ≤ schedule.mWarpedLength + schedule.mWarpedLength / 2 ^ 53 + 1 / 2 ^ 1075 := by
      have : (schedule.mWarpedLength - schedule.mWarpedTime) / 2 ^ 53
          ≤ schedule.mWarpedLength / 2 ^ 53 :=
        div_le_div_of_nonneg_right (by linarith) (by norm_num)
      linarith
    have hz2 : (schedule.mWarpedTime + Binary64.PlaybackSchedule.RealTimeRemaining schedule)
          / 2 ^ 53
        ≤ (schedule.mWarpedLength + schedule.mWarpedLength / 2 ^ 53 + 1 / 2 ^ 1075)
          / 2 ^ 53 :=
      div_le_div_of_nonneg_right hz (by norm_num)
    have hexp : (schedule.mWarpedLength + schedule.mWarpedLength / 2 ^ 53 + 1 / 2 ^ 1075)
          / 2 ^ 53
        = schedule.mWarpedLength / 2 ^ 53 + schedule.mWarpedLength / 2 ^ 106
          + 1 / 2 ^ 1128 := by
      ring
    have h106 : schedule.mWarpedLength / 2 ^ 106 ≤ schedule.mWarpedLength / 2 ^ 53 :=
      div_le_div_of_nonneg_left hwl (by norm_num) (by norm_num)
    have h51 : schedule.mWarpedLength / 2 ^ 51 = 4 * (schedule.mWarpedLength / 2 ^ 53) := by
      ring
    have hnum : (1 : ℚ) / 2 ^ 1075 + 1 / 2 ^ 1128 + 1 / 2 ^ 1075 ≤ 1 / 2 ^ 1073 := by
      norm_num
    have hq : 0 ≤ schedule.mWarpedLength / 2 ^ 53 := div_nonneg hwl (by norm_num)
    linarith [e2.2]
  have hslice : (Binary64.LoopingPlaybackPolicy.GetPlaybackSlice ub mRate schedule
        available).2.mWarpedLength = schedule.mWarpedLength ∧
      0 ≤ (Binary64.LoopingPlaybackPolicy.GetPlaybackSlice ub mRate schedule
        available).2.mWarpedTime ∧
      (Binary64.LoopingPlaybackPolicy.GetPlaybackSlice ub mRate schedule
          available).2.mWarpedTime
        ≤ schedule.mWarpedLength + schedule.mWarpedLength / 2 ^ 51 + 1 / 2 ^ 1073 := by
    rw [Binary64.LoopingPlaybackPolicy.GetPlaybackSlice_rounded_looping_advance]
    unfold Binary64.PlaybackSchedule.RealTimeAdvance
    refine ⟨rfl, roundToDouble_nonneg ?_, le_trans (roundToDouble_mono ?_) hsum⟩
    · split_ifs
      · linarith
      · linarith
    · split_ifs with hb
      · exact le_refl _
      · linarith [not_lt.mp hb]
  refine ⟨hslice, hrepo schedule h0 hwl, ?_⟩
  obtain ⟨r1, r2, r3⟩ := hrepo
    (Binary64.LoopingPlaybackPolicy.GetPlaybackSlice ub mRate schedule available).2
    hslice.2.1 (by rw [hslice.1]; exact hwl)
  exact ⟨by rw [r1, hslice.1], r2, by rw [← hslice.1]; exact r3⟩

/-- C33, amended, at 44100 Hz on a pass of 0.9 seconds with 0.3 seconds
elapsed and 44100 available frames: the slice leaves 0.9000000000000001 seconds
elapsed, and RepositionPlayback, which finds -2 ^ -53 seconds remaining, starts
the next pass at 0. -/
theorem C33_looping_round_invariant_witness :
    (0 ≤ (Binary64.LoopingPlaybackPolicy.RepositionPlayback (fun m : Unit => m)
          (Binary64.LoopingPlaybackPolicy.GetPlaybackSlice (fun _ => 0) 44100
            (passState (8106479329266893 / 2 ^ 53) (5404319552844595 / 2 ^ 54)) 44100).2
          [] 0 44100).2.1.mWarpedTime ∧
      (Binary64.LoopingPlaybackPolicy.RepositionPlayback (fun m : Unit => m)
          (Binary64.LoopingPlaybackPolicy.GetPlaybackSlice (fun _ => 0) 44100
            (passState (8106479329266893 / 2 ^ 53) (5404319552844595 / 2 ^ 54)) 44100).2
          [] 0 44100).2.1.mWarpedTime
        ≤ (passState (8106479329266893 / 2 ^ 53)
            (5404319552844595 / 2 ^ 54)).mWarpedLength) ∧
    (Binary64.LoopingPlaybackPolicy.RepositionPlayback (fun m : Unit => m)
        (Binary64.LoopingPlaybackPolicy.GetPlaybackSlice (fun _ => 0) 44100
          (passState (8106479329266893 / 2 ^ 53) (5404319552844595 / 2 ^ 54)) 44100).2
        [] 0 44100).2.1.mWarpedTime = 0 :=
  ⟨(C33_looping_round_invariant (fun m : Unit => m) (fun _ => 0) 44100
      (passState (8106479329266893 / 2 ^ 53) (5404319552844595 / 2 ^ 54)) 44100 [] 0
      (by norm_num) ⟨by norm_num [passState], by norm_num [passState]⟩).2.2.2,
   by
    rw [passState_nine_tenths_slice (fun _ => 0)]
    have hrem : Binary64.PlaybackSchedule.RealTimeRemaining
        { passState (8106479329266893 / 2 ^ 53) (5404319552844595 / 2 ^ 54) with
          mWarpedTime := 4053239664633447 / 2 ^ 52 } = (-1) / 2 ^ 53 :=
      passState_nine_tenths_three_tenths.2.2.2
    unfold Binary64.LoopingPlaybackPolicy.RepositionPlayback
    rw [hrem, if_pos (by norm_num)]
    rfl⟩

/-- At 44100 Hz on a pass of 0.9 seconds with 0.2 seconds elapsed: the
remaining real time is 0.7, the real time of 44100 frames is 1, the remaining
real time is 30869.999999999996 frames, 0.2 + 0.7 is 0.8999999999999999, and
0.9 - 0.8999999999999999 is 2 ^ -53. -/
theorem passState_nine_tenths_two_tenths :
    Binary64.PlaybackSchedule.RealTimeRemaining
        (passState (8106479329266893 / 2 ^ 53) (3602879701896397 / 2 ^ 54))
      = 3152519739159347 / 2 ^ 52 ∧
    roundToDouble (roundToDouble ((44100 : ℕ) : ℚ) / 44100) = 1 ∧
    roundToDouble (3152519739159347 / 2 ^ 52 * 44100) = 8485480987361279 / 2 ^ 38 ∧
    roundToDouble (3602879701896397 / 2 ^ 54 + 3152519739159347 / 2 ^ 52)
      = 2026619832316723 / 2 ^ 51 ∧
    roundToDouble (8106479329266893 / 2 ^ 53 - 2026619832316723 / 2 ^ 51) = 1 / 2 ^ 53 := by
  have hR : roundToDouble (8106479329266893 / 2 ^ 53 - 3602879701896397 / 2 ^ 54)
      = 3152519739159347 / 2 ^ 52 := by
    rw [roundToDouble_eq (x := 8106479329266893 / 2 ^ 53 - 3602879701896397 / 2 ^ 54)
      (u := 1 / 2 ^ 53) (-1) 6305039478318694
      (by norm_num) (by norm_num) (by norm_num [abs_of_pos]) (by norm_num [abs_of_pos])
      (Or.inr ⟨by norm_num [abs_of_pos, abs_of_neg], by norm_num⟩)]
    norm_num
  have hd : roundToDouble (44100 / 44100) = 1 := by
    rw [roundToDouble_eq (x := 44100 / 44100) (u := 1 / 2 ^ 52) 0 4503599627370496
      (by norm_num) (by norm_num) (by norm_num [abs_of_pos]) (by norm_num [abs_of_pos])
      (Or.inl (by norm_num [abs_lt]))]
    norm_num
  have hp : roundToDouble (3152519739159347 / 2 ^ 52 * 44100)
      = 8485480987361279 / 2 ^ 38 := by
    rw [roundToDouble_eq (x := 3152519739159347 / 2 ^ 52 * 44100) (u := 1 / 2 ^ 38) 14
      8485480987361279
      (by norm_num) (by norm_num) (by norm_num [abs_of_pos]) (by norm_num [abs_of_pos])
      (Or.inl (by norm_num [abs_lt]))]
    norm_num
  have hw : roundToDouble (3602879701896397 / 2 ^ 54 + 3152519739159347 / 2 ^ 52)
      = 2026619832316723 / 2 ^ 51 := by
    rw [roundToDouble_eq (x := 3602879701896397 / 2 ^ 54 + 3152519739159347 / 2 ^ 52)
      (u := 1 / 2 ^ 53) (-1) 8106479329266892
      (by norm_num) (by norm_num) (by norm_num [abs_of_pos]) (by norm_num [abs_of_pos])
      (Or.inr ⟨by norm_num [abs_of_pos, abs_of_neg], by norm_num⟩)]
    norm_num
  have hrem : roundToDouble (8106479329266893 / 2 ^ 53 - 2026619832316723 / 2 ^ 51)
      = 1 / 2 ^ 53 := by
    rw [roundToDouble_eq (x := 8106479329266893 / 2 ^ 53 - 2026619832316723 / 2 ^ 51)
      (u := 1 / 2 ^ 105) (-53) 4503599627370496
      (by norm_num) (by norm_num) (by norm_num [abs_of_pos]) (by norm_num [abs_of_pos])
      (Or.inl (by norm_num [abs_lt]))]
    norm_num
  refine ⟨hR, ?_, hp, hw, hrem⟩
  rw [roundToDouble_natCast 44100 (by norm_num)]
  exact_mod_cast hd

/-- C4 fails in double arithmetic: at 44100 Hz, on a pass of 0.9 seconds with
0.2 seconds elapsed (R = 0.7 ≥ 0, R * rate ≥ 1) and 44100 available frames
(available / rate = 1 > R), the looping GetPlaybackSlice returns
frames = toProduce = 30869 and leaves warpedElapsed = 0.8999999999999999, so
that RealTimeRemaining is 2 ^ -53 afterwards, not 0. -/
theorem C4_counterexample :
    (0 : ℚ) ≤ Binary64.PlaybackSchedule.RealTimeRemaining
      (passState (8106479329266893 / 2 ^ 53) (3602879701896397 / 2 ^ 54)) ∧
    roundToDouble (roundToDouble ((44100 : ℕ) : ℚ) / 44100)
      > Binary64.PlaybackSchedule.RealTimeRemaining
        (passState (8106479329266893 / 2 ^ 53) (3602879701896397 / 2 ^ 54)) ∧
    1 ≤ roundToDouble (Binary64.PlaybackSchedule.RealTimeRemaining
      (passState (8106479329266893 / 2 ^ 53) (3602879701896397 / 2 ^ 54)) * 44100) ∧
    ∀ ub : ℚ → ℕ,
      (Binary64.LoopingPlaybackPolicy.GetPlaybackSlice ub 44100
          (passState (8106479329266893 / 2 ^ 53) (3602879701896397 / 2 ^ 54)) 44100).1
        = { frames := 30869, toProduce := 30869 } ∧
      (Binary64.LoopingPlaybackPolicy.GetPlaybackSlice ub 44100
          (passState (8106479329266893 / 2 ^ 53) (3602879701896397 / 2 ^ 54))
          44100).2.mWarpedTime = 2026619832316723 / 2 ^ 51 ∧
      Binary64.PlaybackSchedule.RealTimeRemaining
        (Binary64.LoopingPlaybackPolicy.GetPlaybackSlice ub 44100
          (passState (8106479329266893 / 2 ^ 53) (3602879701896397 / 2 ^ 54)) 44100).2
        = 1 / 2 ^ 53 ∧
      Binary64.PlaybackSchedule.RealTimeRemaining
        (Binary64.LoopingPlaybackPolicy.GetPlaybackSlice ub 44100
          (passState (8106479329266893 / 2 ^ 53) (3602879701896397 / 2 ^ 54)) 44100).2
        ≠ 0 := by
  obtain ⟨hR, hd, hp, hw, hrem⟩ := passState_nine_tenths_two_tenths
  rw [hR, hd, hp]
  refine ⟨by norm_num, by norm_num, by norm_num, ?_⟩
  intro ub
  have hsize : toSizeT ub (8485480987361279 / 2 ^ 38) = 30869 := by
    rw [toSizeT_of_nonneg ub (by norm_num) (by norm_num [sizeTRange])]
    rw [Nat.floor_eq_iff (by norm_num)]
    norm_num
  have hcall := Binary64.LoopingPlaybackPolicy.GetPlaybackSlice_rounded_looping_overflow ub
    44100 (passState (8106479329266893 / 2 ^ 53) (3602879701896397 / 2 ^ 54)) 44100
    (by rw [hR, hd]; norm_num) (by rw [hR, hp, hsize]; norm_num)
  rw [hR, hp, hsize] at hcall
  rw [hcall]
  have hadv : Binary64.PlaybackSchedule.RealTimeAdvance
      (passState (8106479329266893 / 2 ^ 53) (3602879701896397 / 2 ^ 54))
      (3152519739159347 / 2 ^ 52)
      = { passState (8106479329266893 / 2 ^ 53) (3602879701896397 / 2 ^ 54) with
          mWarpedTime := 2026619832316723 / 2 ^ 51 } := by
    unfold Binary64.PlaybackSchedule.RealTimeAdvance
    have : (passState (8106479329266893 / 2 ^ 53) (3602879701896397 / 2 ^ 54)).mWarpedTime
        + 3152519739159347 / 2 ^ 52
        = 3602879701896397 / 2 ^ 54 + 3152519739159347 / 2 ^ 52 := rfl
    rw [this, hw]
  rw [hadv]
  have hafter : Binary64.PlaybackSchedule.RealTimeRemaining
      { passState (8106479329266893 / 2 ^ 53) (3602879701896397 / 2 ^ 54) with
        mWarpedTime := 2026619832316723 / 2 ^ 51 } = 1 / 2 ^ 53 := hrem
  refine ⟨?_, rfl, hafter, ?_⟩
  · simp [PlaybackSlice.construct]
  · rw [hafter]
    norm_num

/-- C4, amended: for the looping policy with rate > 0 in double arithmetic,
with R the double difference warpedLength - warpedElapsed, whenever
available / rate > R and the double product R * rate is at least one whole
frame and in the range of size_t, GetPlaybackSlice returns
frames = toProduce = R * rate truncated to whole frames, capped at available,
leaves as warpedElapsed the double sum warpedElapsed + R, and warpedLength as
it was; below 2 ^ 53 available frames the cap takes nothing away. -/
theorem C4_looping_clips_rounded (ub : ℚ → ℕ) (mRate : ℚ)
    (schedule : PlaybackSchedule) (available : ℕ) (hrate : 0 < mRate)
    (h : roundToDouble (roundToDouble (available : ℚ) / mRate)
      > Binary64.PlaybackSchedule.RealTimeRemaining schedule)
    (hframe : 1 ≤ roundToDouble
      (Binary64.PlaybackSchedule.RealTimeRemaining schedule * mRate))
    (hfit : roundToDouble (Binary64.PlaybackSchedule.RealTimeRemaining schedule * mRate)
      < (sizeTRange : ℚ)) :
    (Binary64.LoopingPlaybackPolicy.GetPlaybackSlice ub mRate schedule available).1.frames =
      min available ⌊roundToDouble
        (Binary64.PlaybackSchedule.RealTimeRemaining schedule * mRate)⌋₊ ∧
    (Binary64.LoopingPlaybackPolicy.GetPlaybackSlice ub mRate schedule available).1.toProduce =
      min available ⌊roundToDouble
        (Binary64.PlaybackSchedule.RealTimeRemaining schedule * mRate)⌋₊ ∧
    (Binary64.LoopingPlaybackPolicy.GetPlaybackSlice ub mRate schedule
        available).2.mWarpedTime =
      roundToDouble (schedule.mWarpedTime
        + roundToDouble (schedule.mWarpedLength - schedule.mWarpedTime)) ∧
    (Binary64.LoopingPlaybackPolicy.GetPlaybackSlice ub mRate schedule
        available).2.mWarpedLength = schedule.mWarpedLength ∧
    (available < 2 ^ 53 →
      min available ⌊roundToDouble
          (Binary64.PlaybackSchedule.RealTimeRemaining schedule * mRate)⌋₊
        = ⌊roundToDouble
          (Binary64.PlaybackSchedule.RealTimeRemaining schedule * mRate)⌋₊) := by
  have hsize : toSizeT ub (roundToDouble
      (Binary64.PlaybackSchedule.RealTimeRemaining schedule * mRate))
      = ⌊roundToDouble (Binary64.PlaybackSchedule.RealTimeRemaining schedule * mRate)⌋₊ :=
    toSizeT_of_nonneg ub (le_trans zero_le_one hframe) hfit
  have hpos : 1 ≤ ⌊roundToDouble
      (Binary64.PlaybackSchedule.RealTimeRemaining schedule * mRate)⌋₊ :=
    Nat.le_floor (by simpa using hframe)
  have hcap : available < 2 ^ 53 →
      min available ⌊roundToDouble
          (Binary64.PlaybackSchedule.RealTimeRemaining schedule * mRate)⌋₊
        = ⌊roundToDouble
          (Binary64.PlaybackSchedule.RealTimeRemaining schedule * mRate)⌋₊ := by
    intro havail
    apply min_eq_right
    apply Nat.floor_le_of_le
    rw [roundToDouble_natCast available havail] at h
    have hR : roundToDouble (Binary64.PlaybackSchedule.RealTimeRemaining schedule)
        = Binary64.PlaybackSchedule.RealTimeRemaining schedule := roundToDouble_idem _
    have hle : Binary64.PlaybackSchedule.RealTimeRemaining schedule
        ≤ (available : ℚ) / mRate := by
      by_contra hcon
      have := roundToDouble_mono (le_of_lt (not_le.mp hcon))
      rw [hR] at this
      exact absurd h (not_lt.mpr this)
    have hprod : Binary64.PlaybackSchedule.RealTimeRemaining schedule * mRate
        ≤ (available : ℚ) := (le_div_iff₀ hrate).mp hle
    have := roundToDouble_mono hprod
    rw [roundToDouble_natCast available havail] at this
    exact this
  rw [Binary64.LoopingPlaybackPolicy.GetPlaybackSlice_rounded_looping_overflow ub mRate
    schedule available h (by rw [hsize]; omega), hsize]
  refine ⟨rfl, ?_, rfl, rfl, hcap⟩
  simp [PlaybackSlice.construct]

/-- C4, amended, at 44100 Hz on a pass of 0.9 seconds with 0.2 seconds elapsed
and 44100 available frames: 30869 frames, all to produce. -/
theorem C4_looping_clips_rounded_witness :
    (Binary64.LoopingPlaybackPolicy.GetPlaybackSlice (fun _ => 0) 44100
        (passState (8106479329266893 / 2 ^ 53) (3602879701896397 / 2 ^ 54))
        44100).1.frames =
      min 44100 ⌊roundToDouble (Binary64.PlaybackSchedule.RealTimeRemaining
        (passState (8106479329266893 / 2 ^ 53) (3602879701896397 / 2 ^ 54)) * 44100)⌋₊ ∧
    (Binary64.LoopingPlaybackPolicy.GetPlaybackSlice (fun _ => 0) 44100
        (passState (8106479329266893 / 2 ^ 53) (3602879701896397 / 2 ^ 54))
        44100).1.toProduce =
      min 44100 ⌊roundToDouble (Binary64.PlaybackSchedule.RealTimeRemaining
        (passState (8106479329266893 / 2 ^ 53) (3602879701896397 / 2 ^ 54)) * 44100)⌋₊ ∧
    (Binary64.LoopingPlaybackPolicy.GetPlaybackSlice (fun _ => 0) 44100
        (passState (8106479329266893 / 2 ^ 53) (3602879701896397 / 2 ^ 54))
        44100).2.mWarpedTime =
      roundToDouble ((passState (8106479329266893 / 2 ^ 53)
          (3602879701896397 / 2 ^ 54)).mWarpedTime
        + roundToDouble ((passState (8106479329266893 / 2 ^ 53)
            (3602879701896397 / 2 ^ 54)).mWarpedLength
          - (passState (8106479329266893 / 2 ^ 53)
            (3602879701896397 / 2 ^ 54)).mWarpedTime)) ∧
    (Binary64.LoopingPlaybackPolicy.GetPlaybackSlice (fun _ => 0) 44100
        (passState (8106479329266893 / 2 ^ 53) (3602879701896397 / 2 ^ 54))
        44100).2.mWarpedLength =
      (passState (8106479329266893 / 2 ^ 53) (3602879701896397 / 2 ^ 54)).mWarpedLength ∧
    (44100 < 2 ^ 53 →
      min 44100 ⌊roundToDouble (Binary64.PlaybackSchedule.RealTimeRemaining
          (passState (8106479329266893 / 2 ^ 53) (3602879701896397 / 2 ^ 54)) * 44100)⌋₊
        = ⌊roundToDouble (Binary64.PlaybackSchedule.RealTimeRemaining
          (passState (8106479329266893 / 2 ^ 53) (3602879701896397 / 2 ^ 54)) * 44100)⌋₊) :=
  C4_looping_clips_rounded (fun _ => 0) 44100
    (passState (8106479329266893 / 2 ^ 53) (3602879701896397 / 2 ^ 54)) 44100
    (by norm_num)
    (by
      rw [passState_nine_tenths_two_tenths.1, passState_nine_tenths_two_tenths.2.1]
      norm_num)
    (by
      rw [passState_nine_tenths_two_tenths.1, passState_nine_tenths_two_tenths.2.2.1]
      norm_num)
    (by
      rw [passState_nine_tenths_two_tenths.1, passState_nine_tenths_two_tenths.2.2.1]
      norm_num [sizeTRange])

/-! ## The default policy in double arithmetic -/

/-- The overflow branch of `PlaybackPolicy::GetPlaybackSlice` in double
arithmetic. -/
theorem Binary64.PlaybackPolicy.GetPlaybackSlice_rounded_overflow (ub : ℚ → ℕ) (mRate : ℚ)
    (schedule : PlaybackSchedule) (available : ℕ)
    (h : roundToDouble (roundToDouble (available : ℚ) / mRate)
      > Binary64.PlaybackSchedule.RealTimeRemaining schedule) :
    Binary64.PlaybackPolicy.GetPlaybackSlice ub mRate schedule available =
      (PlaybackSlice.construct available
          (toSizeT ub (roundToDouble (roundToDouble
            (Binary64.PlaybackSchedule.RealTimeRemaining schedule +
              min (roundToDouble (roundToDouble ((TimeQueueGrainSize + 1 : ℕ) : ℚ) / mRate))
                (roundToDouble (roundToDouble (roundToDouble (available : ℚ) / mRate)
                  - Binary64.PlaybackSchedule.RealTimeRemaining schedule))) * mRate)))
          (toSizeT ub (roundToDouble
            (Binary64.PlaybackSchedule.RealTimeRemaining schedule * mRate))),
        Binary64.PlaybackSchedule.RealTimeAdvance schedule
          (roundToDouble
            (Binary64.PlaybackSchedule.RealTimeRemaining schedule +
              min (roundToDouble (roundToDouble ((TimeQueueGrainSize + 1 : ℕ) : ℚ) / mRate))
                (roundToDouble (roundToDouble (roundToDouble (available : ℚ) / mRate)
                  - Binary64.PlaybackSchedule.RealTimeRemaining schedule))))) := by
  unfold Binary64.PlaybackPolicy.GetPlaybackSlice
  dsimp only
  rw [if_pos h]

/-- At 44100 Hz at the start of a pass of 14 frames (the double nearest to
14 / 44100) with 15 available frames: the remaining real time is the pass, the
real time of the 15 frames exceeds it by about one frame, the padded real time
is that of the 15 frames, and the products with the rate are
14.999999999999998 and 14. -/
theorem passState_fourteen_frames :
    Binary64.PlaybackSchedule.RealTimeRemaining (passState (732013653718633 / 2 ^ 61) 0)
      = 732013653718633 / 2 ^ 61 ∧
    roundToDouble (roundToDouble ((15 : ℕ) : ℚ) / 44100) = 6274402746159711 / 2 ^ 64 ∧
    roundToDouble (6274402746159711 / 2 ^ 64 - 732013653718633 / 2 ^ 61)
      = 418293516410647 / 2 ^ 64 ∧
    roundToDouble (732013653718633 / 2 ^ 61 + 418293516410647 / 2 ^ 64)
      = 6274402746159711 / 2 ^ 64 ∧
    roundToDouble (6274402746159711 / 2 ^ 64 * 44100) = 8444249301319679 / 2 ^ 49 ∧
    roundToDouble (732013653718633 / 2 ^ 61 * 44100) = 14 ∧
    roundToDouble (0 + 6274402746159711 / 2 ^ 64) = 6274402746159711 / 2 ^ 64 := by
  have hR : roundToDouble (732013653718633 / 2 ^ 61 - 0) = 732013653718633 / 2 ^ 61 := by
    rw [roundToDouble_eq (x := 732013653718633 / 2 ^ 61 - 0) (u := 1 / 2 ^ 64) (-12)
      5856109229749064
      (by norm_num) (by norm_num) (by norm_num [abs_of_pos]) (by norm_num [abs_of_pos])
      (Or.inl (by norm_num [abs_lt]))]
    norm_num
  have hd : roundToDouble (15 / 44100) = 6274402746159711 / 2 ^ 64 := by
    rw [roundToDouble_eq (x := 15 / 44100) (u := 1 / 2 ^ 64) (-12) 6274402746159711
      (by norm_num) (by norm_num) (by norm_num [abs_of_pos]) (by norm_num [abs_of_pos])
      (Or.inl (by norm_num [abs_lt]))]
    norm_num
  have hdm : roundToDouble (6274402746159711 / 2 ^ 64 - 732013653718633 / 2 ^ 61)
      = 418293516410647 / 2 ^ 64 := by
    rw [roundToDouble_eq (x := 6274402746159711 / 2 ^ 64 - 732013653718633 / 2 ^ 61)
      (u := 1 / 2 ^ 68) (-16) 6692696262570352
      (by norm_num) (by norm_num) (by norm_num [abs_of_pos]) (by norm_num [abs_of_pos])
      (Or.inl (by norm_num [abs_lt]))]
    norm_num
  have hrt : roundToDouble (732013653718633 / 2 ^ 61 + 418293516410647 / 2 ^ 64)
      = 6274402746159711 / 2 ^ 64 := by
    rw [roundToDouble_eq (x := 732013653718633 / 2 ^ 61 + 418293516410647 / 2 ^ 64)
      (u := 1 / 2 ^ 64) (-12) 6274402746159711
      (by norm_num) (by norm_num) (by norm_num [abs_of_pos]) (by norm_num [abs_of_pos])
      (Or.inl (by norm_num [abs_lt]))]
    norm_num
  have hpf : roundToDouble (6274402746159711 / 2 ^ 64 * 44100)
      = 8444249301319679 / 2 ^ 49 := by
    rw [roundToDouble_eq (x := 6274402746159711 / 2 ^ 64 * 44100) (u := 1 / 2 ^ 49) 3
      8444249301319679
      (by norm_num) (by norm_num) (by norm_num [abs_of_pos]) (by norm_num [abs_of_pos])
      (Or.inl (by norm_num [abs_lt]))]
    norm_num
  have hpp : roundToDouble (732013653718633 / 2 ^ 61 * 44100) = 14 := by
    rw [roundToDouble_eq (x := 732013653718633 / 2 ^ 61 * 44100) (u := 1 / 2 ^ 49) 3
      7881299347898368
      (by norm_num) (by norm_num) (by norm_num [abs_of_pos]) (by norm_num [abs_of_pos])
      (Or.inl (by norm_num [abs_lt]))]
    norm_num
  have hw : roundToDouble (0 + 6274402746159711 / 2 ^ 64) = 6274402746159711 / 2 ^ 64 := by
    rw [roundToDouble_eq (x := 0 + 6274402746159711 / 2 ^ 64) (u := 1 / 2 ^ 64) (-12)
      6274402746159711
      (by norm_num) (by norm_num) (by norm_num [abs_of_pos]) (by norm_num [abs_of_pos])
      (Or.inl (by norm_num [abs_lt]))]
    norm_num
  refine ⟨hR, ?_, hdm, hrt, hpf, hpp, hw⟩
  rw [roundToDouble_natCast 15 (by norm_num)]
  exact_mod_cast hd

/-- C7 fails in double arithmetic: on a pass of 14 frames at 44100 Hz
(warpedLength the double nearest to 14 / 44100, nothing elapsed) with 15
available frames, R ≥ 0 and available exceeds R * rate by at least one frame,
in exact and in double arithmetic, but GetPlaybackSlice of the default policy
returns frames = toProduce = 14, no trailing silence: the padded real time
times the rate is 14.999999999999998, which the conversion to size_t truncates
to 14. -/
theorem C7_counterexample :
    (0 : ℚ) ≤ Binary64.PlaybackSchedule.RealTimeRemaining
      (passState (732013653718633 / 2 ^ 61) 0) ∧
    (passState (732013653718633 / 2 ^ 61) 0).RealTimeRemaining * 44100 + 1
      ≤ ((15 : ℕ) : ℚ) ∧
    roundToDouble (roundToDouble (Binary64.PlaybackSchedule.RealTimeRemaining
      (passState (732013653718633 / 2 ^ 61) 0) * 44100) + 1) ≤ ((15 : ℕ) : ℚ) ∧
    ∀ ub : ℚ → ℕ,
      (Binary64.PlaybackPolicy.GetPlaybackSlice ub 44100
          (passState (732013653718633 / 2 ^ 61) 0) 15).1
        = { frames := 14, toProduce := 14 } ∧
      ¬ (Binary64.PlaybackPolicy.GetPlaybackSlice ub 44100
          (passState (732013653718633 / 2 ^ 61) 0) 15).1.toProduce
        < (Binary64.PlaybackPolicy.GetPlaybackSlice ub 44100
          (passState (732013653718633 / 2 ^ 61) 0) 15).1.frames := by
  obtain ⟨hR, hd, hdm, hrt, hpf, hpp, hw⟩ := passState_fourteen_frames
  have h15 : roundToDouble ((14 : ℚ) + 1) = 15 := by
    have := roundToDouble_natCast 15 (by norm_num)
    norm_num at this ⊢
    exact this
  refine ⟨by rw [hR]; norm_num, ?_, ?_, ?_⟩
  · norm_num [PlaybackSchedule.RealTimeRemaining, passState]
  · rw [hR, hpp, h15]
    norm_num
  · intro ub
    have hcall := Binary64.PlaybackPolicy.GetPlaybackSlice_rounded_overflow ub 44100
      (passState (732013653718633 / 2 ^ 61) 0) 15 (by rw [hR, hd]; norm_num)
    rw [hR, hd, roundToDouble_grain_and_frame, hdm,
      min_eq_right (by norm_num), hrt, hpf, hpp] at hcall
    have hf : toSizeT ub (8444249301319679 / 2 ^ 49) = 14 := by
      rw [toSizeT_of_nonneg ub (by norm_num) (by norm_num [sizeTRange])]
      rw [Nat.floor_eq_iff (by norm_num)]
      norm_num
    have hp : toSizeT ub 14 = 14 := by
      rw [toSizeT_of_nonneg ub (by norm_num) (by norm_num [sizeTRange])]
      rw [Nat.floor_eq_iff (by norm_num)]
      norm_num
    rw [hf, hp] at hcall
    rw [hcall]
    refine ⟨?_, ?_⟩
    · simp [PlaybackSlice.construct]
    · simp [PlaybackSlice.construct]

/-- C7, amended: for the default policy in double arithmetic, with
0 < rate ≤ 2 ^ 1000 and at most 2 ^ 48 available frames: on any call where
0 ≤ R, the double difference warpedLength - warpedElapsed, and available
exceeds R * rate, taken exactly or as the double product, by at least a frame
and a half, the returned slice has toProduce < frames, with toProduce the
double product R * rate truncated to whole frames: it ends in trailing
silence. -/
theorem C7_straight_silence_rounded (ub : ℚ → ℕ) (mRate : ℚ)
    (schedule : PlaybackSchedule) (available : ℕ) (hrate : 0 < mRate)
    (hrate2 : mRate ≤ 2 ^ 1000) (havail : available ≤ 2 ^ 48)
    (hR : 0 ≤ Binary64.PlaybackSchedule.RealTimeRemaining schedule)
    (hgap : Binary64.PlaybackSchedule.RealTimeRemaining schedule * mRate + 3 / 2
        ≤ (available : ℚ) ∨
      roundToDouble (Binary64.PlaybackSchedule.RealTimeRemaining schedule * mRate) + 3 / 2
        ≤ (available : ℚ)) :
    (Binary64.PlaybackPolicy.GetPlaybackSlice ub mRate schedule available).1.toProduce
      < (Binary64.PlaybackPolicy.GetPlaybackSlice ub mRate schedule available).1.frames ∧
    (Binary64.PlaybackPolicy.GetPlaybackSlice ub mRate schedule available).1.toProduce
      = ⌊roundToDouble
          (Binary64.PlaybackSchedule.RealTimeRemaining schedule * mRate)⌋₊ := by
  have ha53 : available < 2 ^ 53 := lt_of_le_of_lt havail (by norm_num)
  have hacast : roundToDouble (available : ℚ) = available :=
    roundToDouble_natCast available ha53
  have haq : (available : ℚ) ≤ 2 ^ 48 := by exact_mod_cast havail
  have ha0 : (0 : ℚ) ≤ available := Nat.cast_nonneg _
  have h2001 : roundToDouble ((TimeQueueGrainSize + 1 : ℕ) : ℚ) = 2001 := by
    rw [roundToDouble_natCast _ (by norm_num [TimeQueueGrainSize])]
    norm_num [TimeQueueGrainSize]
  have hcall := Binary64.PlaybackPolicy.GetPlaybackSlice_rounded_overflow ub mRate
    schedule available
  rw [hacast, h2001] at hcall
  generalize Binary64.PlaybackSchedule.RealTimeRemaining schedule = R at hR hgap hcall ⊢
  have hρ0 : 0 ≤ R * mRate := mul_nonneg hR hrate.le
  -- the exact product is at most available - 3/2 + 1/14
  have hρ : R * mRate ≤ available - 3 / 2 + 1 / 14 := by
    rcases hgap with h | h
    · linarith
    · have hb : R * mRate ≤ 2 ^ 49 := by
        by_contra hcon
        have hmono := roundToDouble_mono (le_of_lt (not_le.mp hcon))
        have h49 : roundToDouble ((2 : ℚ) ^ 49) = 2 ^ 49 := by
          have := roundToDouble_natCast (2 ^ 49) (by norm_num)
          push_cast at this
          exact this
        rw [h49] at hmono
        have : (2 : ℚ) ^ 48 < 2 ^ 49 := by norm_num
        linarith
      have e := abs_le.mp (roundToDouble_count_error (R * mRate)
        (by rw [abs_of_nonneg hρ0]; exact hb))
      linarith [e.1]
  have h4849 : (2 : ℚ) ^ 48 + 1 ≤ 2 ^ 49 := by norm_num
  -- the desired duration
  have hD := abs_le.mp (roundToDouble_frames_error ((available : ℚ) / mRate) mRate hrate
    hrate2 (by
      rw [div_mul_cancel₀ _ hrate.ne', abs_of_nonneg ha0]
      linarith))
  rw [div_mul_cancel₀ _ hrate.ne'] at hD
  generalize roundToDouble ((available : ℚ) / mRate) = d at hD hcall
  have hover : d > R := by
    have : R * mRate < d * mRate := by linarith [hD.1]
    exact lt_of_mul_lt_mul_right this hrate.le
  have hcall := hcall hover
  -- the rest of the desired duration
  have hdR : (d - R) * mRate = d * mRate - R * mRate := by ring
  have hC := abs_le.mp (roundToDouble_frames_error (d - R) mRate hrate hrate2 (by
    rw [hdR, abs_le]
    constructor <;> linarith [hD.1, hD.2]))
  rw [hdR] at hC
  -- the real time of a grain and a frame
  have hX := abs_le.mp (roundToDouble_frames_error (2001 / mRate) mRate hrate hrate2 (by
    rw [div_mul_cancel₀ _ hrate.ne']
    norm_num [abs_of_pos]))
  rw [div_mul_cancel₀ _ hrate.ne'] at hX
  -- the padding
  have hMlo : 3 / 2 - 3 / 14
      ≤ min (roundToDouble (2001 / mRate)) (roundToDouble (d - R)) * mRate := by
    rcases min_cases (roundToDouble (2001 / mRate)) (roundToDouble (d - R))
      with ⟨e1, _⟩ | ⟨e1, _⟩
    · rw [e1]
      linarith [hX.1]
    · rw [e1]
      linarith [hC.1, hD.1]
  have hMhi : min (roundToDouble (2001 / mRate)) (roundToDouble (d - R)) * mRate
      ≤ d * mRate - R * mRate + 1 / 14 := by
    have h1 : min (roundToDouble (2001 / mRate)) (roundToDouble (d - R))
        ≤ roundToDouble (d - R) := min_le_right _ _
    have h2 := mul_le_mul_of_nonneg_right h1 hrate.le
    linarith [hC.2]
  generalize min (roundToDouble (2001 / mRate)) (roundToDouble (d - R)) = m
    at hMlo hMhi hcall
  -- the padded real time
  have hRm : (R + m) * mRate = R * mRate + m * mRate := by ring
  have hT := abs_le.mp (roundToDouble_frames_error (R + m) mRate hrate hrate2 (by
    rw [hRm, abs_le]
    constructor <;> linarith [hD.2]))
  rw [hRm] at hT
  generalize roundToDouble (R + m) = T at hT hcall
  -- the two products
  have hF := abs_le.mp (roundToDouble_count_error (T * mRate) (by
    rw [abs_le]
    constructor <;> linarith [hT.1, hT.2, hD.2]))
  have hP := abs_le.mp (roundToDouble_count_error (R * mRate) (by
    rw [abs_of_nonneg hρ0]
    linarith))
  have hP0 : 0 ≤ roundToDouble (R * mRate) := roundToDouble_nonneg hρ0
  have hFP : roundToDouble (R * mRate) + 1 ≤ roundToDouble (T * mRate) := by
    linarith [hF.1, hT.1, hP.2, hD.1]
  have hF0 : 0 ≤ roundToDouble (T * mRate) := by linarith
  have hrange : (2 : ℚ) ^ 49 < (sizeTRange : ℚ) := by norm_num [sizeTRange]
  have hFfit : roundToDouble (T * mRate) < (sizeTRange : ℚ) := by
    linarith [hF.2, hT.2, hD.2]
  have hPfit : roundToDouble (R * mRate) < (sizeTRange : ℚ) := by linarith
  rw [toSizeT_of_nonneg ub hF0 hFfit, toSizeT_of_nonneg ub hP0 hPfit] at hcall
  have hPa : ⌊roundToDouble (R * mRate)⌋₊ < available := by
    rw [Nat.floor_lt hP0]
    linarith [hP.2]
  have hPF : ⌊roundToDouble (R * mRate)⌋₊ < ⌊roundToDouble (T * mRate)⌋₊ := by
    have h1 : ⌊roundToDouble (R * mRate)⌋₊ + 1 ≤ ⌊roundToDouble (T * mRate)⌋₊ := by
      apply Nat.le_floor
      push_cast
      linarith [Nat.floor_le hP0]
    omega
  rw [hcall]
  simp only [PlaybackSlice.construct]
  have hmin : ⌊roundToDouble (R * mRate)⌋₊
      < min available ⌊roundToDouble (T * mRate)⌋₊ := lt_min hPa hPF
  rw [min_eq_left hmin.le]
  exact ⟨hmin, rfl⟩

/-- C7, amended, on a pass of 14 frames at 44100 Hz (warpedLength the double
nearest to 14 / 44100, nothing elapsed) with 16 available frames: the slice
ends in trailing silence. -/
theorem C7_straight_silence_rounded_witness :
    (Binary64.PlaybackPolicy.GetPlaybackSlice (fun _ => 0) 44100
        (passState (732013653718633 / 2 ^ 61) 0) 16).1.toProduce
      < (Binary64.PlaybackPolicy.GetPlaybackSlice (fun _ => 0) 44100
        (passState (732013653718633 / 2 ^ 61) 0) 16).1.frames ∧
    (Binary64.PlaybackPolicy.GetPlaybackSlice (fun _ => 0) 44100
        (passState (732013653718633 / 2 ^ 61) 0) 16).1.toProduce
      = ⌊roundToDouble (Binary64.PlaybackSchedule.RealTimeRemaining
          (passState (732013653718633 / 2 ^ 61) 0) * 44100)⌋₊ :=
  C7_straight_silence_rounded (fun _ => 0) 44100 (passState (732013653718633 / 2 ^ 61) 0)
    16 (by norm_num) (by norm_num) (by norm_num)
    (by rw [passState_fourteen_frames.1]; norm_num)
    (Or.inl (by rw [passState_fourteen_frames.1]; norm_num))

/-- At 44100 Hz at the start of a pass of 1/256 second with 184 available
frames: the real time of the 184 frames exceeds the pass by less than a grain,
the padded real time is that of the 184 frames, and the products with the rate
are 183.99999999999997 and 172.265625. -/
theorem passState_one_256th :
    Binary64.PlaybackSchedule.RealTimeRemaining (passState (1 / 2 ^ 8) 0) = 1 / 2 ^ 8 ∧
    roundToDouble (roundToDouble ((184 : ℕ) : ℚ) / 44100) = 4810375438722445 / 2 ^ 60 ∧
    roundToDouble (4810375438722445 / 2 ^ 60 - 1 / 2 ^ 8) = 306775811351949 / 2 ^ 60 ∧
    roundToDouble (1 / 2 ^ 8 + 306775811351949 / 2 ^ 60) = 4810375438722445 / 2 ^ 60 ∧
    roundToDouble (4810375438722445 / 2 ^ 60 * 44100) = 6473924464345087 / 2 ^ 45 ∧
    roundToDouble (1 / 2 ^ 8 * 44100) = 11025 / 2 ^ 6 ∧
    roundToDouble (0 + 4810375438722445 / 2 ^ 60) = 4810375438722445 / 2 ^ 60 := by
  have hR : roundToDouble (1 / 2 ^ 8 - 0) = 1 / 2 ^ 8 := by
    rw [roundToDouble_eq (x := 1 / 2 ^ 8 - 0) (u := 1 / 2 ^ 60) (-8) 4503599627370496
      (by norm_num) (by norm_num) (by norm_num [abs_of_pos]) (by norm_num [abs_of_pos])
      (Or.inl (by norm_num [abs_lt]))]
    norm_num
  have hd : roundToDouble (184 / 44100) = 4810375438722445 / 2 ^ 60 := by
    rw [roundToDouble_eq (x := 184 / 44100) (u := 1 / 2 ^ 60) (-8) 4810375438722445
      (by norm_num) (by norm_num) (by norm_num [abs_of_pos]) (by norm_num [abs_of_pos])
      (Or.inl (by norm_num [abs_lt]))]
    norm_num
  have hdm : roundToDouble (4810375438722445 / 2 ^ 60 - 1 / 2 ^ 8)
      = 306775811351949 / 2 ^ 60 := by
    rw [roundToDouble_eq (x := 4810375438722445 / 2 ^ 60 - 1 / 2 ^ 8) (u := 1 / 2 ^ 64)
      (-12) 4908412981631184
      (by norm_num) (by norm_num) (by norm_num [abs_of_pos]) (by norm_num [abs_of_pos])
      (Or.inl (by norm_num [abs_lt]))]
    norm_num
  have hrt : roundToDouble (1 / 2 ^ 8 + 306775811351949 / 2 ^ 60)
      = 4810375438722445 / 2 ^ 60 := by
    rw [roundToDouble_eq (x := 1 / 2 ^ 8 + 306775811351949 / 2 ^ 60) (u := 1 / 2 ^ 60)
      (-8) 4810375438722445
      (by norm_num) (by norm_num) (by norm_num [abs_of_pos]) (by norm_num [abs_of_pos])
      (Or.inl (by norm_num [abs_lt]))]
    norm_num
  have hpf : roundToDouble (4810375438722445 / 2 ^ 60 * 44100)
      = 6473924464345087 / 2 ^ 45 := by
    rw [roundToDouble_eq (x := 4810375438722445 / 2 ^ 60 * 44100) (u := 1 / 2 ^ 45) 7
      6473924464345087
      (by norm_num) (by norm_num) (by norm_num [abs_of_pos]) (by norm_num [abs_of_pos])
      (Or.inl (by norm_num [abs_lt]))]
    norm_num
  have hpp : roundToDouble (1 / 2 ^ 8 * 44100) = 11025 / 2 ^ 6 := by
    rw [roundToDouble_eq (x := 1 / 2 ^ 8 * 44100) (u := 1 / 2 ^ 45) 7 6061057848115200
      (by norm_num) (by norm_num) (by norm_num [abs_of_pos]) (by norm_num [abs_of_pos])
      (Or.inl (by norm_num [abs_lt]))]
    norm_num
  have hw : roundToDouble (0 + 4810375438722445 / 2 ^ 60) = 4810375438722445 / 2 ^ 60 := by
    rw [roundToDouble_eq (x := 0 + 4810375438722445 / 2 ^ 60) (u := 1 / 2 ^ 60) (-8)
      4810375438722445
      (by norm_num) (by norm_num) (by norm_num [abs_of_pos]) (by norm_num [abs_of_pos])
      (Or.inl (by norm_num [abs_lt]))]
    norm_num
  refine ⟨hR, ?_, hdm, hrt, hpf, hpp, hw⟩
  rw [roundToDouble_natCast 184 (by norm_num)]
  exact_mod_cast hd

/-- C3, amended: for the default policy with rate > 0 in double arithmetic,
with R the double difference warpedLength - warpedElapsed, 0 ≤ R, deltat the
double quotient available / rate and margin the smaller of the double
(TimeQueueGrainSize + 1) / rate and the double difference deltat - R: whenever
deltat > R and the double products (R + margin) * rate and R * rate are in the
range of size_t, GetPlaybackSlice returns as frames the double product
(R + margin) * rate truncated to whole frames, capped at available, and as
toProduce the double product R * rate truncated to whole frames, capped at
frames, and leaves as warpedElapsed the double sum of warpedElapsed and
R + margin. -/
theorem C3_straight_overflow_rounded (ub : ℚ → ℕ) (mRate : ℚ)
    (schedule : PlaybackSchedule) (available : ℕ) (R deltat margin : ℚ)
    (hrate : 0 < mRate)
    (hR : R = roundToDouble (schedule.mWarpedLength - schedule.mWarpedTime))
    (hdeltat : deltat = roundToDouble (roundToDouble (available : ℚ) / mRate))
    (hmargin : margin =
      min (roundToDouble (roundToDouble ((TimeQueueGrainSize + 1 : ℕ) : ℚ) / mRate))
        (roundToDouble (deltat - R)))
    (hR0 : 0 ≤ R) (h : deltat > R)
    (hfit : roundToDouble (roundToDouble (R + margin) * mRate) < (sizeTRange : ℚ))
    (hfitR : roundToDouble (R * mRate) < (sizeTRange : ℚ)) :
    (Binary64.PlaybackPolicy.GetPlaybackSlice ub mRate schedule available).1.frames =
      min available ⌊roundToDouble (roundToDouble (R + margin) * mRate)⌋₊ ∧
    (Binary64.PlaybackPolicy.GetPlaybackSlice ub mRate schedule available).1.toProduce =
      min ⌊roundToDouble (R * mRate)⌋₊
        (min available ⌊roundToDouble (roundToDouble (R + margin) * mRate)⌋₊) ∧
    (Binary64.PlaybackPolicy.GetPlaybackSlice ub mRate schedule available).2.mWarpedTime =
      roundToDouble (schedule.mWarpedTime + roundToDouble (R + margin)) ∧
    (Binary64.PlaybackPolicy.GetPlaybackSlice ub mRate schedule
      available).2.mWarpedLength = schedule.mWarpedLength := by
  have hRem : Binary64.PlaybackSchedule.RealTimeRemaining schedule = R := hR.symm
  have hover : roundToDouble (roundToDouble (available : ℚ) / mRate)
      > Binary64.PlaybackSchedule.RealTimeRemaining schedule := by
    rw [hRem, ← hdeltat]
    exact h
  have hm0 : 0 ≤ margin := by
    rw [hmargin]
    apply le_min
    · exact roundToDouble_nonneg
        (div_nonneg (roundToDouble_nonneg (Nat.cast_nonneg _)) hrate.le)
    · exact roundToDouble_nonneg (by linarith)
  have hrt0 : 0 ≤ roundToDouble (R + margin) := roundToDouble_nonneg (by linarith)
  have hf : toSizeT ub (roundToDouble (roundToDouble (R + margin) * mRate))
      = ⌊roundToDouble (roundToDouble (R + margin) * mRate)⌋₊ :=
    toSizeT_of_nonneg ub (roundToDouble_nonneg (mul_nonneg hrt0 hrate.le)) hfit
  have hp : toSizeT ub (roundToDouble (R * mRate)) = ⌊roundToDouble (R * mRate)⌋₊ :=
    toSizeT_of_nonneg ub (roundToDouble_nonneg (mul_nonneg hR0 hrate.le)) hfitR
  rw [Binary64.PlaybackPolicy.GetPlaybackSlice_rounded_overflow ub mRate schedule
    available hover, hRem, ← hdeltat, ← hmargin, hf, hp]
  exact ⟨rfl, rfl, rfl, rfl⟩

/-- C3, amended, at 44100 Hz at the start of a pass of 1/256 second with 184
available frames: the double product (R + margin) * rate is
183.99999999999997, so frames is 183, and toProduce is 172. -/
theorem C3_straight_overflow_rounded_witness :
    ((Binary64.PlaybackPolicy.GetPlaybackSlice (fun _ => 0) 44100
          (passState (1 / 2 ^ 8) 0) 184).1.frames =
        min 184 ⌊roundToDouble (roundToDouble (1 / 2 ^ 8 + 306775811351949 / 2 ^ 60)
          * 44100)⌋₊ ∧
      (Binary64.PlaybackPolicy.GetPlaybackSlice (fun _ => 0) 44100
          (passState (1 / 2 ^ 8) 0) 184).1.toProduce =
        min ⌊roundToDouble (1 / 2 ^ 8 * 44100)⌋₊
          (min 184 ⌊roundToDouble (roundToDouble (1 / 2 ^ 8 + 306775811351949 / 2 ^ 60)
            * 44100)⌋₊) ∧
      (Binary64.PlaybackPolicy.GetPlaybackSlice (fun _ => 0) 44100
          (passState (1 / 2 ^ 8) 0) 184).2.mWarpedTime =
        roundToDouble ((passState (1 / 2 ^ 8) 0).mWarpedTime
          + roundToDouble (1 / 2 ^ 8 + 306775811351949 / 2 ^ 60)) ∧
      (Binary64.PlaybackPolicy.GetPlaybackSlice (fun _ => 0) 44100
          (passState (1 / 2 ^ 8) 0) 184).2.mWarpedLength
        = (passState (1 / 2 ^ 8) 0).mWarpedLength) ∧
    min 184 ⌊roundToDouble (roundToDouble (1 / 2 ^ 8 + 306775811351949 / 2 ^ 60)
      * 44100)⌋₊ = 183 ∧
    ⌊roundToDouble ((1 : ℚ) / 2 ^ 8 * 44100)⌋₊ = 172 :=
  ⟨C3_straight_overflow_rounded (fun _ => 0) 44100 (passState (1 / 2 ^ 8) 0) 184
      (1 / 2 ^ 8) (4810375438722445 / 2 ^ 60) (306775811351949 / 2 ^ 60) (by norm_num)
      passState_one_256th.1.symm passState_one_256th.2.1.symm
      (by
        rw [roundToDouble_grain_and_frame, passState_one_256th.2.2.1]
        norm_num)
      (by norm_num) (by norm_num)
      (by
        rw [passState_one_256th.2.2.2.1, passState_one_256th.2.2.2.2.1]
        norm_num [sizeTRange])
      (by
        rw [passState_one_256th.2.2.2.2.2.1]
        norm_num [sizeTRange]),
   by
    rw [passState_one_256th.2.2.2.1, passState_one_256th.2.2.2.2.1]
    have : ⌊(6473924464345087 : ℚ) / 2 ^ 45⌋₊ = 183 := by
      rw [Nat.floor_eq_iff (by norm_num)]
      norm_num
    rw [this]
    rfl,
   by
    rw [passState_one_256th.2.2.2.2.2.1]
    rw [Nat.floor_eq_iff (by norm_num)]
    norm_num⟩

/-! ## Advancing in two steps in double arithmetic -/

/-- The loop of `Producer` in double arithmetic, unfolded once. -/
theorem Binary64.TimeQueue.producerLoop_rounded_unfold (schedule : PlaybackSchedule)
    (fuel : ℕ) (rate scrubSpeed : ℚ) (mSize passes : ℕ) (v : ProducerLocals) :
    Binary64.TimeQueue.producerLoop schedule fuel rate scrubSpeed mSize passes v =
      if v.nSamples ≥ v.space then
        match passes with
        | 0 => none
        | passes + 1 =>
          match Binary64.PlaybackSchedule.AdvancedTrackTime schedule fuel v.time
              (roundToDouble (roundToDouble (v.space : ℚ) / rate)) scrubSpeed with
          | none => none
          | some time =>
            Binary64.TimeQueue.producerLoop schedule fuel rate scrubSpeed mSize passes
              { data := Function.update v.data ((v.index + 1) % mSize) time,
                time := time,
                index := (v.index + 1) % mSize,
                nSamples := v.nSamples - v.space,
                remainder := 0,
                space := TimeQueueGrainSize }
      else some v := by
  cases passes <;> rfl

/-- The loop of `Producer` in double arithmetic: when it returns, the samples
left with the remainder are the new remainder, the index has moved by the
number of grain boundaries crossed, and nothing is written at or beyond
`mSize`. -/
theorem Binary64.TimeQueue.producerLoop_rounded_cursor (schedule : PlaybackSchedule) (fuel : ℕ)
    (rate scrubSpeed : ℚ) (mSize : ℕ) (hsize : 0 < mSize) (passes : ℕ) :
    ∀ (v w : ProducerLocals), v.remainder < TimeQueueGrainSize →
      v.space = TimeQueueGrainSize - v.remainder →
      Binary64.TimeQueue.producerLoop schedule fuel rate scrubSpeed mSize passes v = some w →
      w.remainder + w.nSamples = (v.remainder + v.nSamples) % TimeQueueGrainSize ∧
      w.index = (if (v.remainder + v.nSamples) / TimeQueueGrainSize = 0 then v.index
        else (v.index + (v.remainder + v.nSamples) / TimeQueueGrainSize) % mSize) ∧
      (∀ i, mSize ≤ i → w.data i = v.data i) := by
  induction passes with
  | zero =>
    intro v w hrem hspace hloop
    unfold TimeQueueGrainSize at hrem hspace ⊢
    by_cases hge : v.nSamples ≥ v.space
    · rw [Binary64.TimeQueue.producerLoop_rounded_unfold, if_pos hge] at hloop
      cases hloop
    · rw [Binary64.TimeQueue.producerLoop_rounded_unfold, if_neg hge] at hloop
      cases hloop
      have hj : (v.remainder + v.nSamples) / 2000 = 0 := by omega
      refine ⟨by omega, by rw [if_pos hj], fun _ _ => rfl⟩
  | succ p ih =>
    intro v w hrem hspace hloop
    by_cases hge : v.nSamples ≥ v.space
    · rw [Binary64.TimeQueue.producerLoop_rounded_unfold, if_pos hge] at hloop
      cases hadv : Binary64.PlaybackSchedule.AdvancedTrackTime schedule fuel v.time
            (roundToDouble (roundToDouble (v.space : ℚ) / rate)) scrubSpeed with
      | none =>
        rw [hadv] at hloop
        cases hloop
      | some time =>
        rw [hadv] at hloop
        dsimp only at hloop
        obtain ⟨h1, h2, h3⟩ := ih _ w (by norm_num [TimeQueueGrainSize]) (by simp) hloop
        dsimp only at h1 h2 h3
        unfold TimeQueueGrainSize at hrem hspace h1 h2 ⊢
        have hk : (0 + (v.nSamples - v.space)) / 2000
            = (v.remainder + v.nSamples) / 2000 - 1 := by omega
        have hm : (0 + (v.nSamples - v.space)) % 2000
            = (v.remainder + v.nSamples) % 2000 := by omega
        have hj1 : 1 ≤ (v.remainder + v.nSamples) / 2000 := by omega
        rw [hm] at h1
        rw [hk] at h2
        refine ⟨h1, ?_, ?_⟩
        · have hne : ¬ (v.remainder + v.nSamples) / 2000 = 0 := by omega
          rw [h2, if_neg hne]
          split
          · rename_i hz
            have h1j : (v.remainder + v.nSamples) / 2000 = 1 := by omega
            rw [h1j]
          · rw [Nat.mod_add_mod]
            congr 1
            omega
        · intro i hi
          rw [h3 i hi]
          apply Function.update_noteq
          have := Nat.mod_lt (v.index + 1) hsize
          omega
    · rw [Binary64.TimeQueue.producerLoop_rounded_unfold, if_neg hge] at hloop
      cases hloop
      unfold TimeQueueGrainSize at hrem hspace ⊢
      have hj : (v.remainder + v.nSamples) / 2000 = 0 := by omega
      refine ⟨by omega, by rw [if_pos hj], fun _ _ => rfl⟩

/-- One `Producer` call in double arithmetic on a backed queue: when it
returns, the tail has moved by the number of grain boundaries crossed, the head
and the size are as before, and the array is unchanged at and beyond
`mSize`. -/
theorem Binary64.TimeQueue.Producer_rounded_cursor (q after : TimeQueue)
    (schedule : PlaybackSchedule)
    (fuel : ℕ) (rate scrubSpeed : ℚ) (nSamples : ℕ) (d : ℕ → ℚ)
    (hdata : q.mData = some d) (hsize : 0 < q.mSize)
    (hrem : q.mTail.mRemainder < TimeQueueGrainSize)
    (hcall : Binary64.TimeQueue.Producer q schedule fuel rate scrubSpeed nSamples = some after) :
    after.mTail =
        { mIndex :=
            if (q.mTail.mRemainder + nSamples) / TimeQueueGrainSize = 0 then q.mTail.mIndex
            else (q.mTail.mIndex
              + (q.mTail.mRemainder + nSamples) / TimeQueueGrainSize) % q.mSize,
          mRemainder := (q.mTail.mRemainder + nSamples) % TimeQueueGrainSize } ∧
      after.mHead = q.mHead ∧ after.mSize = q.mSize ∧
      ∃ d', after.mData = some d' ∧ ∀ i, q.mSize ≤ i → d' i = d i := by
  unfold Binary64.TimeQueue.Producer at hcall
  rw [hdata] at hcall
  dsimp only at hcall
  cases hloop : Binary64.TimeQueue.producerLoop schedule fuel rate scrubSpeed q.mSize fuel
      { data := d,
        time := q.mLastTime,
        index := q.mTail.mIndex,
        nSamples := nSamples,
        remainder := q.mTail.mRemainder,
        space := sizeTSub TimeQueueGrainSize q.mTail.mRemainder } with
  | none =>
    rw [hloop] at hcall
    cases hcall
  | some w =>
    rw [hloop] at hcall
    dsimp only at hcall
    obtain ⟨h1, h2, h3⟩ := Binary64.TimeQueue.producerLoop_rounded_cursor schedule fuel rate
      scrubSpeed
      q.mSize hsize fuel _ w hrem (sizeTSub_grain hrem) hloop
    dsimp only at h1 h2 h3
    cases hodd : (if w.nSamples > 0 then
        Binary64.PlaybackSchedule.AdvancedTrackTime schedule fuel w.time
          (roundToDouble (roundToDouble (w.nSamples : ℚ) / rate)) scrubSpeed
      else some w.time) with
    | none =>
      rw [hodd] at hcall
      cases hcall
    | some time =>
      rw [hodd] at hcall
      cases hcall
      exact ⟨by rw [h1, h2], rfl, rfl, w.data, rfl, h3⟩

/-- Consecutive `Producer` calls in double arithmetic on a backed queue whose
tail is the cursor for `M` samples: when they return, the tail is the cursor
for `M + counts.sum` samples, the head and the size are as before, and the
array is unchanged at and beyond `mSize`. -/
theorem Binary64.TimeQueue.ProducerCalls_rounded_cursor (schedule : PlaybackSchedule) (fuel : ℕ)
    (rate scrubSpeed : ℚ) (counts : List ℕ) :
    ∀ (M : ℕ) (q after : TimeQueue) (d : ℕ → ℚ), q.mData = some d → 0 < q.mSize →
      q.mTail.mRemainder = M % TimeQueueGrainSize →
      q.mTail.mIndex = (M / TimeQueueGrainSize) % q.mSize →
      Binary64.TimeQueue.ProducerCalls schedule fuel rate scrubSpeed counts q = some after →
      after.mTail =
          { mIndex := ((M + counts.sum) / TimeQueueGrainSize) % q.mSize,
            mRemainder := (M + counts.sum) % TimeQueueGrainSize } ∧
        after.mHead = q.mHead ∧ after.mSize = q.mSize ∧
        ∃ d', after.mData = some d' ∧ ∀ i, q.mSize ≤ i → d' i = d i := by
  induction counts with
  | nil =>
    intro M q after d hdata _ hrem hidx hcalls
    rw [Binary64.TimeQueue.ProducerCalls] at hcalls
    cases hcalls
    refine ⟨?_, rfl, rfl, d, hdata, fun _ _ => rfl⟩
    rw [List.sum_nil, Nat.add_zero, ← hrem, ← hidx]
  | cons n rest ih =>
    intro M q after d hdata hsize hrem hidx hcalls
    have hsum : M + (n :: rest).sum = M + n + rest.sum := by
      rw [List.sum_cons, Nat.add_assoc]
    have hremlt : q.mTail.mRemainder < TimeQueueGrainSize := by
      rw [hrem]
      exact Nat.mod_lt _ (by norm_num [TimeQueueGrainSize])
    have hdiv : (M + n) / TimeQueueGrainSize
        = M / TimeQueueGrainSize + (q.mTail.mRemainder + n) / TimeQueueGrainSize := by
      rw [hrem]
      unfold TimeQueueGrainSize
      omega
    have hmod : (q.mTail.mRemainder + n) % TimeQueueGrainSize
        = (M + n) % TimeQueueGrainSize := by
      rw [hrem]
      unfold TimeQueueGrainSize
      omega
    have hidx1 : (if (q.mTail.mRemainder + n) / TimeQueueGrainSize = 0 then q.mTail.mIndex
          else (q.mTail.mIndex + (q.mTail.mRemainder + n) / TimeQueueGrainSize) % q.mSize)
        = ((M + n) / TimeQueueGrainSize) % q.mSize := by
      rw [hdiv]
      split
      · rename_i hz
        rw [hz, Nat.add_zero, hidx]
      · rw [hidx, Nat.mod_add_mod]
    rw [Binary64.TimeQueue.ProducerCalls] at hcalls
    cases hcall : Binary64.TimeQueue.Producer q schedule fuel rate scrubSpeed n with
    | none =>
      rw [hcall] at hcalls
      cases hcalls
    | some q1 =>
      rw [hcall] at hcalls
      dsimp only at hcalls
      obtain ⟨c1, c2, c3, d1, c4, c5⟩ := Binary64.TimeQueue.Producer_rounded_cursor q q1
        schedule fuel rate
        scrubSpeed n d hdata hsize hremlt hcall
      rw [hidx1, hmod] at c1
      obtain ⟨r1, r2, r3, d', r4, r5⟩ := ih (M + n) q1 after d1 c4 (by rw [c3]; exact hsize)
        (by rw [c1]) (by rw [c1, c3]) hcalls
      rw [c3] at r1 r3 r5
      rw [hsum]
      exact ⟨r1, by rw [r2, c2], r3, d', r4, fun i hi => by rw [r5 i hi, c5 i hi]⟩

/-- The loop of `Producer` in double arithmetic returns, with a time of `P`,
when it starts from a time of `P`, every call of `AdvancedTrackTime` from a
time of `P` by the rounded real time of at most a grain returns a time of `P`,
and the passes cover the grain boundaries crossed. -/
theorem Binary64.TimeQueue.producerLoop_rounded_returns (schedule : PlaybackSchedule) (fuel : ℕ)
    (rate scrubSpeed : ℚ) (mSize : ℕ) (P : ℚ → Prop)
    (hadv : ∀ (x : ℚ) (n : ℕ), P x → n ≤ TimeQueueGrainSize →
      ∃ r, Binary64.PlaybackSchedule.AdvancedTrackTime schedule fuel x
        (roundToDouble (roundToDouble (n : ℚ) / rate)) scrubSpeed = some r ∧ P r)
    (j : ℕ) :
    ∀ (passes : ℕ) (v : ProducerLocals), v.remainder < TimeQueueGrainSize →
      v.space = TimeQueueGrainSize - v.remainder → P v.time →
      (v.remainder + v.nSamples) / TimeQueueGrainSize = j → j ≤ passes →
      ∃ w, Binary64.TimeQueue.producerLoop schedule fuel rate scrubSpeed mSize passes v
          = some w ∧
        P w.time := by
  induction j with
  | zero =>
    intro passes v hrem hspace hP hj _
    unfold TimeQueueGrainSize at hrem hspace hj
    have hlt : ¬ v.nSamples ≥ v.space := by omega
    refine ⟨v, ?_, hP⟩
    rw [Binary64.TimeQueue.producerLoop_rounded_unfold]
    rw [if_neg hlt]
  | succ j ih =>
    intro passes v hrem hspace hP hj hpasses
    have hsp : v.space ≤ TimeQueueGrainSize := by omega
    unfold TimeQueueGrainSize at hrem hspace hj
    have hge : v.nSamples ≥ v.space := by omega
    obtain ⟨p, rfl⟩ : ∃ p, passes = p + 1 := ⟨passes - 1, by omega⟩
    obtain ⟨time, htime, hPt⟩ := hadv v.time v.space hP hsp
    obtain ⟨w, hw, hPw⟩ := ih p
      { data := Function.update v.data ((v.index + 1) % mSize) time,
        time := time,
        index := (v.index + 1) % mSize,
        nSamples := v.nSamples - v.space,
        remainder := 0,
        space := TimeQueueGrainSize }
      (by norm_num [TimeQueueGrainSize]) (by simp) hPt
      (by
        show (0 + (v.nSamples - v.space)) / TimeQueueGrainSize = j
        unfold TimeQueueGrainSize
        omega)
      (by omega)
    refine ⟨w, ?_, hPw⟩
    rw [Binary64.TimeQueue.producerLoop_rounded_unfold, if_pos hge]
    simp only [htime]
    exact hw

/-- One `Producer` call in double arithmetic on a backed queue returns, with a
last time of `P`, when its last time is of `P`, every call of
`AdvancedTrackTime` from a time of `P` by the rounded real time of at most a
grain returns a time of `P`, and the fuel covers the grain boundaries
crossed. -/
theorem Binary64.TimeQueue.Producer_rounded_returns (q : TimeQueue) (schedule : PlaybackSchedule)
    (fuel : ℕ) (rate scrubSpeed : ℚ) (nSamples : ℕ) (d : ℕ → ℚ) (P : ℚ → Prop)
    (hadv : ∀ (x : ℚ) (n : ℕ), P x → n ≤ TimeQueueGrainSize →
      ∃ r, Binary64.PlaybackSchedule.AdvancedTrackTime schedule fuel x
        (roundToDouble (roundToDouble (n : ℚ) / rate)) scrubSpeed = some r ∧ P r)
    (hdata : q.mData = some d) (hsize : 0 < q.mSize)
    (hrem : q.mTail.mRemainder < TimeQueueGrainSize) (hP : P q.mLastTime)
    (hfuel : (q.mTail.mRemainder + nSamples) / TimeQueueGrainSize ≤ fuel) :
    ∃ after, Binary64.TimeQueue.Producer q schedule fuel rate scrubSpeed nSamples = some after ∧
      P after.mLastTime := by
  obtain ⟨w, hw, hPw⟩ := Binary64.TimeQueue.producerLoop_rounded_returns schedule fuel rate
    scrubSpeed q.mSize P hadv ((q.mTail.mRemainder + nSamples) / TimeQueueGrainSize) fuel
    { data := d,
      time := q.mLastTime,
      index := q.mTail.mIndex,
      nSamples := nSamples,
      remainder := q.mTail.mRemainder,
      space := sizeTSub TimeQueueGrainSize q.mTail.mRemainder }
    hrem (sizeTSub_grain hrem) hP rfl hfuel
  obtain ⟨c1, -, -⟩ := Binary64.TimeQueue.producerLoop_rounded_cursor schedule fuel rate
    scrubSpeed
    q.mSize hsize fuel _ w hrem (sizeTSub_grain hrem) hw
  dsimp only at c1
  have hodd_le : w.nSamples ≤ TimeQueueGrainSize := by
    have := Nat.mod_lt (q.mTail.mRemainder + nSamples)
      (by norm_num [TimeQueueGrainSize] : 0 < TimeQueueGrainSize)
    omega
  have hodd : ∃ time, (if w.nSamples > 0 then
        Binary64.PlaybackSchedule.AdvancedTrackTime schedule fuel w.time
          (roundToDouble (roundToDouble (w.nSamples : ℚ) / rate)) scrubSpeed
      else some w.time) = some time ∧ P time := by
    split
    · exact hadv _ _ hPw hodd_le
    · exact ⟨_, rfl, hPw⟩
  obtain ⟨time, htime, hPtime⟩ := hodd
  have hcall : Binary64.TimeQueue.Producer q schedule fuel rate scrubSpeed nSamples = some
      { q with
        mData := some w.data,
        mLastTime := time,
        mTail := { mIndex := w.index, mRemainder := w.remainder + w.nSamples } } := by
    unfold Binary64.TimeQueue.Producer
    rw [hdata]
    dsimp only
    rw [hw]
    dsimp only
    rw [htime]
  exact ⟨_, hcall, hPtime⟩

/-- Consecutive `Producer` calls in double arithmetic on a backed queue return
when the last time is of `P`, every call of `AdvancedTrackTime` from a time of
`P` by the rounded real time of at most a grain returns a time of `P`, and the
fuel covers the grain boundaries crossed. -/
theorem Binary64.TimeQueue.ProducerCalls_rounded_returns (schedule : PlaybackSchedule) (fuel : ℕ)
    (rate scrubSpeed : ℚ) (P : ℚ → Prop)
    (hadv : ∀ (x : ℚ) (n : ℕ), P x → n ≤ TimeQueueGrainSize →
      ∃ r, Binary64.PlaybackSchedule.AdvancedTrackTime schedule fuel x
        (roundToDouble (roundToDouble (n : ℚ) / rate)) scrubSpeed = some r ∧ P r)
    (counts : List ℕ) :
    ∀ (M : ℕ) (q : TimeQueue) (d : ℕ → ℚ), q.mData = some d → 0 < q.mSize →
      q.mTail.mRemainder = M % TimeQueueGrainSize →
      q.mTail.mIndex = (M / TimeQueueGrainSize) % q.mSize → P q.mLastTime →
      (M + counts.sum) / TimeQueueGrainSize ≤ fuel →
      ∃ after, Binary64.TimeQueue.ProducerCalls schedule fuel rate scrubSpeed counts q
        = some after := by
  induction counts with
  | nil =>
    intro M q d _ _ _ _ _ _
    exact ⟨q, rfl⟩
  | cons n rest ih =>
    intro M q d hdata hsize hrem hidx hP hfuel
    have hsum : M + (n :: rest).sum = M + n + rest.sum := by
      rw [List.sum_cons, Nat.add_assoc]
    rw [hsum] at hfuel
    have hremlt : q.mTail.mRemainder < TimeQueueGrainSize := by
      rw [hrem]
      exact Nat.mod_lt _ (by norm_num [TimeQueueGrainSize])
    have hfuel1 : (q.mTail.mRemainder + n) / TimeQueueGrainSize ≤ fuel := by
      have h1 : (q.mTail.mRemainder + n) / TimeQueueGrainSize
          ≤ (M + n) / TimeQueueGrainSize := by
        apply Nat.div_le_div_right
        rw [hrem]
        exact Nat.add_le_add_right (Nat.mod_le _ _) _
      have h2 : (M + n) / TimeQueueGrainSize ≤ (M + n + rest.sum) / TimeQueueGrainSize :=
        Nat.div_le_div_right (Nat.le_add_right _ _)
      exact le_trans h1 (le_trans h2 hfuel)
    obtain ⟨q1, hcall, hP1⟩ := Binary64.TimeQueue.Producer_rounded_returns q schedule fuel rate
      scrubSpeed n d P hadv hdata hsize hremlt hP hfuel1
    obtain ⟨c1, -, c3, d1, c4, -⟩ := Binary64.TimeQueue.ProducerCalls_rounded_cursor schedule
      fuel rate
      scrubSpeed [n] M q q1 d hdata hsize hrem hidx
      (by rw [Binary64.TimeQueue.ProducerCalls, hcall]; rfl)
    rw [List.sum_singleton] at c1
    obtain ⟨after, hafter⟩ := ih (M + n) q1 d1 c4 (by rw [c3]; exact hsize)
      (by rw [c1]) (by rw [c1, c3]) hP1 hfuel
    refine ⟨after, ?_⟩
    rw [Binary64.TimeQueue.ProducerCalls, hcall]
    exact hafter

/-- The wrap loop in double arithmetic returns a binary64 number when it
starts from one. -/
theorem Binary64.PlaybackSchedule.wrapWhileOverruns_double (s : PlaybackSchedule) :
    ∀ (fuel : ℕ) (x r : ℚ), roundToDouble x = x →
      Binary64.PlaybackSchedule.wrapWhileOverruns s fuel x = some r →
      roundToDouble r = r := by
  intro fuel
  induction fuel with
  | zero =>
    intro x r hx h
    unfold Binary64.PlaybackSchedule.wrapWhileOverruns at h
    split at h
    · cases h
    · cases h
      exact hx
  | succ n ih =>
    intro x r hx h
    unfold Binary64.PlaybackSchedule.wrapWhileOverruns at h
    split at h
    · exact ih _ r (roundToDouble_idem _) h
    · cases h
      exact hx

/-- The wrap loop in double arithmetic returns the time it starts from when it
returns without fuel. -/
theorem Binary64.PlaybackSchedule.wrapWhileOverruns_no_pass (s : PlaybackSchedule)
    (x r : ℚ) (h : Binary64.PlaybackSchedule.wrapWhileOverruns s 0 x = some r) : r = x := by
  unfold Binary64.PlaybackSchedule.wrapWhileOverruns at h
  split at h
  · cases h
  · cases h
    rfl

/-- Without an envelope, under a looping policy and outside the guard, from a
binary64 time of magnitude at most `2 * A`, where `A` bounds |t0| + |t1| and
the advance `G` and `3 * A` is within 2 ^ 49 region lengths, `AdvancedTrackTime`
in double arithmetic returns a binary64 time of magnitude at most `2 * A`,
once the fuel covers 3 * 2 ^ 50 + 1 passes. -/
theorem Binary64.PlaybackSchedule.AdvancedTrackTime_stays (s : PlaybackSchedule)
    (fuel : ℕ) (speed A G : ℚ) (henv : s.mEnvelope = none)
    (hloop : s.GetPolicy.Looping s = true)
    (hlen : ¬ |roundToDouble (s.mT0 - s.mT1)| < roundToDouble (1 / 1000000000))
    (hA : |s.mT0| + |s.mT1| + G ≤ A) (hmag : 3 * A ≤ 2 ^ 49 * |s.mT1 - s.mT0|)
    (hfuel : 3 * 2 ^ 50 + 1 ≤ fuel) (x e : ℚ) (hx : roundToDouble x = x)
    (hxA : |x| ≤ 2 * A) (he0 : 0 ≤ e) (heG : e * |speed| ≤ G) :
    ∃ r, Binary64.PlaybackSchedule.AdvancedTrackTime s fuel x e speed = some r ∧
      roundToDouble r = r ∧ |r| ≤ 2 * A := by
  have a0 := abs_nonneg s.mT0
  have a1 := abs_nonneg s.mT1
  have hm : 0 ≤ e * |speed| := mul_nonneg he0 (abs_nonneg _)
  have hae : |e| = e := abs_of_nonneg he0
  have hA0 : 0 ≤ A := by
    have := abs_nonneg (s.mT1 - s.mT0)
    have hL := regionLength_of_not_degenerate s.mT0 s.mT1 hlen
    have h2 : |s.mT1 - s.mT0| ≤ |s.mT0| + |s.mT1| := by
      have := abs_sub s.mT1 s.mT0
      linarith
    have h3 : (0 : ℚ) < 1 / 2 ^ 31 := by norm_num
    linarith
  have hS : |s.mT0| + |s.mT1| + |x| + |e| * |speed| ≤ 3 * A := by
    rw [hae]
    linarith
  obtain ⟨k, r, hk, hret, hov, hlow, -⟩ := Binary64.PlaybackSchedule.AdvancedTrackTime_ends s
    x e speed henv hloop hlen (le_trans hS hmag)
  have hr := hret fuel (le_trans hk hfuel)
  have hwrap := Binary64.PlaybackSchedule.AdvancedTrackTime_rounded_wrap s fuel x e speed
    henv hlen hloop
  have hdouble : roundToDouble r = r := by
    rw [hwrap] at hr
    exact Binary64.PlaybackSchedule.wrapWhileOverruns_double s fuel _ r
      (roundToDouble_idem _) hr
  have hδ : (|s.mT0| + |s.mT1| + |x| + |e| * |speed|) / 2 ^ 50 ≤ A := by
    have h1 : (|s.mT0| + |s.mT1| + |x| + |e| * |speed|) / 2 ^ 50 ≤ 3 * A / 2 ^ 50 :=
      div_le_div_of_nonneg_right hS (by norm_num)
    have h2 : 3 * A / 2 ^ 50 ≤ A := by
      rw [div_le_iff₀ (by norm_num)]
      linarith
    linarith
  have hne : s.mT0 ≠ s.mT1 := by
    intro heq
    have hL := regionLength_of_not_degenerate s.mT0 s.mT1 hlen
    rw [heq, sub_self, abs_zero] at hL
    norm_num at hL
  have hx2 := abs_le.mp hxA
  have ht0 := abs_le.mp (le_refl |s.mT0|)
  have ht1 := abs_le.mp (le_refl |s.mT1|)
  refine ⟨r, hr, hdouble, ?_⟩
  rw [abs_le]
  rcases lt_or_gt_of_ne hne with hdir | hdir
  · have hrev : s.ReversedTime = false := by
      simp [PlaybackSchedule.ReversedTime, hdir.le]
    have hlt : r < s.mT1 := by
      simp only [PlaybackSchedule.Overruns, hrev, Bool.false_eq_true, if_false,
        decide_eq_false_iff_not, ge_iff_le, not_le] at hov
      exact hov
    refine ⟨?_, by linarith [ht1.2]⟩
    rcases Nat.eq_zero_or_pos k with hk0 | hkpos
    · have h0 := hret 0 (by omega)
      rw [Binary64.PlaybackSchedule.AdvancedTrackTime_rounded_wrap s 0 x e speed henv hlen
        hloop, hrev] at h0
      simp only [Bool.false_eq_true, if_false] at h0
      have hrx := Binary64.PlaybackSchedule.wrapWhileOverruns_no_pass s _ r h0
      have hmono : roundToDouble x ≤ roundToDouble (x + roundToDouble (e * |speed|)) :=
        roundToDouble_mono (by linarith [roundToDouble_nonneg hm])
      rw [hx, ← hrx] at hmono
      linarith [hx2.1]
    · have := (hlow hkpos).1 hdir
      linarith [ht0.1]
  · have hrev : s.ReversedTime = true := by
      simp [PlaybackSchedule.ReversedTime, hdir]
    have hgt : s.mT1 < r := by
      simp only [PlaybackSchedule.Overruns, hrev, if_true, decide_eq_false_iff_not,
        not_le] at hov
      exact hov
    refine ⟨by linarith [ht1.1], ?_⟩
    rcases Nat.eq_zero_or_pos k with hk0 | hkpos
    · have h0 := hret 0 (by omega)
      rw [Binary64.PlaybackSchedule.AdvancedTrackTime_rounded_wrap s 0 x e speed henv hlen
        hloop, hrev] at h0
      simp only [if_true] at h0
      have hrx := Binary64.PlaybackSchedule.wrapWhileOverruns_no_pass s _ r h0
      have hneg : roundToDouble (e * (-1) * |speed|) ≤ 0 :=
        roundToDouble_nonpos (by
          rw [show e * (-1) * |speed| = -(e * |speed|) by ring]
          linarith)
      have hmono : roundToDouble (x + roundToDouble (e * (-1) * |speed|)) ≤ roundToDouble x :=
        roundToDouble_mono (by linarith)
      rw [hx, ← hrx] at hmono
      linarith [hx2.2]
    · have := (hlow hkpos).2 hdir
      linarith [ht0.2]

/-- Without an envelope and under a looping policy at a positive rate, the
`Producer` calls after `Prime(t)` return in double arithmetic when t is a
binary64 number, three times the magnitudes of t, t0, t1 and of the advance of
one grain are within 2 ^ 49 region lengths, and the fuel covers 3 * 2 ^ 50 + 1
passes of the wrap loop and the grain boundaries crossed. -/
theorem Binary64.TimeQueue.ProducerCalls_rounded_looping (q : TimeQueue)
    (schedule : PlaybackSchedule) (d : ℕ → ℚ) (fuel : ℕ) (rate scrubSpeed t : ℚ)
    (produced : List ℕ) (hdata : q.mData = some d) (hsize : 0 < q.mSize)
    (henv : schedule.mEnvelope = none)
    (hloop : schedule.GetPolicy.Looping schedule = true) (hrate : 0 < rate)
    (ht : roundToDouble t = t)
    (hmag : 3 * (|t| + |schedule.mT0| + |schedule.mT1|
        + roundToDouble (((TimeQueueGrainSize : ℕ) : ℚ) / rate) * |scrubSpeed|)
      ≤ 2 ^ 49 * |schedule.mT1 - schedule.mT0|)
    (hfuel : 3 * 2 ^ 50 + 1 ≤ fuel) (hpasses : produced.sum / TimeQueueGrainSize ≤ fuel) :
    ∃ filled : TimeQueue,
      Binary64.TimeQueue.ProducerCalls schedule fuel rate scrubSpeed produced (q.Prime t)
        = some filled := by
  have hg0 : 0 ≤ roundToDouble (((TimeQueueGrainSize : ℕ) : ℚ) / rate) :=
    roundToDouble_nonneg (div_nonneg (Nat.cast_nonneg _) hrate.le)
  have hG0 : 0 ≤ roundToDouble (((TimeQueueGrainSize : ℕ) : ℚ) / rate) * |scrubSpeed| :=
    mul_nonneg hg0 (abs_nonneg _)
  have hat := abs_nonneg t
  by_cases hlen : |roundToDouble (schedule.mT0 - schedule.mT1)|
      < roundToDouble (1 / 1000000000)
  · apply Binary64.TimeQueue.ProducerCalls_rounded_returns schedule fuel rate scrubSpeed
      (fun _ => True) ?_ produced 0 (q.Prime t) d hdata hsize (by simp [TimeQueue.Prime])
      (by simp [TimeQueue.Prime]) trivial (by rw [Nat.zero_add]; exact hpasses)
    intro x n _ _
    refine ⟨schedule.mT0, ?_, trivial⟩
    unfold Binary64.PlaybackSchedule.AdvancedTrackTime
    dsimp only
    rw [if_pos hlen]
  · apply Binary64.TimeQueue.ProducerCalls_rounded_returns schedule fuel rate scrubSpeed
      (fun x => roundToDouble x = x ∧ |x| ≤ 2 * (|t| + |schedule.mT0| + |schedule.mT1|
        + roundToDouble (((TimeQueueGrainSize : ℕ) : ℚ) / rate) * |scrubSpeed|))
      ?_ produced 0 (q.Prime t) d hdata hsize (by simp [TimeQueue.Prime])
      (by simp [TimeQueue.Prime])
      (by
        refine ⟨ht, ?_⟩
        show |t| ≤ 2 * (|t| + |schedule.mT0| + |schedule.mT1|
          + roundToDouble (((TimeQueueGrainSize : ℕ) : ℚ) / rate) * |scrubSpeed|)
        linarith [abs_nonneg schedule.mT0, abs_nonneg schedule.mT1])
      (by rw [Nat.zero_add]; exact hpasses)
    intro x n hx hn
    have hn53 : n < 2 ^ 53 := by
      unfold TimeQueueGrainSize at hn
      have : (2000 : ℕ) < 2 ^ 53 := by norm_num
      omega
    have he0 : 0 ≤ roundToDouble (roundToDouble (n : ℚ) / rate) :=
      roundToDouble_nonneg (div_nonneg (roundToDouble_nonneg (Nat.cast_nonneg _)) hrate.le)
    have hle : roundToDouble (roundToDouble (n : ℚ) / rate)
        ≤ roundToDouble (((TimeQueueGrainSize : ℕ) : ℚ) / rate) := by
      rw [roundToDouble_natCast n hn53]
      apply roundToDouble_mono
      apply div_le_div_of_nonneg_right _ hrate.le
      exact_mod_cast hn
    exact Binary64.PlaybackSchedule.AdvancedTrackTime_stays schedule fuel scrubSpeed
      (|t| + |schedule.mT0| + |schedule.mT1|
        + roundToDouble (((TimeQueueGrainSize : ℕ) : ℚ) / rate) * |scrubSpeed|)
      (roundToDouble (((TimeQueueGrainSize : ℕ) : ℚ) / rate) * |scrubSpeed|)
      henv hloop hlen (by linarith) hmag hfuel x _ hx.1 hx.2 he0
      (mul_le_mul_of_nonneg_right hle (abs_nonneg _))

/-- Under a policy that does not loop, `AdvancedTrackTime` in double arithmetic
returns with any fuel of at least one pass. -/
theorem Binary64.PlaybackSchedule.AdvancedTrackTime_rounded_straight (s : PlaybackSchedule)
    (fuel : ℕ) (time realElapsed speed : ℚ) (hloop : s.GetPolicy.Looping s = false)
    (hfuel : 1 ≤ fuel) :
    ∃ r, Binary64.PlaybackSchedule.AdvancedTrackTime s fuel time realElapsed speed
      = some r := by
  obtain ⟨n, rfl⟩ : ∃ n, fuel = n + 1 := ⟨fuel - 1, by omega⟩
  unfold Binary64.PlaybackSchedule.AdvancedTrackTime
  dsimp only
  rw [hloop]
  by_cases hlen : |roundToDouble (s.mT0 - s.mT1)| < roundToDouble (1 / 1000000000)
  · rw [if_pos hlen]
    exact ⟨_, rfl⟩
  · rw [if_neg hlen]
    cases s.mEnvelope with
    | none =>
      dsimp only
      exact ⟨_, rfl⟩
    | some env =>
      dsimp only
      unfold Binary64.PlaybackSchedule.envelopeLoop
      simp

/-! ## The cursors after the same number of samples -/

/-- C35: on a backed TimeQueue with mSize > 0, after Prime, for Producer calls
and Consumer calls of any sizes with the same total, with AdvancedTrackTime in
exact and in double arithmetic: whenever the Producer calls return, the tail
cursor and then the head cursor are
(floor(total / grainSize) mod mSize, total mod grainSize), so the head equals
the tail.  The Producer calls do return, with these cursors: in exact
arithmetic when AdvancedTrackTime returns at this fuel and the fuel covers
total / grainSize passes, and for every envelope-free schedule under a looping
policy at a positive rate whose primed time, t0, t1 and advance of one grain
are within 2 ^ 50 region lengths; in double arithmetic for every schedule
whose policy does not loop, and for every envelope-free schedule under a
looping policy at a positive rate when the primed time is a double and three
times the magnitudes of the primed time, t0, t1 and the advance of one grain
are within 2 ^ 49 region lengths (where every double subtraction of the region
length still moves the time), once the fuel covers the passes of the wrap loop
and total / grainSize passes. -/
theorem C35_cursors_agree (q : TimeQueue) (schedule : PlaybackSchedule) (d : ℕ → ℚ)
    (fuel : ℕ) (rate scrubSpeed t last : ℚ) (produced consumed : List ℕ) (total : ℕ)
    (hdata : q.mData = some d) (hsize : 0 < q.mSize)
    (hproduced : produced.sum = total) (hconsumed : consumed.sum = total) :
    (∀ filled : TimeQueue,
      (TimeQueue.ProducerCalls schedule fuel rate scrubSpeed produced (q.Prime t)
          = some filled ∨
        Binary64.TimeQueue.ProducerCalls schedule fuel rate scrubSpeed produced (q.Prime t)
          = some filled) →
      filled.mTail =
          { mIndex := (total / TimeQueueGrainSize) % q.mSize,
            mRemainder := total % TimeQueueGrainSize } ∧
        (TimeQueue.ConsumerCalls rate consumed last filled).2.mHead =
          { mIndex := (total / TimeQueueGrainSize) % q.mSize,
            mRemainder := total % TimeQueueGrainSize } ∧
        (TimeQueue.ConsumerCalls rate consumed last filled).2.mHead
          = (TimeQueue.ConsumerCalls rate consumed last filled).2.mTail) ∧
    ((∀ x e : ℚ, ∃ r, schedule.AdvancedTrackTime fuel x e scrubSpeed = some r) →
      total / TimeQueueGrainSize ≤ fuel →
      ∃ filled : TimeQueue,
        TimeQueue.ProducerCalls schedule fuel rate scrubSpeed produced (q.Prime t)
          = some filled ∧
        filled.mTail =
          { mIndex := (total / TimeQueueGrainSize) % q.mSize,
            mRemainder := total % TimeQueueGrainSize } ∧
        (TimeQueue.ConsumerCalls rate consumed last filled).2.mHead = filled.mTail) ∧
    (schedule.mEnvelope = none → schedule.GetPolicy.Looping schedule = true → 0 < rate →
      |t| + |schedule.mT0| + |schedule.mT1|
          + ((TimeQueueGrainSize : ℕ) : ℚ) / rate * |scrubSpeed|
        ≤ 2 ^ 50 * |schedule.mT1 - schedule.mT0| →
      2 ^ 50 + 1 ≤ fuel → total / TimeQueueGrainSize ≤ fuel →
      ∃ filled : TimeQueue,
        TimeQueue.ProducerCalls schedule fuel rate scrubSpeed produced (q.Prime t)
          = some filled ∧
        filled.mTail =
          { mIndex := (total / TimeQueueGrainSize) % q.mSize,
            mRemainder := total % TimeQueueGrainSize } ∧
        (TimeQueue.ConsumerCalls rate consumed last filled).2.mHead = filled.mTail) ∧
    (schedule.GetPolicy.Looping schedule = false → 1 ≤ fuel →
      total / TimeQueueGrainSize ≤ fuel →
      ∃ filled : TimeQueue,
        Binary64.TimeQueue.ProducerCalls schedule fuel rate scrubSpeed produced (q.Prime t)
          = some filled ∧
        filled.mTail =
          { mIndex := (total / TimeQueueGrainSize) % q.mSize,
            mRemainder := total % TimeQueueGrainSize } ∧
        (TimeQueue.ConsumerCalls rate consumed last filled).2.mHead = filled.mTail) ∧
    (schedule.mEnvelope = none → schedule.GetPolicy.Looping schedule = true → 0 < rate →
      roundToDouble t = t →
      3 * (|t| + |schedule.mT0| + |schedule.mT1|
          + roundToDouble (((TimeQueueGrainSize : ℕ) : ℚ) / rate) * |scrubSpeed|)
        ≤ 2 ^ 49 * |schedule.mT1 - schedule.mT0| →
      3 * 2 ^ 50 + 1 ≤ fuel → total / TimeQueueGrainSize ≤ fuel →
      ∃ filled : TimeQueue,
        Binary64.TimeQueue.ProducerCalls schedule fuel rate scrubSpeed produced (q.Prime t)
          = some filled ∧
        filled.mTail =
          { mIndex := (total / TimeQueueGrainSize) % q.mSize,
            mRemainder := total % TimeQueueGrainSize } ∧
        (TimeQueue.ConsumerCalls rate consumed last filled).2.mHead = filled.mTail) := by
  have hcur : ∀ (filled : TimeQueue) (d' : ℕ → ℚ),
      filled.mTail =
          { mIndex := (0 + produced.sum) / TimeQueueGrainSize % (q.Prime t).mSize,
            mRemainder := (0 + produced.sum) % TimeQueueGrainSize } →
      filled.mHead = (q.Prime t).mHead → filled.mSize = (q.Prime t).mSize →
      filled.mData = some d' →
      filled.mTail =
          { mIndex := (total / TimeQueueGrainSize) % q.mSize,
            mRemainder := total % TimeQueueGrainSize } ∧
        (TimeQueue.ConsumerCalls rate consumed last filled).2.mHead =
          { mIndex := (total / TimeQueueGrainSize) % q.mSize,
            mRemainder := total % TimeQueueGrainSize } ∧
        (TimeQueue.ConsumerCalls rate consumed last filled).2.mHead
          = (TimeQueue.ConsumerCalls rate consumed last filled).2.mTail := by
    intro filled d' c1 c2 c3 c4
    rw [Nat.zero_add, hproduced] at c1
    have hsz : filled.mSize = q.mSize := c3
    have hhead := (TimeQueue.ConsumerCalls_backed rate d' consumed 0 last filled c4
      (by rw [c2]; rfl) (by rw [c2]; simp [TimeQueue.Prime])).1
    rw [Nat.zero_add, hconsumed, hsz] at hhead
    refine ⟨c1, ?_, ?_⟩
    · rw [hhead]
    · rw [hhead]
      exact c1.symm
  have hpart : ∀ filled : TimeQueue,
      (TimeQueue.ProducerCalls schedule fuel rate scrubSpeed produced (q.Prime t)
          = some filled ∨
        Binary64.TimeQueue.ProducerCalls schedule fuel rate scrubSpeed produced (q.Prime t)
          = some filled) →
      filled.mTail =
          { mIndex := (total / TimeQueueGrainSize) % q.mSize,
            mRemainder := total % TimeQueueGrainSize } ∧
        (TimeQueue.ConsumerCalls rate consumed last filled).2.mHead =
          { mIndex := (total / TimeQueueGrainSize) % q.mSize,
            mRemainder := total % TimeQueueGrainSize } ∧
        (TimeQueue.ConsumerCalls rate consumed last filled).2.mHead
          = (TimeQueue.ConsumerCalls rate consumed last filled).2.mTail := by
    intro filled hfilled
    rcases hfilled with hfilled | hfilled
    · obtain ⟨c1, c2, c3, d', c4, -⟩ := TimeQueue.ProducerCalls_cursor schedule fuel rate
        scrubSpeed produced 0 (q.Prime t) filled d hdata hsize
        (by simp [TimeQueue.Prime]) (by simp [TimeQueue.Prime]) hfilled
      exact hcur filled d' c1 c2 c3 c4
    · obtain ⟨c1, c2, c3, d', c4, -⟩ := Binary64.TimeQueue.ProducerCalls_rounded_cursor
        schedule fuel rate scrubSpeed produced 0 (q.Prime t) filled d hdata hsize
        (by simp [TimeQueue.Prime]) (by simp [TimeQueue.Prime]) hfilled
      exact hcur filled d' c1 c2 c3 c4
  refine ⟨hpart, ?_, ?_, ?_, ?_⟩
  · intro hadv hfuel
    obtain ⟨filled, hfilled⟩ := TimeQueue.ProducerCalls_returns schedule fuel rate
      scrubSpeed hadv produced 0 (q.Prime t) d hdata hsize (by simp [TimeQueue.Prime])
      (by simp [TimeQueue.Prime]) (by rw [Nat.zero_add, hproduced]; exact hfuel)
    obtain ⟨p1, p2, -⟩ := hpart filled (Or.inl hfilled)
    exact ⟨filled, hfilled, p1, by rw [p2, p1]⟩
  · intro henv hloop hrate hmag hfuel hpasses
    obtain ⟨filled, hfilled⟩ := TimeQueue.ProducerCalls_looping_returns q schedule d fuel
      rate scrubSpeed t produced hdata hsize henv hloop hrate hmag hfuel
      (by rw [hproduced]; exact hpasses)
    obtain ⟨p1, p2, -⟩ := hpart filled (Or.inl hfilled)
    exact ⟨filled, hfilled, p1, by rw [p2, p1]⟩
  · intro hloop hfuel hpasses
    obtain ⟨filled, hfilled⟩ := Binary64.TimeQueue.ProducerCalls_rounded_returns schedule
      fuel rate scrubSpeed (fun _ => True)
      (fun x n _ _ => by
        obtain ⟨r, hr⟩ := Binary64.PlaybackSchedule.AdvancedTrackTime_rounded_straight
          schedule fuel x (roundToDouble (roundToDouble (n : ℚ) / rate)) scrubSpeed hloop
          hfuel
        exact ⟨r, hr, trivial⟩)
      produced 0 (q.Prime t) d hdata hsize (by simp [TimeQueue.Prime])
      (by simp [TimeQueue.Prime]) trivial (by rw [Nat.zero_add, hproduced]; exact hpasses)
    obtain ⟨p1, p2, -⟩ := hpart filled (Or.inr hfilled)
    exact ⟨filled, hfilled, p1, by rw [p2, p1]⟩
  · intro henv hloop hrate ht hmag hfuel hpasses
    obtain ⟨filled, hfilled⟩ := Binary64.TimeQueue.ProducerCalls_rounded_looping q schedule
      d fuel rate scrubSpeed t produced hdata hsize henv hloop hrate ht hmag hfuel
      (by rw [hproduced]; exact hpasses)
    obtain ⟨p1, p2, -⟩ := hpart filled (Or.inr hfilled)
    exact ⟨filled, hfilled, p1, by rw [p2, p1]⟩

/-- C35 under the looping policy on the region t0 = 2, t1 = 5, on a queue of
three slots after Prime(2) at 44100 Hz, in double arithmetic: 10000 samples
produced in calls of 2500 and 7500 and consumed in calls of 4000 and 6000; the
Producer calls return and leave both cursors at (5 mod 3, 0). -/
theorem C35_cursors_agree_witness :
    ∃ filled : TimeQueue,
      Binary64.TimeQueue.ProducerCalls forwardLoop (3 * 2 ^ 50 + 1) 44100 1 [2500, 7500]
          (({ mData := some (fun _ => 0), mSize := 3 } : TimeQueue).Prime 2)
        = some filled ∧
      filled.mTail = { mIndex := (10000 / TimeQueueGrainSize) % 3,
                       mRemainder := 10000 % TimeQueueGrainSize } ∧
      (TimeQueue.ConsumerCalls 44100 [4000, 6000] 0 filled).2.mHead = filled.mTail :=
  (C35_cursors_agree { mData := some (fun _ => 0), mSize := 3 } forwardLoop (fun _ => 0)
      (3 * 2 ^ 50 + 1) 44100 1 2 0 [2500, 7500] [4000, 6000] 10000 rfl (by norm_num) rfl
      rfl).2.2.2.2 rfl rfl (by norm_num)
    (by simpa using roundToDouble_natCast 2 (by norm_num))
    (by
      have h1 : roundToDouble (((TimeQueueGrainSize : ℕ) : ℚ) / 44100) ≤ 1 := by
        have h := roundToDouble_mono
          (show ((TimeQueueGrainSize : ℕ) : ℚ) / 44100 ≤ ((1 : ℕ) : ℚ) by
            norm_num [TimeQueueGrainSize])
        rw [roundToDouble_natCast 1 (by norm_num)] at h
        exact_mod_cast h
      have h2 : |(1 : ℚ)| = 1 := abs_one
      have h3 : |(2 : ℚ)| = 2 := abs_of_pos (by norm_num)
      have h4 : |(5 : ℚ)| = 5 := abs_of_pos (by norm_num)
      have h5 : |(5 : ℚ) - 2| = 3 := by norm_num [abs_of_pos]
      show 3 * (|(2 : ℚ)| + |forwardLoop.mT0| + |forwardLoop.mT1|
          + roundToDouble (((TimeQueueGrainSize : ℕ) : ℚ) / 44100) * |(1 : ℚ)|)
        ≤ 2 ^ 49 * |forwardLoop.mT1 - forwardLoop.mT0|
      simp only [forwardLoop]
      rw [h2, h3, h4, h5]
      linarith)
    (le_refl _) (by norm_num [TimeQueueGrainSize])

end Tenacity
